import Mathlib

/-!
Shang (VTM backend): instruction selection, loop unrolling and the biquad benchmark,
as a shallow embedding.

The selector part follows `VISelDAGToDAG.cpp`.  A `SelectionDAG` is an arena of
nodes addressed by their index; an `SDValue` names one result of one node.
Stateful selector methods take the DAG and return the new DAG next to their
result; a failed `assert`, `cast<>`, `llvm_unreachable` or an out-of-range
access is the result `none`.

The LLVM library calls the selector relies on (`getTargetConstant`,
`getMachineNode`, `SelectNodeTo`, `ReplaceAllUsesOfValueWith`, ...) are embedded
by their contract on the arena: node creation appends a fresh node, and no
uniquing of structurally equal nodes is performed.
-/

namespace Shang

/-! ## Machine integers -/

/-- Subtraction on the C++ type `unsigned` (32 bits, wrapping). -/
def usub (a b : Nat) : Nat := (a % 2 ^ 32 + 2 ^ 32 - b % 2 ^ 32) % 2 ^ 32

/-! ## Data model -/

/-- Value types: `MVT::Other` (a chain) or an integer type of the given number of bits. -/
inductive EVT where
  | Other
  | Int (bits : Nat)
  deriving DecidableEq, Repr

/-- The type `MVT::i64`. -/
abbrev EVT.i64 : EVT := EVT.Int 64
/-- The type `MVT::i8`. -/
abbrev EVT.i8 : EVT := EVT.Int 8
/-- The type `MVT::i1`. -/
abbrev EVT.i1 : EVT := EVT.Int 1

/-- Size in bits of a value type (`EVT::getSizeInBits`); a chain carries no value. -/
def EVT.getSizeInBits : EVT → Nat
  | EVT.Other => 0
  | EVT.Int b => b

/-- Condition codes `ISD::CondCode`, in the order of the LLVM enumeration. -/
inductive CondCode where
  | SETFALSE | SETOEQ | SETOGT | SETOGE | SETOLT | SETOLE | SETONE | SETO
  | SETUO | SETUEQ | SETUGT | SETUGE | SETULT | SETULE | SETUNE | SETTRUE
  | SETFALSE2 | SETEQ | SETGT | SETGE | SETLT | SETLE | SETNE | SETTRUE2
  deriving DecidableEq, Repr

/-- Target independent and VTM specific opcodes of unselected nodes that carry no
payload of their own. -/
inductive ISDOpcode where
  | CopyToReg | CopyFromReg | Register | BasicBlock | EntryToken | TokenFactor
  | BR | BRCOND | ADDE | MUL | XOR | AND | OR | SELECT | SHL | SRL | SRA
  | INTRINSIC_W_CHAIN
  | ReadReturn | InternalCall | LoadArgument | RetVal | ICmp | Not
  | BitRepeat | BitCat | BitSlice | ROr | RAnd | RXor | MemAccess
  | Other (code : Nat)
  deriving DecidableEq, Repr

/-- Machine opcodes of the VTM target (`VTM::...`). -/
inductive VTMOpcode where
  | VOpAdd | VOpMult | VOpAnd | VOpOr | VOpXor | VOpNot | VOpSel
  | VOpSHL | VOpSRL | VOpSRA | VOpBitRepeat | VOpBitCat | VOpBitSlice
  | VOpROr | VOpRAnd | VOpRXor | VOpICmp
  | VOpMove_ri | VOpMove_rw | VOpReadReturn | VOpInternalCall | VOpRetVal
  | VOpToStateb | VOpMemTrans | VOpCmdSeq | VOpBRam
  | Other (code : Nat)
  deriving DecidableEq, Repr

/-- The class of a node together with the data that class stores:
`ConstantSDNode` (opcode `Constant` or `TargetConstant`), `ExternalSymbolSDNode`,
`GlobalAddressSDNode`, `CondCodeSDNode`, any other unselected node, or a selected
machine node. -/
inductive NodeKind where
  | Constant (isTarget : Bool) (val : Nat)
  | ExternalSymbol (isTarget : Bool) (sym : String) (flags : Nat)
  | GlobalAddress (isTarget : Bool) (gv : Nat) (off : Int) (flags : Nat)
  | CondCode (cc : CondCode)
  | Generic (opc : ISDOpcode)
  | Machine (opc : VTMOpcode)
  deriving DecidableEq, Repr

/-- One result of one node; `node = none` is the null value `SDValue()`. -/
structure SDValue where
  node : Option Nat
  resNo : Nat
  deriving DecidableEq, Repr

/-- The null value `SDValue()`, used as the dummy bit width operand. -/
def SDValue.null : SDValue := ⟨none, 0⟩

/-- The value `SDValue(N, i)`. -/
def SDValue.of (N : Nat) (i : Nat) : SDValue := ⟨some N, i⟩

/-- A DAG node: class, operand list, list of result types, memory references. -/
structure SDNode where
  kind : NodeKind
  ops : List SDValue
  vts : List EVT
  memRefs : List Nat
  deriving DecidableEq, Repr

/-- The DAG: all nodes in creation order, and the root. -/
structure SelectionDAG where
  nodes : List SDNode
  root : SDValue
  deriving DecidableEq, Repr

/-- `isa<ConstantSDNode>(N)`. -/
def NodeKind.isConstant : NodeKind → Bool
  | NodeKind.Constant _ _ => true
  | _ => false

/-- `isa<ExternalSymbolSDNode>(N)`. -/
def NodeKind.isExternalSymbol : NodeKind → Bool
  | NodeKind.ExternalSymbol _ _ _ => true
  | _ => false

/-- `N->isMachineOpcode()`. -/
def NodeKind.isMachineOpcode : NodeKind → Bool
  | NodeKind.Machine _ => true
  | _ => false

/-- Node lookup by index. -/
def SelectionDAG.getNode (dag : SelectionDAG) (N : Nat) : Option SDNode := dag.nodes[N]?

/-- The node a value belongs to (`Op.getNode()` followed by a dereference). -/
def SelectionDAG.nodeOf (dag : SelectionDAG) (v : SDValue) : Option SDNode :=
  match v.node with
  | none => none
  | some N => dag.getNode N

/-- The type of a value: `Op.getValueType()`. -/
def SelectionDAG.getValueType (dag : SelectionDAG) (v : SDValue) : Option EVT :=
  match dag.nodeOf v with
  | none => none
  | some n => n.vts[v.resNo]?

/-- Append a fresh node; its index is returned. -/
def SelectionDAG.addNode (dag : SelectionDAG) (n : SDNode) : SelectionDAG × Nat :=
  ({ dag with nodes := dag.nodes ++ [n] }, dag.nodes.length)

/-- The call `CurDAG->getTargetConstant(Val, VT)`. -/
def SelectionDAG.getTargetConstant (dag : SelectionDAG) (Val : Nat) (VT : EVT) :
    SelectionDAG × SDValue :=
  let r := dag.addNode ⟨NodeKind.Constant true Val, [], [VT], []⟩
  (r.1, SDValue.of r.2 0)

/-- The call `CurDAG->getTargetExternalSymbol(Sym, VT, TargetFlags)`. -/
def SelectionDAG.getTargetExternalSymbol (dag : SelectionDAG) (Sym : String) (VT : EVT)
    (flags : Nat) : SelectionDAG × SDValue :=
  let r := dag.addNode ⟨NodeKind.ExternalSymbol true Sym flags, [], [VT], []⟩
  (r.1, SDValue.of r.2 0)

/-- The call `CurDAG->getTargetGlobalAddress(GV, dl, VT, Offset, TargetFlags)`. -/
def SelectionDAG.getTargetGlobalAddress (dag : SelectionDAG) (gv : Nat) (VT : EVT)
    (off : Int) (flags : Nat) : SelectionDAG × SDValue :=
  let r := dag.addNode ⟨NodeKind.GlobalAddress true gv off flags, [], [VT], []⟩
  (r.1, SDValue.of r.2 0)

/-- The call `CurDAG->getMachineNode(Opc, dl, VTs, Ops, NumOps)`: a new machine node. -/
def SelectionDAG.getMachineNode (dag : SelectionDAG) (Opc : VTMOpcode) (VTs : List EVT)
    (Ops : List SDValue) : SelectionDAG × Nat :=
  dag.addNode ⟨NodeKind.Machine Opc, Ops, VTs, []⟩

/-- The call `CurDAG->SelectNodeTo(N, Opc, VTs, Ops, NumOps)`: node `N` is mutated in
place into a machine node and returned. -/
def SelectionDAG.SelectNodeTo (dag : SelectionDAG) (N : Nat) (Opc : VTMOpcode)
    (VTs : List EVT) (Ops : List SDValue) : Option (SelectionDAG × Nat) :=
  match dag.getNode N with
  | none => none
  | some n =>
    some ({ dag with nodes := dag.nodes.set N ⟨NodeKind.Machine Opc, Ops, VTs, n.memRefs⟩ }, N)

/-- The call `CurDAG->ReplaceAllUsesOfValueWith(From, To)`: every operand equal to
`From`, and the root if it is `From`, now reads `To`. -/
def SelectionDAG.ReplaceAllUsesOfValueWith (dag : SelectionDAG) (From To : SDValue) :
    SelectionDAG :=
  { nodes := dag.nodes.map fun n =>
      { n with ops := n.ops.map fun o => if o = From then To else o }
    root := if dag.root = From then To else dag.root }

/-! ## Bit width annotator -/

/-- Modelled from the spec: `BitWidthAnnotator` is declared in a header that is not part
of the available sources.  The annotation is one 64 bit value holding `size()` slots of
a fixed number of bits each; no check of the width against the slot is made. -/
structure BitWidthAnnotator where
  Data : Nat
  deriving DecidableEq, Repr

/-- Modelled from the spec: the slot capacity `BitWidthAnnotator::size()` (8 slots in
the observed encoding). -/
def BitWidthAnnotator.size : Nat := 8

/-- Modelled from the spec: the bits reserved for one slot, 64 bits over 8 slots. -/
def BitWidthAnnotator.slotBits : Nat := 8

/-- Modelled from the spec: the width stored at a slot of a packed annotation. -/
def getBitWidth (Data : Nat) (Idx : Nat) : Nat :=
  Data / 2 ^ (BitWidthAnnotator.slotBits * Idx) % 2 ^ BitWidthAnnotator.slotBits

/-- Modelled from the spec: `setBitWidth(width, slot)` records the width at the slot:
the slot is cleared and the width is added at the slot position; a width that does not
fit the slot spills into the slots above it. -/
def BitWidthAnnotator.setBitWidth (A : BitWidthAnnotator) (width Idx : Nat) :
    BitWidthAnnotator :=
  ⟨(A.Data - getBitWidth A.Data Idx * 2 ^ (BitWidthAnnotator.slotBits * Idx)
      + width * 2 ^ (BitWidthAnnotator.slotBits * Idx)) % 2 ^ 64⟩

/-- Modelled from the spec: `get()` returns the packed 64 bit value. -/
def BitWidthAnnotator.get (A : BitWidthAnnotator) : Nat := A.Data

/-- Modelled from the spec: `VTargetLowering::computeSizeInBits` is declared outside the
available sources; the natural width of a value is the width of its integer type. -/
def computeSizeInBits (dag : SelectionDAG) (v : SDValue) : Option Nat :=
  match dag.getValueType v with
  | none => none
  | some vt => some vt.getSizeInBits

/-- A sequence of `setBitWidth(width, slot)` calls applied in order. -/
def applyCalls (A : BitWidthAnnotator) (calls : List (Nat × Nat)) : BitWidthAnnotator :=
  calls.foldl (fun B c => B.setBitWidth c.1 c.2) A

/-! ## computeOperandsBitWidth -/

/-- The loop over the result values (lines 116-124), started at result `i` with
`NumDefs` slots used: chains are skipped, every other result writes its width to slot
`NumDefs`.  Returns the `setBitWidth` calls made, in order, and the final `NumDefs`. -/
def resultCalls (dag : SelectionDAG) (N : Nat) :
    (vts : List EVT) → (i : Nat) → (NumDefs : Nat) → Option (List (Nat × Nat) × Nat)
  | [], _, NumDefs => some ([], NumDefs)
  | vt :: rest, i, NumDefs =>
    if vt = EVT.Other then resultCalls dag N rest (i + 1) NumDefs
    else
      match computeSizeInBits dag (SDValue.of N i) with
      | none => none
      | some w =>
        match resultCalls dag N rest (i + 1) (NumDefs + 1) with
        | none => none
        | some (cs, d) => some ((w, NumDefs) :: cs, d)

/-- The loop over the operands (lines 128-133): `fuel` iterations starting at index
`i`.  A chain operand is skipped, every other operand writes its width to slot
`i + NumDefs`.  Reading outside the array or reading the null value fails. -/
def operandCalls (dag : SelectionDAG) (Ops : List SDValue) (NumDefs : Nat) :
    (fuel : Nat) → (i : Nat) → Option (List (Nat × Nat))
  | 0, _ => some []
  | fuel + 1, i =>
    match Ops[i]? with
    | none => none
    | some op =>
      match dag.getValueType op with
      | none => none
      | some vt =>
        if vt = EVT.Other then operandCalls dag Ops NumDefs fuel (i + 1)
        else
          match operandCalls dag Ops NumDefs fuel (i + 1) with
          | none => none
          | some cs => some ((vt.getSizeInBits, i + NumDefs) :: cs)

/-- All `setBitWidth` calls of `computeOperandsBitWidth(N, Ops, NumOps)`, in order:
those of the result loop, then those of the operand loop, which runs
`MaxOps = min(NumOps - 1, size() - NumDefs)` times on the decremented `NumOps`. -/
def annotationCalls (dag : SelectionDAG) (N : Nat) (Ops : List SDValue) (NumOps : Nat) :
    Option (List (Nat × Nat)) :=
  let NumOps := usub NumOps 1
  match dag.getNode N with
  | none => none
  | some n =>
    match resultCalls dag N n.vts 0 0 with
    | none => none
    | some (rs, NumDefs) =>
      let MaxOps := min (usub NumOps 1) (usub BitWidthAnnotator.size NumDefs)
      match operandCalls dag Ops NumDefs MaxOps 0 with
      | none => none
      | some os => some (rs ++ os)

/-- The method `computeOperandsBitWidth(N, Ops, NumOps)`: the annotator receives the
calls above, the entry `Ops[NumOps - 1]` (after the decrement of `NumOps`) is
overwritten with the packed annotation as an `i64` target constant, and the annotator
is returned.  The result is the new DAG, the new array and the annotator. -/
def computeOperandsBitWidth (dag : SelectionDAG) (N : Nat) (Ops : List SDValue)
    (NumOps : Nat) : Option (SelectionDAG × List SDValue × BitWidthAnnotator) :=
  match annotationCalls dag N Ops NumOps with
  | none => none
  | some calls =>
    let Annotator := applyCalls ⟨0⟩ calls
    let slot := usub (usub NumOps 1) 1
    if slot < Ops.length then
      let c := dag.getTargetConstant Annotator.get EVT.i64
      some (c.1, Ops.set slot c.2, Annotator)
    else none

/-! ## Declarations of the target outside the available sources -/

/-- The declarations of `VTargetLowering` and `VFUs` that the selector uses and that
are outside the available sources: the result type chosen for a width
(`getRoundIntegerOrBitType`) and the numeric codes of the comparator subtypes. -/
structure VTarget where
  getRoundIntegerOrBitType : Nat → EVT
  CmpEQ : Nat
  CmpSigned : Nat
  CmpUnsigned : Nat

/-- Modelled from the spec: `VTargetLowering::getBitSlice(val, UB, LB)` is declared
outside the available sources; the slice of a value is
`(value >> LB) & ((1 << (UB - LB)) - 1)`. -/
def getBitSlice (val UB LB : Nat) : Nat :=
  (val >>> LB) &&& ((1 <<< (UB - LB)) - 1)

/-! ## Condition codes (LLVM library) -/

/-- The library function `ISD::getSetCCSwappedOperands`: the `L` and `G` bits of the
condition code are exchanged. -/
def getSetCCSwappedOperands : CondCode → CondCode
  | CondCode.SETOGT => CondCode.SETOLT
  | CondCode.SETOGE => CondCode.SETOLE
  | CondCode.SETOLT => CondCode.SETOGT
  | CondCode.SETOLE => CondCode.SETOGE
  | CondCode.SETUGT => CondCode.SETULT
  | CondCode.SETUGE => CondCode.SETULE
  | CondCode.SETULT => CondCode.SETUGT
  | CondCode.SETULE => CondCode.SETUGE
  | CondCode.SETGT => CondCode.SETLT
  | CondCode.SETGE => CondCode.SETLE
  | CondCode.SETLT => CondCode.SETGT
  | CondCode.SETLE => CondCode.SETGE
  | c => c

/-- The library function `ISD::isSignedIntSetCC`. -/
def isSignedIntSetCC : CondCode → Bool
  | CondCode.SETGT | CondCode.SETGE | CondCode.SETLT | CondCode.SETLE => true
  | _ => false

/-! ## Operand materializer and immediates -/

/-- The method `shouldMoveToReg(N)`. -/
def shouldMoveToReg (n : SDNode) : Bool :=
  n.kind.isConstant || n.kind.isExternalSymbol

/-- Lines 367-379 of `SelectImmediate`: the operand array `{Imm, dummy, trace}` is
annotated for `N` and the `VOpMove_ri` node is created (`ForceMove`) or `N` is morphed
into it.  `r` is the DAG and the value `Imm` after the target immediate was built. -/
def SelectImmediate.emit (r : SelectionDAG × SDValue) (N : Nat) (VTs : List EVT)
    (ForceMove : Bool) : Option (SelectionDAG × Option Nat) :=
  let t := r.1.getTargetConstant 0 EVT.i64
  match computeOperandsBitWidth t.1 N [r.2, SDValue.null, t.2] 3 with
  | none => none
  | some (d, Ops, _) =>
    if ForceMove then
      let m := d.getMachineNode VTMOpcode.VOpMove_ri VTs Ops
      some (m.1, some m.2)
    else
      match d.SelectNodeTo N VTMOpcode.VOpMove_ri VTs Ops with
      | none => none
      | some (d', M) => some (d', some M)

/-- The method `SelectImmediate(N, ForceMove)`.  A constant is rebuilt as a target
constant of the same value and type, an external symbol as a target external symbol, a
global address as a target global address; any other node fails the `cast`.  The
result node is `none` for the C++ null pointer. -/
def SelectImmediate (dag : SelectionDAG) (N : Nat) (ForceMove : Bool) :
    Option (SelectionDAG × Option Nat) :=
  match dag.getNode N with
  | none => none
  | some n =>
    match n.kind with
    | NodeKind.Constant isTarget val =>
      if isTarget && !ForceMove then some (dag, none)
      else
        match n.vts[0]? with
        | none => none
        | some vt => SelectImmediate.emit (dag.getTargetConstant val vt) N n.vts ForceMove
    | NodeKind.ExternalSymbol _ sym _ =>
      match n.vts[0]? with
      | none => none
      | some vt =>
        SelectImmediate.emit (dag.getTargetExternalSymbol sym vt vt.getSizeInBits) N n.vts
          ForceMove
    | NodeKind.GlobalAddress _ gv off _ =>
      match n.vts[0]? with
      | none => none
      | some vt =>
        SelectImmediate.emit (dag.getTargetGlobalAddress gv vt off vt.getSizeInBits) N n.vts
          ForceMove
    | _ => none

/-- The method `MoveToReg(Operand, Force)`. -/
def MoveToReg (dag : SelectionDAG) (Operand : SDValue) (Force : Bool) :
    Option (SelectionDAG × SDValue) :=
  if !Force then some (dag, Operand)
  else
    match Operand.node with
    | none => none
    | some N =>
      match dag.getNode N with
      | none => none
      | some n =>
        if !shouldMoveToReg n then some (dag, Operand)
        else
          match SelectImmediate dag N true with
          | none => none
          | some (d, M) => some (d, ⟨M, 0⟩)

/-- The template `updateBitWidthAnnotator(Ops, DAG, BitWidthInfo)`: the entry two before
the end of the array becomes the `i64` target constant `BitWidthInfo`. -/
def updateBitWidthAnnotator (Ops : List SDValue) (dag : SelectionDAG) (BitWidthInfo : Nat) :
    SelectionDAG × List SDValue :=
  let c := dag.getTargetConstant BitWidthInfo EVT.i64
  (c.1, Ops.set (Ops.length - 2) c.2)

/-! ## Bit slices, add with carry, comparison -/

/-- The method `buildBitSlice(N, SizeOfN, UB, LB)`: a new `VOpBitSlice` node with the
operands `{N, UB, LB, bit widths, trace}`; `N` must be a node of the DAG. -/
def buildBitSlice (T : VTarget) (dag : SelectionDAG) (N : Nat) (SizeOfN UB LB : Nat) :
    Option (SelectionDAG × Nat) :=
  match dag.getNode N with
  | none => none
  | some _ =>
    let Annotator := ((((BitWidthAnnotator.mk 0).setBitWidth (usub UB LB) 0).setBitWidth
      SizeOfN 1).setBitWidth 8 2).setBitWidth 8 3
    let ub := dag.getTargetConstant UB EVT.i8
    let lb := ub.1.getTargetConstant LB EVT.i8
    let bw := lb.1.getTargetConstant Annotator.get EVT.i64
    let tr := bw.1.getTargetConstant 0 EVT.i64
    let ResultVT := T.getRoundIntegerOrBitType (usub UB LB)
    some (tr.1.getMachineNode VTMOpcode.VOpBitSlice [ResultVT]
      [SDValue.of N 0, ub.2, lb.2, bw.2, tr.2])

/-- Lines 206-229 of `SelectAdd`: the `VOpAdd` node and the two bit slices.  The result
is the DAG with the `VOpAdd` node, the slice `Result` and the slice `Carry`.  The sum
`AdderWidth + 1` is not reduced modulo `2 ^ 32`: a type width is far below that. -/
def SelectAdd.build (T : VTarget) (dag : SelectionDAG) (N : Nat) :
    Option (SelectionDAG × Nat × Nat × Nat) :=
  match dag.getNode N with
  | none => none
  | some n =>
    match n.ops[0]?, n.ops[1]?, n.ops[2]? with
    | some op0, some op1, some op2 =>
      match MoveToReg dag op0 true with
      | none => none
      | some (d1, lhs) =>
        match MoveToReg d1 op1 true with
        | none => none
        | some (d2, rhs) =>
          let tr := d2.getTargetConstant 0 EVT.i64
          let Ops := [lhs, rhs, op2, SDValue.null, tr.2]
          match computeSizeInBits tr.1 lhs with
          | none => none
          | some AdderWidth =>
            let AddAnnotator := ((((BitWidthAnnotator.mk 0).setBitWidth (AdderWidth + 1)
              0).setBitWidth AdderWidth 1).setBitWidth AdderWidth 2).setBitWidth 1 3
            let u := updateBitWidthAnnotator Ops tr.1 AddAnnotator.get
            let ResultVT := T.getRoundIntegerOrBitType (AdderWidth + 1)
            let AddNode := u.1.getMachineNode VTMOpcode.VOpAdd [ResultVT] u.2
            match buildBitSlice T AddNode.1 AddNode.2 (AdderWidth + 1) AdderWidth 0 with
            | none => none
            | some (d3, Result) =>
              match buildBitSlice T d3 AddNode.2 (AdderWidth + 1) (AdderWidth + 1)
                  AdderWidth with
              | none => none
              | some (d4, Carry) => some (d4, AddNode.2, Result, Carry)
    | _, _, _ => none

/-- The method `SelectAdd(N)`: the uses of result 0 of `N` are redirected to the slice
`Result`, those of result 1 to the slice `Carry`, and the null pointer is returned. -/
def SelectAdd (T : VTarget) (dag : SelectionDAG) (N : Nat) :
    Option (SelectionDAG × Option Nat) :=
  match SelectAdd.build T dag N with
  | none => none
  | some (d, _, Result, Carry) =>
    let d1 := d.ReplaceAllUsesOfValueWith (SDValue.of N 0) (SDValue.of Result 0)
    let d2 := d1.ReplaceAllUsesOfValueWith (SDValue.of N 1) (SDValue.of Carry 0)
    some (d2, none)

/-- The function `getICmpPort(CC)`; `none` is the `llvm_unreachable` of the default. -/
def getICmpPort : CondCode → Option Nat
  | CondCode.SETNE => some 1
  | CondCode.SETEQ => some 2
  | CondCode.SETGE | CondCode.SETUGE => some 3
  | CondCode.SETGT | CondCode.SETUGT => some 4
  | _ => none

/-- The `switch` of `SelectICmp` (lines 255-271): the condition code and the operands
after normalization; `none` is the `llvm_unreachable` of the default. -/
def SelectICmp.normalize (CC : CondCode) (LHS RHS : SDValue) :
    Option (CondCode × SDValue × SDValue) :=
  match CC with
  | CondCode.SETEQ | CondCode.SETNE | CondCode.SETGT | CondCode.SETGE
  | CondCode.SETUGT | CondCode.SETUGE => some (CC, LHS, RHS)
  | CondCode.SETLT | CondCode.SETLE | CondCode.SETULT | CondCode.SETULE =>
    some (getSetCCSwappedOperands CC, RHS, LHS)
  | _ => none

/-- The comparator subtype `CmpType` of `SelectICmp` (lines 273-275). -/
def SelectICmp.cmpType (T : VTarget) (CC : CondCode) : Nat :=
  if CC = CondCode.SETEQ ∨ CC = CondCode.SETNE then T.CmpEQ
  else if isSignedIntSetCC CC then T.CmpSigned else T.CmpUnsigned

/-- The method `SelectICmp(N)`: the returned node is the bit slice of the `VOpICmp`
node. -/
def SelectICmp (T : VTarget) (dag : SelectionDAG) (N : Nat) :
    Option (SelectionDAG × Option Nat) :=
  match dag.getNode N with
  | none => none
  | some n =>
    match n.ops[0]?, n.ops[1]?, n.ops[2]? with
    | some LHS, some RHS, some op2 =>
      match dag.nodeOf op2 with
      | some ⟨NodeKind.CondCode Cnd, _, _, _⟩ =>
        match computeSizeInBits dag LHS with
        | none => none
        | some OperandWidth =>
          if ¬ (OperandWidth > 1) then none
          else
            let FUVT := EVT.Int OperandWidth
            match SelectICmp.normalize Cnd LHS RHS with
            | none => none
            | some (CC, LHS, RHS) =>
              let CmpType := SelectICmp.cmpType T CC
              match MoveToReg dag LHS true with
              | none => none
              | some (d1, lhs) =>
                match MoveToReg d1 RHS true with
                | none => none
                | some (d2, rhs) =>
                  let ct := d2.getTargetConstant CmpType FUVT
                  let tr := ct.1.getTargetConstant 0 EVT.i64
                  let ResultBitWidth := 8
                  match computeOperandsBitWidth tr.1 N
                      [lhs, rhs, ct.2, SDValue.null, tr.2] 5 with
                  | none => none
                  | some (d3, Ops, CmpAnnotator) =>
                    let CmpAnnotator := CmpAnnotator.setBitWidth ResultBitWidth 0
                    let u := updateBitWidthAnnotator Ops d3 CmpAnnotator.get
                    let CmpNode := u.1.getMachineNode VTMOpcode.VOpICmp n.vts u.2
                    match getICmpPort CC with
                    | none => none
                    | some ResultPort =>
                      match buildBitSlice T CmpNode.1 CmpNode.2 ResultBitWidth
                          (ResultPort + 1) ResultPort with
                      | none => none
                      | some (d4, S) => some (d4, some S)
      | _ => none
    | _, _, _ => none

/-! ## Simple nodes and bit slices of constants -/

/-- The method `SelectSimpleNode(N, Opc)`: the operands of `N`, the dummy bit width
operand and the trace number; `N` is morphed in place. -/
def SelectSimpleNode (dag : SelectionDAG) (N : Nat) (Opc : VTMOpcode) :
    Option (SelectionDAG × Option Nat) :=
  match dag.getNode N with
  | none => none
  | some n =>
    let tr := dag.getTargetConstant 0 EVT.i64
    let Ops := n.ops ++ [SDValue.null, tr.2]
    match computeOperandsBitWidth tr.1 N Ops Ops.length with
    | none => none
    | some (d, Ops, _) =>
      match d.SelectNodeTo N Opc n.vts Ops with
      | none => none
      | some (d', M) => some (d', some M)

/-- The call `N->getConstantOperandVal(Num)`: the operand must be a constant node. -/
def SelectionDAG.getConstantOperandVal (dag : SelectionDAG) (n : SDNode) (Num : Nat) :
    Option Nat :=
  match n.ops[Num]? with
  | none => none
  | some o =>
    match dag.nodeOf o with
    | some ⟨NodeKind.Constant _ val, _, _, _⟩ => some val
    | _ => none

/-- The call `CSD->getSExtValue()` for a constant of the given bit width (at most 64),
as the 64 bit two's complement pattern of the resulting `int64_t`. -/
def getSExtValue (bits val : Nat) : Nat :=
  if val.testBit (bits - 1) then val + (2 ^ 64 - 2 ^ bits) else val

/-- The method `SelectConstBitSlice(CSD, N)`: the slice of the constant is computed at
selection time, and `N` is morphed into a `VOpMove_ri` of the resulting target
constant.  `CSD` is the index of the constant node. -/
def SelectConstBitSlice (dag : SelectionDAG) (CSD : Nat) (N : Nat) :
    Option (SelectionDAG × Option Nat) :=
  match dag.getNode CSD, dag.getNode N with
  | some ⟨NodeKind.Constant _ v, _, cvt :: _, _⟩, some n =>
    let val := getSExtValue cvt.getSizeInBits v
    match dag.getConstantOperandVal n 1, dag.getConstantOperandVal n 2 with
    | some ub, some lb =>
      let UB := ub % 2 ^ 32
      let LB := lb % 2 ^ 32
      let val := getBitSlice val UB LB
      let VT := EVT.Int (usub UB LB)
      let C := dag.getTargetConstant val VT
      let tr := C.1.getTargetConstant 0 EVT.i64
      match C.2.node, n.vts[0]? with
      | some CN, some vt0 =>
        match computeOperandsBitWidth tr.1 CN [C.2, SDValue.null, tr.2] 3 with
        | none => none
        | some (d, Ops, _) =>
          match d.SelectNodeTo N VTMOpcode.VOpMove_ri [vt0] Ops with
          | none => none
          | some (d', M) => some (d', some M)
      | _, _ => none
    | _, _ => none
  | _, _ => none

/-- The method `SelectBitSlice(N)`. -/
def SelectBitSlice (dag : SelectionDAG) (N : Nat) : Option (SelectionDAG × Option Nat) :=
  match dag.getNode N with
  | none => none
  | some n =>
    match n.ops[0]? with
    | none => none
    | some o =>
      match o.node, dag.nodeOf o with
      | some OpN, some Op =>
        if Op.kind.isConstant then SelectConstBitSlice dag OpN N
        else if Op.kind ≠ NodeKind.Generic ISDOpcode.BitSlice
            ∧ (!Op.kind.isMachineOpcode ∨ Op.kind ≠ NodeKind.Machine VTMOpcode.VOpBitSlice)
          then SelectSimpleNode dag N VTMOpcode.VOpBitSlice
        else none
      | _, _ => none

/-! ## Post-processing -/

/-- The function `UpdateNodeOperand(DAG, N, Num, Val)`: operand `Num` of `N` becomes
`Val`.  `UpdateNodeOperands` mutates `N` in place and returns it, so the following
`ReplaceAllUsesWith(N, New)` replaces `N` by itself. -/
def UpdateNodeOperand (dag : SelectionDAG) (N : Nat) (Num : Nat) (Val : SDValue) :
    Option SelectionDAG :=
  match dag.getNode N with
  | none => none
  | some n =>
    if Num < n.ops.length then
      some { dag with nodes := dag.nodes.set N { n with ops := n.ops.set Num Val } }
    else none

/-- The method `CopyToReg(DAG, Copy)`. -/
def CopyToReg (dag : SelectionDAG) (Copy : Nat) : Option SelectionDAG :=
  match dag.getNode Copy with
  | none => none
  | some c =>
    match c.ops[2]? with
    | none => none
    | some src =>
      match src.node, dag.nodeOf src with
      | some SrcNode, some s =>
        if !shouldMoveToReg s then some dag
        else
          match SelectImmediate dag SrcNode true with
          | none => none
          | some (d, MvImm) => UpdateNodeOperand d Copy 2 ⟨MvImm, 0⟩
      | _, _ => none

/-- The loop of `PostprocessISelDAG` (lines 566-570) with the iterator at node `NI`.
The iterator runs to the end of the node list, nodes created on the way included;
`fuel` bounds the number of iterations and `none` is also the result when it runs
out. -/
def PostprocessISelDAG.loop : (fuel : Nat) → SelectionDAG → (NI : Nat) → Option SelectionDAG
  | 0, _, _ => none
  | fuel + 1, dag, NI =>
    match dag.getNode NI with
    | none => some dag
    | some n =>
      if n.kind = NodeKind.Generic ISDOpcode.CopyToReg then
        match CopyToReg dag NI with
        | none => none
        | some d => PostprocessISelDAG.loop fuel d (NI + 1)
      else PostprocessISelDAG.loop fuel dag (NI + 1)

/-- The method `PostprocessISelDAG()`.  The node list is taken in the order
`AssignTopologicalOrder` leaves it in; the root is held by the handle and restored.
Visiting one copy creates at most four nodes, which bounds the iterations by five
times the number of nodes plus one. -/
def PostprocessISelDAG (dag : SelectionDAG) : Option SelectionDAG :=
  PostprocessISelDAG.loop (5 * dag.nodes.length + 1) dag 0

/-- The widths of the non-chain result types, in order. -/
def resultWidths (vts : List EVT) : List Nat :=
  (vts.filter fun vt => vt ≠ EVT.Other).map EVT.getSizeInBits

/-- The types of a list of values; `none` when one of them has no type. -/
def valueTypes (dag : SelectionDAG) : List SDValue → Option (List EVT)
  | [] => some []
  | v :: rest =>
    match dag.getValueType v, valueTypes dag rest with
    | some vt, some vts => some (vt :: vts)
    | _, _ => none

/-- The `setBitWidth` calls of the result loop as a function of the result types:
the non-chain widths at consecutive slots from `NumDefs` on. -/
def resultCallList : List EVT → Nat → List (Nat × Nat)
  | [], _ => []
  | vt :: rest, d =>
    if vt = EVT.Other then resultCallList rest d
    else (vt.getSizeInBits, d) :: resultCallList rest (d + 1)

/-- The `setBitWidth` calls of the operand loop as a function of the operand types,
for the entries from index `i` on: a non-chain entry writes slot `i + NumDefs`. -/
def operandCallList : List EVT → Nat → Nat → List (Nat × Nat)
  | [], _, _ => []
  | t :: rest, k, i =>
    if t = EVT.Other then operandCallList rest k (i + 1)
    else (t.getSizeInBits, i + k) :: operandCallList rest k (i + 1)

/-- The annotator `computeOperandsBitWidth` builds for a node with result types `vts`
and an operand array whose entries before the placeholder have the types `tys`. -/
def annotationOf (vts : List EVT) (tys : List EVT) : BitWidthAnnotator :=
  applyCalls ⟨0⟩ (resultCallList vts 0 ++
    operandCallList
      (tys.take (min tys.length (usub BitWidthAnnotator.size (resultWidths vts).length)))
      (resultWidths vts).length 0)

/-- The target immediate `SelectImmediate` builds for a node: a target constant of the
same value and type, a target external symbol of the same symbol, or a target global
address of the same global and offset. -/
def targetImmediate (n : SDNode) : Option SDNode :=
  match n.kind, n.vts[0]? with
  | NodeKind.Constant _ val, some vt => some ⟨NodeKind.Constant true val, [], [vt], []⟩
  | NodeKind.ExternalSymbol _ sym _, some vt =>
    some ⟨NodeKind.ExternalSymbol true sym vt.getSizeInBits, [], [vt], []⟩
  | NodeKind.GlobalAddress _ gv off _, some vt =>
    some ⟨NodeKind.GlobalAddress true gv off vt.getSizeInBits, [], [vt], []⟩
  | _, _ => none

/-- The four nodes a forced `SelectImmediate` of node `n` appends to a DAG of `len`
nodes: the target immediate, the trace number, the bit width annotation and the
`VOpMove_ri` node. -/
def moveImmediateNodes (len : Nat) (n imm : SDNode) : List SDNode :=
  [imm,
   ⟨NodeKind.Constant true 0, [], [EVT.i64], []⟩,
   ⟨NodeKind.Constant true (annotationOf n.vts imm.vts).get, [], [EVT.i64], []⟩,
   ⟨NodeKind.Machine VTMOpcode.VOpMove_ri,
     [SDValue.of len 0, SDValue.of (len + 2) 0, SDValue.of (len + 1) 0], n.vts, []⟩]

/-- An operand the selector can materialize: a value of the DAG that, when its node is
a constant or an external symbol, is result 0 of that node. -/
def SelectionDAG.isOperand (dag : SelectionDAG) (v : SDValue) : Bool :=
  match dag.nodeOf v with
  | none => false
  | some n => (n.vts[v.resNo]?).isSome && (!shouldMoveToReg n || v.resNo == 0)

/-- The nodes `MoveToReg(Operand, true)` appends and the value it returns: nothing and
the operand itself, or the four nodes of the move and result 0 of the `VOpMove_ri`. -/
def materialize (dag : SelectionDAG) (v : SDValue) : List SDNode × SDValue :=
  match dag.nodeOf v with
  | none => ([], v)
  | some n =>
    if shouldMoveToReg n then
      match targetImmediate n with
      | none => ([], v)
      | some imm =>
        (moveImmediateNodes dag.nodes.length n imm, SDValue.of (dag.nodes.length + 3) 0)
    else ([], v)

/-- The bit width annotation `buildBitSlice` attaches to a slice. -/
def bitSliceWidths (SizeOfN UB LB : Nat) : BitWidthAnnotator :=
  ((((BitWidthAnnotator.mk 0).setBitWidth (usub UB LB) 0).setBitWidth
      SizeOfN 1).setBitWidth 8 2).setBitWidth 8 3

/-- The five nodes `buildBitSlice(N, SizeOfN, UB, LB)` appends to a DAG of `len` nodes:
the bounds, the annotation, the trace number and the `VOpBitSlice` node. -/
def bitSliceNodes (T : VTarget) (len N SizeOfN UB LB : Nat) : List SDNode :=
  [⟨NodeKind.Constant true UB, [], [EVT.i8], []⟩,
   ⟨NodeKind.Constant true LB, [], [EVT.i8], []⟩,
   ⟨NodeKind.Constant true (bitSliceWidths SizeOfN UB LB).get, [], [EVT.i64], []⟩,
   ⟨NodeKind.Constant true 0, [], [EVT.i64], []⟩,
   ⟨NodeKind.Machine VTMOpcode.VOpBitSlice,
     [SDValue.of N 0, SDValue.of len 0, SDValue.of (len + 1) 0, SDValue.of (len + 2) 0,
      SDValue.of (len + 3) 0],
     [T.getRoundIntegerOrBitType (usub UB LB)], []⟩]

/-- The DAG after `MoveToReg(Operand, true)`. -/
def afterMove (dag : SelectionDAG) (v : SDValue) : SelectionDAG :=
  ⟨dag.nodes ++ (materialize dag v).1, dag.root⟩

/-- The bit width annotation `SelectAdd` attaches to an adder of width `W`. -/
def addWidths (W : Nat) : BitWidthAnnotator :=
  ((((BitWidthAnnotator.mk 0).setBitWidth (W + 1) 0).setBitWidth W 1).setBitWidth W
    2).setBitWidth 1 3

/-- The thirteen nodes `SelectAdd` appends to a DAG of `len` nodes once the operands
are materialized: trace number, annotation and `VOpAdd` node (at `len + 2`), the five
nodes of the slice `[0, W)` (the slice at `len + 7`) and the five nodes of the slice
`[W, W + 1)` (the slice at `len + 12`). -/
def SelectAdd.nodes (T : VTarget) (len : Nat) (lhs rhs cin : SDValue) (W : Nat) :
    List SDNode :=
  [⟨NodeKind.Constant true 0, [], [EVT.i64], []⟩,
   ⟨NodeKind.Constant true (addWidths W).get, [], [EVT.i64], []⟩,
   ⟨NodeKind.Machine VTMOpcode.VOpAdd,
     [lhs, rhs, cin, SDValue.of (len + 1) 0, SDValue.of len 0],
     [T.getRoundIntegerOrBitType (W + 1)], []⟩]
  ++ bitSliceNodes T (len + 3) (len + 2) (W + 1) W 0
  ++ bitSliceNodes T (len + 8) (len + 2) (W + 1) (W + 1) W

/-- The value a `VOpBitSlice` node `S` produces when its first operand has the value
`x`: the bits `[LB, UB)` of `x`, the bounds being the constant operands 1 and 2. -/
def bitSliceValue (dag : SelectionDAG) (S : Nat) (x : Nat) : Option Nat :=
  match dag.getNode S with
  | none => none
  | some n =>
    if n.kind = NodeKind.Machine VTMOpcode.VOpBitSlice then
      match dag.getConstantOperandVal n 1, dag.getConstantOperandVal n 2 with
      | some UB, some LB => some (getBitSlice x UB LB)
      | _, _ => none
    else none

/-- The DAG `SelectAdd.build` returns for an add-with-carry node with the operands
`op0`, `op1`, `op2` whose left operand has the width `W`. -/
def SelectAdd.result (T : VTarget) (dag : SelectionDAG) (op0 op1 op2 : SDValue) (W : Nat) :
    SelectionDAG :=
  ⟨(afterMove (afterMove dag op0) op1).nodes ++
    SelectAdd.nodes T (afterMove (afterMove dag op0) op1).nodes.length
      (materialize dag op0).2 (materialize (afterMove dag op0) op1).2 op2 W, dag.root⟩

/-- The ten nodes `SelectICmp` appends to a DAG of `len` nodes once the operands are
materialized, for a node with the result types `vts`, the normalized condition code
`CC` with result bit `p`, the operand width `W` and the types `tys` of the three
annotated operands: the comparator subtype, the trace number, the annotation written by
`computeOperandsBitWidth`, the annotation with slot 0 corrected to 8, the `VOpICmp`
node (at `len + 4`), and the five nodes of the slice `[p, p + 1)` of that node (the
slice at `len + 9`). -/
def SelectICmp.nodes (T : VTarget) (len : Nat) (vts : List EVT) (CC : CondCode) (p : Nat)
    (lhs rhs : SDValue) (W : Nat) (tys : List EVT) : List SDNode :=
  [⟨NodeKind.Constant true (SelectICmp.cmpType T CC), [], [EVT.Int W], []⟩,
   ⟨NodeKind.Constant true 0, [], [EVT.i64], []⟩,
   ⟨NodeKind.Constant true (annotationOf vts tys).get, [], [EVT.i64], []⟩,
   ⟨NodeKind.Constant true ((annotationOf vts tys).setBitWidth 8 0).get, [], [EVT.i64], []⟩,
   ⟨NodeKind.Machine VTMOpcode.VOpICmp,
     [lhs, rhs, SDValue.of len 0, SDValue.of (len + 3) 0, SDValue.of (len + 1) 0],
     vts, []⟩]
  ++ bitSliceNodes T (len + 5) (len + 4) 8 (p + 1) p

/-- The ten condition codes `SelectICmp` accepts. -/
def SelectICmp.accepts (CC : CondCode) : Bool :=
  match CC with
  | CondCode.SETEQ | CondCode.SETNE | CondCode.SETGT | CondCode.SETGE
  | CondCode.SETUGT | CondCode.SETUGE | CondCode.SETLT | CondCode.SETLE
  | CondCode.SETULT | CondCode.SETULE => true
  | _ => false

/-- The first `n` slots of a packed annotation. -/
def decodeSlots (Data : Nat) (n : Nat) : List Nat :=
  (List.range n).map (getBitWidth Data)

/-- Witness data: a node with one 8 bit result, two operands of 16 and 32 bits. -/
def exRoundTripDag : SelectionDAG :=
  { nodes := [⟨NodeKind.Generic ISDOpcode.SELECT, [], [EVT.Int 8], []⟩,
              ⟨NodeKind.Generic (ISDOpcode.Other 0), [], [EVT.Int 16], []⟩,
              ⟨NodeKind.Generic (ISDOpcode.Other 0), [], [EVT.Int 32, EVT.Other], []⟩,
              ⟨NodeKind.Constant true 0, [], [EVT.i64], []⟩],
    root := SDValue.null }

/-- Witness data: the two operands, the placeholder and the trace operand. -/
def exRoundTripOps : List SDValue :=
  [SDValue.of 1 0, SDValue.of 2 0, SDValue.null, SDValue.of 3 0]

/-- Counterexample data: a chain operand in front of a 16 bit operand. -/
def exChainOps : List SDValue :=
  [SDValue.of 2 1, SDValue.of 1 0, SDValue.null, SDValue.of 3 0]

/-- Counterexample data: a node with nine 8 bit results. -/
def exNineResultsDag : SelectionDAG :=
  { nodes := [⟨NodeKind.Generic (ISDOpcode.Other 0), [], List.replicate 9 (EVT.Int 8), []⟩,
              ⟨NodeKind.Constant true 0, [], [EVT.i64], []⟩],
    root := SDValue.null }

/-- A target with exact result types and the comparator codes 0, 1, 2. -/
def exTarget : VTarget := ⟨fun w => EVT.Int w, 0, 1, 2⟩

/-- Witness data: an 8 bit add-with-carry of the constant 5 and a register, with a
user of both results. -/
def exAddDag : SelectionDAG :=
  { nodes := [⟨NodeKind.Constant false 5, [], [EVT.Int 8], []⟩,
              ⟨NodeKind.Generic (ISDOpcode.Other 0), [], [EVT.Int 8], []⟩,
              ⟨NodeKind.Generic (ISDOpcode.Other 0), [], [EVT.Int 1], []⟩,
              ⟨NodeKind.Generic ISDOpcode.ADDE,
                [SDValue.of 0 0, SDValue.of 1 0, SDValue.of 2 0], [EVT.Int 8, EVT.Int 1], []⟩,
              ⟨NodeKind.Generic (ISDOpcode.Other 1), [SDValue.of 3 0, SDValue.of 3 1],
                [EVT.Int 8], []⟩],
    root := SDValue.of 4 0 }

/-- Witness data: a signed less-than comparison of the 8 bit constant 5 with an 8 bit
register (node 3), and the greater-than comparison with the operands exchanged
(node 5). -/
def exCmpDag : SelectionDAG :=
  { nodes := [⟨NodeKind.Constant false 5, [], [EVT.Int 8], []⟩,
              ⟨NodeKind.Generic (ISDOpcode.Other 0), [], [EVT.Int 8], []⟩,
              ⟨NodeKind.CondCode CondCode.SETLT, [], [EVT.Other], []⟩,
              ⟨NodeKind.Generic ISDOpcode.ICmp,
                [SDValue.of 0 0, SDValue.of 1 0, SDValue.of 2 0], [EVT.Int 1], []⟩,
              ⟨NodeKind.CondCode CondCode.SETGT, [], [EVT.Other], []⟩,
              ⟨NodeKind.Generic ISDOpcode.ICmp,
                [SDValue.of 1 0, SDValue.of 0 0, SDValue.of 4 0], [EVT.Int 1], []⟩],
    root := SDValue.of 3 0 }

/-- Counterexample data: as `exCmpDag`, but the register is 16 bits wide. -/
def exCmpMixedDag : SelectionDAG :=
  { nodes := [⟨NodeKind.Generic (ISDOpcode.Other 0), [], [EVT.Int 8], []⟩,
              ⟨NodeKind.Generic (ISDOpcode.Other 0), [], [EVT.Int 16], []⟩,
              ⟨NodeKind.CondCode CondCode.SETLT, [], [EVT.Other], []⟩,
              ⟨NodeKind.Generic ISDOpcode.ICmp,
                [SDValue.of 0 0, SDValue.of 1 0, SDValue.of 2 0], [EVT.Int 1], []⟩,
              ⟨NodeKind.CondCode CondCode.SETGT, [], [EVT.Other], []⟩,
              ⟨NodeKind.Generic ISDOpcode.ICmp,
                [SDValue.of 1 0, SDValue.of 0 0, SDValue.of 4 0], [EVT.Int 1], []⟩],
    root := SDValue.of 3 0 }

/-- Witness data: the bit slice `[2, 6)` of the 8 bit constant `0xAB` (node 3), and the
bit slice `[0, 4)` of a register (node 5). -/
def exSliceDag : SelectionDAG :=
  { nodes := [⟨NodeKind.Constant false 0xAB, [], [EVT.Int 8], []⟩,
              ⟨NodeKind.Constant true 6, [], [EVT.Int 8], []⟩,
              ⟨NodeKind.Constant true 2, [], [EVT.Int 8], []⟩,
              ⟨NodeKind.Generic ISDOpcode.BitSlice,
                [SDValue.of 0 0, SDValue.of 1 0, SDValue.of 2 0], [EVT.Int 8], []⟩,
              ⟨NodeKind.Generic (ISDOpcode.Other 0), [], [EVT.Int 8], []⟩,
              ⟨NodeKind.Generic ISDOpcode.BitSlice,
                [SDValue.of 4 0, SDValue.of 1 0, SDValue.of 2 0], [EVT.Int 8], []⟩],
    root := SDValue.of 3 0 }

/-! ## Vocabulary of the post-processing claims -/

/-- The invariants of LLVM that `CopyToReg` relies on: every `CopyToReg` node has an
operand 2 that is a value of a node of the DAG, and when that node is a constant or an
external symbol it has a result type. -/
def SelectionDAG.copiesWellFormed (dag : SelectionDAG) : Bool :=
  dag.nodes.all fun c =>
    if c.kind = NodeKind.Generic ISDOpcode.CopyToReg then
      match c.ops[2]? with
      | none => false
      | some src =>
        match dag.nodeOf src with
        | none => false
        | some s => !shouldMoveToReg s || (s.vts[0]?).isSome
    else true

/-- Every `CopyToReg` node with an index below `NI` reads a source that is neither a
constant nor an external symbol. -/
def copiesClean (d : SelectionDAG) (NI : Nat) : Prop :=
  ∀ i c, i < NI → d.getNode i = some c → c.kind = NodeKind.Generic ISDOpcode.CopyToReg →
    ∃ src s, c.ops[2]? = some src ∧ d.nodeOf src = some s ∧ shouldMoveToReg s = false

/-- The copy `c` at index `i`, whose source node was `s`, as post-processing leaves it
in `d`: with an immediate source, operand 2 reads result 0 of a `VOpMove_ri` node at
`m + 3` whose first operand is the target immediate of `s` at `m`; otherwise the copy
is as it was. -/
def copyRewritten (d : SelectionDAG) (i : Nat) (c s : SDNode) : Prop :=
  (shouldMoveToReg s = true →
    ∃ m imm, targetImmediate s = some imm ∧
      d.getNode i = some { c with ops := c.ops.set 2 (SDValue.of (m + 3) 0) } ∧
      d.getNode m = some imm ∧
      d.getNode (m + 3) = some ⟨NodeKind.Machine VTMOpcode.VOpMove_ri,
        [SDValue.of m 0, SDValue.of (m + 2) 0, SDValue.of (m + 1) 0], s.vts, []⟩) ∧
  (shouldMoveToReg s = false → d.getNode i = some c)

/-- The state of the loop of `PostprocessISelDAG` on the DAG `G` when the iterator is at
`NI` and the DAG has become `d`: no node was removed, the nodes not yet visited are as
in `G`, every node of `G` kept its class and result types (and all of it unless it is a
copy), the nodes created are not copies, the copies visited are rewritten, and they
read no immediate. -/
def PostprocessISelDAG.Inv (G d : SelectionDAG) (NI : Nat) : Prop :=
  G.nodes.length ≤ d.nodes.length ∧
  (∀ i, NI ≤ i → i < G.nodes.length → d.getNode i = G.getNode i) ∧
  (∀ i c, G.getNode i = some c →
    ∃ c', d.getNode i = some c' ∧ c'.kind = c.kind ∧ c'.vts = c.vts ∧
      (c.kind ≠ NodeKind.Generic ISDOpcode.CopyToReg → c' = c)) ∧
  (∀ i c, G.nodes.length ≤ i → d.getNode i = some c →
    c.kind ≠ NodeKind.Generic ISDOpcode.CopyToReg) ∧
  (∀ i c src s, i < NI → G.getNode i = some c →
    c.kind = NodeKind.Generic ISDOpcode.CopyToReg → c.ops[2]? = some src →
    G.nodeOf src = some s → copyRewritten d i c s) ∧
  copiesClean d NI

/-- Witness data: a copy of the constant 7 (node 3), a copy of a register (node 5) and
a copy of an external symbol (node 7). -/
def exPostDag : SelectionDAG :=
  { nodes := [⟨NodeKind.Constant false 7, [], [EVT.Int 8], []⟩,
              ⟨NodeKind.Generic ISDOpcode.EntryToken, [], [EVT.Other], []⟩,
              ⟨NodeKind.Generic ISDOpcode.Register, [], [EVT.Int 8], []⟩,
              ⟨NodeKind.Generic ISDOpcode.CopyToReg,
                [SDValue.of 1 0, SDValue.of 2 0, SDValue.of 0 0], [EVT.Other], []⟩,
              ⟨NodeKind.Generic (ISDOpcode.Other 0), [], [EVT.Int 8], []⟩,
              ⟨NodeKind.Generic ISDOpcode.CopyToReg,
                [SDValue.of 3 0, SDValue.of 2 0, SDValue.of 4 0], [EVT.Other], []⟩,
              ⟨NodeKind.ExternalSymbol false "memcpy" 0, [], [EVT.i64], []⟩,
              ⟨NodeKind.Generic ISDOpcode.CopyToReg,
                [SDValue.of 5 0, SDValue.of 2 0, SDValue.of 6 0], [EVT.Other], []⟩],
    root := SDValue.of 7 0 }

/-! ## Remaining lowering rules and the dispatcher -/

/-- The declarations of `VInstrInfo` and `vtmIntrinsic` that the selector uses and that
are outside the available sources: the predicate `VInstrInfo::isCmdSeq` on a command
code and the id of the intrinsic `vtm_access_bram`. -/
structure VInstr where
  isCmdSeq : Nat → Bool
  vtm_access_bram : Nat

/-- The method `SelectUnary(N, OpC)`. -/
def SelectUnary (dag : SelectionDAG) (N : Nat) (OpC : VTMOpcode) :
    Option (SelectionDAG × Option Nat) :=
  match dag.getNode N with
  | none => none
  | some n =>
    match n.ops[0]? with
    | none => none
    | some op0 =>
      let tr := dag.getTargetConstant 0 EVT.i64
      match computeOperandsBitWidth tr.1 N [op0, SDValue.null, tr.2] 3 with
      | none => none
      | some (d, Ops, _) =>
        match d.SelectNodeTo N OpC n.vts Ops with
        | none => none
        | some (d', M) => some (d', some M)

/-- The method `SelectBinary(N, OpC, ForceMove)`; `ForceMove` defaults to `false`. -/
def SelectBinary (dag : SelectionDAG) (N : Nat) (OpC : VTMOpcode) (ForceMove : Bool) :
    Option (SelectionDAG × Option Nat) :=
  match dag.getNode N with
  | none => none
  | some n =>
    match n.ops[0]?, n.ops[1]? with
    | some op0, some op1 =>
      match MoveToReg dag op0 ForceMove with
      | none => none
      | some (d1, a) =>
        match MoveToReg d1 op1 ForceMove with
        | none => none
        | some (d2, b) =>
          let tr := d2.getTargetConstant 0 EVT.i64
          match computeOperandsBitWidth tr.1 N [a, b, SDValue.null, tr.2] 4 with
          | none => none
          | some (d, Ops, _) =>
            match d.SelectNodeTo N OpC n.vts Ops with
            | none => none
            | some (d', M) => some (d', some M)
    | _, _ => none

/-- The method `SelectBrcnd(N)`: the operands are the condition (the `i1` target
constant 1 for `ISD::BR`, operand 1 otherwise), the target block (operand 1 for
`ISD::BR`, operand 2 otherwise), the dummy bit width operand, the trace number and the
chain, operand 0; the chain is not counted in `NumOps`. -/
def SelectBrcnd (dag : SelectionDAG) (N : Nat) : Option (SelectionDAG × Option Nat) :=
  match dag.getNode N with
  | none => none
  | some n =>
    match (if n.kind = NodeKind.Generic ISDOpcode.BR then n.ops[1]? else n.ops[2]?) with
    | none => none
    | some TargetBB =>
      match (if n.kind = NodeKind.Generic ISDOpcode.BR
             then some (dag.getTargetConstant 1 EVT.i1)
             else (n.ops[1]?).map fun o => (dag, o)) with
      | none => none
      | some (d1, Cnd) =>
        let tr := d1.getTargetConstant 0 EVT.i64
        match n.ops[0]? with
        | none => none
        | some chain =>
          match computeOperandsBitWidth tr.1 N [Cnd, TargetBB, SDValue.null, tr.2, chain]
              4 with
          | none => none
          | some (d, Ops, _) =>
            match d.SelectNodeTo N VTMOpcode.VOpToStateb n.vts Ops with
            | none => none
            | some (d', M) => some (d', some M)

/-- The method `SelectInternalCall(N)`: the operands from 1 on, the dummy bit width
operand, the trace number and the chain. -/
def SelectInternalCall (dag : SelectionDAG) (N : Nat) : Option (SelectionDAG × Option Nat) :=
  match dag.getNode N with
  | none => none
  | some n =>
    match n.ops[0]? with
    | none => none
    | some chain =>
      let tr := dag.getTargetConstant 0 EVT.i64
      let Ops := n.ops.drop 1 ++ [SDValue.null, tr.2, chain]
      match computeOperandsBitWidth tr.1 N Ops (Ops.length - 1) with
      | none => none
      | some (d, Ops, _) =>
        match d.SelectNodeTo N VTMOpcode.VOpInternalCall n.vts Ops with
        | none => none
        | some (d', M) => some (d', some M)

/-- The method `SelectLoadArgument(N)`. -/
def SelectLoadArgument (dag : SelectionDAG) (N : Nat) : Option (SelectionDAG × Option Nat) :=
  match dag.getNode N with
  | none => none
  | some n =>
    match n.ops[1]?, n.ops[0]? with
    | some op1, some chain =>
      let tr := dag.getTargetConstant 0 EVT.i64
      match computeOperandsBitWidth tr.1 N [op1, SDValue.null, tr.2, chain] 3 with
      | none => none
      | some (d, Ops, _) =>
        match d.SelectNodeTo N VTMOpcode.VOpMove_rw n.vts Ops with
        | none => none
        | some (d', M) => some (d', some M)
    | _, _ => none

/-- The method `SelectRetVal(N)`: operand 2 must be a constant and is rebuilt as a
target constant of the same value and type. -/
def SelectRetVal (dag : SelectionDAG) (N : Nat) : Option (SelectionDAG × Option Nat) :=
  match dag.getNode N with
  | none => none
  | some n =>
    match n.ops[2]? with
    | none => none
    | some RetValIdx =>
      match dag.getConstantOperandVal n 2, dag.getValueType RetValIdx with
      | some Val, some vt =>
        let idx := dag.getTargetConstant Val vt
        match n.ops[1]?, n.ops[0]? with
        | some op1, some chain =>
          let tr := idx.1.getTargetConstant 0 EVT.i64
          match computeOperandsBitWidth tr.1 N [op1, idx.2, SDValue.null, tr.2, chain]
              4 with
          | none => none
          | some (d, Ops, _) =>
            match d.SelectNodeTo N VTMOpcode.VOpRetVal n.vts Ops with
            | none => none
            | some (d', M) => some (d', some M)
        | _, _ => none
      | _, _ => none

/-- The call `cast<MachineSDNode>(Ret)->setMemRefs(MemOp, MemOp + 1)` on node `Ret`,
which must be a machine node. -/
def SelectionDAG.setMemRefs (dag : SelectionDAG) (Ret : Nat) (refs : List Nat) :
    Option SelectionDAG :=
  match dag.getNode Ret with
  | none => none
  | some m =>
    if m.kind.isMachineOpcode then
      some { dag with nodes := dag.nodes.set Ret { m with memRefs := refs } }
    else none

/-- The method `SelectMemAccess(N)`: `N` must carry a memory operand (`cast<MemSDNode>`),
which is put on the selected node. -/
def SelectMemAccess (I : VInstr) (dag : SelectionDAG) (N : Nat) :
    Option (SelectionDAG × Option Nat) :=
  match dag.getNode N with
  | none => none
  | some n =>
    match n.memRefs.head? with
    | none => none
    | some MemOp =>
      match n.ops[1]?, n.ops[2]?, n.ops[3]?, n.ops[4]?, n.ops[0]? with
      | some op1, some op2, some op3, some op4, some chain =>
        let tr := dag.getTargetConstant 0 EVT.i64
        match computeOperandsBitWidth tr.1 N
            [op1, op2, op3, op4, SDValue.null, tr.2, chain] 6 with
        | none => none
        | some (d, Ops, _) =>
          match d.getNode N with
          | none => none
          | some n' =>
            match d.getConstantOperandVal n' 3 with
            | none => none
            | some cmd =>
              let Opc := if I.isCmdSeq (cmd % 2 ^ 32) then VTMOpcode.VOpCmdSeq
                         else VTMOpcode.VOpMemTrans
              match d.SelectNodeTo N Opc n.vts Ops with
              | none => none
              | some (d', Ret) =>
                match d'.setMemRefs Ret [MemOp] with
                | none => none
                | some d'' => some (d'', some Ret)
      | _, _, _, _, _ => none

/-- The method `SelectBRamAccess(N)`: the address, data and command operands
(operands 2 to 4), the byte enable 0, the block RAM number read from operand 7, the
dummy bit width operand, the trace number and the chain. -/
def SelectBRamAccess (dag : SelectionDAG) (N : Nat) : Option (SelectionDAG × Option Nat) :=
  match dag.getNode N with
  | none => none
  | some n =>
    match n.memRefs.head? with
    | none => none
    | some MemOp =>
      match dag.getConstantOperandVal n 7 with
      | none => none
      | some v =>
        let BRamNum := v % 2 ^ 32
        match n.ops[2]?, n.ops[3]?, n.ops[4]?, n.ops[0]? with
        | some a0, some a1, some a2, some chain =>
          let be := dag.getTargetConstant 0 (EVT.Int 32)
          let bn := be.1.getTargetConstant BRamNum (EVT.Int 32)
          let tr := bn.1.getTargetConstant 0 EVT.i64
          match computeOperandsBitWidth tr.1 N
              [a0, a1, a2, be.2, bn.2, SDValue.null, tr.2, chain] 7 with
          | none => none
          | some (d, Ops, _) =>
            match d.SelectNodeTo N VTMOpcode.VOpBRam n.vts Ops with
            | none => none
            | some (d', Ret) =>
              match d'.setMemRefs Ret [MemOp] with
              | none => none
              | some d'' => some (d'', some Ret)
        | _, _, _, _ => none

/-- The method `SelectINTRINSIC_W_CHAIN(N)`: the intrinsic id is operand 1; any id other
than `vtm_access_bram` leaves the `switch` and the null pointer is returned. -/
def SelectINTRINSIC_W_CHAIN (I : VInstr) (dag : SelectionDAG) (N : Nat) :
    Option (SelectionDAG × Option Nat) :=
  match dag.getNode N with
  | none => none
  | some n =>
    match dag.getConstantOperandVal n 1 with
    | none => none
    | some v =>
      let IntNo := v % 2 ^ 32
      if IntNo = I.vtm_access_bram then SelectBRamAccess dag N
      else some (dag, none)

/-- The method `Select(N)`.  `SelectCode` is the matcher generated from the target
description (`VGenDAGISel.inc`), which is outside the available sources. -/
def Select (T : VTarget) (I : VInstr)
    (SelectCode : SelectionDAG → Nat → Option (SelectionDAG × Option Nat))
    (dag : SelectionDAG) (N : Nat) : Option (SelectionDAG × Option Nat) :=
  match dag.getNode N with
  | none => none
  | some n =>
    match n.kind with
    | NodeKind.Machine _ => some (dag, none)
    | NodeKind.Generic ISDOpcode.ReadReturn => SelectSimpleNode dag N VTMOpcode.VOpReadReturn
    | NodeKind.Generic ISDOpcode.InternalCall => SelectInternalCall dag N
    | NodeKind.Generic ISDOpcode.LoadArgument => SelectLoadArgument dag N
    | NodeKind.Generic ISDOpcode.RetVal => SelectRetVal dag N
    | NodeKind.Generic ISDOpcode.BR => SelectBrcnd dag N
    | NodeKind.Generic ISDOpcode.BRCOND => SelectBrcnd dag N
    | NodeKind.Generic ISDOpcode.ADDE => SelectAdd T dag N
    | NodeKind.Generic ISDOpcode.ICmp => SelectICmp T dag N
    | NodeKind.Generic ISDOpcode.MUL => SelectBinary dag N VTMOpcode.VOpMult true
    | NodeKind.Generic ISDOpcode.XOR => SelectBinary dag N VTMOpcode.VOpXor true
    | NodeKind.Generic ISDOpcode.AND => SelectBinary dag N VTMOpcode.VOpAnd true
    | NodeKind.Generic ISDOpcode.OR => SelectBinary dag N VTMOpcode.VOpOr true
    | NodeKind.Generic ISDOpcode.Not => SelectUnary dag N VTMOpcode.VOpNot
    | NodeKind.Generic ISDOpcode.SELECT => SelectSimpleNode dag N VTMOpcode.VOpSel
    | NodeKind.Generic ISDOpcode.SHL => SelectBinary dag N VTMOpcode.VOpSHL true
    | NodeKind.Generic ISDOpcode.SRL => SelectBinary dag N VTMOpcode.VOpSRL true
    | NodeKind.Generic ISDOpcode.SRA => SelectBinary dag N VTMOpcode.VOpSRA true
    | NodeKind.Generic ISDOpcode.BitRepeat => SelectBinary dag N VTMOpcode.VOpBitRepeat false
    | NodeKind.Generic ISDOpcode.BitCat => SelectBinary dag N VTMOpcode.VOpBitCat false
    | NodeKind.Generic ISDOpcode.BitSlice => SelectBitSlice dag N
    | NodeKind.Generic ISDOpcode.ROr => SelectUnary dag N VTMOpcode.VOpROr
    | NodeKind.Generic ISDOpcode.RAnd => SelectUnary dag N VTMOpcode.VOpRAnd
    | NodeKind.Generic ISDOpcode.RXor => SelectUnary dag N VTMOpcode.VOpRXor
    | NodeKind.GlobalAddress false _ _ _ => SelectImmediate dag N false
    | NodeKind.ExternalSymbol false _ _ => SelectImmediate dag N false
    | NodeKind.Constant false _ => SelectImmediate dag N false
    | NodeKind.Generic ISDOpcode.MemAccess => SelectMemAccess I dag N
    | NodeKind.Generic ISDOpcode.INTRINSIC_W_CHAIN => SelectINTRINSIC_W_CHAIN I dag N
    | _ => SelectCode dag N

/-! ## Vocabulary of the rule claims -/

/-- The binary rules of `Select` that materialize their operands: generic opcode and
hardware opcode. -/
def binaryRules : List (ISDOpcode × VTMOpcode) :=
  [(ISDOpcode.MUL, VTMOpcode.VOpMult), (ISDOpcode.AND, VTMOpcode.VOpAnd),
   (ISDOpcode.OR, VTMOpcode.VOpOr), (ISDOpcode.XOR, VTMOpcode.VOpXor),
   (ISDOpcode.SHL, VTMOpcode.VOpSHL), (ISDOpcode.SRL, VTMOpcode.VOpSRL),
   (ISDOpcode.SRA, VTMOpcode.VOpSRA)]

/-- The unary rules of `Select`: generic opcode and hardware opcode. -/
def unaryRules : List (ISDOpcode × VTMOpcode) :=
  [(ISDOpcode.Not, VTMOpcode.VOpNot), (ISDOpcode.ROr, VTMOpcode.VOpROr),
   (ISDOpcode.RAnd, VTMOpcode.VOpRAnd), (ISDOpcode.RXor, VTMOpcode.VOpRXor)]

/-- The trace number and the annotation constant a rule appends for a node with the
result types `vts` whose annotated operands have the types `tys`. -/
def traceAndAnnotation (vts tys : List EVT) : List SDNode :=
  [⟨NodeKind.Constant true 0, [], [EVT.i64], []⟩,
   ⟨NodeKind.Constant true (annotationOf vts tys).get, [], [EVT.i64], []⟩]

/-- The DAG after `SelectBinary(N, OpC, true)` on node `n` with the operands `op0`,
`op1` of the types `t0`, `t1`: the moves of the operands, trace number and annotation
are appended, and `N` itself becomes the `OpC` node reading the materialized operands. -/
def SelectBinary.result (dag : SelectionDAG) (N : Nat) (n : SDNode) (OpC : VTMOpcode)
    (op0 op1 : SDValue) (t0 t1 : EVT) : SelectionDAG :=
  ⟨((afterMove (afterMove dag op0) op1).nodes ++ traceAndAnnotation n.vts [t0, t1]).set N
      ⟨NodeKind.Machine OpC,
        [(materialize dag op0).2, (materialize (afterMove dag op0) op1).2,
          SDValue.of ((afterMove (afterMove dag op0) op1).nodes.length + 1) 0,
          SDValue.of (afterMove (afterMove dag op0) op1).nodes.length 0],
        n.vts, n.memRefs⟩,
    dag.root⟩

/-- The DAG after `SelectUnary(N, OpC)` on node `n` with the operand `op0` of type
`t0`: trace number and annotation are appended and `N` becomes the `OpC` node. -/
def SelectUnary.result (dag : SelectionDAG) (N : Nat) (n : SDNode) (OpC : VTMOpcode)
    (op0 : SDValue) (t0 : EVT) : SelectionDAG :=
  ⟨(dag.nodes ++ traceAndAnnotation n.vts [t0]).set N
      ⟨NodeKind.Machine OpC,
        [op0, SDValue.of (dag.nodes.length + 1) 0, SDValue.of dag.nodes.length 0],
        n.vts, n.memRefs⟩,
    dag.root⟩

/-- A target description without command sequences, `vtm_access_bram` having id 5. -/
def exInstr : VInstr := ⟨fun _ => false, 5⟩

/-- A pattern matcher that matches nothing. -/
def exSelectCode : SelectionDAG → Nat → Option (SelectionDAG × Option Nat) :=
  fun _ _ => none

/-- Witness data: the product of the 8 bit constant 3 and an 8 bit register (node 2),
and the complement of the register (node 3). -/
def exMulDag : SelectionDAG :=
  { nodes := [⟨NodeKind.Constant false 3, [], [EVT.Int 8], []⟩,
              ⟨NodeKind.Generic (ISDOpcode.Other 0), [], [EVT.Int 8], []⟩,
              ⟨NodeKind.Generic ISDOpcode.MUL, [SDValue.of 0 0, SDValue.of 1 0],
                [EVT.Int 8], []⟩,
              ⟨NodeKind.Generic ISDOpcode.Not, [SDValue.of 1 0], [EVT.Int 8], []⟩],
    root := SDValue.of 2 0 }

/-- The DAG after `SelectBrcnd(N)` on a `BR` node `n` with the chain `chain` and the
target block `bb` of type `tb`: the `i1` constant 1, trace number and annotation are
appended and `N` becomes the `VOpToStateb` node. -/
def SelectBrcnd.resultBR (dag : SelectionDAG) (N : Nat) (n : SDNode) (chain bb : SDValue)
    (tb : EVT) : SelectionDAG :=
  ⟨(dag.nodes ++ SDNode.mk (NodeKind.Constant true 1) [] [EVT.i1] [] ::
      traceAndAnnotation n.vts [EVT.i1, tb]).set N
      ⟨NodeKind.Machine VTMOpcode.VOpToStateb,
        [SDValue.of dag.nodes.length 0, bb, SDValue.of (dag.nodes.length + 2) 0,
          SDValue.of (dag.nodes.length + 1) 0, chain],
        n.vts, n.memRefs⟩,
    dag.root⟩

/-- The DAG after `SelectBrcnd(N)` on a `BRCOND` node `n` with the chain `chain`, the
condition `cnd` of type `tc` and the target block `bb` of type `tb`. -/
def SelectBrcnd.resultBRCOND (dag : SelectionDAG) (N : Nat) (n : SDNode)
    (chain cnd bb : SDValue) (tc tb : EVT) : SelectionDAG :=
  ⟨(dag.nodes ++ traceAndAnnotation n.vts [tc, tb]).set N
      ⟨NodeKind.Machine VTMOpcode.VOpToStateb,
        [cnd, bb, SDValue.of (dag.nodes.length + 1) 0, SDValue.of dag.nodes.length 0, chain],
        n.vts, n.memRefs⟩,
    dag.root⟩

/-- Witness data: a basic block (node 1), an unconditional branch to it (node 2), a
one bit condition (node 3) and a conditional branch (node 4). -/
def exBranchDag : SelectionDAG :=
  { nodes := [⟨NodeKind.Generic ISDOpcode.EntryToken, [], [EVT.Other], []⟩,
              ⟨NodeKind.Generic ISDOpcode.BasicBlock, [], [EVT.Other], []⟩,
              ⟨NodeKind.Generic ISDOpcode.BR, [SDValue.of 0 0, SDValue.of 1 0],
                [EVT.Other], []⟩,
              ⟨NodeKind.Generic (ISDOpcode.Other 0), [], [EVT.Int 1], []⟩,
              ⟨NodeKind.Generic ISDOpcode.BRCOND,
                [SDValue.of 0 0, SDValue.of 3 0, SDValue.of 1 0], [EVT.Other], []⟩],
    root := SDValue.of 4 0 }

/-- Witness data: a memory access (node 5) with the memory operand 42, address, data,
command constant and byte enable, and a block RAM access (node 9, intrinsic id 5) of
bank 3 with the memory operand 43. -/
def exMemDag : SelectionDAG :=
  { nodes := [⟨NodeKind.Generic ISDOpcode.EntryToken, [], [EVT.Other], []⟩,
              ⟨NodeKind.Generic (ISDOpcode.Other 0), [], [EVT.Int 32], []⟩,
              ⟨NodeKind.Generic (ISDOpcode.Other 0), [], [EVT.Int 16], []⟩,
              ⟨NodeKind.Constant true 1, [], [EVT.Int 4], []⟩,
              ⟨NodeKind.Constant true 15, [], [EVT.Int 8], []⟩,
              ⟨NodeKind.Generic ISDOpcode.MemAccess,
                [SDValue.of 0 0, SDValue.of 1 0, SDValue.of 2 0, SDValue.of 3 0,
                  SDValue.of 4 0], [EVT.Int 16, EVT.Other], [42]⟩,
              ⟨NodeKind.Constant true 5, [], [EVT.Int 32], []⟩,
              ⟨NodeKind.Constant true 3, [], [EVT.Int 32], []⟩,
              ⟨NodeKind.Constant true 0, [], [EVT.Int 32], []⟩,
              ⟨NodeKind.Generic ISDOpcode.INTRINSIC_W_CHAIN,
                [SDValue.of 0 0, SDValue.of 6 0, SDValue.of 1 0, SDValue.of 2 0,
                  SDValue.of 3 0, SDValue.of 8 0, SDValue.of 8 0, SDValue.of 7 0],
                [EVT.Int 16, EVT.Other], [43]⟩,
              ⟨NodeKind.Constant true 99, [], [EVT.Int 32], []⟩,
              ⟨NodeKind.Generic ISDOpcode.INTRINSIC_W_CHAIN,
                [SDValue.of 0 0, SDValue.of 10 0], [EVT.Other], []⟩,
              ⟨NodeKind.Generic ISDOpcode.TokenFactor, [SDValue.of 0 0], [EVT.Other], []⟩],
    root := SDValue.of 9 1 }

/-- The generic opcodes for which the `switch` of `Select` has a case. -/
def hasRule : ISDOpcode → Bool
  | ISDOpcode.ReadReturn | ISDOpcode.InternalCall | ISDOpcode.LoadArgument
  | ISDOpcode.RetVal | ISDOpcode.BR | ISDOpcode.BRCOND | ISDOpcode.ADDE | ISDOpcode.ICmp
  | ISDOpcode.MUL | ISDOpcode.XOR | ISDOpcode.AND | ISDOpcode.OR | ISDOpcode.Not
  | ISDOpcode.SELECT | ISDOpcode.SHL | ISDOpcode.SRL | ISDOpcode.SRA
  | ISDOpcode.BitRepeat | ISDOpcode.BitCat | ISDOpcode.BitSlice | ISDOpcode.ROr
  | ISDOpcode.RAnd | ISDOpcode.RXor | ISDOpcode.MemAccess
  | ISDOpcode.INTRINSIC_W_CHAIN => true
  | _ => false

/-! ## Vocabulary of the operand layout claim -/

/-- What `HLSLoopUnroll::runOnLoop` reads of a loop and of its analyses: whether the
loop has a latch block, the results of `getSmallConstantTripCount` and
`getSmallConstantTripMultiple` for it, and the code metrics `NumInsts` and
`NumInlineCandidates` summed over its blocks.  All are values of type `unsigned`. -/
structure Loop where
  hasLatch : Bool
  SmallConstantTripCount : Nat
  SmallConstantTripMultiple : Nat
  NumInsts : Nat
  NumInlineCandidates : Nat
  deriving DecidableEq, Repr

/-- The constant `HLSLoopUnroll::OptSizeUnrollThreshold`. -/
def OptSizeUnrollThreshold : Nat := 50

/-- The field `CurrentCount` as the constructor `HLSLoopUnroll(T, C)` sets it. -/
def HLSLoopUnroll.CurrentCount (C : Int) : Nat :=
  if C = -1 then 0 else (C % 2 ^ 32).toNat

/-- The function `ApproximateLoopSize`: the loop size, never zero, and the number of
inline candidates. -/
def ApproximateLoopSize (L : Loop) : Nat × Nat :=
  (if L.NumInsts = 0 then 1 else L.NumInsts, L.NumInlineCandidates)

/-- The loop `while (Count != 0 && TripCount % Count != 0) --Count;` of `runOnLoop`. -/
def runOnLoop.reduce (TripCount : Nat) : Nat → Nat
  | 0 => 0
  | Count + 1 =>
    if TripCount % (Count + 1) ≠ 0 then runOnLoop.reduce TripCount Count else Count + 1

/-- The method `HLSLoopUnroll::runOnLoop`.  `UnrollLoop` is the LLVM utility, taken by
its result for the arguments `Count`, `TripCount`, `TripMultiple`.  The result is the
value returned and the arguments of the call of `UnrollLoop`, `none` when it is not
called. -/
def runOnLoop (CurrentCount : Nat) (UnrollLoop : Nat → Nat → Nat → Bool) (L : Loop) :
    Bool × Option (Nat × Nat × Nat) :=
  let Threshold := OptSizeUnrollThreshold
  let TripCount := if L.hasLatch then L.SmallConstantTripCount else 0
  let TripMultiple := if L.hasLatch then L.SmallConstantTripMultiple else 1
  let Count := CurrentCount
  if Count = 0 ∧ TripCount = 0 then (false, none)
  else
    let Count := if Count = 0 then TripCount else Count
    let LoopSize := (ApproximateLoopSize L).1
    let NumInlineCandidates := (ApproximateLoopSize L).2
    if NumInlineCandidates ≠ 0 then (false, none)
    else
      let Size := (LoopSize * Count) % 2 ^ 64
      if TripCount ≠ 1 ∧ Size > Threshold then
        let Count := if TripCount ≠ 0 then runOnLoop.reduce TripCount (Threshold / LoopSize)
                     else Count
        if Count < 2 then (false, none)
        else (UnrollLoop Count TripCount TripMultiple, some (Count, TripCount, TripMultiple))
      else (UnrollLoop Count TripCount TripMultiple, some (Count, TripCount, TripMultiple))

/-- An `UnrollLoop` that always succeeds. -/
def exUnrollLoop : Nat → Nat → Nat → Bool := fun _ _ _ => true

/-! ## List scheduler -/

/-- Modelled from the spec: the class `listScheduler` that `VWriter::runOnFunction`
creates for each basic block is not part of the available sources.  An operation of a
block as the scheduler sees it: the operations of the block whose values it consumes
(their positions in the block), the function unit it occupies, and whether it is a
registered (latched) consumer, which may share the state of its producers. -/
structure SchedOp where
  deps : List Nat
  unit : Nat
  latched : Bool
  deriving DecidableEq, Repr

/-- Modelled from the spec: the earliest state the dependencies `deps` allow, given the
states assigned so far (`none` for an operation not yet scheduled): not before any
producer, and one state after it unless the consumer is latched.  The result is `none`
when a dependency is not yet scheduled, that is when the operation is not ready. -/
def listScheduler.earliest (states : List (Option Nat)) (latched : Bool) :
    List Nat → Option Nat
  | [] => some 0
  | p :: rest =>
    match states[p]?, listScheduler.earliest states latched rest with
    | some (some sp), some e => some (max (sp + (if latched then 0 else 1)) e)
    | _, _ => none

/-- Modelled from the spec: the number of scheduled operations that occupy function
unit `u` in state `s`. -/
def listScheduler.used (ops : List SchedOp) (states : List (Option Nat)) (u s : Nat) :
    Nat :=
  ((ops.zip states).filter fun x => x.1.unit = u ∧ x.2 = some s).length

/-- Modelled from the spec: the earliest state from `s` on in which function unit `u`
is below its limit; `fuel` bounds the states tried. -/
def listScheduler.firstFree (limit : Nat → Nat) (ops : List SchedOp)
    (states : List (Option Nat)) (u : Nat) : Nat → Nat → Nat
  | 0, s => s
  | fuel + 1, s =>
    if listScheduler.used ops states u s < limit u then s
    else listScheduler.firstFree limit ops states u fuel (s + 1)

/-- Modelled from the spec: the state of a ready operation, "the earliest legal state
not exceeding resource limits for that state"; `none` when the operation is not
ready. -/
def listScheduler.place (limit : Nat → Nat) (ops : List SchedOp)
    (states : List (Option Nat)) (op : SchedOp) : Option Nat :=
  match listScheduler.earliest states op.latched op.deps with
  | none => none
  | some e => some (listScheduler.firstFree limit ops states op.unit (ops.length + 1) e)

/-- Modelled from the spec: the first of the candidate positions that holds an
operation not yet scheduled and ready ("all dependencies already scheduled"), with the
state it is to receive. -/
def listScheduler.pick (limit : Nat → Nat) (ops : List SchedOp)
    (states : List (Option Nat)) : List Nat → Option (Nat × Nat)
  | [] => none
  | i :: rest =>
    match ops[i]?, states[i]? with
    | some op, some none =>
      match listScheduler.place limit ops states op with
      | some s => some (i, s)
      | none => listScheduler.pick limit ops states rest
    | _, _ => listScheduler.pick limit ops states rest

/-- Modelled from the spec: the scheduling loop: as long as an operation is ready, the
first ready operation in block order receives its state; `fuel` bounds the number of
operations scheduled. -/
def listScheduler.go (limit : Nat → Nat) (ops : List SchedOp) :
    Nat → List (Option Nat) → List (Option Nat)
  | 0, states => states
  | fuel + 1, states =>
    match listScheduler.pick limit ops states (List.range ops.length) with
    | none => states
    | some (i, s) => listScheduler.go limit ops fuel (states.set i (some s))

/-- Modelled from the spec: the list scheduler of one basic block; the result gives the
state of each operation, relative to the entry state of the block, `none` for an
operation that never became ready. -/
def listScheduler (limit : Nat → Nat) (ops : List SchedOp) : List (Option Nat) :=
  listScheduler.go limit ops ops.length (List.replicate ops.length none)

/-- Witness data: two multiplications on one multiplier, an addition of their results
and a latched register write of the sum. -/
def exBlock : List SchedOp :=
  [⟨[], 0, false⟩, ⟨[], 0, false⟩, ⟨[0, 1], 1, false⟩, ⟨[2], 2, true⟩]

/-- Witness data: the operations of `exBlock` listed with every consumer in front of
its producers. -/
def exForwardBlock : List SchedOp :=
  [⟨[1], 2, true⟩, ⟨[2, 3], 1, false⟩, ⟨[], 0, false⟩, ⟨[], 0, false⟩]

/-! ## Benchmark: IIR biquad, N sections -/

/-- The value an `int` expression takes: the 32 bit two's complement value of the
exact result. -/
def wrap32 (z : Int) : Int := (z + 2 ^ 31) % 2 ^ 32 - 2 ^ 31

/-- The macro `NumberOfSections`. -/
def NumberOfSections : Nat := 4

/-- The variables of `biquad_N_sections` that the loop changes: `y`, the three
pointers (as positions in the arrays `coefficients` and `wi`), and the array `wi`. -/
structure BiquadState where
  y : Int
  ptr_coeff : Nat
  ptr_wi1 : Nat
  ptr_wi2 : Nat
  wi : List Int
  deriving DecidableEq, Repr

/-- The body of the loop of `biquad_N_sections`, statement by statement; reading or
writing outside an array fails. -/
def biquad_N_sections.body (coeff : List Int) (s : BiquadState) : Option BiquadState :=
  match coeff[s.ptr_coeff]?, s.wi[s.ptr_wi1]?, coeff[s.ptr_coeff + 1]?, s.wi[s.ptr_wi2]?,
      coeff[s.ptr_coeff + 2]?, coeff[s.ptr_coeff + 3]?, coeff[s.ptr_coeff + 4]? with
  | some c0, some w1, some c1, some w2, some c2, some c3, some c4 =>
    let w := wrap32 (s.y - wrap32 (c0 * w1))
    let w := wrap32 (w - wrap32 (c1 * w2))
    let y := wrap32 (c2 * w)
    let y := wrap32 (y + wrap32 (c3 * w1))
    let y := wrap32 (y + wrap32 (c4 * w2))
    let wi := s.wi.set s.ptr_wi2 w1
    if s.ptr_wi1 < wi.length then
      let wi := wi.set s.ptr_wi1 w
      some ⟨y, s.ptr_coeff + 5, s.ptr_wi1 + 1 + 1, s.ptr_wi2 + 1 + 1, wi⟩
    else none
  | _, _, _, _, _, _, _ => none

/-- The loop `for (f = 0; f < NumberOfSections; f++)` with `n` iterations left. -/
def biquad_N_sections.loop (coeff : List Int) : Nat → BiquadState → Option BiquadState
  | 0, s => some s
  | n + 1, s =>
    match biquad_N_sections.body coeff s with
    | none => none
    | some s' => biquad_N_sections.loop coeff n s'

/-- The function `biquad_N_sections(x, ptr_coeff, ptr_wi1, ptr_wi2)`: the value
returned and the array `wi` it leaves. -/
def biquad_N_sections (x : Int) (coeff : List Int) (ptr_coeff : Nat) (wi : List Int)
    (ptr_wi1 ptr_wi2 : Nat) : Option (Int × List Int) :=
  (biquad_N_sections.loop coeff NumberOfSections ⟨x, ptr_coeff, ptr_wi1, ptr_wi2, wi⟩).map
    fun s => (s.y, s.wi)

/-- The function `pin_down`: all coefficients become 7, all states 0, and 1 is
returned. -/
def pin_down (coefficients wi : List Int) : Int × List Int × List Int :=
  (1, coefficients.map fun _ => 7, wi.map fun _ => 0)

/-- The equations of biquad section `i` on the input `yin` and the states `wi`:
`w = yin - a1 * w1 - a2 * w2`, `yout = b0 * w + b1 * w1 + b2 * w2` with the five
coefficients of the section and `w1 = wi[2 i]`, `w2 = wi[2 i + 1]`, as `int` values;
then `wi[2 i + 1] := w1` and `wi[2 i] := w`. -/
def biquadSection (coeff : List Int) (i : Nat) (s : Int × List Int) : Int × List Int :=
  let a1 := coeff.getD (5 * i) 0
  let a2 := coeff.getD (5 * i + 1) 0
  let b0 := coeff.getD (5 * i + 2) 0
  let b1 := coeff.getD (5 * i + 3) 0
  let b2 := coeff.getD (5 * i + 4) 0
  let w1 := s.2.getD (2 * i) 0
  let w2 := s.2.getD (2 * i + 1) 0
  let w := wrap32 (s.1 - a1 * w1 - a2 * w2)
  (wrap32 (b0 * w + b1 * w1 + b2 * w2), (s.2.set (2 * i + 1) w1).set (2 * i) w)

/-- The four sections in sequence, the output of one being the input of the next. -/
def biquadSpec (x : Int) (coeff wi : List Int) : Int × List Int :=
  biquadSection coeff 3 (biquadSection coeff 2 (biquadSection coeff 1
    (biquadSection coeff 0 (x, wi))))

/-! ## The pass object of HLSLoopUnroll -/

/-- The data members of an `HLSLoopUnroll` pass object. -/
structure HLSLoopUnroll.Fields where
  CurrentCount : Nat
  CurrentThreshold : Nat
  deriving DecidableEq, Repr

/-- The constructor `HLSLoopUnroll(int T = -1, int C = -1)`: the value -1 selects the
default (150 for the threshold, 0 for the count), any other value is converted to
`unsigned`. -/
def HLSLoopUnroll.construct (T C : Int) : HLSLoopUnroll.Fields :=
  { CurrentThreshold := if T = -1 then 150 else (T % 2 ^ 32).toNat
    CurrentCount := HLSLoopUnroll.CurrentCount C }

/-- The method `runOnLoop` of a pass object: of the data members it reads
`CurrentCount` only (line 141); the threshold is the constant of line 125. -/
def HLSLoopUnroll.runOnLoop (P : HLSLoopUnroll.Fields) (UnrollLoop : Nat → Nat → Nat → Bool)
    (L : Loop) : Bool × Option (Nat × Nat × Nat) :=
  Shang.runOnLoop P.CurrentCount UnrollLoop L

/-! ## Benchmark: the run of `main` and the memory accesses -/

/-- The function `main` on a local array `wi` of any initial contents: `coefficients`
is a zero-initialized static array, `pin_down` sets both arrays and returns the input
sample, `biquad_N_sections` is called with `ptr_coeff = &coefficients[0]`,
`ptr_wi1 = &wi[0]`, `ptr_wi2 = &wi[1]`.  The result is the value `printf` prints with
`%d` and the value returned. -/
def main (wi : List Int) : Option (Int × Int) :=
  let coefficients : List Int := List.replicate (5 * NumberOfSections) 0
  let p := pin_down coefficients wi
  match biquad_N_sections p.1 p.2.1 0 p.2.2 0 1 with
  | none => none
  | some r => some (r.1, 0)

/-- A memory access of `biquad_N_sections`: a read of `coefficients[i]`, a read of
`wi[i]` or a write of `wi[i]`. -/
inductive Access where
  | readCoeff (i : Nat)
  | readWi (i : Nat)
  | writeWi (i : Nat)
  deriving DecidableEq, Repr

/-- The index of a coefficient read. -/
def Access.coeffIndex : Access → Option Nat
  | Access.readCoeff i => some i
  | _ => none

/-- The index of a read or write of the state array. -/
def Access.wiIndex : Access → Option Nat
  | Access.readCoeff _ => none
  | Access.readWi i => some i
  | Access.writeWi i => some i

/-- The memory accesses of one iteration of the loop of `biquad_N_sections`, statement
by statement, at the pointers the iteration starts with. -/
def biquad_N_sections.bodyAccesses (s : BiquadState) : List Access :=
  [Access.readCoeff s.ptr_coeff, Access.readWi s.ptr_wi1,
   Access.readCoeff (s.ptr_coeff + 1), Access.readWi s.ptr_wi2,
   Access.readCoeff (s.ptr_coeff + 2),
   Access.readCoeff (s.ptr_coeff + 3), Access.readWi s.ptr_wi1,
   Access.readCoeff (s.ptr_coeff + 4), Access.readWi s.ptr_wi2,
   Access.readWi s.ptr_wi1, Access.writeWi s.ptr_wi2,
   Access.writeWi s.ptr_wi1]

/-- The memory accesses of the loop with `n` iterations left, one list per iteration;
`none` when an iteration reads or writes outside an array. -/
def biquad_N_sections.loopAccesses (coeff : List Int) :
    Nat → BiquadState → Option (List (List Access))
  | 0, _ => some []
  | n + 1, s =>
    match biquad_N_sections.body coeff s with
    | none => none
    | some s' =>
      match biquad_N_sections.loopAccesses coeff n s' with
      | none => none
      | some tr => some (biquad_N_sections.bodyAccesses s :: tr)

/-- The memory accesses of a call of `biquad_N_sections`. -/
def biquad_N_sections.accesses (x : Int) (coeff : List Int) (ptr_coeff : Nat) (wi : List Int)
    (ptr_wi1 ptr_wi2 : Nat) : Option (List (List Access)) :=
  biquad_N_sections.loopAccesses coeff NumberOfSections ⟨x, ptr_coeff, ptr_wi1, ptr_wi2, wi⟩

/-! ## Verilog writer -/

/-- The methods of `RTLWriter` that `VWriter::runOnFunction` calls; the class is declared
in `RTLWriter.h`, outside the available sources, and each method is taken by the text it
returns.  `Fn` is the type of a function, `LS` the type of a scheduled basic block
(`listScheduler*`). -/
structure RTLWriter (Fn LS : Type) where
  getFunctionSignature : Fn → String
  getMemDecl : Fn → String
  getFunctionLocalVariables : List LS → String
  getStateDefs : List LS → String
  getAssignmentString : List LS → String
  getClockHeader : String
  printBasicBlockDatapath : LS → String
  getCaseHeader : String
  printBasicBlockControl : LS → String
  getCaseFooter : String
  getClockFooter : String
  getModuleFooter : String
  createBinOpModule : String → String → Nat → String
  getBRAMDefinition : Nat → Nat → String

/-- The banner `runOnFunction` writes first (lines 105-115). -/
def VWriter.banner : String :=
  "/*       This module was generated by c-to-verilog.com\n" ++
  " * THIS SOFTWARE IS PROVIDED BY www.c-to-verilog.com \x27\x27AS IS\x27\x27 AND ANY\n" ++
  " * EXPRESS OR IMPLIED WARRANTIES, INCLUDING, BUT NOT LIMITED TO, THE IMPLIED\n" ++
  " * WARRANTIES OF MERCHANTABILITY AND FITNESS FOR A PARTICULAR PURPOSE ARE\n" ++
  " * DISCLAIMED. IN NO EVENT SHALL c-to-verilog.com BE LIABLE FOR ANY\n" ++
  " * DIRECT, INDIRECT, INCIDENTAL, SPECIAL, EXEMPLARY, OR CONSEQUENTIAL DAMAGES\n" ++
  " * (INCLUDING, BUT NOT LIMITED TO, PROCUREMENT OF SUBSTITUTE GOODS OR SERVICES)\n" ++
  " * \n" ++
  " * Found a bug? email info@c-to-verilog.com \n" ++
  " */\n\n\n"

/-- The method `VWriter::runOnFunction`: the text written to `Out` and the value
returned.  `renameArgs` is the loop that replaces the dots in the argument names,
`blocks` gives the basic blocks of a function in function order, `newListScheduler` is
the constructor call `new listScheduler(BB, TD)`, `resourceMap` the resource table.  The
synthesis report goes to `errs()` and is not part of the text. -/
def VWriter.runOnFunction {Fn BB LS : Type} (renameArgs : Fn → Fn) (blocks : Fn → List BB)
    (newListScheduler : BB → LS) (resourceMap : String → Nat) (DesignWriter : RTLWriter Fn LS)
    (F : Fn) : String × Bool :=
  let F := renameArgs F
  let Out := VWriter.banner
  let lv := (blocks F).map newListScheduler
  let Out := Out ++ DesignWriter.getFunctionSignature F
  let Out := Out ++ DesignWriter.getMemDecl F
  let Out := Out ++ DesignWriter.getFunctionLocalVariables lv
  let Out := Out ++ DesignWriter.getStateDefs lv
  let Out := Out ++ DesignWriter.getAssignmentString lv
  let Out := Out ++ DesignWriter.getClockHeader
  let Out := Out ++ "\n// Datapath \n"
  let Out := lv.foldl (fun Out I => Out ++ DesignWriter.printBasicBlockDatapath I) Out
  let Out := Out ++ "\n\n// Control \n"
  let Out := Out ++ DesignWriter.getCaseHeader
  let Out := lv.foldl (fun Out I => Out ++ DesignWriter.printBasicBlockControl I) Out
  let Out := Out ++ DesignWriter.getCaseFooter
  let Out := Out ++ DesignWriter.getClockFooter
  let Out := Out ++ DesignWriter.getModuleFooter
  let Out := Out ++ "\n\n// \x2d\x2d Library components \x2d\x2d  \n"
  let Out := Out ++ DesignWriter.createBinOpModule "mul" "*" (resourceMap "delay_mul")
  let Out := Out ++ DesignWriter.createBinOpModule "div" "/" (resourceMap "delay_div")
  let Out := Out ++ DesignWriter.createBinOpModule "shl" "<<" (resourceMap "delay_shl")
  let Out := Out ++ DesignWriter.getBRAMDefinition (resourceMap "mem_wordsize")
    (resourceMap "membus_size")
  (Out, false)

/-- The texts of a list of blocks, one after the other. -/
def concatTexts {LS : Type} (f : LS → String) : List LS → String
  | [] => ""
  | I :: rest => f I ++ concatTexts f rest

/-- The concatenation of the parts the specification lists, and of nothing else: the
banner, the function signature, the memory declarations, the local variables, the state
definitions, the assignment block, the clock header, the datapath text of the blocks,
the case header, the control text of the blocks, the three footers and the four library
modules. -/
def VWriter.listedText {Fn LS : Type} (resourceMap : String → Nat)
    (DesignWriter : RTLWriter Fn LS) (F : Fn) (lv : List LS) : String :=
  VWriter.banner ++ (DesignWriter.getFunctionSignature F ++ (DesignWriter.getMemDecl F ++
    (DesignWriter.getFunctionLocalVariables lv ++ (DesignWriter.getStateDefs lv ++
    (DesignWriter.getAssignmentString lv ++ (DesignWriter.getClockHeader ++
    (concatTexts DesignWriter.printBasicBlockDatapath lv ++
    (DesignWriter.getCaseHeader ++
    (concatTexts DesignWriter.printBasicBlockControl lv ++
    (DesignWriter.getCaseFooter ++ (DesignWriter.getClockFooter ++
    (DesignWriter.getModuleFooter ++
    (DesignWriter.createBinOpModule "mul" "*" (resourceMap "delay_mul") ++
    (DesignWriter.createBinOpModule "div" "/" (resourceMap "delay_div") ++
    (DesignWriter.createBinOpModule "shl" "<<" (resourceMap "delay_shl") ++
    DesignWriter.getBRAMDefinition (resourceMap "mem_wordsize")
      (resourceMap "membus_size"))))))))))))))))

/-- Witness data: a writer whose texts name the method and the block. -/
def exWriter : RTLWriter Unit Nat :=
  { getFunctionSignature := fun _ => "S"
    getMemDecl := fun _ => "M"
    getFunctionLocalVariables := fun _ => "L"
    getStateDefs := fun _ => "T"
    getAssignmentString := fun _ => "A"
    getClockHeader := "H"
    printBasicBlockDatapath := fun I => if I = 0 then "d0" else "d1"
    getCaseHeader := "C"
    printBasicBlockControl := fun I => if I = 0 then "c0" else "c1"
    getCaseFooter := "X"
    getClockFooter := "Y"
    getModuleFooter := "Z"
    createBinOpModule := fun name _ _ => name
    getBRAMDefinition := fun _ _ => "B" }

/-- Counterexample data: a writer all of whose texts are empty. -/
def exEmptyWriter : RTLWriter Unit Nat :=
  { getFunctionSignature := fun _ => ""
    getMemDecl := fun _ => ""
    getFunctionLocalVariables := fun _ => ""
    getStateDefs := fun _ => ""
    getAssignmentString := fun _ => ""
    getClockHeader := ""
    printBasicBlockDatapath := fun _ => ""
    getCaseHeader := ""
    printBasicBlockControl := fun _ => ""
    getCaseFooter := ""
    getClockFooter := ""
    getModuleFooter := ""
    createBinOpModule := fun _ _ _ => ""
    getBRAMDefinition := fun _ _ => "" }

/-! ## Theorems -/

theorem digit_update (D B w : Nat) (hB : 0 < B) (hw : w < 256) :
    (D - (D / B % 256) * B + w * B) / B % 256 = w ∧
    (D - (D / B % 256) * B + w * B) / (B * 256) = D / (B * 256) ∧
    (D - (D / B % 256) * B + w * B) % B = D % B := by
  have h1 : D = B * (D / B) + D % B := (Nat.div_add_mod D B).symm
  have h2 : D / B = 256 * (D / B / 256) + D / B % 256 := (Nat.div_add_mod (D / B) 256).symm
  have hr : D % B < B := Nat.mod_lt _ hB
  set q := D / B with hq
  set r := D % B with hr'
  set h := q / 256 with hh
  set o := q % 256 with ho
  have hX : D - o * B + w * B = r + B * (256 * h + w) := by
    have : D = B * (256 * h) + o * B + r := by
      rw [h1]; conv_lhs => rw [h2]
      ring
    rw [this]
    have : B * (256 * h) + o * B + r - o * B = B * (256 * h) + r := by omega
    rw [this]; ring
  rw [hX]
  have e1 : (r + B * (256 * h + w)) / B = 256 * h + w := by
    rw [Nat.add_mul_div_left _ _ hB, Nat.div_eq_of_lt hr, Nat.zero_add]
  refine ⟨?_, ?_, ?_⟩
  · rw [e1]; omega
  · rw [← Nat.div_div_eq_div_mul, e1, ← Nat.div_div_eq_div_mul]
    omega
  · rw [Nat.add_mul_mod_self_left, Nat.mod_eq_of_lt hr]

theorem slot_pow_split (i : Nat) (hi : i < 8) :
    2 ^ 64 = 2 ^ (8 * i) * 256 * 2 ^ (8 * (7 - i)) := by
  have : (256 : Nat) = 2 ^ 8 := by norm_num
  rw [this, ← pow_add, ← pow_add]
  congr 1; omega

theorem setBitWidth_raw_lt (D w i : Nat) (hi : i < 8) (hw : w < 256) (hD : D < 2 ^ 64) :
    D - (D / 2 ^ (8 * i) % 256) * 2 ^ (8 * i) + w * 2 ^ (8 * i) < 2 ^ 64 := by
  have hB : 0 < 2 ^ (8 * i) := by positivity
  obtain ⟨-, h2, -⟩ := digit_update D (2 ^ (8 * i)) w hB hw
  set X := D - (D / 2 ^ (8 * i) % 256) * 2 ^ (8 * i) + w * 2 ^ (8 * i) with hX
  have hM : 0 < 2 ^ (8 * i) * 256 := by positivity
  have hs := slot_pow_split i hi
  have hlt : D / (2 ^ (8 * i) * 256) < 2 ^ (8 * (7 - i)) := by
    apply Nat.div_lt_of_lt_mul
    rw [← hs]; exact hD
  have hX2 : X < (X / (2 ^ (8 * i) * 256) + 1) * (2 ^ (8 * i) * 256) := by
    have := Nat.div_add_mod X (2 ^ (8 * i) * 256)
    have := Nat.mod_lt X hM
    nlinarith
  rw [h2] at hX2
  calc X < (D / (2 ^ (8 * i) * 256) + 1) * (2 ^ (8 * i) * 256) := hX2
    _ ≤ 2 ^ (8 * (7 - i)) * (2 ^ (8 * i) * 256) := Nat.mul_le_mul_right _ hlt
    _ = 2 ^ 64 := by rw [hs]; ring

theorem setBitWidth_Data_lt (A : BitWidthAnnotator) (w i : Nat) :
    (A.setBitWidth w i).Data < 2 ^ 64 := by
  unfold BitWidthAnnotator.setBitWidth
  exact Nat.mod_lt _ (by norm_num)

theorem getBitWidth_setBitWidth_same (A : BitWidthAnnotator) (w i : Nat) (hi : i < 8)
    (hw : w < 256) (hA : A.Data < 2 ^ 64) :
    getBitWidth (A.setBitWidth w i).Data i = w := by
  unfold BitWidthAnnotator.setBitWidth getBitWidth BitWidthAnnotator.slotBits
  have h256 : (2 : Nat) ^ 8 = 256 := by norm_num
  simp only [h256]
  have hB : 0 < 2 ^ (8 * i) := by positivity
  rw [Nat.mod_eq_of_lt (setBitWidth_raw_lt A.Data w i hi hw hA)]
  exact (digit_update A.Data (2 ^ (8 * i)) w hB hw).1

theorem getBitWidth_setBitWidth_ne (A : BitWidthAnnotator) (w i j : Nat) (hi : i < 8)
    (hij : j ≠ i) (hw : w < 256) (hA : A.Data < 2 ^ 64) :
    getBitWidth (A.setBitWidth w i).Data j = getBitWidth A.Data j := by
  unfold BitWidthAnnotator.setBitWidth getBitWidth BitWidthAnnotator.slotBits
  have h256 : (2 : Nat) ^ 8 = 256 := by norm_num
  simp only [h256]
  have hB : 0 < 2 ^ (8 * i) := by positivity
  rw [Nat.mod_eq_of_lt (setBitWidth_raw_lt A.Data w i hi hw hA)]
  obtain ⟨-, h2, h3⟩ := digit_update A.Data (2 ^ (8 * i)) w hB hw
  set X := A.Data - (A.Data / 2 ^ (8 * i) % 256) * 2 ^ (8 * i) + w * 2 ^ (8 * i) with hX
  rcases Nat.lt_or_gt_of_ne hij with hlt | hgt
  · -- the slot lies below the written one
    have hd : 2 ^ (8 * j) * 256 ∣ 2 ^ (8 * i) := by
      rw [← h256, ← pow_add]
      exact pow_dvd_pow 2 (by omega)
    rw [← Nat.mod_mul_right_div_self, ← Nat.mod_mul_right_div_self (m := A.Data),
      ← Nat.mod_mod_of_dvd X hd, ← Nat.mod_mod_of_dvd A.Data hd, h3]
  · -- the slot lies above the written one
    have hs : 2 ^ (8 * j) = 2 ^ (8 * i) * 256 * 2 ^ (8 * (j - i - 1)) := by
      rw [← h256, ← pow_add, ← pow_add]
      congr 1; omega
    rw [hs, ← Nat.div_div_eq_div_mul, ← Nat.div_div_eq_div_mul (m := A.Data), h2]



theorem applyCalls_cons (A : BitWidthAnnotator) (c : Nat × Nat) (cs : List (Nat × Nat)) :
    applyCalls A (c :: cs) = applyCalls (A.setBitWidth c.1 c.2) cs := rfl

theorem applyCalls_append (A : BitWidthAnnotator) (xs ys : List (Nat × Nat)) :
    applyCalls A (xs ++ ys) = applyCalls (applyCalls A xs) ys := by
  unfold applyCalls; rw [List.foldl_append]

theorem applyCalls_Data_lt (A : BitWidthAnnotator) (hA : A.Data < 2 ^ 64)
    (cs : List (Nat × Nat)) : (applyCalls A cs).Data < 2 ^ 64 := by
  induction cs generalizing A with
  | nil => exact hA
  | cons c cs ih => rw [applyCalls_cons]; exact ih _ (setBitWidth_Data_lt _ _ _)

theorem getBitWidth_zero (s : Nat) : getBitWidth 0 s = 0 := by
  unfold getBitWidth; simp

/-- The result loop writes the non-chain result widths to consecutive slots from
`NumDefs` on and leaves all other slots alone. -/
theorem resultCalls_spec (dag : SelectionDAG) (N : Nat) (vts : List EVT) :
    ∀ (i d : Nat) (A : BitWidthAnnotator),
      (∀ j (hj : j < vts.length), dag.getValueType (SDValue.of N (i + j)) = some vts[j]) →
      ∃ rs, resultCalls dag N vts i d = some (rs, d + (resultWidths vts).length) ∧
        rs.length = (resultWidths vts).length ∧
        (∀ c ∈ rs, d ≤ c.2 ∧ c.2 < d + (resultWidths vts).length) ∧
        (d + (resultWidths vts).length ≤ 8 → (∀ w ∈ resultWidths vts, w < 256) →
          A.Data < 2 ^ 64 →
          (∀ s, s < d ∨ d + (resultWidths vts).length ≤ s →
            getBitWidth (applyCalls A rs).Data s = getBitWidth A.Data s) ∧
          (∀ j (hj : j < (resultWidths vts).length),
            getBitWidth (applyCalls A rs).Data (d + j) = (resultWidths vts)[j])) := by
  induction vts with
  | nil =>
    intro i d A _
    refine ⟨[], by simp [resultCalls, resultWidths], by simp [resultWidths], by simp, ?_⟩
    intro _ _ _
    refine ⟨fun s _ => rfl, ?_⟩
    intro j hj; simp [resultWidths] at hj
  | cons vt rest ih =>
    intro i d A hty
    have hrest : ∀ j (hj : j < rest.length),
        dag.getValueType (SDValue.of N (i + 1 + j)) = some rest[j] := by
      intro j hj
      have := hty (j + 1) (by simp; omega)
      simpa [Nat.add_assoc, Nat.add_comm 1 j] using this
    by_cases hvt : vt = EVT.Other
    · subst hvt
      obtain ⟨rs, h1, h2, h3, h4⟩ := ih (i + 1) d A hrest
      refine ⟨rs, ?_, ?_, ?_, ?_⟩
      · simpa [resultCalls, resultWidths] using h1
      · simpa [resultWidths] using h2
      · simpa [resultWidths] using h3
      · simpa [resultWidths] using h4
    · have h0 := hty 0 (by simp)
      simp at h0
      have hw : resultWidths (vt :: rest) = vt.getSizeInBits :: resultWidths rest := by
        simp [resultWidths, hvt]
      obtain ⟨rs, h1, h2, h3, h4⟩ :=
        ih (i + 1) (d + 1) (A.setBitWidth vt.getSizeInBits d) hrest
      refine ⟨(vt.getSizeInBits, d) :: rs, ?_, ?_, ?_, ?_⟩
      · simp [resultCalls, hvt, computeSizeInBits, h0, h1, hw]
        omega
      · simp [hw, h2]
      · intro c hc
        rw [hw]
        simp only [List.mem_cons, List.length_cons] at hc ⊢
        rcases hc with rfl | hc
        · simp
        · have := h3 c hc; omega
      · intro hcap hfit hA
        rw [hw] at hcap hfit ⊢
        simp only [List.length_cons] at hcap ⊢
        have hfit0 : vt.getSizeInBits < 256 := hfit _ (by simp)
        obtain ⟨g1, g2⟩ := h4 (by omega) (fun w hw' => hfit w (by simp [hw']))
          (setBitWidth_Data_lt _ _ _)
        rw [applyCalls_cons]
        refine ⟨?_, ?_⟩
        · intro s hs
          rw [g1 s (by omega)]
          exact getBitWidth_setBitWidth_ne A _ d s (by omega) (by omega) hfit0 hA
        · intro j hj
          cases j with
          | zero =>
            simp only [Nat.add_zero, List.getElem_cons_zero]
            rw [g1 d (by omega)]
            exact getBitWidth_setBitWidth_same A _ d (by omega) hfit0 hA
          | succ j =>
            simp only [List.getElem_cons_succ]
            have := g2 j (by simpa using hj)
            rw [← this]; congr 1; omega

theorem usub_eq (a b : Nat) (h : b ≤ a) (ha : a < 2 ^ 32) : usub a b = a - b := by
  unfold usub
  have hb : b < 2 ^ 32 := lt_of_le_of_lt h ha
  rw [Nat.mod_eq_of_lt ha, Nat.mod_eq_of_lt hb]
  have : a + 2 ^ 32 - b = (a - b) + 2 ^ 32 := by omega
  rw [this, Nat.add_mod_right, Nat.mod_eq_of_lt (by omega)]

theorem valueTypes_spec (dag : SelectionDAG) (vs : List SDValue) :
    ∀ tys, valueTypes dag vs = some tys →
      tys.length = vs.length ∧
      ∀ j (hj : j < tys.length), ∃ op, vs[j]? = some op ∧ dag.getValueType op = some tys[j] := by
  induction vs with
  | nil =>
    intro tys h
    simp [valueTypes] at h
    subst h
    simp
  | cons v rest ih =>
    intro tys h
    unfold valueTypes at h
    cases hv : dag.getValueType v with
    | none => simp [hv] at h
    | some vt =>
      cases hr : valueTypes dag rest with
      | none => simp [hv, hr] at h
      | some vts =>
        simp [hv, hr] at h
        subst h
        obtain ⟨h1, h2⟩ := ih vts hr
        refine ⟨by simp [h1], ?_⟩
        intro j hj
        cases j with
        | zero => exact ⟨v, by simp, by simpa using hv⟩
        | succ j =>
          obtain ⟨op, ho1, ho2⟩ := h2 j (by simpa using hj)
          exact ⟨op, by simpa using ho1, by simpa using ho2⟩

/-- The operand loop writes the width of entry `i + j` to slot `i + j + NumDefs` unless
the entry is a chain, and leaves all other slots alone. -/
theorem operandCalls_spec (dag : SelectionDAG) (Ops : List SDValue) (k : Nat)
    (tys : List EVT) :
    ∀ (i : Nat) (A : BitWidthAnnotator),
      (∀ j (hj : j < tys.length), ∃ op, Ops[i + j]? = some op ∧
        dag.getValueType op = some tys[j]) →
      ∃ os, operandCalls dag Ops k tys.length i = some os ∧
        os.length ≤ tys.length ∧
        (∀ c ∈ os, ∃ j, j < tys.length ∧ c.2 = i + j + k) ∧
        (i + k + tys.length ≤ 8 → (∀ t ∈ tys, t.getSizeInBits < 256) →
          A.Data < 2 ^ 64 → (∀ s, i + k ≤ s → getBitWidth A.Data s = 0) →
          (∀ s, s < i + k → getBitWidth (applyCalls A os).Data s = getBitWidth A.Data s) ∧
          (∀ j (hj : j < tys.length),
            getBitWidth (applyCalls A os).Data (i + k + j) =
              if tys[j] = EVT.Other then 0 else tys[j].getSizeInBits)) := by
  induction tys with
  | nil =>
    intro i A _
    refine ⟨[], by simp [operandCalls], by simp, by simp, ?_⟩
    intro _ _ _ _
    exact ⟨fun s _ => rfl, fun j hj => by simp at hj⟩
  | cons t rest ih =>
    intro i A hty
    have hrest : ∀ j (hj : j < rest.length), ∃ op, Ops[i + 1 + j]? = some op ∧
        dag.getValueType op = some rest[j] := by
      intro j hj
      obtain ⟨op, h1, h2⟩ := hty (j + 1) (by simp; omega)
      refine ⟨op, ?_, by simpa using h2⟩
      rw [← h1]; congr 1; omega
    obtain ⟨op0, ho1, ho2⟩ := hty 0 (by simp)
    simp only [Nat.add_zero, List.getElem_cons_zero] at ho1 ho2
    by_cases ht : t = EVT.Other
    · subst ht
      obtain ⟨os, h1, h2, h3, h4⟩ := ih (i + 1) A hrest
      refine ⟨os, ?_, ?_, ?_, ?_⟩
      · simp [operandCalls, ho1, ho2, h1]
      · simp; omega
      · intro c hc
        obtain ⟨j, hj, hc⟩ := h3 c hc
        exact ⟨j + 1, by simpa using hj, by omega⟩
      · intro hcap hfit hA hz
        simp only [List.length_cons] at hcap
        obtain ⟨g1, g2⟩ := h4 (by omega) (fun t' ht' => hfit t' (by simp [ht'])) hA
          (fun s hs => hz s (by omega))
        refine ⟨fun s hs => g1 s (by omega), ?_⟩
        intro j hj
        cases j with
        | zero =>
          simp only [Nat.add_zero, List.getElem_cons_zero, if_true]
          rw [g1 (i + k) (by omega)]
          exact hz _ (le_refl _)
        | succ j =>
          simp only [List.getElem_cons_succ]
          have := g2 j (by simpa using hj)
          rw [← this]; congr 1; omega
    · obtain ⟨os, h1, h2, h3, h4⟩ :=
        ih (i + 1) (A.setBitWidth t.getSizeInBits (i + k)) hrest
      refine ⟨(t.getSizeInBits, i + k) :: os, ?_, ?_, ?_, ?_⟩
      · simp [operandCalls, ho1, ho2, h1, ht]
      · simp; omega
      · intro c hc
        simp only [List.mem_cons] at hc
        rcases hc with rfl | hc
        · exact ⟨0, by simp, by simp⟩
        · obtain ⟨j, hj, hc⟩ := h3 c hc
          exact ⟨j + 1, by simpa using hj, by omega⟩
      · intro hcap hfit hA hz
        simp only [List.length_cons] at hcap
        have hfit0 : t.getSizeInBits < 256 := hfit _ (by simp)
        obtain ⟨g1, g2⟩ := h4 (by omega) (fun t' ht' => hfit t' (by simp [ht']))
          (setBitWidth_Data_lt _ _ _)
          (fun s hs => by
            rw [getBitWidth_setBitWidth_ne A _ (i + k) s (by omega) (by omega) hfit0 hA]
            exact hz s (by omega))
        rw [applyCalls_cons]
        refine ⟨?_, ?_⟩
        · intro s hs
          rw [g1 s (by omega)]
          exact getBitWidth_setBitWidth_ne A _ (i + k) s (by omega) (by omega) hfit0 hA
        · intro j hj
          cases j with
          | zero =>
            simp only [Nat.add_zero, List.getElem_cons_zero, if_neg ht]
            rw [g1 (i + k) (by omega)]
            exact getBitWidth_setBitWidth_same A _ (i + k) (by omega) hfit0 hA
          | succ j =>
            simp only [List.getElem_cons_succ]
            have := g2 j (by simpa using hj)
            rw [← this]; congr 1; omega

theorem getValueType_of_getNode (dag : SelectionDAG) (N : Nat) (n : SDNode)
    (hN : dag.getNode N = some n) (j : Nat) (hj : j < n.vts.length) :
    dag.getValueType (SDValue.of N (0 + j)) = some n.vts[j] := by
  simp [SelectionDAG.getValueType, SelectionDAG.nodeOf, SDValue.of, hN, hj]

theorem take_getElem?_of_valueTypes (dag : SelectionDAG) (Ops : List SDValue) (t : Nat)
    (tys : List EVT) (hT : valueTypes dag (Ops.take t) = some tys) (m : Nat)
    (j : Nat) (hj : j < (tys.take m).length) :
    ∃ op, Ops[0 + j]? = some op ∧ dag.getValueType op = some (tys.take m)[j] := by
  obtain ⟨h1, h2⟩ := valueTypes_spec dag _ tys hT
  rw [List.length_take] at hj h1
  have hj' : j < tys.length := by omega
  obtain ⟨op, ho1, ho2⟩ := h2 j hj'
  refine ⟨op, ?_, ?_⟩
  · rw [List.getElem?_take] at ho1
    have hjt : j < t := by omega
    simpa [hjt] using ho1
  · rw [ho2]; simp

/-! ### The call lists in closed form -/

theorem resultCalls_eq (dag : SelectionDAG) (N : Nat) (vts : List EVT) :
    ∀ (i d : Nat),
      (∀ j (hj : j < vts.length), dag.getValueType (SDValue.of N (i + j)) = some vts[j]) →
      resultCalls dag N vts i d
        = some (resultCallList vts d, d + (resultWidths vts).length) := by
  induction vts with
  | nil => intro i d _; simp [resultCalls, resultCallList, resultWidths]
  | cons vt rest ih =>
    intro i d hty
    have hrest : ∀ j (hj : j < rest.length),
        dag.getValueType (SDValue.of N (i + 1 + j)) = some rest[j] := by
      intro j hj
      have := hty (j + 1) (by simp; omega)
      simpa [Nat.add_assoc, Nat.add_comm 1 j] using this
    by_cases hvt : vt = EVT.Other
    · subst hvt
      simpa [resultCalls, resultCallList, resultWidths] using ih (i + 1) d hrest
    · have h0 := hty 0 (by simp)
      simp at h0
      have hw : resultWidths (vt :: rest) = vt.getSizeInBits :: resultWidths rest := by
        simp [resultWidths, hvt]
      simp [resultCalls, resultCallList, hvt, computeSizeInBits, h0, ih (i + 1) (d + 1) hrest, hw]
      omega

theorem operandCalls_eq (dag : SelectionDAG) (Ops : List SDValue) (k : Nat)
    (tys : List EVT) :
    ∀ (i : Nat),
      (∀ j (hj : j < tys.length), ∃ op, Ops[i + j]? = some op ∧
        dag.getValueType op = some tys[j]) →
      operandCalls dag Ops k tys.length i = some (operandCallList tys k i) := by
  induction tys with
  | nil => intro i _; simp [operandCalls, operandCallList]
  | cons t rest ih =>
    intro i hty
    have hrest : ∀ j (hj : j < rest.length), ∃ op, Ops[i + 1 + j]? = some op ∧
        dag.getValueType op = some rest[j] := by
      intro j hj
      obtain ⟨op, h1, h2⟩ := hty (j + 1) (by simp; omega)
      refine ⟨op, ?_, by simpa using h2⟩
      rw [← h1]; congr 1; omega
    obtain ⟨op0, ho1, ho2⟩ := hty 0 (by simp)
    simp only [Nat.add_zero, List.getElem_cons_zero] at ho1 ho2
    by_cases ht : t = EVT.Other
    · subst ht
      simp [operandCalls, operandCallList, ho1, ho2, ih (i + 1) hrest]
    · simp [operandCalls, operandCallList, ho1, ho2, ih (i + 1) hrest, ht]

/-- The result of `computeOperandsBitWidth` in closed form: the annotation constant is
appended to the DAG and put in the placeholder slot. -/
theorem computeOperandsBitWidth_eq (dag : SelectionDAG) (N : Nat) (n : SDNode)
    (Ops : List SDValue) (NumOps : Nat) (tys : List EVT)
    (hN : dag.getNode N = some n)
    (h2 : 2 ≤ NumOps) (hle : NumOps ≤ Ops.length) (h32 : NumOps < 2 ^ 32)
    (hT : valueTypes dag (Ops.take (NumOps - 2)) = some tys) :
    annotationCalls dag N Ops NumOps
      = some (resultCallList n.vts 0 ++
          operandCallList
            (tys.take (min (NumOps - 2) (usub BitWidthAnnotator.size (resultWidths n.vts).length)))
            (resultWidths n.vts).length 0) ∧
    computeOperandsBitWidth dag N Ops NumOps
      = some (⟨dag.nodes ++ [⟨NodeKind.Constant true
                (applyCalls ⟨0⟩ (resultCallList n.vts 0 ++
                  operandCallList
                    (tys.take (min (NumOps - 2)
                      (usub BitWidthAnnotator.size (resultWidths n.vts).length)))
                    (resultWidths n.vts).length 0)).get, [], [EVT.i64], []⟩], dag.root⟩,
          Ops.set (NumOps - 2) (SDValue.of dag.nodes.length 0),
          applyCalls ⟨0⟩ (resultCallList n.vts 0 ++
            operandCallList
              (tys.take (min (NumOps - 2)
                (usub BitWidthAnnotator.size (resultWidths n.vts).length)))
              (resultWidths n.vts).length 0)) := by
  obtain ⟨k, hk⟩ : ∃ k, k = (resultWidths n.vts).length := ⟨_, rfl⟩
  rw [← hk]
  obtain ⟨m, hm⟩ : ∃ m, m = usub BitWidthAnnotator.size k := ⟨_, rfl⟩
  rw [← hm]
  have htl : tys.length = NumOps - 2 := by
    have := (valueTypes_spec dag _ tys hT).1
    rw [this, List.length_take]; omega
  have r1 := resultCalls_eq dag N n.vts 0 0 (getValueType_of_getNode dag N n hN)
  rw [← hk, Nat.zero_add] at r1
  have hop := take_getElem?_of_valueTypes dag Ops (NumOps - 2) tys hT (min (NumOps - 2) m)
  have o1 := operandCalls_eq dag Ops k (tys.take (min (NumOps - 2) m)) 0 hop
  have hlen : (tys.take (min (NumOps - 2) m)).length = min (NumOps - 2) m := by
    rw [List.length_take]; omega
  rw [hlen] at o1
  have e1 : usub NumOps 1 = NumOps - 1 := usub_eq _ _ (by omega) h32
  have e2 : usub (NumOps - 1) 1 = NumOps - 2 := by
    rw [usub_eq _ _ (by omega) (by omega)]; rfl
  have hcalls : annotationCalls dag N Ops NumOps
      = some (resultCallList n.vts 0 ++ operandCallList (tys.take (min (NumOps - 2) m)) k 0) := by
    unfold annotationCalls
    simp only [hN, e1]
    rewrite [e2, r1]
    simp only [← hm, o1]
  refine ⟨hcalls, ?_⟩
  unfold computeOperandsBitWidth
  rw [hcalls]
  simp only [e1, e2]
  rw [if_pos (show NumOps - 2 < Ops.length by omega)]
  rfl

/-! ### The arena -/

theorem getNode_append_left (l extra : List SDNode) (r : SDValue) (i : Nat) (n : SDNode)
    (h : (SelectionDAG.mk l r).getNode i = some n) :
    (SelectionDAG.mk (l ++ extra) r).getNode i = some n := by
  simp only [SelectionDAG.getNode] at h ⊢
  have hi : i < l.length := by
    by_contra hc
    rw [List.getElem?_eq_none (by omega)] at h
    exact Option.noConfusion h
  rw [List.getElem?_append_left hi]; exact h

theorem getNode_append_right (l extra : List SDNode) (r : SDValue) (j : Nat) :
    (SelectionDAG.mk (l ++ extra) r).getNode (l.length + j) = extra[j]? := by
  simp only [SelectionDAG.getNode]
  rw [List.getElem?_append_right (by omega)]
  congr 1; omega

theorem getValueType_append_left (l extra : List SDNode) (r : SDValue) (v : SDValue)
    (vt : EVT) (h : (SelectionDAG.mk l r).getValueType v = some vt) :
    (SelectionDAG.mk (l ++ extra) r).getValueType v = some vt := by
  unfold SelectionDAG.getValueType SelectionDAG.nodeOf at h ⊢
  cases hv : v.node with
  | none => simp [hv] at h
  | some N =>
    simp only [hv] at h ⊢
    cases hn : (SelectionDAG.mk l r).getNode N with
    | none => simp [hn] at h
    | some n =>
      rw [getNode_append_left l extra r N n hn]
      simpa [hn] using h

theorem getValueType_append_right (l extra : List SDNode) (r : SDValue) (j : Nat)
    (n : SDNode) (h : extra[j]? = some n) (i : Nat) :
    (SelectionDAG.mk (l ++ extra) r).getValueType (SDValue.of (l.length + j) i)
      = n.vts[i]? := by
  simp [SelectionDAG.getValueType, SelectionDAG.nodeOf, SDValue.of,
    getNode_append_right, h]

theorem dag_eta (dag : SelectionDAG) : SelectionDAG.mk dag.nodes dag.root = dag := rfl

/-- With `annotationOf`: the closed form of `computeOperandsBitWidth`. -/
theorem computeOperandsBitWidth_eq_annotationOf (dag : SelectionDAG) (N : Nat) (n : SDNode)
    (Ops : List SDValue) (NumOps : Nat) (tys : List EVT)
    (hN : dag.getNode N = some n)
    (h2 : 2 ≤ NumOps) (hle : NumOps ≤ Ops.length) (h32 : NumOps < 2 ^ 32)
    (hT : valueTypes dag (Ops.take (NumOps - 2)) = some tys) :
    computeOperandsBitWidth dag N Ops NumOps
      = some (⟨dag.nodes ++ [⟨NodeKind.Constant true (annotationOf n.vts tys).get, [],
                [EVT.i64], []⟩], dag.root⟩,
          Ops.set (NumOps - 2) (SDValue.of dag.nodes.length 0),
          annotationOf n.vts tys) := by
  have htl : tys.length = NumOps - 2 := by
    have := (valueTypes_spec dag _ tys hT).1
    rw [this, List.length_take]; omega
  rw [(computeOperandsBitWidth_eq dag N n Ops NumOps tys hN h2 hle h32 hT).2]
  unfold annotationOf
  rw [htl]

/-- A forced `SelectImmediate` appends the four nodes of the move and returns the
`VOpMove_ri` node. -/
theorem SelectImmediate_force (dag : SelectionDAG) (N : Nat) (n imm : SDNode)
    (hN : dag.getNode N = some n) (himm : targetImmediate n = some imm) :
    SelectImmediate dag N true
      = some (⟨dag.nodes ++ moveImmediateNodes dag.nodes.length n imm, dag.root⟩,
          some (dag.nodes.length + 3)) := by
  obtain ⟨vt, hvt, hivt⟩ : ∃ vt, n.vts[0]? = some vt ∧ imm.vts = [vt] := by
    unfold targetImmediate at himm
    cases hv : n.vts[0]? with
    | none => cases hk : n.kind <;> simp [hk, hv] at himm
    | some vt =>
      refine ⟨vt, rfl, ?_⟩
      cases hk : n.kind <;> simp [hk, hv] at himm <;> subst himm <;> rfl
  have key : SelectImmediate.emit (⟨dag.nodes ++ [imm], dag.root⟩,
        SDValue.of dag.nodes.length 0) N n.vts true
      = some (⟨dag.nodes ++ moveImmediateNodes dag.nodes.length n imm, dag.root⟩,
          some (dag.nodes.length + 3)) := by
    unfold SelectImmediate.emit
    simp only [SelectionDAG.getTargetConstant, SelectionDAG.addNode, List.append_assoc,
      List.singleton_append, List.length_append, List.length_singleton]
    have hN2 : (SelectionDAG.mk (dag.nodes ++
        [imm, ⟨NodeKind.Constant true 0, [], [EVT.i64], []⟩]) dag.root).getNode N = some n :=
      getNode_append_left _ _ _ _ _ hN
    have hT : valueTypes (SelectionDAG.mk (dag.nodes ++
        [imm, ⟨NodeKind.Constant true 0, [], [EVT.i64], []⟩]) dag.root)
        (List.take (3 - 2) [SDValue.of dag.nodes.length 0, SDValue.null,
          SDValue.of (dag.nodes.length + 1) 0]) = some [vt] := by
      have : (SelectionDAG.mk (dag.nodes ++
          [imm, ⟨NodeKind.Constant true 0, [], [EVT.i64], []⟩]) dag.root).getValueType
          (SDValue.of dag.nodes.length 0) = some vt := by
        have := getValueType_append_right dag.nodes
          [imm, ⟨NodeKind.Constant true 0, [], [EVT.i64], []⟩] dag.root 0 imm rfl 0
        rw [Nat.add_zero] at this
        rw [this, hivt]; rfl
      simp [valueTypes, this]
    rw [computeOperandsBitWidth_eq_annotationOf _ N n _ 3 [vt] hN2 (by norm_num) (by simp)
      (by norm_num) hT]
    simp [SelectionDAG.getMachineNode, SelectionDAG.addNode, moveImmediateNodes, hivt,
      SDValue.of]
  unfold SelectImmediate
  rw [hN]
  unfold targetImmediate at himm
  cases hk : n.kind <;> simp only [hk, hvt] at himm ⊢
  all_goals first
    | exact Option.noConfusion himm
    | (simp only [Option.some.injEq] at himm
       subst himm
       simpa [SelectionDAG.getTargetConstant, SelectionDAG.getTargetExternalSymbol,
         SelectionDAG.getTargetGlobalAddress, SelectionDAG.addNode] using key)

theorem SelectImmediate_force_none (dag : SelectionDAG) (N : Nat) (n : SDNode)
    (hN : dag.getNode N = some n) (himm : targetImmediate n = none) :
    SelectImmediate dag N true = none := by
  unfold SelectImmediate
  rw [hN]
  unfold targetImmediate at himm
  cases hv : n.vts[0]? <;> cases hk : n.kind <;> simp [hk, hv] at himm ⊢

/-- The closed form of `MoveToReg(Operand, true)` on an operand of the DAG. -/
theorem MoveToReg_eq (dag : SelectionDAG) (v : SDValue) (h : dag.isOperand v = true) :
    MoveToReg dag v true = some (afterMove dag v, (materialize dag v).2) := by
  unfold SelectionDAG.isOperand at h
  unfold afterMove MoveToReg materialize
  cases hn : dag.nodeOf v with
  | none => simp [hn] at h
  | some n =>
    have hn' := hn
    unfold SelectionDAG.nodeOf at hn'
    cases hv : v.node with
    | none => simp [hv] at hn'
    | some N =>
      simp only [hv] at hn'
      simp only [hn, Bool.and_eq_true, Option.isSome_iff_exists, Bool.or_eq_true,
        Bool.not_eq_true', beq_iff_eq] at h
      obtain ⟨⟨vt, hvt⟩, hres⟩ := h
      simp only [Bool.not_true, Bool.false_eq_true, if_false, hn']
      cases hs : shouldMoveToReg n with
      | false => simp [dag_eta]
      | true =>
        have hres : v.resNo = 0 := by
          rcases hres with h' | h'
          · rw [hs] at h'; exact Bool.noConfusion h'
          · exact h'
        simp only [Bool.not_true, Bool.false_eq_true, if_false, if_true]
        cases hi : targetImmediate n with
        | none =>
          exfalso
          unfold targetImmediate at hi
          rw [hres] at hvt
          unfold shouldMoveToReg at hs
          cases hk : n.kind <;>
            simp [hk, hvt, NodeKind.isConstant, NodeKind.isExternalSymbol] at hi hs
        | some imm =>
          rw [SelectImmediate_force dag N n imm hn' hi]
          rfl

/-- The value `MoveToReg` returns has the type of the operand. -/
theorem getValueType_materialize (dag : SelectionDAG) (v : SDValue) (vt : EVT)
    (h : dag.isOperand v = true) (hvt : dag.getValueType v = some vt) :
    (afterMove dag v).getValueType (materialize dag v).2 = some vt := by
  unfold SelectionDAG.isOperand at h
  unfold afterMove materialize
  cases hn : dag.nodeOf v with
  | none => simp [hn] at h
  | some n =>
    simp only [hn, Bool.and_eq_true, Bool.or_eq_true, Bool.not_eq_true', beq_iff_eq] at h
    simp only []
    cases hs : shouldMoveToReg n with
    | false => simpa [dag_eta] using hvt
    | true =>
      have hres : v.resNo = 0 := by
        rcases h.2 with h' | h'
        · rw [hs] at h'; exact Bool.noConfusion h'
        · exact h'
      simp only [if_true]
      have hvt' : n.vts[0]? = some vt := by
        unfold SelectionDAG.getValueType at hvt
        rw [hn, hres] at hvt
        exact hvt
      cases hi : targetImmediate n with
      | none => simpa [dag_eta] using hvt
      | some imm =>
        have := getValueType_append_right dag.nodes
          (moveImmediateNodes dag.nodes.length n imm) dag.root 3 _ rfl 0
        simp only []
        rw [this]
        exact hvt'

/-- The closed form of `buildBitSlice`. -/
theorem buildBitSlice_eq (T : VTarget) (dag : SelectionDAG) (N SizeOfN UB LB : Nat)
    (n : SDNode) (hN : dag.getNode N = some n) :
    buildBitSlice T dag N SizeOfN UB LB
      = some (⟨dag.nodes ++ bitSliceNodes T dag.nodes.length N SizeOfN UB LB, dag.root⟩,
          dag.nodes.length + 4) := by
  unfold buildBitSlice
  rw [hN]
  simp [SelectionDAG.getTargetConstant, SelectionDAG.getMachineNode, SelectionDAG.addNode,
    bitSliceNodes, bitSliceWidths, SDValue.of, Nat.add_assoc]

theorem nodeOf_append_left (l extra : List SDNode) (r : SDValue) (v : SDValue) (n : SDNode)
    (h : (SelectionDAG.mk l r).nodeOf v = some n) :
    (SelectionDAG.mk (l ++ extra) r).nodeOf v = some n := by
  unfold SelectionDAG.nodeOf at h ⊢
  cases hv : v.node with
  | none => simp [hv] at h
  | some N =>
    simp only [hv] at h ⊢
    exact getNode_append_left l extra r N n h

theorem isOperand_append (l extra : List SDNode) (r : SDValue) (v : SDValue)
    (h : (SelectionDAG.mk l r).isOperand v = true) :
    (SelectionDAG.mk (l ++ extra) r).isOperand v = true := by
  unfold SelectionDAG.isOperand at h ⊢
  cases hn : (SelectionDAG.mk l r).nodeOf v with
  | none => simp [hn] at h
  | some n =>
    rw [nodeOf_append_left l extra r v n hn]
    simpa [hn] using h

theorem isOperand_afterMove (dag : SelectionDAG) (u v : SDValue)
    (h : dag.isOperand v = true) : (afterMove dag u).isOperand v = true :=
  isOperand_append dag.nodes _ dag.root v h

theorem getNode_afterMove (dag : SelectionDAG) (u : SDValue) (N : Nat) (n : SDNode)
    (h : dag.getNode N = some n) : (afterMove dag u).getNode N = some n :=
  getNode_append_left dag.nodes _ dag.root N n h

theorem getValueType_afterMove (dag : SelectionDAG) (u v : SDValue) (vt : EVT)
    (h : dag.getValueType v = some vt) : (afterMove dag u).getValueType v = some vt :=
  getValueType_append_left dag.nodes _ dag.root v vt h

/-- The closed form of the node construction of `SelectAdd`. -/
theorem SelectAdd_build_eq (T : VTarget) (dag : SelectionDAG) (N : Nat) (n : SDNode)
    (op0 op1 op2 : SDValue) (vt : EVT)
    (hN : dag.getNode N = some n)
    (h0 : n.ops[0]? = some op0) (h1 : n.ops[1]? = some op1) (h2 : n.ops[2]? = some op2)
    (hw0 : dag.isOperand op0 = true) (hw1 : dag.isOperand op1 = true)
    (hvt : dag.getValueType op0 = some vt) :
    SelectAdd.build T dag N
      = some (SelectAdd.result T dag op0 op1 op2 vt.getSizeInBits,
          (afterMove (afterMove dag op0) op1).nodes.length + 2,
          (afterMove (afterMove dag op0) op1).nodes.length + 7,
          (afterMove (afterMove dag op0) op1).nodes.length + 12) := by
  have hw1' := isOperand_afterMove dag op0 op1 hw1
  have hl := getValueType_materialize dag op0 vt hw0 hvt
  have hl2 := getValueType_afterMove (afterMove dag op0) op1 _ vt hl
  obtain ⟨d2, hd2⟩ : ∃ d2, d2 = afterMove (afterMove dag op0) op1 := ⟨_, rfl⟩
  have hroot : d2.root = dag.root := by rw [hd2]; rfl
  unfold SelectAdd.result
  rw [← hd2] at hl2 ⊢
  unfold SelectAdd.build
  rw [hN]
  simp only [h0, h1, h2]
  rw [MoveToReg_eq dag op0 hw0]
  simp only []
  rw [MoveToReg_eq _ op1 hw1', ← hd2]
  simp only []
  have hsz : computeSizeInBits (d2.getTargetConstant 0 EVT.i64).1 (materialize dag op0).2
      = some vt.getSizeInBits := by
    unfold computeSizeInBits
    have := getValueType_append_left d2.nodes [⟨NodeKind.Constant true 0, [], [EVT.i64], []⟩]
      d2.root _ vt hl2
    simp only [SelectionDAG.getTargetConstant, SelectionDAG.addNode]
    rw [this]
  rw [hsz]
  simp only [updateBitWidthAnnotator, SelectionDAG.getTargetConstant,
    SelectionDAG.getMachineNode, SelectionDAG.addNode, List.length_append,
    List.length_singleton, List.append_assoc, List.singleton_append, List.length_cons,
    List.length_nil]
  have hadd : ∀ x : SDNode,
      (SelectionDAG.mk (d2.nodes ++ [⟨NodeKind.Constant true 0, [], [EVT.i64], []⟩,
        ⟨NodeKind.Constant true (addWidths vt.getSizeInBits).get, [], [EVT.i64], []⟩,
        x]) d2.root).getNode (d2.nodes.length + 2) = some x := by
    intro x
    exact getNode_append_right d2.nodes [⟨NodeKind.Constant true 0, [], [EVT.i64], []⟩,
        ⟨NodeKind.Constant true (addWidths vt.getSizeInBits).get, [], [EVT.i64], []⟩,
        x] d2.root 2
  simp only [Nat.zero_add, Nat.reduceAdd, Nat.reduceSub, List.set_cons_succ,
    List.set_cons_zero, List.cons_append, List.nil_append]
  rw [show (((((BitWidthAnnotator.mk 0).setBitWidth (vt.getSizeInBits + 1) 0).setBitWidth
      vt.getSizeInBits 1).setBitWidth vt.getSizeInBits 2).setBitWidth 1 3)
      = addWidths vt.getSizeInBits from rfl]
  rw [buildBitSlice_eq T _ _ _ _ _ _ (hadd _)]
  simp only []
  rw [buildBitSlice_eq T _ _ _ _ _ _ (getNode_append_left _ _ _ _ _ (hadd _))]
  simp only [SelectAdd.nodes, List.length_append, List.length_cons, List.length_nil,
    List.append_assoc, List.cons_append, List.nil_append, Nat.zero_add, Nat.reduceAdd,
    bitSliceNodes, Nat.add_assoc, hroot]

/-- C1 (amended): for a node with `k` non-chain results and an operand array with `t`
entries before the placeholder slot, `k + t ≤ size()`, all widths fitting one slot,
`computeOperandsBitWidth` succeeds and the returned annotation decodes in its first
`k + t` slots to the `k` result widths followed, entry by entry, by the width of each
of the `t` entries, a chain entry reading as the unset width 0.  When no entry is a
chain this is the result widths followed by the operand widths. -/
theorem computeOperandsBitWidth_round_trip (dag : SelectionDAG) (N : Nat) (n : SDNode)
    (Ops : List SDValue) (NumOps : Nat) (tys : List EVT)
    (hN : dag.getNode N = some n)
    (h2 : 2 ≤ NumOps) (hle : NumOps ≤ Ops.length) (h32 : NumOps < 2 ^ 32)
    (hT : valueTypes dag (Ops.take (NumOps - 2)) = some tys)
    (hcap : (resultWidths n.vts).length + tys.length ≤ BitWidthAnnotator.size)
    (hfitR : ∀ w ∈ resultWidths n.vts, w < 2 ^ BitWidthAnnotator.slotBits)
    (hfitO : ∀ t ∈ tys, t.getSizeInBits < 2 ^ BitWidthAnnotator.slotBits) :
    ∃ dag' Ops' A, computeOperandsBitWidth dag N Ops NumOps = some (dag', Ops', A) ∧
      decodeSlots A.get ((resultWidths n.vts).length + tys.length) =
        resultWidths n.vts ++
          tys.map (fun t => if t = EVT.Other then 0 else t.getSizeInBits) := by
  have hsz : BitWidthAnnotator.size = 8 := rfl
  have hsb : (2 : Nat) ^ BitWidthAnnotator.slotBits = 256 := by
    norm_num [BitWidthAnnotator.slotBits]
  rw [hsz] at hcap
  rw [hsb] at hfitR hfitO
  obtain ⟨k, hk⟩ : ∃ k, k = (resultWidths n.vts).length := ⟨_, rfl⟩
  rw [← hk] at hcap
  have htl : tys.length = NumOps - 2 := by
    have := (valueTypes_spec dag _ tys hT).1
    rw [this, List.length_take]; omega
  obtain ⟨rs, r1, r2, r3, r4⟩ :=
    resultCalls_spec dag N n.vts 0 0 ⟨0⟩ (getValueType_of_getNode dag N n hN)
  have hop := take_getElem?_of_valueTypes dag Ops (NumOps - 2) tys hT tys.length
  rw [List.take_length] at hop
  obtain ⟨os, o1, o2, o3, o4⟩ := operandCalls_spec dag Ops k tys 0 (applyCalls ⟨0⟩ rs) hop
  have hA0 : (⟨0⟩ : BitWidthAnnotator).Data < 2 ^ 64 := by norm_num
  rw [← hk] at r1 r2 r3
  simp only [Nat.zero_add] at r1 r3 r4 o3 o4
  obtain ⟨g1, g2⟩ := r4 (by omega) hfitR hA0
  obtain ⟨f1, f2⟩ := o4 (by omega) hfitO (applyCalls_Data_lt _ hA0 rs)
    (fun s hs => by rw [g1 s (Or.inr (by omega))]; exact getBitWidth_zero s)
  have e1 : usub NumOps 1 = NumOps - 1 := usub_eq _ _ (by omega) h32
  have e2 : usub (NumOps - 1) 1 = NumOps - 2 := by
    rw [usub_eq _ _ (by omega) (by omega)]; rfl
  have e3 : usub BitWidthAnnotator.size k = 8 - k := by
    rw [hsz, usub_eq _ _ (by omega) (by norm_num)]
  have hmin : min (NumOps - 2) (8 - k) = tys.length := by omega
  have hcalls : annotationCalls dag N Ops NumOps = some (rs ++ os) := by
    unfold annotationCalls
    simp only [hN, e1]
    rewrite [e2, r1]
    simp only [e3, hmin, o1]
  have hres : computeOperandsBitWidth dag N Ops NumOps =
      some ((dag.getTargetConstant (applyCalls ⟨0⟩ (rs ++ os)).get EVT.i64).1,
        Ops.set (NumOps - 2) (dag.getTargetConstant (applyCalls ⟨0⟩ (rs ++ os)).get EVT.i64).2,
        applyCalls ⟨0⟩ (rs ++ os)) := by
    unfold computeOperandsBitWidth
    rw [hcalls]
    simp only [e1, e2]
    rw [if_pos (show NumOps - 2 < Ops.length by omega)]
  refine ⟨_, _, _, hres, ?_⟩
  · apply List.ext_getElem
    · simp [decodeSlots, ← hk]
    · intro j hj1 hj2
      simp only [decodeSlots, List.getElem_map, List.getElem_range, BitWidthAnnotator.get]
      rw [applyCalls_append]
      by_cases hjk : j < k
      · rw [List.getElem_append_left (by omega), f1 j hjk, g2 j (by omega)]
      · rw [List.getElem_append_right (by omega)]
        simp only [List.getElem_map]
        simp only [decodeSlots, List.length_map, List.length_range] at hj1
        have := f2 (j - k) (by omega)
        have hjk2 : k + (j - k) = j := by omega
        rw [hjk2] at this
        simp only [← hk]
        rw [this]

/-- Witness for C1: one 8 bit result, operands of 16 and 32 bits. -/
theorem computeOperandsBitWidth_round_trip_witness :
    ∃ dag' Ops' A, computeOperandsBitWidth exRoundTripDag 0 exRoundTripOps 4
        = some (dag', Ops', A) ∧
      decodeSlots A.get (1 + 2) = [8] ++ [16, 32] :=
  computeOperandsBitWidth_round_trip exRoundTripDag 0
    ⟨NodeKind.Generic ISDOpcode.SELECT, [], [EVT.Int 8], []⟩ exRoundTripOps 4
    [EVT.Int 16, EVT.Int 32] rfl (by decide) (by decide) (by norm_num) rfl (by decide)
    (by decide) (by decide)

/-- C1 as stated fails: with one 8 bit result and an operand array holding one
non-chain operand (16 bits) behind a chain operand, the first `1 + 1` slots of the
returned annotation are not the result width followed by the operand width. -/
theorem computeOperandsBitWidth_round_trip_counterexample :
    valueTypes exRoundTripDag (exChainOps.take 2) = some [EVT.Other, EVT.Int 16] ∧
    resultWidths [EVT.Other, EVT.Int 16] = [16] ∧
    ∃ dag' Ops' A, computeOperandsBitWidth exRoundTripDag 0 exChainOps 4
        = some (dag', Ops', A) ∧
      decodeSlots A.get (1 + 1) = [8, 0] ∧
      decodeSlots A.get (1 + 1) ≠ [8] ++ [16] := by
  refine ⟨rfl, rfl, _, _, _, rfl, ?_, ?_⟩ <;> decide

/-- C8 (amended): for a node with at most `size()` non-chain results and an operand
array of counted length at least 2 whose entries before the placeholder are values of
the DAG, `computeOperandsBitWidth` does not fail; its `setBitWidth` calls are the `k`
result calls followed by at most `size() - k` operand calls, each operand call is for
an array index below `size() - k` and writes slot `k + index`, and every call writes a
slot below `size()`. -/
theorem computeOperandsBitWidth_capacity_cap (dag : SelectionDAG) (N : Nat) (n : SDNode)
    (Ops : List SDValue) (NumOps : Nat) (tys : List EVT)
    (hN : dag.getNode N = some n)
    (hk : (resultWidths n.vts).length ≤ BitWidthAnnotator.size)
    (h2 : 2 ≤ NumOps) (hle : NumOps ≤ Ops.length) (h32 : NumOps < 2 ^ 32)
    (hT : valueTypes dag (Ops.take (NumOps - 2)) = some tys) :
    ∃ rs os dag' Ops',
      annotationCalls dag N Ops NumOps = some (rs ++ os) ∧
      computeOperandsBitWidth dag N Ops NumOps
        = some (dag', Ops', applyCalls ⟨0⟩ (rs ++ os)) ∧
      rs.length = (resultWidths n.vts).length ∧
      os.length ≤ BitWidthAnnotator.size - (resultWidths n.vts).length ∧
      (∀ c ∈ os, ∃ i, i < BitWidthAnnotator.size - (resultWidths n.vts).length ∧
        i < NumOps - 2 ∧ c.2 = (resultWidths n.vts).length + i) ∧
      (∀ c ∈ rs ++ os, c.2 < BitWidthAnnotator.size) := by
  have hsz : BitWidthAnnotator.size = 8 := rfl
  rw [hsz] at hk ⊢
  obtain ⟨k, hkk⟩ : ∃ k, k = (resultWidths n.vts).length := ⟨_, rfl⟩
  rw [← hkk] at hk ⊢
  have htl : tys.length = NumOps - 2 := by
    have := (valueTypes_spec dag _ tys hT).1
    rw [this, List.length_take]; omega
  obtain ⟨rs, r1, r2, r3, -⟩ :=
    resultCalls_spec dag N n.vts 0 0 ⟨0⟩ (getValueType_of_getNode dag N n hN)
  rw [← hkk] at r1 r2 r3
  have hop := take_getElem?_of_valueTypes dag Ops (NumOps - 2) tys hT
    (min (NumOps - 2) (8 - k))
  obtain ⟨os, o1, o2, o3, -⟩ :=
    operandCalls_spec dag Ops k (tys.take (min (NumOps - 2) (8 - k))) 0
      (applyCalls ⟨0⟩ rs) hop
  have hlen : (tys.take (min (NumOps - 2) (8 - k))).length = min (NumOps - 2) (8 - k) := by
    rw [List.length_take]; omega
  rw [hlen] at o1 o2 o3
  simp only [Nat.zero_add] at r1 r3 o3
  have e1 : usub NumOps 1 = NumOps - 1 := usub_eq _ _ (by omega) h32
  have e2 : usub (NumOps - 1) 1 = NumOps - 2 := by
    rw [usub_eq _ _ (by omega) (by omega)]; rfl
  have e3 : usub BitWidthAnnotator.size k = 8 - k := by
    rw [hsz, usub_eq _ _ (by omega) (by norm_num)]
  have hcalls : annotationCalls dag N Ops NumOps = some (rs ++ os) := by
    unfold annotationCalls
    simp only [hN, e1]
    rewrite [e2, r1]
    simp only [e3, o1]
  have hres : computeOperandsBitWidth dag N Ops NumOps =
      some ((dag.getTargetConstant (applyCalls ⟨0⟩ (rs ++ os)).get EVT.i64).1,
        Ops.set (NumOps - 2) (dag.getTargetConstant (applyCalls ⟨0⟩ (rs ++ os)).get EVT.i64).2,
        applyCalls ⟨0⟩ (rs ++ os)) := by
    unfold computeOperandsBitWidth
    rw [hcalls]
    simp only [e1, e2]
    rw [if_pos (show NumOps - 2 < Ops.length by omega)]
  refine ⟨rs, os, _, _, hcalls, hres, r2, by omega, ?_, ?_⟩
  · intro c hc
    obtain ⟨j, hj, hcj⟩ := o3 c hc
    exact ⟨j, by omega, by omega, by omega⟩
  · intro c hc
    rcases List.mem_append.1 hc with h | h
    · have := r3 c h; omega
    · obtain ⟨j, hj, hcj⟩ := o3 c h
      omega

/-- Witness for C8: one result and two operands, far below the capacity. -/
theorem computeOperandsBitWidth_capacity_cap_witness :
    ∃ rs os dag' Ops',
      annotationCalls exRoundTripDag 0 exRoundTripOps 4 = some (rs ++ os) ∧
      computeOperandsBitWidth exRoundTripDag 0 exRoundTripOps 4
        = some (dag', Ops', applyCalls ⟨0⟩ (rs ++ os)) ∧
      rs.length = 1 ∧
      os.length ≤ BitWidthAnnotator.size - 1 ∧
      (∀ c ∈ os, ∃ i, i < BitWidthAnnotator.size - 1 ∧ i < 4 - 2 ∧ c.2 = 1 + i) ∧
      (∀ c ∈ rs ++ os, c.2 < BitWidthAnnotator.size) :=
  computeOperandsBitWidth_capacity_cap exRoundTripDag 0
    ⟨NodeKind.Generic ISDOpcode.SELECT, [], [EVT.Int 8], []⟩ exRoundTripOps 4
    [EVT.Int 16, EVT.Int 32] rfl (by decide) (by decide) (by decide) (by norm_num) rfl

/-- C8 as stated fails: for a node with nine non-chain results the result loop calls
`setBitWidth` at slot 8, which is not below `size()`. -/
theorem computeOperandsBitWidth_capacity_cap_counterexample :
    (resultWidths (List.replicate 9 (EVT.Int 8))).length = 9 ∧
    ∃ calls, annotationCalls exNineResultsDag 0 [SDValue.null, SDValue.of 1 0] 2
        = some calls ∧
      (8, 8) ∈ calls ∧ ¬ (8 < BitWidthAnnotator.size) := by
  refine ⟨rfl, _, rfl, ?_, ?_⟩ <;> decide

/-! ### Bit slices as values -/

theorem getBitSlice_eq (x UB LB : Nat) : getBitSlice x UB LB = x / 2 ^ LB % 2 ^ (UB - LB) := by
  unfold getBitSlice
  rw [Nat.shiftRight_eq_div_pow, Nat.one_shiftLeft, Nat.and_pow_two_sub_one_eq_mod]

/-! ### Redirecting uses -/

theorem RAUW_nodes (dag : SelectionDAG) (F To : SDValue) :
    (dag.ReplaceAllUsesOfValueWith F To).nodes
      = dag.nodes.map fun n => { n with ops := n.ops.map fun o => if o = F then To else o } :=
  rfl

theorem RAUW_no_use (dag : SelectionDAG) (F To : SDValue) (h : To ≠ F) :
    ∀ m ∈ (dag.ReplaceAllUsesOfValueWith F To).nodes, ∀ o ∈ m.ops, o ≠ F := by
  intro m hm o ho
  rw [RAUW_nodes] at hm
  obtain ⟨m0, -, rfl⟩ := List.mem_map.1 hm
  obtain ⟨o0, -, rfl⟩ := List.mem_map.1 ho
  by_cases h0 : o0 = F
  · simpa [h0] using h
  · simp [h0]

theorem RAUW_keeps_no_use (dag : SelectionDAG) (F To G : SDValue) (h : To ≠ G)
    (hG : ∀ m ∈ dag.nodes, ∀ o ∈ m.ops, o ≠ G) :
    ∀ m ∈ (dag.ReplaceAllUsesOfValueWith F To).nodes, ∀ o ∈ m.ops, o ≠ G := by
  intro m hm o ho
  rw [RAUW_nodes] at hm
  obtain ⟨m0, hm0, rfl⟩ := List.mem_map.1 hm
  obtain ⟨o0, ho0, rfl⟩ := List.mem_map.1 ho
  by_cases h0 : o0 = F
  · simpa [h0] using h
  · simpa [h0] using hG m0 hm0 o0 ho0

theorem getNode_lt (dag : SelectionDAG) (N : Nat) (n : SDNode) (h : dag.getNode N = some n) :
    N < dag.nodes.length := by
  unfold SelectionDAG.getNode at h
  by_contra hc
  rw [List.getElem?_eq_none (by omega)] at h
  exact Option.noConfusion h

theorem length_afterMove (dag : SelectionDAG) (v : SDValue) :
    dag.nodes.length ≤ (afterMove dag v).nodes.length := by
  unfold afterMove; simp

theorem RAUW_getNode (dag : SelectionDAG) (F To : SDValue) (i : Nat) :
    (dag.ReplaceAllUsesOfValueWith F To).getNode i
      = (dag.getNode i).map fun n =>
          { n with ops := n.ops.map fun o => if o = F then To else o } := by
  simp [SelectionDAG.getNode, RAUW_nodes, List.getElem?_map]

theorem getConstantOperandVal_eq (dag : SelectionDAG) (n : SDNode) (Num u r : Nat)
    (c : SDNode) (t : Bool) (val : Nat)
    (h1 : n.ops[Num]? = some ⟨some u, r⟩) (hu : dag.getNode u = some c)
    (hc : c.kind = NodeKind.Constant t val) :
    dag.getConstantOperandVal n Num = some val := by
  unfold SelectionDAG.getConstantOperandVal
  rw [h1]
  simp only [SelectionDAG.nodeOf, hu]
  obtain ⟨k, o, v, m⟩ := c
  simp only at hc
  subst hc
  rfl

/-- The value of a slice node whose bounds are the constants `UB` and `LB`. -/
theorem bitSliceValue_eq (dag : SelectionDAG) (S : Nat) (n : SDNode) (u l ru rl : Nat)
    (cu cl : SDNode) (tu tl : Bool) (UB LB : Nat) (x : Nat)
    (hS : dag.getNode S = some n) (hk : n.kind = NodeKind.Machine VTMOpcode.VOpBitSlice)
    (h1 : n.ops[1]? = some ⟨some u, ru⟩) (h2 : n.ops[2]? = some ⟨some l, rl⟩)
    (hu : dag.getNode u = some cu) (hcu : cu.kind = NodeKind.Constant tu UB)
    (hl : dag.getNode l = some cl) (hcl : cl.kind = NodeKind.Constant tl LB) :
    bitSliceValue dag S x = some (getBitSlice x UB LB) := by
  unfold bitSliceValue
  rw [hS]
  simp only [hk, if_true]
  rw [getConstantOperandVal_eq dag n 1 u ru cu tu UB h1 hu hcu,
    getConstantOperandVal_eq dag n 2 l rl cl tl LB h2 hl hcl]

/-- The nodes of `SelectAdd.result` from the `VOpAdd` node on. -/
theorem SelectAdd_result_getNode (T : VTarget) (dag : SelectionDAG) (op0 op1 op2 : SDValue)
    (W : Nat) (j : Nat) :
    (SelectAdd.result T dag op0 op1 op2 W).getNode
        ((afterMove (afterMove dag op0) op1).nodes.length + j)
      = (SelectAdd.nodes T (afterMove (afterMove dag op0) op1).nodes.length
          (materialize dag op0).2 (materialize (afterMove dag op0) op1).2 op2 W)[j]? :=
  getNode_append_right _ _ _ j

theorem SDValue_of_ne (a b i j : Nat) (h : a ≠ b) : SDValue.of a i ≠ SDValue.of b j := by
  intro hc
  simp only [SDValue.of, SDValue.mk.injEq, Option.some.injEq] at hc
  exact h hc.1

theorem RAUW_getNode_of_no_use (dag : SelectionDAG) (F To : SDValue) (i : Nat) (m : SDNode)
    (h : dag.getNode i = some m) (hno : ∀ o ∈ m.ops, o ≠ F) :
    (dag.ReplaceAllUsesOfValueWith F To).getNode i = some m := by
  rw [RAUW_getNode, h]
  simp only [Option.map_some']
  congr 1
  obtain ⟨k, ops, vts, mem⟩ := m
  simp only [SDNode.mk.injEq, true_and, and_true]
  simp only at hno
  conv_rhs => rw [← List.map_id ops]
  apply List.map_congr_left
  intro o ho
  simp [hno o ho]

/-- The constants and slices `SelectAdd` creates do not use the results of `N`, so the
two redirections leave them as they are. -/
theorem SelectAdd_final_getNode (T : VTarget) (dag : SelectionDAG) (N : Nat)
    (op0 op1 op2 : SDValue) (W : Nat) (A B : SDValue) (j : Nat) (m : SDNode)
    (hN : N < dag.nodes.length)
    (hj : (SelectAdd.nodes T (afterMove (afterMove dag op0) op1).nodes.length
          (materialize dag op0).2 (materialize (afterMove dag op0) op1).2 op2 W)[j]? = some m)
    (hno : ∀ o ∈ m.ops, ∃ k i, o = SDValue.of ((afterMove (afterMove dag op0) op1).nodes.length + k) i) :
    (((SelectAdd.result T dag op0 op1 op2 W).ReplaceAllUsesOfValueWith (SDValue.of N 0)
        A).ReplaceAllUsesOfValueWith (SDValue.of N 1) B).getNode
        ((afterMove (afterMove dag op0) op1).nodes.length + j) = some m := by
  have hlen : N < (afterMove (afterMove dag op0) op1).nodes.length :=
    lt_of_lt_of_le hN (le_trans (length_afterMove dag op0) (length_afterMove _ op1))
  have hne : ∀ r, ∀ o ∈ m.ops, o ≠ SDValue.of N r := by
    intro r o ho
    obtain ⟨k, i, rfl⟩ := hno o ho
    exact SDValue_of_ne _ _ _ _ (by omega)
  apply RAUW_getNode_of_no_use _ _ _ _ _ _ (hne 1)
  apply RAUW_getNode_of_no_use _ _ _ _ _ _ (hne 0)
  rw [SelectAdd_result_getNode]
  exact hj

/-- Four distinct slots written with fitting widths read back those widths. -/
theorem decode_four (A0 : BitWidthAnnotator) (w0 w1 w2 w3 : Nat) (hA : A0.Data < 2 ^ 64)
    (h0 : w0 < 256) (h1 : w1 < 256) (h2 : w2 < 256) (h3 : w3 < 256) :
    decodeSlots ((((A0.setBitWidth w0 0).setBitWidth w1 1).setBitWidth w2 2).setBitWidth
      w3 3).get 4 = [w0, w1, w2, w3] := by
  obtain ⟨A1, hA1⟩ : ∃ A1, A1 = A0.setBitWidth w0 0 := ⟨_, rfl⟩
  obtain ⟨A2, hA2⟩ : ∃ A2, A2 = A1.setBitWidth w1 1 := ⟨_, rfl⟩
  obtain ⟨A3, hA3⟩ : ∃ A3, A3 = A2.setBitWidth w2 2 := ⟨_, rfl⟩
  obtain ⟨A4, hA4⟩ : ∃ A4, A4 = A3.setBitWidth w3 3 := ⟨_, rfl⟩
  have a1 : A1.Data < 2 ^ 64 := by rw [hA1]; exact setBitWidth_Data_lt _ _ _
  have a2 : A2.Data < 2 ^ 64 := by rw [hA2]; exact setBitWidth_Data_lt _ _ _
  have a3 : A3.Data < 2 ^ 64 := by rw [hA3]; exact setBitWidth_Data_lt _ _ _
  have e0 : getBitWidth A4.Data 0 = w0 := by
    rw [hA4, getBitWidth_setBitWidth_ne A3 w3 3 0 (by norm_num) (by norm_num) h3 a3,
      hA3, getBitWidth_setBitWidth_ne A2 w2 2 0 (by norm_num) (by norm_num) h2 a2,
      hA2, getBitWidth_setBitWidth_ne A1 w1 1 0 (by norm_num) (by norm_num) h1 a1,
      hA1, getBitWidth_setBitWidth_same A0 w0 0 (by norm_num) h0 hA]
  have e1 : getBitWidth A4.Data 1 = w1 := by
    rw [hA4, getBitWidth_setBitWidth_ne A3 w3 3 1 (by norm_num) (by norm_num) h3 a3,
      hA3, getBitWidth_setBitWidth_ne A2 w2 2 1 (by norm_num) (by norm_num) h2 a2,
      hA2, getBitWidth_setBitWidth_same A1 w1 1 (by norm_num) h1 a1]
  have e2 : getBitWidth A4.Data 2 = w2 := by
    rw [hA4, getBitWidth_setBitWidth_ne A3 w3 3 2 (by norm_num) (by norm_num) h3 a3,
      hA3, getBitWidth_setBitWidth_same A2 w2 2 (by norm_num) h2 a2]
  have e3 : getBitWidth A4.Data 3 = w3 := by
    rw [hA4, getBitWidth_setBitWidth_same A3 w3 3 (by norm_num) h3 a3]
  rw [← hA1, ← hA2, ← hA3, ← hA4]
  show [getBitWidth A4.Data 0, getBitWidth A4.Data 1, getBitWidth A4.Data 2,
    getBitWidth A4.Data 3] = [w0, w1, w2, w3]
  rw [e0, e1, e2, e3]

theorem addWidths_decode (W : Nat) (h : W + 1 < 2 ^ BitWidthAnnotator.slotBits) :
    decodeSlots (addWidths W).get 4 = [W + 1, W, W, 1] := by
  have hsb : (2 : Nat) ^ BitWidthAnnotator.slotBits = 256 := by
    norm_num [BitWidthAnnotator.slotBits]
  rw [hsb] at h
  exact decode_four ⟨0⟩ (W + 1) W W 1 (by norm_num) h (by omega) (by omega) (by norm_num)

/-- C10: for an ADDE node `N` with operands `op0`, `op1`, `op2` of the DAG whose left
operand has the width `W`, `SelectAdd` materializes `op0` and `op1`, appends the nodes
`SelectAdd.nodes` (one `VOpAdd` node with the operands
`[lhs, rhs, carry-in, annotation, trace 0]`, its annotation built by
`setBitWidth(W+1, 0)`, `(W, 1)`, `(W, 2)`, `(1, 3)`, and the bit slices `[0, W)` and
`[W, W+1)` of that node with source width `W+1`), redirects every use of result 0 to
the first slice and every use of result 1 to the second, so that no use of either is
left, and returns no node.  When `W+1` fits one slot the annotation decodes to
`[W+1, W, W, 1]`. -/
theorem SelectAdd_lowering_shape (T : VTarget) (dag : SelectionDAG) (N : Nat) (n : SDNode)
    (op0 op1 op2 : SDValue) (vt : EVT)
    (hN : dag.getNode N = some n)
    (h0 : n.ops[0]? = some op0) (h1 : n.ops[1]? = some op1) (h2 : n.ops[2]? = some op2)
    (hw0 : dag.isOperand op0 = true) (hw1 : dag.isOperand op1 = true)
    (hvt : dag.getValueType op0 = some vt) :
    MoveToReg dag op0 true = some (afterMove dag op0, (materialize dag op0).2) ∧
    MoveToReg (afterMove dag op0) op1 true
      = some (afterMove (afterMove dag op0) op1, (materialize (afterMove dag op0) op1).2) ∧
    SelectAdd.build T dag N
      = some (SelectAdd.result T dag op0 op1 op2 vt.getSizeInBits,
          (afterMove (afterMove dag op0) op1).nodes.length + 2,
          (afterMove (afterMove dag op0) op1).nodes.length + 7,
          (afterMove (afterMove dag op0) op1).nodes.length + 12) ∧
    SelectAdd T dag N
      = some (((SelectAdd.result T dag op0 op1 op2 vt.getSizeInBits).ReplaceAllUsesOfValueWith
            (SDValue.of N 0)
            (SDValue.of ((afterMove (afterMove dag op0) op1).nodes.length + 7)
              0)).ReplaceAllUsesOfValueWith
            (SDValue.of N 1)
            (SDValue.of ((afterMove (afterMove dag op0) op1).nodes.length + 12) 0), none) ∧
    (∀ d, SelectAdd T dag N = some (d, none) →
      ∀ m ∈ d.nodes, ∀ o ∈ m.ops, o ≠ SDValue.of N 0 ∧ o ≠ SDValue.of N 1) ∧
    addWidths vt.getSizeInBits
      = applyCalls ⟨0⟩ [(vt.getSizeInBits + 1, 0), (vt.getSizeInBits, 1),
          (vt.getSizeInBits, 2), (1, 3)] ∧
    (vt.getSizeInBits + 1 < 2 ^ BitWidthAnnotator.slotBits →
      decodeSlots (addWidths vt.getSizeInBits).get 4
        = [vt.getSizeInBits + 1, vt.getSizeInBits, vt.getSizeInBits, 1]) := by
  have hb := SelectAdd_build_eq T dag N n op0 op1 op2 vt hN h0 h1 h2 hw0 hw1 hvt
  have hs : SelectAdd T dag N
      = some (((SelectAdd.result T dag op0 op1 op2 vt.getSizeInBits).ReplaceAllUsesOfValueWith
            (SDValue.of N 0)
            (SDValue.of ((afterMove (afterMove dag op0) op1).nodes.length + 7)
              0)).ReplaceAllUsesOfValueWith
            (SDValue.of N 1)
            (SDValue.of ((afterMove (afterMove dag op0) op1).nodes.length + 12) 0), none) := by
    unfold SelectAdd
    rw [hb]
  have hlen : N < (afterMove (afterMove dag op0) op1).nodes.length :=
    lt_of_lt_of_le (getNode_lt dag N n hN)
      (le_trans (length_afterMove dag op0) (length_afterMove _ op1))
  refine ⟨MoveToReg_eq dag op0 hw0,
    MoveToReg_eq _ op1 (isOperand_afterMove dag op0 op1 hw1), hb, hs, ?_, ?_, ?_⟩
  · intro d hd m hm o ho
    rw [hs] at hd
    simp only [Option.some.injEq, Prod.mk.injEq, and_true] at hd
    subst hd
    refine ⟨?_, ?_⟩
    · exact RAUW_keeps_no_use _ _ _ _ (SDValue_of_ne _ _ _ _ (by omega))
        (RAUW_no_use _ _ _ (SDValue_of_ne _ _ _ _ (by omega))) m hm o ho
    · refine RAUW_no_use _ _ _ ?_ m hm o ho
      intro hc
      simp [SDValue.of] at hc
  · simp only [applyCalls, List.foldl, addWidths]
  · exact addWidths_decode _

/-- Witness for C10: the 8 bit add-with-carry of `exAddDag`. -/
theorem SelectAdd_lowering_shape_witness :
    SelectAdd.build exTarget exAddDag 3
      = some (SelectAdd.result exTarget exAddDag (SDValue.of 0 0) (SDValue.of 1 0)
          (SDValue.of 2 0) 8, 9 + 2, 9 + 7, 9 + 12) ∧
    decodeSlots (addWidths 8).get 4 = [8 + 1, 8, 8, 1] :=
  ⟨(SelectAdd_lowering_shape exTarget exAddDag 3
      ⟨NodeKind.Generic ISDOpcode.ADDE, [SDValue.of 0 0, SDValue.of 1 0, SDValue.of 2 0],
        [EVT.Int 8, EVT.Int 1], []⟩
      (SDValue.of 0 0) (SDValue.of 1 0) (SDValue.of 2 0) (EVT.Int 8)
      rfl rfl rfl rfl rfl rfl rfl).2.2.1,
   (SelectAdd_lowering_shape exTarget exAddDag 3
      ⟨NodeKind.Generic ISDOpcode.ADDE, [SDValue.of 0 0, SDValue.of 1 0, SDValue.of 2 0],
        [EVT.Int 8, EVT.Int 1], []⟩
      (SDValue.of 0 0) (SDValue.of 1 0) (SDValue.of 2 0) (EVT.Int 8)
      rfl rfl rfl rfl rfl rfl rfl).2.2.2.2.2.2 (by decide)⟩

theorem add_carry_arith (W a b cin : Nat) (ha : a < 2 ^ W) (hb : b < 2 ^ W) (hc : cin ≤ 1) :
    getBitSlice ((a + b + cin) % 2 ^ (W + 1)) W 0 = (a + b + cin) % 2 ^ W ∧
    getBitSlice ((a + b + cin) % 2 ^ (W + 1)) (W + 1) W
      = if 2 ^ W ≤ a + b + cin then 1 else 0 := by
  have hp : 2 ^ (W + 1) = 2 * 2 ^ W := by rw [pow_succ]; ring
  have hlt : a + b + cin < 2 ^ (W + 1) := by rw [hp]; omega
  rw [Nat.mod_eq_of_lt hlt, getBitSlice_eq, getBitSlice_eq]
  refine ⟨by simp, ?_⟩
  have h1 : W + 1 - W = 1 := by omega
  rw [h1, pow_one]
  have hpos : 0 < 2 ^ W := by positivity
  by_cases h : 2 ^ W ≤ a + b + cin
  · rw [if_pos h]
    have : (a + b + cin) / 2 ^ W = 1 := by
      apply Nat.div_eq_of_lt_le
      · omega
      · rw [hp] at hlt; omega
    rw [this]
  · rw [if_neg h]
    rw [Nat.div_eq_of_lt (by omega)]

/-- C2: for an ADDE node `N` whose left operand has the width `W`, and for all `W` bit
values `a`, `b` and every carry-in `cin ≤ 1`: when the `VOpAdd` node `SelectAdd` emits
carries the `W + 1` bit sum `a + b + cin`, the slice that replaces result 0 of `N` has
the value `(a + b + cin) mod 2 ^ W`, and the slice that replaces result 1 has the value
1 if `a + b + cin ≥ 2 ^ W` and 0 otherwise.  Both slices read result 0 of the `VOpAdd`
node. -/
theorem SelectAdd_carry_decomposition (T : VTarget) (dag : SelectionDAG) (N : Nat)
    (n : SDNode) (op0 op1 op2 : SDValue) (vt : EVT)
    (hN : dag.getNode N = some n)
    (h0 : n.ops[0]? = some op0) (h1 : n.ops[1]? = some op1) (h2 : n.ops[2]? = some op2)
    (hw0 : dag.isOperand op0 = true) (hw1 : dag.isOperand op1 = true)
    (hvt : dag.getValueType op0 = some vt) :
    ∃ d D AddNode Result Carry,
      SelectAdd.build T dag N = some (D, AddNode, Result, Carry) ∧
      SelectAdd T dag N = some (d, none) ∧
      d = (D.ReplaceAllUsesOfValueWith (SDValue.of N 0)
            (SDValue.of Result 0)).ReplaceAllUsesOfValueWith (SDValue.of N 1)
            (SDValue.of Carry 0) ∧
      (d.getNode AddNode).map SDNode.kind = some (NodeKind.Machine VTMOpcode.VOpAdd) ∧
      (d.getNode Result).bind (fun m => m.ops[0]?) = some (SDValue.of AddNode 0) ∧
      (d.getNode Carry).bind (fun m => m.ops[0]?) = some (SDValue.of AddNode 0) ∧
      ∀ a b cin, a < 2 ^ vt.getSizeInBits → b < 2 ^ vt.getSizeInBits → cin ≤ 1 →
        bitSliceValue d Result ((a + b + cin) % 2 ^ (vt.getSizeInBits + 1))
          = some ((a + b + cin) % 2 ^ vt.getSizeInBits) ∧
        bitSliceValue d Carry ((a + b + cin) % 2 ^ (vt.getSizeInBits + 1))
          = some (if 2 ^ vt.getSizeInBits ≤ a + b + cin then 1 else 0) ∧
        (bitSliceValue d Carry ((a + b + cin) % 2 ^ (vt.getSizeInBits + 1)) = some 1
          ↔ 2 ^ vt.getSizeInBits ≤ a + b + cin) := by
  have hb := SelectAdd_build_eq T dag N n op0 op1 op2 vt hN h0 h1 h2 hw0 hw1 hvt
  obtain ⟨W, hW⟩ : ∃ W, W = vt.getSizeInBits := ⟨_, rfl⟩
  obtain ⟨len, hlen⟩ : ∃ len, len = (afterMove (afterMove dag op0) op1).nodes.length :=
    ⟨_, rfl⟩
  rw [← hW, ← hlen] at hb
  rw [← hW]
  have hNlt := getNode_lt dag N n hN
  have fin := fun (j : Nat) (m : SDNode) hj hno =>
    SelectAdd_final_getNode T dag N op0 op1 op2 W (SDValue.of (len + 7) 0)
      (SDValue.of (len + 12) 0) j m hNlt hj hno
  rw [← hlen] at fin
  have hs : SelectAdd T dag N
      = some (((SelectAdd.result T dag op0 op1 op2 W).ReplaceAllUsesOfValueWith
          (SDValue.of N 0) (SDValue.of (len + 7) 0)).ReplaceAllUsesOfValueWith
          (SDValue.of N 1) (SDValue.of (len + 12) 0), none) := by
    unfold SelectAdd
    rw [hb]
  -- the nodes the two slices are made of
  have n3 := fin 3 ⟨NodeKind.Constant true W, [], [EVT.i8], []⟩ rfl (by simp)
  have n4 := fin 4 ⟨NodeKind.Constant true 0, [], [EVT.i8], []⟩ rfl (by simp)
  have n7 := fin 7 ⟨NodeKind.Machine VTMOpcode.VOpBitSlice,
      [SDValue.of (len + 2) 0, SDValue.of (len + 3) 0, SDValue.of (len + 3 + 1) 0,
        SDValue.of (len + 3 + 2) 0, SDValue.of (len + 3 + 3) 0],
      [T.getRoundIntegerOrBitType (usub W 0)], []⟩ rfl
    (by
      intro o ho
      simp only [List.mem_cons, List.mem_singleton, List.not_mem_nil, or_false] at ho
      rcases ho with rfl | rfl | rfl | rfl | rfl
      · exact ⟨2, 0, rfl⟩
      · exact ⟨3, 0, rfl⟩
      · exact ⟨4, 0, rfl⟩
      · exact ⟨5, 0, rfl⟩
      · exact ⟨6, 0, rfl⟩)
  have n8 := fin 8 ⟨NodeKind.Constant true (W + 1), [], [EVT.i8], []⟩ rfl (by simp)
  have n9 := fin 9 ⟨NodeKind.Constant true W, [], [EVT.i8], []⟩ rfl (by simp)
  have n12 := fin 12 ⟨NodeKind.Machine VTMOpcode.VOpBitSlice,
      [SDValue.of (len + 2) 0, SDValue.of (len + 8) 0, SDValue.of (len + 8 + 1) 0,
        SDValue.of (len + 8 + 2) 0, SDValue.of (len + 8 + 3) 0],
      [T.getRoundIntegerOrBitType (usub (W + 1) W)], []⟩ rfl
    (by
      intro o ho
      simp only [List.mem_cons, List.mem_singleton, List.not_mem_nil, or_false] at ho
      rcases ho with rfl | rfl | rfl | rfl | rfl
      · exact ⟨2, 0, rfl⟩
      · exact ⟨8, 0, rfl⟩
      · exact ⟨9, 0, rfl⟩
      · exact ⟨10, 0, rfl⟩
      · exact ⟨11, 0, rfl⟩)
  refine ⟨_, _, _, _, _, hb, hs, rfl, ?_, ?_, ?_, ?_⟩
  · rw [RAUW_getNode, RAUW_getNode, hlen, SelectAdd_result_getNode]
    rfl
  · rw [n7]; rfl
  · rw [n12]; rfl
  · intro a b cin ha hb' hc
    obtain ⟨e1, e2⟩ := add_carry_arith W a b cin ha hb' hc
    have v1 := bitSliceValue_eq _ (len + 7) _ (len + 3) (len + 3 + 1) 0 0 _ _ true true W 0
      ((a + b + cin) % 2 ^ (W + 1)) n7 rfl rfl rfl n3 rfl n4 rfl
    have v2 := bitSliceValue_eq _ (len + 12) _ (len + 8) (len + 8 + 1) 0 0 _ _ true true
      (W + 1) W ((a + b + cin) % 2 ^ (W + 1)) n12 rfl rfl rfl n8 rfl n9 rfl
    rw [v1, v2, e1, e2]
    refine ⟨rfl, rfl, ?_⟩
    by_cases h : 2 ^ W ≤ a + b + cin
    · simp [h]
    · simp [h]

/-- Witness for C2: the 8 bit add-with-carry of `exAddDag` at `200 + 100 + 1`. -/
theorem SelectAdd_carry_decomposition_witness :
    ∃ d D AddNode Result Carry,
      SelectAdd.build exTarget exAddDag 3 = some (D, AddNode, Result, Carry) ∧
      SelectAdd exTarget exAddDag 3 = some (d, none) ∧
      bitSliceValue d Result ((200 + 100 + 1) % 2 ^ (8 + 1)) = some ((200 + 100 + 1) % 2 ^ 8) ∧
      (bitSliceValue d Carry ((200 + 100 + 1) % 2 ^ (8 + 1)) = some 1
        ↔ 2 ^ 8 ≤ 200 + 100 + 1) := by
  obtain ⟨d, D, A, R, C, h1, h2, -, -, -, -, h⟩ :=
    SelectAdd_carry_decomposition exTarget exAddDag 3
      ⟨NodeKind.Generic ISDOpcode.ADDE, [SDValue.of 0 0, SDValue.of 1 0, SDValue.of 2 0],
        [EVT.Int 8, EVT.Int 1], []⟩
      (SDValue.of 0 0) (SDValue.of 1 0) (SDValue.of 2 0) (EVT.Int 8)
      rfl rfl rfl rfl rfl rfl rfl
  exact ⟨d, D, A, R, C, h1, h2, (h 200 100 1 (by decide) (by decide) (by decide)).1,
    (h 200 100 1 (by decide) (by decide) (by decide)).2.2⟩

/-- C12: `MoveToReg(Operand, Force)` returns the operand and the DAG unchanged when
`Force` is false or when the node of the operand is neither a constant nor an external
symbol; otherwise it returns result 0 of a new `VOpMove_ri` node (the last of the four
nodes appended) whose first operand is result 0 of a new target constant of the same
value and type, or of a new target external symbol of the same symbol. -/
theorem MoveToReg_materializes (dag : SelectionDAG) (v : SDValue) (n : SDNode)
    (hn : dag.nodeOf v = some n) (hv : dag.isOperand v = true) :
    MoveToReg dag v false = some (dag, v) ∧
    (shouldMoveToReg n = false → MoveToReg dag v true = some (dag, v)) ∧
    (shouldMoveToReg n = true →
      ∃ imm vt,
        n.vts[0]? = some vt ∧
        MoveToReg dag v true
          = some (⟨dag.nodes ++ moveImmediateNodes dag.nodes.length n imm, dag.root⟩,
              SDValue.of (dag.nodes.length + 3) 0) ∧
        (moveImmediateNodes dag.nodes.length n imm)[3]?
          = some ⟨NodeKind.Machine VTMOpcode.VOpMove_ri,
              [SDValue.of dag.nodes.length 0, SDValue.of (dag.nodes.length + 2) 0,
                SDValue.of (dag.nodes.length + 1) 0], n.vts, []⟩ ∧
        (moveImmediateNodes dag.nodes.length n imm)[0]? = some imm ∧
        ((∃ t val, n.kind = NodeKind.Constant t val ∧
            imm = ⟨NodeKind.Constant true val, [], [vt], []⟩) ∨
         (∃ t sym f, n.kind = NodeKind.ExternalSymbol t sym f ∧
            imm = ⟨NodeKind.ExternalSymbol true sym vt.getSizeInBits, [], [vt], []⟩))) := by
  refine ⟨by simp [MoveToReg], ?_, ?_⟩
  · intro hs
    rw [MoveToReg_eq dag v hv]
    simp [afterMove, materialize, hn, hs, dag_eta]
  · intro hs
    have hop := hv
    unfold SelectionDAG.isOperand at hop
    simp only [hn, hs, Bool.and_eq_true, Option.isSome_iff_exists, Bool.or_eq_true,
      Bool.not_true, Bool.false_eq_true, false_or, beq_iff_eq] at hop
    obtain ⟨⟨vt, hvt⟩, hres⟩ := hop
    rw [hres] at hvt
    have hk : (∃ t val, n.kind = NodeKind.Constant t val) ∨
        (∃ t sym f, n.kind = NodeKind.ExternalSymbol t sym f) := by
      unfold shouldMoveToReg at hs
      cases hk : n.kind <;>
        simp [hk, NodeKind.isConstant, NodeKind.isExternalSymbol] at hs ⊢
    rcases hk with ⟨t, val, hk⟩ | ⟨t, sym, f, hk⟩
    · have hi : targetImmediate n = some ⟨NodeKind.Constant true val, [], [vt], []⟩ := by
        simp [targetImmediate, hk, hvt]
      refine ⟨_, vt, hvt, ?_, rfl, rfl, Or.inl ⟨t, val, hk, rfl⟩⟩
      rw [MoveToReg_eq dag v hv]
      simp [afterMove, materialize, hn, hs, hi]
    · have hi : targetImmediate n
          = some ⟨NodeKind.ExternalSymbol true sym vt.getSizeInBits, [], [vt], []⟩ := by
        simp [targetImmediate, hk, hvt]
      refine ⟨_, vt, hvt, ?_, rfl, rfl, Or.inr ⟨t, sym, f, hk, rfl⟩⟩
      rw [MoveToReg_eq dag v hv]
      simp [afterMove, materialize, hn, hs, hi]

/-- Witness for C12: the constant 5 of `exAddDag`. -/
theorem MoveToReg_materializes_witness :
    MoveToReg exAddDag (SDValue.of 0 0) false = some (exAddDag, SDValue.of 0 0) ∧
    ∃ imm vt,
      MoveToReg exAddDag (SDValue.of 0 0) true
        = some (⟨exAddDag.nodes ++ moveImmediateNodes 5
            ⟨NodeKind.Constant false 5, [], [EVT.Int 8], []⟩ imm, exAddDag.root⟩,
            SDValue.of (5 + 3) 0) ∧
      imm = ⟨NodeKind.Constant true 5, [], [vt], []⟩ ∧ vt = EVT.Int 8 := by
  obtain ⟨h1, -, h3⟩ := MoveToReg_materializes exAddDag (SDValue.of 0 0)
    ⟨NodeKind.Constant false 5, [], [EVT.Int 8], []⟩ rfl rfl
  obtain ⟨imm, vt, hvt, hm, -, -, hk⟩ := h3 rfl
  refine ⟨h1, imm, vt, hm, ?_, ?_⟩
  · rcases hk with ⟨t, val, hk, hi⟩ | ⟨t, sym, f, hk, hi⟩
    · simp only [NodeKind.Constant.injEq] at hk
      rw [hi, ← hk.2]
    · exact NodeKind.noConfusion hk
  · simpa using hvt.symm

/-! ### Comparison -/

/-- The closed form of `SelectICmp` once the switch has produced the normalized
condition code `CC` and the operands `L`, `R`. -/
theorem SelectICmp_eq (T : VTarget) (dag : SelectionDAG) (N : Nat) (n : SDNode)
    (a b c L R : SDValue) (Cnd CC : CondCode) (co : List SDValue) (cv : List EVT)
    (cm : List Nat) (vta vtL vtR : EVT) (p : Nat)
    (hN : dag.getNode N = some n)
    (h0 : n.ops[0]? = some a) (h1 : n.ops[1]? = some b) (h2 : n.ops[2]? = some c)
    (hc : dag.nodeOf c = some ⟨NodeKind.CondCode Cnd, co, cv, cm⟩)
    (hva : dag.getValueType a = some vta) (hW : 1 < vta.getSizeInBits)
    (hnorm : SelectICmp.normalize Cnd a b = some (CC, L, R))
    (hwL : dag.isOperand L = true) (hwR : dag.isOperand R = true)
    (hvL : dag.getValueType L = some vtL) (hvR : dag.getValueType R = some vtR)
    (hp : getICmpPort CC = some p) :
    SelectICmp T dag N
      = some (⟨(afterMove (afterMove dag L) R).nodes ++
            SelectICmp.nodes T (afterMove (afterMove dag L) R).nodes.length n.vts CC p
              (materialize dag L).2 (materialize (afterMove dag L) R).2 vta.getSizeInBits
              [vtL, vtR, EVT.Int vta.getSizeInBits], dag.root⟩,
          some ((afterMove (afterMove dag L) R).nodes.length + 9)) := by
  have hwR' := isOperand_afterMove dag L R hwR
  have hl := getValueType_afterMove (afterMove dag L) R _ vtL
    (getValueType_materialize dag L vtL hwL hvL)
  have hr := getValueType_materialize (afterMove dag L) R vtR hwR'
    (getValueType_afterMove dag L R vtR hvR)
  have hN2 := getNode_afterMove (afterMove dag L) R N n (getNode_afterMove dag L N n hN)
  obtain ⟨d2, hd2⟩ : ∃ d2, d2 = afterMove (afterMove dag L) R := ⟨_, rfl⟩
  have hroot : d2.root = dag.root := by rw [hd2]; rfl
  obtain ⟨W, hWe⟩ : ∃ W, W = vta.getSizeInBits := ⟨_, rfl⟩
  rw [← hd2] at hl hr hN2 ⊢
  rw [← hWe] at hW ⊢
  obtain ⟨lhs, hlhs⟩ : ∃ lhs, lhs = (materialize dag L).2 := ⟨_, rfl⟩
  obtain ⟨rhs, hrhs⟩ : ∃ rhs, rhs = (materialize (afterMove dag L) R).2 := ⟨_, rfl⟩
  rw [← hlhs] at hl ⊢
  rw [← hrhs] at hr ⊢
  unfold SelectICmp
  rw [hN]
  simp only [h0, h1, h2, hc]
  have hsz : computeSizeInBits dag a = some W := by
    unfold computeSizeInBits; rw [hva, hWe]
  rw [hsz]
  simp only [gt_iff_lt, hW, not_true_eq_false, if_false, hnorm]
  rw [MoveToReg_eq dag L hwL]
  simp only []
  rw [MoveToReg_eq _ R hwR', ← hd2, ← hlhs, ← hrhs]
  simp only [SelectionDAG.getTargetConstant, SelectionDAG.addNode, List.length_append,
    List.length_singleton, List.append_assoc, List.singleton_append]
  have hN3 : (SelectionDAG.mk (d2.nodes ++
      [⟨NodeKind.Constant true (SelectICmp.cmpType T CC), [], [EVT.Int W], []⟩,
       ⟨NodeKind.Constant true 0, [], [EVT.i64], []⟩]) d2.root).getNode N = some n :=
    getNode_append_left _ _ _ _ _ hN2
  have hT : valueTypes (SelectionDAG.mk (d2.nodes ++
      [⟨NodeKind.Constant true (SelectICmp.cmpType T CC), [], [EVT.Int W], []⟩,
       ⟨NodeKind.Constant true 0, [], [EVT.i64], []⟩]) d2.root)
      (List.take (5 - 2) [lhs, rhs, SDValue.of d2.nodes.length 0, SDValue.null,
        SDValue.of (d2.nodes.length + 1) 0]) = some [vtL, vtR, EVT.Int W] := by
    have e1 := getValueType_append_left d2.nodes
      [⟨NodeKind.Constant true (SelectICmp.cmpType T CC), [], [EVT.Int W], []⟩,
       ⟨NodeKind.Constant true 0, [], [EVT.i64], []⟩] d2.root lhs vtL hl
    have e2 := getValueType_append_left d2.nodes
      [⟨NodeKind.Constant true (SelectICmp.cmpType T CC), [], [EVT.Int W], []⟩,
       ⟨NodeKind.Constant true 0, [], [EVT.i64], []⟩] d2.root rhs vtR hr
    have e3 := getValueType_append_right d2.nodes
      [⟨NodeKind.Constant true (SelectICmp.cmpType T CC), [], [EVT.Int W], []⟩,
       ⟨NodeKind.Constant true 0, [], [EVT.i64], []⟩] d2.root 0 _ rfl 0
    rw [Nat.add_zero] at e3
    simp [valueTypes, e1, e2, e3]
  rw [computeOperandsBitWidth_eq_annotationOf _ N n _ 5 _ hN3 (by norm_num) (by simp)
    (by norm_num) hT]
  simp only [updateBitWidthAnnotator, SelectionDAG.getTargetConstant,
    SelectionDAG.getMachineNode, SelectionDAG.addNode, List.length_append,
    List.length_singleton, List.append_assoc, List.singleton_append, List.length_cons,
    List.length_nil, hp, Nat.zero_add, Nat.reduceAdd, Nat.reduceSub, List.set_cons_succ,
    List.set_cons_zero, List.cons_append, List.nil_append, List.length_set]
  have hcmp : ∀ x : SDNode,
      (SelectionDAG.mk (d2.nodes ++
        [⟨NodeKind.Constant true (SelectICmp.cmpType T CC), [], [EVT.Int W], []⟩,
         ⟨NodeKind.Constant true 0, [], [EVT.i64], []⟩,
         ⟨NodeKind.Constant true (annotationOf n.vts [vtL, vtR, EVT.Int W]).get, [],
           [EVT.i64], []⟩,
         ⟨NodeKind.Constant true
           ((annotationOf n.vts [vtL, vtR, EVT.Int W]).setBitWidth 8 0).get, [],
           [EVT.i64], []⟩, x]) d2.root).getNode (d2.nodes.length + 4) = some x := by
    intro x
    exact getNode_append_right d2.nodes _ d2.root 4
  rw [buildBitSlice_eq T _ _ _ _ _ _ (hcmp _)]
  simp only [SelectICmp.nodes, List.length_append, List.length_cons, List.length_nil,
    List.append_assoc, List.cons_append, List.nil_append, Nat.zero_add, Nat.reduceAdd,
    bitSliceNodes, Nat.add_assoc, hroot]

theorem normalize_accepts (Cnd : CondCode) (a b : SDValue)
    (h : Cnd ∈ [CondCode.SETEQ, CondCode.SETNE, CondCode.SETGT, CondCode.SETGE,
      CondCode.SETUGT, CondCode.SETUGE, CondCode.SETLT, CondCode.SETLE, CondCode.SETULT,
      CondCode.SETULE]) :
    ∃ CC L R p, SelectICmp.normalize Cnd a b = some (CC, L, R) ∧ getICmpPort CC = some p ∧
      ((L = a ∧ R = b) ∨ (L = b ∧ R = a)) ∧
      p = (if Cnd = CondCode.SETNE then 1 else if Cnd = CondCode.SETEQ then 2
        else if Cnd ∈ [CondCode.SETGE, CondCode.SETUGE, CondCode.SETLE, CondCode.SETULE]
        then 3 else 4) := by
  simp only [List.mem_cons, List.mem_singleton, List.not_mem_nil, or_false] at h
  rcases h with rfl | rfl | rfl | rfl | rfl | rfl | rfl | rfl | rfl | rfl <;>
    first
    | exact ⟨_, _, _, _, rfl, rfl, Or.inl ⟨rfl, rfl⟩, by decide⟩
    | exact ⟨_, _, _, _, rfl, rfl, Or.inr ⟨rfl, rfl⟩, by decide⟩

theorem normalize_rejects (Cnd : CondCode) (a b : SDValue)
    (h : Cnd ∉ [CondCode.SETEQ, CondCode.SETNE, CondCode.SETGT, CondCode.SETGE,
      CondCode.SETUGT, CondCode.SETUGE, CondCode.SETLT, CondCode.SETLE, CondCode.SETULT,
      CondCode.SETULE]) :
    SelectICmp.normalize Cnd a b = none := by
  cases Cnd <;> simp [SelectICmp.normalize] at h ⊢

/-- `SelectICmp` up to the switch: the two ways it fails on a comparison node. -/
theorem SelectICmp_none (T : VTarget) (dag : SelectionDAG) (N : Nat) (n : SDNode)
    (a b c : SDValue) (Cnd : CondCode) (co : List SDValue) (cv : List EVT)
    (cm : List Nat) (vta : EVT)
    (hN : dag.getNode N = some n)
    (h0 : n.ops[0]? = some a) (h1 : n.ops[1]? = some b) (h2 : n.ops[2]? = some c)
    (hc : dag.nodeOf c = some ⟨NodeKind.CondCode Cnd, co, cv, cm⟩)
    (hva : dag.getValueType a = some vta)
    (h : vta.getSizeInBits ≤ 1 ∨ SelectICmp.normalize Cnd a b = none) :
    SelectICmp T dag N = none := by
  unfold SelectICmp
  rw [hN]
  simp only [h0, h1, h2, hc]
  have hsz : computeSizeInBits dag a = some vta.getSizeInBits := by
    unfold computeSizeInBits; rw [hva]
  rw [hsz]
  simp only []
  by_cases hW : vta.getSizeInBits > 1
  · rw [if_neg (not_not.2 hW)]
    rcases h with h | h
    · omega
    · rw [h]
  · rw [if_pos hW]

/-- C9: on a comparison node whose operands are values of the DAG, `SelectICmp` fails
if and only if the width of the left operand is at most 1 or the condition code is not
one of EQ, NE, GT, GE, UGT, UGE, LT, LE, ULT, ULE; and for each of these ten codes the
switch yields a code on which `getICmpPort` is defined. -/
theorem SelectICmp_fails_iff (T : VTarget) (dag : SelectionDAG) (N : Nat) (n : SDNode)
    (a b c : SDValue) (Cnd : CondCode) (co : List SDValue) (cv : List EVT)
    (cm : List Nat) (vta vtb : EVT)
    (hN : dag.getNode N = some n)
    (h0 : n.ops[0]? = some a) (h1 : n.ops[1]? = some b) (h2 : n.ops[2]? = some c)
    (hc : dag.nodeOf c = some ⟨NodeKind.CondCode Cnd, co, cv, cm⟩)
    (hwa : dag.isOperand a = true) (hwb : dag.isOperand b = true)
    (hva : dag.getValueType a = some vta) (hvb : dag.getValueType b = some vtb) :
    (SelectICmp T dag N = none ↔
      vta.getSizeInBits ≤ 1 ∨
      Cnd ∉ [CondCode.SETEQ, CondCode.SETNE, CondCode.SETGT, CondCode.SETGE,
        CondCode.SETUGT, CondCode.SETUGE, CondCode.SETLT, CondCode.SETLE, CondCode.SETULT,
        CondCode.SETULE]) ∧
    (∀ CC ∈ [CondCode.SETEQ, CondCode.SETNE, CondCode.SETGT, CondCode.SETGE,
        CondCode.SETUGT, CondCode.SETUGE, CondCode.SETLT, CondCode.SETLE, CondCode.SETULT,
        CondCode.SETULE], ∀ x y : SDValue,
      ∃ CC' l r p, SelectICmp.normalize CC x y = some (CC', l, r) ∧
        getICmpPort CC' = some p) := by
  refine ⟨⟨?_, ?_⟩, ?_⟩
  · intro hnone
    by_contra hcon
    simp only [not_or, not_le, not_not] at hcon
    obtain ⟨hW, hacc⟩ := hcon
    obtain ⟨CC, L, R, p, hnorm, hp, hLR, -⟩ := normalize_accepts Cnd a b hacc
    rcases hLR with ⟨rfl, rfl⟩ | ⟨rfl, rfl⟩
    · rw [SelectICmp_eq T dag N n L R c L R Cnd CC co cv cm vta vta vtb p hN h0 h1 h2 hc
        hva hW hnorm hwa hwb hva hvb hp] at hnone
      exact Option.noConfusion hnone
    · rw [SelectICmp_eq T dag N n R L c L R Cnd CC co cv cm vta vtb vta p hN h0 h1 h2 hc
        hva hW hnorm hwb hwa hvb hva hp] at hnone
      exact Option.noConfusion hnone
  · intro h
    apply SelectICmp_none T dag N n a b c Cnd co cv cm vta hN h0 h1 h2 hc hva
    rcases h with h | h
    · exact Or.inl h
    · exact Or.inr (normalize_rejects Cnd a b h)
  · intro CC hCC x y
    obtain ⟨CC', l, r, p, h1, h2, -, -⟩ := normalize_accepts CC x y hCC
    exact ⟨CC', l, r, p, h1, h2⟩

/-- Witness for C9: the less-than comparison of `exCmpDag` does not fail. -/
theorem SelectICmp_fails_iff_witness :
    (SelectICmp exTarget exCmpDag 3 = none ↔
      8 ≤ 1 ∨
      CondCode.SETLT ∉ [CondCode.SETEQ, CondCode.SETNE, CondCode.SETGT, CondCode.SETGE,
        CondCode.SETUGT, CondCode.SETUGE, CondCode.SETLT, CondCode.SETLE, CondCode.SETULT,
        CondCode.SETULE]) :=
  (SelectICmp_fails_iff exTarget exCmpDag 3
    ⟨NodeKind.Generic ISDOpcode.ICmp, [SDValue.of 0 0, SDValue.of 1 0, SDValue.of 2 0],
      [EVT.Int 1], []⟩
    (SDValue.of 0 0) (SDValue.of 1 0) (SDValue.of 2 0) CondCode.SETLT [] [EVT.Other] []
    (EVT.Int 8) (EVT.Int 8) rfl rfl rfl rfl rfl rfl rfl rfl rfl).1

theorem annotationOf_Data_lt (vts tys : List EVT) : (annotationOf vts tys).Data < 2 ^ 64 := by
  unfold annotationOf
  exact applyCalls_Data_lt _ (by norm_num) _

theorem icmp_slice_decode (p : Nat) (hp : p = 1 ∨ p = 2 ∨ p = 3 ∨ p = 4) :
    decodeSlots (bitSliceWidths 8 (p + 1) p).get 2 = [1, 8] := by
  rcases hp with rfl | rfl | rfl | rfl <;> decide

theorem SelectICmp_result_bit_aux (T : VTarget) (dag : SelectionDAG) (N : Nat) (n : SDNode)
    (a b c L R : SDValue) (Cnd CC : CondCode) (co : List SDValue) (cv : List EVT)
    (cm : List Nat) (vta vtL vtR : EVT) (p : Nat)
    (hN : dag.getNode N = some n)
    (h0 : n.ops[0]? = some a) (h1 : n.ops[1]? = some b) (h2 : n.ops[2]? = some c)
    (hc : dag.nodeOf c = some ⟨NodeKind.CondCode Cnd, co, cv, cm⟩)
    (hva : dag.getValueType a = some vta) (hW : 1 < vta.getSizeInBits)
    (hnorm : SelectICmp.normalize Cnd a b = some (CC, L, R))
    (hwL : dag.isOperand L = true) (hwR : dag.isOperand R = true)
    (hvL : dag.getValueType L = some vtL) (hvR : dag.getValueType R = some vtR)
    (hp : getICmpPort CC = some p) :
    ∃ d len lhs rhs A,
      SelectICmp T dag N = some (d, some (len + 9)) ∧
      d.getNode (len + 9) = some ⟨NodeKind.Machine VTMOpcode.VOpBitSlice,
        [SDValue.of (len + 4) 0, SDValue.of (len + 5) 0, SDValue.of (len + 6) 0,
          SDValue.of (len + 7) 0, SDValue.of (len + 8) 0],
        [T.getRoundIntegerOrBitType (usub (p + 1) p)], []⟩ ∧
      d.getNode (len + 5) = some ⟨NodeKind.Constant true (p + 1), [], [EVT.i8], []⟩ ∧
      d.getNode (len + 6) = some ⟨NodeKind.Constant true p, [], [EVT.i8], []⟩ ∧
      d.getNode (len + 7) = some ⟨NodeKind.Constant true
        (bitSliceWidths 8 (p + 1) p).get, [], [EVT.i64], []⟩ ∧
      d.getNode (len + 8) = some ⟨NodeKind.Constant true 0, [], [EVT.i64], []⟩ ∧
      d.getNode (len + 4) = some ⟨NodeKind.Machine VTMOpcode.VOpICmp,
        [lhs, rhs, SDValue.of len 0, SDValue.of (len + 3) 0, SDValue.of (len + 1) 0],
        n.vts, []⟩ ∧
      d.getNode (len + 3) = some ⟨NodeKind.Constant true A, [], [EVT.i64], []⟩ ∧
      d.getNode (len + 1) = some ⟨NodeKind.Constant true 0, [], [EVT.i64], []⟩ ∧
      getBitWidth A 0 = 8 := by
  have heq := SelectICmp_eq T dag N n a b c L R Cnd CC co cv cm vta vtL vtR p hN h0 h1 h2 hc
    hva hW hnorm hwL hwR hvL hvR hp
  obtain ⟨len, hlen⟩ : ∃ len, len = (afterMove (afterMove dag L) R).nodes.length := ⟨_, rfl⟩
  rw [← hlen] at heq
  refine ⟨_, len, (materialize dag L).2, (materialize (afterMove dag L) R).2,
    ((annotationOf n.vts [vtL, vtR, EVT.Int vta.getSizeInBits]).setBitWidth 8 0).get,
    heq, ?_, ?_, ?_, ?_, ?_, ?_, ?_, ?_, ?_⟩
  · rw [hlen]; exact getNode_append_right _ _ _ 9
  · rw [hlen]; exact getNode_append_right _ _ _ 5
  · rw [hlen]; exact getNode_append_right _ _ _ 6
  · rw [hlen]; exact getNode_append_right _ _ _ 7
  · rw [hlen]; exact getNode_append_right _ _ _ 8
  · rw [hlen]; exact getNode_append_right _ _ _ 4
  · rw [hlen]; exact getNode_append_right _ _ _ 3
  · rw [hlen]; exact getNode_append_right _ _ _ 1
  · exact getBitWidth_setBitWidth_same (annotationOf n.vts _) 8 0 (by norm_num)
      (by norm_num) (annotationOf_Data_lt _ _)

/-- C4: for every accepted predicate, on a comparison node whose operands are values of
the DAG and whose left operand is wider than one bit, `SelectICmp` returns a
`VOpBitSlice` node (at `len + 9`) of the `VOpICmp` node (at `len + 4`) with upper bound
`p + 1`, lower bound `p`, slice width 1 and source width 8, where `p` is 1 for NE, 2 for
EQ, 3 for GE, UGE, LE, ULE and 4 for GT, UGT, LT, ULT; and slot 0 of the annotation of
the `VOpICmp` node is 8. -/
theorem SelectICmp_result_bit (T : VTarget) (dag : SelectionDAG) (N : Nat) (n : SDNode)
    (a b c : SDValue) (Cnd : CondCode) (co : List SDValue) (cv : List EVT)
    (cm : List Nat) (vta vtb : EVT)
    (hN : dag.getNode N = some n)
    (h0 : n.ops[0]? = some a) (h1 : n.ops[1]? = some b) (h2 : n.ops[2]? = some c)
    (hc : dag.nodeOf c = some ⟨NodeKind.CondCode Cnd, co, cv, cm⟩)
    (hwa : dag.isOperand a = true) (hwb : dag.isOperand b = true)
    (hva : dag.getValueType a = some vta) (hvb : dag.getValueType b = some vtb)
    (hW : 1 < vta.getSizeInBits)
    (hacc : Cnd ∈ [CondCode.SETEQ, CondCode.SETNE, CondCode.SETGT, CondCode.SETGE,
      CondCode.SETUGT, CondCode.SETUGE, CondCode.SETLT, CondCode.SETLE, CondCode.SETULT,
      CondCode.SETULE]) :
    ∃ d len lhs rhs A p,
      p = (if Cnd = CondCode.SETNE then 1 else if Cnd = CondCode.SETEQ then 2
        else if Cnd ∈ [CondCode.SETGE, CondCode.SETUGE, CondCode.SETLE, CondCode.SETULE]
        then 3 else 4) ∧
      SelectICmp T dag N = some (d, some (len + 9)) ∧
      d.getNode (len + 9) = some ⟨NodeKind.Machine VTMOpcode.VOpBitSlice,
        [SDValue.of (len + 4) 0, SDValue.of (len + 5) 0, SDValue.of (len + 6) 0,
          SDValue.of (len + 7) 0, SDValue.of (len + 8) 0],
        [T.getRoundIntegerOrBitType (usub (p + 1) p)], []⟩ ∧
      d.getNode (len + 5) = some ⟨NodeKind.Constant true (p + 1), [], [EVT.i8], []⟩ ∧
      d.getNode (len + 6) = some ⟨NodeKind.Constant true p, [], [EVT.i8], []⟩ ∧
      d.getNode (len + 7) = some ⟨NodeKind.Constant true
        (bitSliceWidths 8 (p + 1) p).get, [], [EVT.i64], []⟩ ∧
      decodeSlots (bitSliceWidths 8 (p + 1) p).get 2 = [1, 8] ∧
      d.getNode (len + 8) = some ⟨NodeKind.Constant true 0, [], [EVT.i64], []⟩ ∧
      d.getNode (len + 4) = some ⟨NodeKind.Machine VTMOpcode.VOpICmp,
        [lhs, rhs, SDValue.of len 0, SDValue.of (len + 3) 0, SDValue.of (len + 1) 0],
        n.vts, []⟩ ∧
      d.getNode (len + 3) = some ⟨NodeKind.Constant true A, [], [EVT.i64], []⟩ ∧
      d.getNode (len + 1) = some ⟨NodeKind.Constant true 0, [], [EVT.i64], []⟩ ∧
      getBitWidth A 0 = 8 := by
  obtain ⟨CC, L, R, p, hnorm, hp, hLR, hpv⟩ := normalize_accepts Cnd a b hacc
  have hp4 : p = 1 ∨ p = 2 ∨ p = 3 ∨ p = 4 := by
    rw [hpv]
    split_ifs <;> simp
  have hdec := icmp_slice_decode p hp4
  rcases hLR with ⟨rfl, rfl⟩ | ⟨rfl, rfl⟩
  · obtain ⟨d, len, lhs, rhs, A, g0, g1, g2, g3, g4, g5, g6, g7, g8, g9⟩ :=
      SelectICmp_result_bit_aux T dag N n L R c L R Cnd CC co cv cm vta vta vtb p hN h0 h1
        h2 hc hva hW hnorm hwa hwb hva hvb hp
    exact ⟨d, len, lhs, rhs, A, p, hpv, g0, g1, g2, g3, g4, hdec, g5, g6, g7, g8, g9⟩
  · obtain ⟨d, len, lhs, rhs, A, g0, g1, g2, g3, g4, g5, g6, g7, g8, g9⟩ :=
      SelectICmp_result_bit_aux T dag N n R L c L R Cnd CC co cv cm vta vtb vta p hN h0 h1
        h2 hc hva hW hnorm hwb hwa hvb hva hp
    exact ⟨d, len, lhs, rhs, A, p, hpv, g0, g1, g2, g3, g4, hdec, g5, g6, g7, g8, g9⟩

/-- Witness for C4: the signed less-than comparison of `exCmpDag` reads bit 4. -/
theorem SelectICmp_result_bit_witness :
    ∃ d len p,
      p = 4 ∧
      SelectICmp exTarget exCmpDag 3 = some (d, some (len + 9)) ∧
      d.getNode (len + 5) = some ⟨NodeKind.Constant true (p + 1), [], [EVT.i8], []⟩ ∧
      d.getNode (len + 6) = some ⟨NodeKind.Constant true p, [], [EVT.i8], []⟩ := by
  obtain ⟨d, len, lhs, rhs, A, p, hp, g0, -, g2, g3, -⟩ :=
    SelectICmp_result_bit exTarget exCmpDag 3
      ⟨NodeKind.Generic ISDOpcode.ICmp, [SDValue.of 0 0, SDValue.of 1 0, SDValue.of 2 0],
        [EVT.Int 1], []⟩
      (SDValue.of 0 0) (SDValue.of 1 0) (SDValue.of 2 0) CondCode.SETLT [] [EVT.Other] []
      (EVT.Int 8) (EVT.Int 8) rfl rfl rfl rfl rfl rfl rfl rfl rfl (by decide) (by decide)
  exact ⟨d, len, p, by rw [hp]; decide, g0, g2, g3⟩

/-- C3 (amended): for operands `a` and `b` of the same natural width and every
predicate `P` in LT, LE, ULT, ULE, `SelectICmp` on a node `(a, b, P)` and on a node
`(b, a, P')` with the same result types, `P'` being the swapped-operand counterpart of
`P`, have the same outcome: the same DAG, hence the same `VOpICmp` node (operands,
comparator subtype, annotation), and the same result bit slice; the outcome is a
selected node when the operands are wider than one bit. -/
theorem SelectICmp_swapped_operands (T : VTarget) (dag : SelectionDAG) (N1 N2 : Nat)
    (n1 n2 : SDNode) (a b c1 c2 : SDValue) (P : CondCode)
    (co1 co2 : List SDValue) (cv1 cv2 : List EVT) (cm1 cm2 : List Nat) (vta vtb : EVT)
    (hN1 : dag.getNode N1 = some n1) (hN2 : dag.getNode N2 = some n2)
    (h10 : n1.ops[0]? = some a) (h11 : n1.ops[1]? = some b) (h12 : n1.ops[2]? = some c1)
    (h20 : n2.ops[0]? = some b) (h21 : n2.ops[1]? = some a) (h22 : n2.ops[2]? = some c2)
    (hc1 : dag.nodeOf c1 = some ⟨NodeKind.CondCode P, co1, cv1, cm1⟩)
    (hc2 : dag.nodeOf c2
      = some ⟨NodeKind.CondCode (getSetCCSwappedOperands P), co2, cv2, cm2⟩)
    (hP : P ∈ [CondCode.SETLT, CondCode.SETLE, CondCode.SETULT, CondCode.SETULE])
    (hvts : n1.vts = n2.vts)
    (hwa : dag.isOperand a = true) (hwb : dag.isOperand b = true)
    (hva : dag.getValueType a = some vta) (hvb : dag.getValueType b = some vtb)
    (hsame : vta.getSizeInBits = vtb.getSizeInBits) :
    SelectICmp T dag N1 = SelectICmp T dag N2 ∧
    (1 < vta.getSizeInBits → ∃ d S, SelectICmp T dag N1 = some (d, some S)) := by
  by_cases hW : 1 < vta.getSizeInBits
  · have hW2 : 1 < vtb.getSizeInBits := by rw [← hsame]; exact hW
    obtain ⟨p, hn1, hn2, hp⟩ : ∃ p,
        SelectICmp.normalize P a b = some (getSetCCSwappedOperands P, b, a) ∧
        SelectICmp.normalize (getSetCCSwappedOperands P) b a
          = some (getSetCCSwappedOperands P, b, a) ∧
        getICmpPort (getSetCCSwappedOperands P) = some p := by
      simp only [List.mem_cons, List.mem_singleton, List.not_mem_nil, or_false] at hP
      rcases hP with rfl | rfl | rfl | rfl <;> exact ⟨_, rfl, rfl, rfl⟩
    have e1 := SelectICmp_eq T dag N1 n1 a b c1 b a P _ co1 cv1 cm1 vta vtb vta p hN1 h10
      h11 h12 hc1 hva hW hn1 hwb hwa hvb hva hp
    have e2 := SelectICmp_eq T dag N2 n2 b a c2 b a _ _ co2 cv2 cm2 vtb vtb vta p hN2 h20
      h21 h22 hc2 hvb hW2 hn2 hwb hwa hvb hva hp
    rw [e1, e2, hvts, hsame]
    exact ⟨rfl, fun _ => ⟨_, _, rfl⟩⟩
  · have hW2 : ¬ 1 < vtb.getSizeInBits := by rw [← hsame]; exact hW
    rw [SelectICmp_none T dag N1 n1 a b c1 P co1 cv1 cm1 vta hN1 h10 h11 h12 hc1 hva
        (Or.inl (by omega)),
      SelectICmp_none T dag N2 n2 b a c2 _ co2 cv2 cm2 vtb hN2 h20 h21 h22 hc2 hvb
        (Or.inl (by omega))]
    exact ⟨rfl, fun h => absurd h hW⟩

/-- Witness for C3: the two comparisons of `exCmpDag`. -/
theorem SelectICmp_swapped_operands_witness :
    SelectICmp exTarget exCmpDag 3 = SelectICmp exTarget exCmpDag 5 ∧
    ∃ d S, SelectICmp exTarget exCmpDag 3 = some (d, some S) := by
  obtain ⟨h1, h2⟩ := SelectICmp_swapped_operands exTarget exCmpDag 3 5
    ⟨NodeKind.Generic ISDOpcode.ICmp, [SDValue.of 0 0, SDValue.of 1 0, SDValue.of 2 0],
      [EVT.Int 1], []⟩
    ⟨NodeKind.Generic ISDOpcode.ICmp, [SDValue.of 1 0, SDValue.of 0 0, SDValue.of 4 0],
      [EVT.Int 1], []⟩
    (SDValue.of 0 0) (SDValue.of 1 0) (SDValue.of 2 0) (SDValue.of 4 0) CondCode.SETLT
    [] [] [EVT.Other] [EVT.Other] [] [] (EVT.Int 8) (EVT.Int 8)
    rfl rfl rfl rfl rfl rfl rfl rfl rfl rfl (by decide) rfl rfl rfl rfl rfl rfl
  exact ⟨h1, h2 (by decide)⟩

/-- C3 as stated fails: with an 8 bit left and a 16 bit right operand, the comparator
subtype of `(a, b, LT)` is an 8 bit constant and that of `(b, a, GT)` a 16 bit constant,
and the annotations of the two `VOpICmp` nodes differ. -/
theorem SelectICmp_swapped_operands_counterexample :
    ∃ d1 d2 S1 S2,
      SelectICmp exTarget exCmpMixedDag 3 = some (d1, some S1) ∧
      SelectICmp exTarget exCmpMixedDag 5 = some (d2, some S2) ∧
      d1.getNode 6 = some ⟨NodeKind.Constant true 1, [], [EVT.Int 8], []⟩ ∧
      d2.getNode 6 = some ⟨NodeKind.Constant true 1, [], [EVT.Int 16], []⟩ ∧
      (d1.getNode 10).map SDNode.ops = (d2.getNode 10).map SDNode.ops ∧
      (d1.getNode 10).map SDNode.kind = some (NodeKind.Machine VTMOpcode.VOpICmp) ∧
      (d1.getNode 9).map SDNode.kind ≠ (d2.getNode 9).map SDNode.kind := by
  refine ⟨_, _, _, _, rfl, rfl, rfl, rfl, rfl, rfl, ?_⟩
  decide

/-! ### Simple nodes and bit slices -/

theorem valueTypes_append_left (l extra : List SDNode) (r : SDValue) (vs : List SDValue) :
    ∀ tys, valueTypes (SelectionDAG.mk l r) vs = some tys →
      valueTypes (SelectionDAG.mk (l ++ extra) r) vs = some tys := by
  induction vs with
  | nil => intro tys h; simpa [valueTypes] using h
  | cons v rest ih =>
    intro tys h
    unfold valueTypes at h ⊢
    cases hv : (SelectionDAG.mk l r).getValueType v with
    | none => simp [hv] at h
    | some vt =>
      cases hr : valueTypes (SelectionDAG.mk l r) rest with
      | none => simp [hv, hr] at h
      | some vts =>
        rw [getValueType_append_left l extra r v vt hv, ih vts hr]
        simpa [hv, hr] using h

theorem getNode_set_self (l : List SDNode) (r : SDValue) (N : Nat) (m : SDNode)
    (h : N < l.length) : (SelectionDAG.mk (l.set N m) r).getNode N = some m := by
  simp [SelectionDAG.getNode, List.getElem?_set_self h]

/-- The closed form of `SelectSimpleNode` on a node whose operands are values of the
DAG: the trace number and the annotation are appended and `N` becomes the machine node
with the operands of `N`, the annotation and the trace number. -/
theorem SelectSimpleNode_eq (dag : SelectionDAG) (N : Nat) (n : SDNode) (Opc : VTMOpcode)
    (tys : List EVT)
    (hN : dag.getNode N = some n) (hT : valueTypes dag n.ops = some tys)
    (h32 : n.ops.length + 2 < 2 ^ 32) :
    SelectSimpleNode dag N Opc
      = some (⟨(dag.nodes ++ [SDNode.mk (NodeKind.Constant true 0) [] [EVT.i64] [],
              SDNode.mk (NodeKind.Constant true (annotationOf n.vts tys).get) [] [EVT.i64]
                []]).set N
            ⟨NodeKind.Machine Opc,
              n.ops ++ [SDValue.of (dag.nodes.length + 1) 0, SDValue.of dag.nodes.length 0],
              n.vts, n.memRefs⟩, dag.root⟩, some N) := by
  unfold SelectSimpleNode
  rw [hN]
  simp only [SelectionDAG.getTargetConstant, SelectionDAG.addNode, List.length_append,
    List.length_cons, List.length_nil, Nat.zero_add, Nat.reduceAdd]
  have hN2 : (SelectionDAG.mk (dag.nodes ++ [⟨NodeKind.Constant true 0, [], [EVT.i64], []⟩])
      dag.root).getNode N = some n := getNode_append_left _ _ _ _ _ hN
  have htake : List.take (n.ops.length + 2 - 2)
      (n.ops ++ [SDValue.null, SDValue.of dag.nodes.length 0]) = n.ops := by
    simp
  have hT2 : valueTypes (SelectionDAG.mk (dag.nodes ++
      [⟨NodeKind.Constant true 0, [], [EVT.i64], []⟩]) dag.root)
      (List.take (n.ops.length + 2 - 2)
        (n.ops ++ [SDValue.null, SDValue.of dag.nodes.length 0])) = some tys := by
    rw [htake]
    exact valueTypes_append_left dag.nodes _ dag.root n.ops tys hT
  rw [computeOperandsBitWidth_eq_annotationOf _ N n _ (n.ops.length + 2) tys hN2 (by omega)
    (by simp) h32 hT2]
  simp only [SelectionDAG.SelectNodeTo]
  have hN3 : (SelectionDAG.mk (dag.nodes ++ [⟨NodeKind.Constant true 0, [], [EVT.i64], []⟩] ++
      [⟨NodeKind.Constant true (annotationOf n.vts tys).get, [], [EVT.i64], []⟩])
      dag.root).getNode N = some n := getNode_append_left _ _ _ _ _ hN2
  rw [hN3]
  simp only [List.length_append, List.length_singleton, List.append_assoc,
    List.singleton_append, Nat.add_sub_cancel]
  have hset : (n.ops ++ [SDValue.null, SDValue.of dag.nodes.length 0]).set n.ops.length
      (SDValue.of (dag.nodes.length + 1) 0)
      = n.ops ++ [SDValue.of (dag.nodes.length + 1) 0, SDValue.of dag.nodes.length 0] := by
    rw [List.set_append_right _ _ (le_refl _)]
    simp
  rw [hset]

/-- C14: for a bit-slice node `N` whose operands are values of the DAG and whose first
operand is not a constant, `SelectBitSlice` fails if and only if that operand is a
generic `BitSlice` node or a selected `VOpBitSlice` node; otherwise `N` is morphed in
place into one `VOpBitSlice` node whose operands are the operands of `N`, in order,
followed by the annotation and the trace number, the only new nodes being these two
constants. -/
theorem SelectBitSlice_chained (dag : SelectionDAG) (N : Nat) (n : SDNode) (o : SDValue)
    (OpN : Nat) (Op : SDNode) (tys : List EVT)
    (hN : dag.getNode N = some n) (ho : n.ops[0]? = some o) (hon : o.node = some OpN)
    (hOp : dag.nodeOf o = some Op) (hnc : Op.kind.isConstant = false)
    (hT : valueTypes dag n.ops = some tys) (h32 : n.ops.length + 2 < 2 ^ 32) :
    (SelectBitSlice dag N = none ↔
      Op.kind = NodeKind.Generic ISDOpcode.BitSlice ∨
      Op.kind = NodeKind.Machine VTMOpcode.VOpBitSlice) ∧
    (¬ (Op.kind = NodeKind.Generic ISDOpcode.BitSlice ∨
        Op.kind = NodeKind.Machine VTMOpcode.VOpBitSlice) →
      SelectBitSlice dag N
        = some (⟨(dag.nodes ++ [SDNode.mk (NodeKind.Constant true 0) [] [EVT.i64] [],
              SDNode.mk (NodeKind.Constant true (annotationOf n.vts tys).get) [] [EVT.i64]
                []]).set N
            ⟨NodeKind.Machine VTMOpcode.VOpBitSlice,
              n.ops ++ [SDValue.of (dag.nodes.length + 1) 0, SDValue.of dag.nodes.length 0],
              n.vts, n.memRefs⟩, dag.root⟩, some N)) := by
  have hs := SelectSimpleNode_eq dag N n VTMOpcode.VOpBitSlice tys hN hT h32
  have key : SelectBitSlice dag N
      = if Op.kind ≠ NodeKind.Generic ISDOpcode.BitSlice
            ∧ (!Op.kind.isMachineOpcode ∨ Op.kind ≠ NodeKind.Machine VTMOpcode.VOpBitSlice)
          then SelectSimpleNode dag N VTMOpcode.VOpBitSlice else none := by
    unfold SelectBitSlice
    rw [hN]
    simp only [ho, hon, hOp, hnc, Bool.false_eq_true, if_false]
  have hcond : (Op.kind ≠ NodeKind.Generic ISDOpcode.BitSlice
      ∧ (!Op.kind.isMachineOpcode ∨ Op.kind ≠ NodeKind.Machine VTMOpcode.VOpBitSlice))
      ↔ ¬ (Op.kind = NodeKind.Generic ISDOpcode.BitSlice ∨
        Op.kind = NodeKind.Machine VTMOpcode.VOpBitSlice) := by
    constructor
    · rintro ⟨h1, h2⟩ (h | h)
      · exact h1 h
      · rcases h2 with h2 | h2
        · rw [h] at h2; simp [NodeKind.isMachineOpcode] at h2
        · exact h2 h
    · intro h
      simp only [not_or] at h
      exact ⟨h.1, Or.inr h.2⟩
  refine ⟨?_, ?_⟩
  · rw [key]
    by_cases hc : Op.kind = NodeKind.Generic ISDOpcode.BitSlice ∨
        Op.kind = NodeKind.Machine VTMOpcode.VOpBitSlice
    · rw [if_neg (fun h => (hcond.1 h) hc)]
      exact ⟨fun _ => hc, fun _ => rfl⟩
    · rw [if_pos (hcond.2 hc), hs]
      exact ⟨fun h => Option.noConfusion h, fun h => absurd h hc⟩
  · intro hc
    rw [key, if_pos (hcond.2 hc), hs]

/-- Witness for C14: the slice of a register in `exSliceDag` is selected. -/
theorem SelectBitSlice_chained_witness :
    (SelectBitSlice exSliceDag 5 = none ↔
      NodeKind.Generic (ISDOpcode.Other 0) = NodeKind.Generic ISDOpcode.BitSlice ∨
      NodeKind.Generic (ISDOpcode.Other 0) = NodeKind.Machine VTMOpcode.VOpBitSlice) :=
  (SelectBitSlice_chained exSliceDag 5
    ⟨NodeKind.Generic ISDOpcode.BitSlice, [SDValue.of 4 0, SDValue.of 1 0, SDValue.of 2 0],
      [EVT.Int 8], []⟩
    (SDValue.of 4 0) 4 ⟨NodeKind.Generic (ISDOpcode.Other 0), [], [EVT.Int 8], []⟩
    [EVT.Int 8, EVT.Int 8, EVT.Int 8] rfl rfl rfl rfl rfl rfl (by norm_num)).1

theorem sext_slice (w v UB LB : Nat) (hUB : UB ≤ w) (hw : w ≤ 64) :
    getBitSlice (getSExtValue w v) UB LB = getBitSlice v UB LB := by
  unfold getSExtValue
  split_ifs with h
  · rw [getBitSlice_eq, getBitSlice_eq]
    by_cases hLB : LB ≤ UB
    · have hsplit : 2 ^ LB * 2 ^ (UB - LB) = 2 ^ UB := by
        rw [← pow_add]; congr 1; omega
      rw [← Nat.mod_mul_right_div_self, ← Nat.mod_mul_right_div_self (m := v), hsplit]
      have hd : 2 ^ UB ∣ 2 ^ 64 - 2 ^ w := by
        have h1 : 2 ^ UB ∣ 2 ^ 64 := pow_dvd_pow 2 (by omega)
        have h2 : 2 ^ UB ∣ 2 ^ w := pow_dvd_pow 2 hUB
        exact Nat.dvd_sub' h1 h2
      obtain ⟨k, hk⟩ := hd
      rw [hk, Nat.add_mul_mod_self_left]
    · have : UB - LB = 0 := by omega
      rw [this, pow_zero, Nat.mod_one, Nat.mod_one]
  · rfl

/-- C5 (amended): for an integer constant `v` of at most 64 bits and a valid range
`[LB, UB)` within its width, `SelectBitSlice` on a bit-slice node `N` whose operand is
that constant emits no `VOpBitSlice` operation: it appends the new target constant
`(v >> LB) & ((1 << (UB - LB)) - 1)` of width `UB - LB`, the trace number and the
annotation, and morphs `N` in place into a `VOpMove_ri` node of that constant. -/
theorem SelectBitSlice_constant (dag : SelectionDAG) (N : Nat) (n : SDNode) (CN r : Nat)
    (t : Bool) (v : Nat) (cops : List SDValue) (cvt : EVT) (crest : List EVT)
    (cmem : List Nat) (u ru l rl : Nat) (cu cl : SDNode) (tu tl : Bool) (UB LB : Nat)
    (vt0 : EVT)
    (hN : dag.getNode N = some n)
    (ho : n.ops[0]? = some ⟨some CN, r⟩)
    (hC : dag.getNode CN = some ⟨NodeKind.Constant t v, cops, cvt :: crest, cmem⟩)
    (h1 : n.ops[1]? = some ⟨some u, ru⟩) (hu : dag.getNode u = some cu)
    (hcu : cu.kind = NodeKind.Constant tu UB)
    (h2 : n.ops[2]? = some ⟨some l, rl⟩) (hl : dag.getNode l = some cl)
    (hcl : cl.kind = NodeKind.Constant tl LB)
    (hvt0 : n.vts[0]? = some vt0)
    (hLB : LB < UB) (hUB : UB ≤ cvt.getSizeInBits) (hw : cvt.getSizeInBits ≤ 64) :
    SelectBitSlice dag N
      = some (⟨(dag.nodes ++
            [SDNode.mk (NodeKind.Constant true ((v >>> LB) &&& ((1 <<< (UB - LB)) - 1))) []
                [EVT.Int (UB - LB)] [],
              SDNode.mk (NodeKind.Constant true 0) [] [EVT.i64] [],
              SDNode.mk (NodeKind.Constant true
                (annotationOf [EVT.Int (UB - LB)] [EVT.Int (UB - LB)]).get) []
                [EVT.i64] []]).set N
            ⟨NodeKind.Machine VTMOpcode.VOpMove_ri,
              [SDValue.of dag.nodes.length 0, SDValue.of (dag.nodes.length + 2) 0,
                SDValue.of (dag.nodes.length + 1) 0],
              [vt0], n.memRefs⟩, dag.root⟩, some N) ∧
    (v >>> LB) &&& ((1 <<< (UB - LB)) - 1) < 2 ^ (UB - LB) := by
  have hUB32 : UB < 2 ^ 32 := by
    have : (64 : Nat) < 2 ^ 32 := by norm_num
    omega
  have hLB32 : LB < 2 ^ 32 := by omega
  refine ⟨?_, ?_⟩
  · unfold SelectBitSlice
    rw [hN]
    simp only [ho, SelectionDAG.nodeOf, hC, NodeKind.isConstant, if_true]
    unfold SelectConstBitSlice
    rw [hC, hN]
    simp only []
    rw [getConstantOperandVal_eq dag n 1 u ru cu tu UB h1 hu hcu,
      getConstantOperandVal_eq dag n 2 l rl cl tl LB h2 hl hcl]
    simp only []
    rw [Nat.mod_eq_of_lt hUB32, Nat.mod_eq_of_lt hLB32, usub_eq UB LB (by omega) hUB32,
      sext_slice _ v UB LB hUB hw]
    obtain ⟨val, hval⟩ : ∃ val, val = getBitSlice v UB LB := ⟨_, rfl⟩
    have hval2 : (v >>> LB) &&& ((1 <<< (UB - LB)) - 1) = val := by rw [hval]; rfl
    rw [hval2, ← hval]
    simp only [SelectionDAG.getTargetConstant, SelectionDAG.addNode, SDValue.of, hvt0,
      List.length_append, List.length_singleton, List.append_assoc, List.singleton_append]
    have hN2 : (SelectionDAG.mk (dag.nodes ++
        [⟨NodeKind.Constant true val, [], [EVT.Int (UB - LB)], []⟩,
         ⟨NodeKind.Constant true 0, [], [EVT.i64], []⟩]) dag.root).getNode dag.nodes.length
        = some ⟨NodeKind.Constant true val, [], [EVT.Int (UB - LB)], []⟩ := by
      have := getNode_append_right dag.nodes
        [⟨NodeKind.Constant true val, [], [EVT.Int (UB - LB)], []⟩,
         ⟨NodeKind.Constant true 0, [], [EVT.i64], []⟩] dag.root 0
      rw [Nat.add_zero] at this
      exact this
    have hT : valueTypes (SelectionDAG.mk (dag.nodes ++
        [⟨NodeKind.Constant true val, [], [EVT.Int (UB - LB)], []⟩,
         ⟨NodeKind.Constant true 0, [], [EVT.i64], []⟩]) dag.root)
        (List.take (3 - 2) [⟨some dag.nodes.length, 0⟩, SDValue.null,
          ⟨some (dag.nodes.length + 1), 0⟩]) = some [EVT.Int (UB - LB)] := by
      have := getValueType_append_right dag.nodes
        [⟨NodeKind.Constant true val, [], [EVT.Int (UB - LB)], []⟩,
         ⟨NodeKind.Constant true 0, [], [EVT.i64], []⟩] dag.root 0 _ rfl 0
      rw [Nat.add_zero] at this
      simp only [SDValue.of] at this
      simp [valueTypes, this]
    rw [computeOperandsBitWidth_eq_annotationOf _ dag.nodes.length _ _ 3 _ hN2 (by norm_num)
      (by simp) (by norm_num) hT]
    simp only [SelectionDAG.SelectNodeTo]
    have hN3 : (SelectionDAG.mk (dag.nodes ++
        [⟨NodeKind.Constant true val, [], [EVT.Int (UB - LB)], []⟩,
         ⟨NodeKind.Constant true 0, [], [EVT.i64], []⟩] ++
        [⟨NodeKind.Constant true
          (annotationOf [EVT.Int (UB - LB)] [EVT.Int (UB - LB)]).get, [], [EVT.i64], []⟩])
        dag.root).getNode N = some n :=
      getNode_append_left _ _ _ _ _ (getNode_append_left _ _ _ _ _ hN)
    rw [hN3]
    simp [SDValue.of]
  · rw [Nat.one_shiftLeft, Nat.and_pow_two_sub_one_eq_mod]
    exact Nat.mod_lt _ (by positivity)

/-- Witness for C5: the bits `[2, 6)` of the constant `0xAB` are `0xA`. -/
theorem SelectBitSlice_constant_witness :
    SelectBitSlice exSliceDag 3
      = some (⟨(exSliceDag.nodes ++
            [SDNode.mk (NodeKind.Constant true ((0xAB >>> 2) &&& ((1 <<< (6 - 2)) - 1))) []
                [EVT.Int (6 - 2)] [],
              SDNode.mk (NodeKind.Constant true 0) [] [EVT.i64] [],
              SDNode.mk (NodeKind.Constant true
                (annotationOf [EVT.Int (6 - 2)] [EVT.Int (6 - 2)]).get) []
                [EVT.i64] []]).set 3
            ⟨NodeKind.Machine VTMOpcode.VOpMove_ri,
              [SDValue.of 6 0, SDValue.of (6 + 2) 0, SDValue.of (6 + 1) 0],
              [EVT.Int 8], []⟩, exSliceDag.root⟩, some 3) ∧
    (0xAB >>> 2) &&& ((1 <<< (6 - 2)) - 1) = 0xA :=
  ⟨(SelectBitSlice_constant exSliceDag 3
      ⟨NodeKind.Generic ISDOpcode.BitSlice, [SDValue.of 0 0, SDValue.of 1 0, SDValue.of 2 0],
        [EVT.Int 8], []⟩
      0 0 false 0xAB [] (EVT.Int 8) [] [] 1 0 2 0
      ⟨NodeKind.Constant true 6, [], [EVT.Int 8], []⟩
      ⟨NodeKind.Constant true 2, [], [EVT.Int 8], []⟩ true true 6 2 (EVT.Int 8)
      rfl rfl rfl rfl rfl rfl rfl rfl rfl rfl (by decide) (by decide) (by decide)).1,
   by decide⟩

/-- C5 as stated fails: the slice `[2, 6)` of the constant `0xAB` is lowered to a
hardware operation, the node is returned as a `VOpMove_ri` machine node and not as a
constant. -/
theorem SelectBitSlice_constant_counterexample :
    ∃ d, SelectBitSlice exSliceDag 3 = some (d, some 3) ∧
      (d.getNode 3).map SDNode.kind = some (NodeKind.Machine VTMOpcode.VOpMove_ri) ∧
      (d.getNode 3).map (fun m => m.kind.isMachineOpcode) = some true ∧
      (d.getNode 3).map (fun m => m.kind.isConstant) = some false :=
  ⟨_, rfl, rfl, rfl, rfl⟩

/-! ## Post-processing -/

theorem targetImmediate_kind (n imm : SDNode) (h : targetImmediate n = some imm) :
    imm.kind ≠ NodeKind.Generic ISDOpcode.CopyToReg ∧ shouldMoveToReg n = true ∨
    (∃ gv off f, imm.kind = NodeKind.GlobalAddress true gv off f) := by
  unfold targetImmediate at h
  cases hk : n.kind <;> cases hv : n.vts[0]? <;> simp [hk, hv] at h
  · left; subst h; simp [shouldMoveToReg, hk, NodeKind.isConstant]
  · left; subst h; simp [shouldMoveToReg, hk, NodeKind.isExternalSymbol, NodeKind.isConstant]
  · right; subst h; exact ⟨_, _, _, rfl⟩

theorem targetImmediate_not_copy (n imm : SDNode) (h : targetImmediate n = some imm) :
    imm.kind ≠ NodeKind.Generic ISDOpcode.CopyToReg := by
  rcases targetImmediate_kind n imm h with h1 | ⟨gv, off, f, h1⟩
  · exact h1.1
  · rw [h1]; exact fun hc => NodeKind.noConfusion hc

theorem shouldMoveToReg_kind (a b : SDNode) (h : a.kind = b.kind) :
    shouldMoveToReg a = shouldMoveToReg b := by
  simp [shouldMoveToReg, h]

theorem shouldMoveToReg_not_copy (a : SDNode) (h : shouldMoveToReg a = true) :
    a.kind ≠ NodeKind.Generic ISDOpcode.CopyToReg := by
  intro hc
  simp [shouldMoveToReg, hc, NodeKind.isConstant, NodeKind.isExternalSymbol] at h

theorem CopyToReg_some (d d2 : SelectionDAG) (NI : Nat) (h : CopyToReg d NI = some d2) :
    ∃ c src j s, d.getNode NI = some c ∧ c.ops[2]? = some src ∧ src.node = some j ∧
      d.getNode j = some s ∧
      ((shouldMoveToReg s = false ∧ d2 = d) ∨
       (shouldMoveToReg s = true ∧ ∃ imm, targetImmediate s = some imm ∧
          d2 = ⟨(d.nodes ++ moveImmediateNodes d.nodes.length s imm).set NI
                  { c with ops := c.ops.set 2 (SDValue.of (d.nodes.length + 3) 0) },
                d.root⟩)) := by
  unfold CopyToReg at h
  cases hc : d.getNode NI with
  | none => simp [hc] at h
  | some c =>
    simp only [hc] at h
    cases hs : c.ops[2]? with
    | none => simp [hs] at h
    | some src =>
      simp only [hs] at h
      cases hj : src.node with
      | none => simp [hj] at h
      | some j =>
        have hn : d.nodeOf src = d.getNode j := by simp [SelectionDAG.nodeOf, hj]
        cases hsj : d.getNode j with
        | none => simp [hj, hn, hsj] at h
        | some s =>
          simp only [hj, hn, hsj] at h
          refine ⟨c, src, j, s, rfl, hs, hj, hsj, ?_⟩
          cases hm : shouldMoveToReg s with
          | false =>
            left
            simp only [hm, Bool.not_false, if_true, Option.some.injEq] at h
            exact ⟨rfl, h.symm⟩
          | true =>
            right
            simp only [hm, Bool.not_true, Bool.false_eq_true, if_false] at h
            refine ⟨rfl, ?_⟩
            cases hi : targetImmediate s with
            | none =>
              rw [SelectImmediate_force_none d j s hsj hi] at h
              exact Option.noConfusion h
            | some imm =>
              rw [SelectImmediate_force d j s imm hsj hi] at h
              simp only [UpdateNodeOperand] at h
              have hc2 := getNode_append_left d.nodes
                (moveImmediateNodes d.nodes.length s imm) d.root NI c hc
              rw [hc2] at h
              have h2 : 2 < c.ops.length := by
                by_contra hlt
                rw [List.getElem?_eq_none (by omega)] at hs
                exact Option.noConfusion hs
              simp only [h2, if_true, Option.some.injEq] at h
              exact ⟨imm, rfl, h.symm⟩

theorem CopyToReg_noop (d : SelectionDAG) (NI : Nat) (c : SDNode) (src : SDValue)
    (s : SDNode) (hc : d.getNode NI = some c) (hs : c.ops[2]? = some src)
    (hn : d.nodeOf src = some s) (hm : shouldMoveToReg s = false) :
    CopyToReg d NI = some d := by
  unfold CopyToReg
  simp only [hc, hs, hn]
  cases hj : src.node with
  | none => simp [SelectionDAG.nodeOf, hj] at hn
  | some j => simp [hm]

theorem CopyToReg_isSome (d : SelectionDAG) (NI : Nat) (c : SDNode) (src : SDValue)
    (s : SDNode) (hc : d.getNode NI = some c) (hs : c.ops[2]? = some src)
    (hn : d.nodeOf src = some s)
    (hm : shouldMoveToReg s = true → (s.vts[0]?).isSome = true) :
    ∃ d2, CopyToReg d NI = some d2 := by
  cases hmv : shouldMoveToReg s with
  | false => exact ⟨d, CopyToReg_noop d NI c src s hc hs hn hmv⟩
  | true =>
    have hv := hm hmv
    cases hj : src.node with
    | none => simp [SelectionDAG.nodeOf, hj] at hn
    | some j =>
      have hsj : d.getNode j = some s := by simpa [SelectionDAG.nodeOf, hj] using hn
      obtain ⟨vt, hvt⟩ := Option.isSome_iff_exists.mp hv
      have himm : ∃ imm, targetImmediate s = some imm := by
        unfold targetImmediate
        simp only [shouldMoveToReg, Bool.or_eq_true] at hmv
        cases hk : s.kind <;>
          simp [hk, hvt, NodeKind.isConstant, NodeKind.isExternalSymbol] at hmv ⊢
      obtain ⟨imm, himm⟩ := himm
      unfold CopyToReg
      simp only [hc, hs, hn, hj, hmv, Bool.not_true, Bool.false_eq_true, if_false]
      rw [SelectImmediate_force d j s imm hsj himm]
      simp only [UpdateNodeOperand]
      rw [getNode_append_left d.nodes (moveImmediateNodes d.nodes.length s imm) d.root NI c hc]
      have h2 : 2 < c.ops.length := by
        by_contra hlt
        rw [List.getElem?_eq_none (by omega)] at hs
        exact Option.noConfusion hs
      simp only [h2, if_true]
      exact ⟨_, rfl⟩

theorem getNode_step_ne (d : SelectionDAG) (M : List SDNode) (NI i : Nat) (x : SDNode)
    (hne : i ≠ NI) (hi : i < d.nodes.length) :
    (SelectionDAG.mk ((d.nodes ++ M).set NI x) d.root).getNode i = d.getNode i := by
  simp only [SelectionDAG.getNode]
  rw [List.getElem?_set_ne (Ne.symm hne), List.getElem?_append_left hi]

theorem getNode_step_self (d : SelectionDAG) (M : List SDNode) (NI : Nat) (x : SDNode)
    (hi : NI < d.nodes.length) :
    (SelectionDAG.mk ((d.nodes ++ M).set NI x) d.root).getNode NI = some x := by
  simp only [SelectionDAG.getNode]
  rw [List.getElem?_set_self (by rw [List.length_append]; omega)]

theorem getNode_step_new (d : SelectionDAG) (M : List SDNode) (NI k : Nat) (x : SDNode)
    (hi : NI < d.nodes.length) :
    (SelectionDAG.mk ((d.nodes ++ M).set NI x) d.root).getNode (d.nodes.length + k)
      = M[k]? := by
  simp only [SelectionDAG.getNode]
  rw [List.getElem?_set_ne (by omega), List.getElem?_append_right (by omega)]
  congr 1; omega

theorem Inv_skip (G d : SelectionDAG) (NI : Nat) (n : SDNode)
    (hinv : PostprocessISelDAG.Inv G d NI) (hNI : d.getNode NI = some n)
    (hk : n.kind ≠ NodeKind.Generic ISDOpcode.CopyToReg) :
    PostprocessISelDAG.Inv G d (NI + 1) := by
  obtain ⟨I1, I2, I3, I4, I5, I7⟩ := hinv
  refine ⟨I1, fun i hi hL => I2 i (by omega) hL, I3, I4, ?_, ?_⟩
  · intro i c src s hi hc hck hsrc hs
    rcases Nat.lt_or_ge i NI with hlt | hge
    · exact I5 i c src s hlt hc hck hsrc hs
    · have hi' : i = NI := by omega
      subst hi'
      have := I2 i (le_refl _) (getNode_lt G i c hc)
      rw [hNI, hc] at this
      simp only [Option.some.injEq] at this
      rw [this] at hk
      exact absurd hck hk
  · intro i c hi hc hck
    rcases Nat.lt_or_ge i NI with hlt | hge
    · exact I7 i c hlt hc hck
    · have hi' : i = NI := by omega
      subst hi'
      rw [hNI] at hc
      simp only [Option.some.injEq] at hc
      rw [hc] at hk
      exact absurd hck hk

theorem Inv_copy_lt (G d : SelectionDAG) (NI : Nat) (n : SDNode)
    (hinv : PostprocessISelDAG.Inv G d NI) (hNI : d.getNode NI = some n)
    (hk : n.kind = NodeKind.Generic ISDOpcode.CopyToReg) :
    NI < G.nodes.length ∧ G.getNode NI = some n := by
  obtain ⟨I1, I2, I3, I4, I5, I7⟩ := hinv
  have hlt : NI < G.nodes.length := by
    by_contra hc
    exact I4 NI n (by omega) hNI hk
  exact ⟨hlt, by rw [← I2 NI (le_refl _) hlt]; exact hNI⟩

theorem Inv_copy (G d d2 : SelectionDAG) (NI : Nat) (n : SDNode)
    (hinv : PostprocessISelDAG.Inv G d NI) (hNI : d.getNode NI = some n)
    (hk : n.kind = NodeKind.Generic ISDOpcode.CopyToReg)
    (hstep : CopyToReg d NI = some d2) :
    PostprocessISelDAG.Inv G d2 (NI + 1) ∧ d2.nodes.length ≤ d.nodes.length + 4 := by
  obtain ⟨hlt, hG⟩ := Inv_copy_lt G d NI n hinv hNI hk
  obtain ⟨I1, I2, I3, I4, I5, I7⟩ := hinv
  obtain ⟨c, src, j, s, hc, hsrc, hj, hsj, hcase⟩ := CopyToReg_some d d2 NI hstep
  rw [hNI] at hc
  simp only [Option.some.injEq] at hc
  subst hc
  have hnod : d.nodeOf src = some s := by simp [SelectionDAG.nodeOf, hj, hsj]
  -- the source node of the copy in the original DAG, when it has one
  have hsame : ∀ sG, G.nodeOf src = some sG →
      shouldMoveToReg sG = shouldMoveToReg s ∧ (shouldMoveToReg s = true → sG = s) := by
    intro sG hsG
    have hGj : G.getNode j = some sG := by simpa [SelectionDAG.nodeOf, hj] using hsG
    obtain ⟨s', hs', hkind, -, heq⟩ := I3 j sG hGj
    rw [hsj] at hs'
    simp only [Option.some.injEq] at hs'
    subst hs'
    refine ⟨(shouldMoveToReg_kind _ _ hkind).symm, fun hm => ?_⟩
    have := shouldMoveToReg_not_copy s hm
    rw [hkind] at this
    exact (heq this).symm
  rcases hcase with ⟨hm, hd⟩ | ⟨hm, imm, himm, hd⟩
  · subst hd
    refine ⟨⟨I1, fun i hi hL => I2 i (by omega) hL, I3, I4, ?_, ?_⟩, by omega⟩
    · intro i c src' sG hi hc hck hsrc' hsG
      rcases Nat.lt_or_ge i NI with hlt' | hge
      · exact I5 i c src' sG hlt' hc hck hsrc' hsG
      · have hi' : i = NI := by omega
        subst hi'
        rw [hG] at hc
        simp only [Option.some.injEq] at hc
        subst hc
        rw [hsrc] at hsrc'
        simp only [Option.some.injEq] at hsrc'
        subst hsrc'
        have h1 := (hsame sG hsG).1
        rw [hm] at h1
        exact ⟨fun ht => by rw [h1] at ht; exact Bool.noConfusion ht, fun _ => hNI⟩
    · intro i c hi hc hck
      rcases Nat.lt_or_ge i NI with hlt' | hge
      · exact I7 i c hlt' hc hck
      · have hi' : i = NI := by omega
        subst hi'
        rw [hNI] at hc
        simp only [Option.some.injEq] at hc
        subst hc
        exact ⟨src, s, hsrc, hnod, hm⟩
  · have hlen : NI < d.nodes.length := by omega
    have h2 : 2 < n.ops.length := by
      by_contra hlt2
      rw [List.getElem?_eq_none (by omega)] at hsrc
      exact Option.noConfusion hsrc
    obtain ⟨M, hM⟩ : ∃ M, M = moveImmediateNodes d.nodes.length s imm := ⟨_, rfl⟩
    obtain ⟨n', hn'⟩ : ∃ n' : SDNode,
        n' = { n with ops := n.ops.set 2 (SDValue.of (d.nodes.length + 3) 0) } := ⟨_, rfl⟩
    rw [← hM, ← hn'] at hd
    have hn'k : n'.kind = n.kind := by rw [hn']
    have hMlen : M.length = 4 := by rw [hM]; rfl
    have F1 : ∀ i, i ≠ NI → i < d.nodes.length → d2.getNode i = d.getNode i := by
      intro i h1 h2'; rw [hd]; exact getNode_step_ne d M NI i n' h1 h2'
    have F2 : d2.getNode NI = some n' := by rw [hd]; exact getNode_step_self d M NI n' hlen
    have F3 : ∀ k, d2.getNode (d.nodes.length + k) = M[k]? := by
      intro k; rw [hd]; exact getNode_step_new d M NI k n' hlen
    have F4 : d2.nodes.length = d.nodes.length + 4 := by
      rw [hd]; simp only [List.length_set, List.length_append, hMlen]
    -- nodes that are not the copy at `NI` are carried over
    have Fk : ∀ i x, d.getNode i = some x → x.kind ≠ NodeKind.Generic ISDOpcode.CopyToReg →
        d2.getNode i = some x := by
      intro i x hx hxk
      have hne : i ≠ NI := by
        intro he; subst he; rw [hNI] at hx
        simp only [Option.some.injEq] at hx
        rw [← hx] at hxk; exact hxk hk
      rw [F1 i hne (getNode_lt d i x hx)]; exact hx
    have hMk : ∀ (k : Nat) (x : SDNode), M[k]? = some x → x.kind ≠ NodeKind.Generic ISDOpcode.CopyToReg := by
      intro k x hx
      have hk4 : k < 4 := by
        by_contra hc4
        rw [List.getElem?_eq_none (by omega)] at hx
        exact Option.noConfusion hx
      rw [hM] at hx
      have himmk := targetImmediate_not_copy s imm himm
      interval_cases k <;> simp [moveImmediateNodes] at hx <;> subst hx
      · exact himmk
      · exact fun h => NodeKind.noConfusion h
      · exact fun h => NodeKind.noConfusion h
      · exact fun h => NodeKind.noConfusion h
    refine ⟨⟨by omega, ?_, ?_, ?_, ?_, ?_⟩, by omega⟩
    · intro i hi hL
      rw [F1 i (by omega) (by omega)]
      exact I2 i (by omega) hL
    · intro i c hc
      obtain ⟨c', hc', hkind, hvts, heq⟩ := I3 i c hc
      by_cases hi : i = NI
      · subst hi
        rw [hNI] at hc'
        simp only [Option.some.injEq] at hc'
        subst hc'
        refine ⟨n', F2, ?_, ?_, ?_⟩
        · rw [hn'k]; exact hkind
        · rw [hn']; exact hvts
        · intro hne; rw [← hkind] at hne; exact absurd hk hne
      · refine ⟨c', ?_, hkind, hvts, heq⟩
        rw [F1 i hi (getNode_lt d i c' hc')]; exact hc'
    · intro i c hL hc
      by_cases hi : i < d.nodes.length
      · rw [F1 i (by omega) hi] at hc
        exact I4 i c hL hc
      · have hF := F3 (i - d.nodes.length)
        rw [show d.nodes.length + (i - d.nodes.length) = i by omega, hc] at hF
        exact hMk _ c hF.symm
    · intro i c src' sG hi hc hck hsrc' hsG
      rcases Nat.lt_or_ge i NI with hlt' | hge
      · obtain ⟨R1, R2⟩ := I5 i c src' sG hlt' hc hck hsrc' hsG
        have hid : i < d.nodes.length := by
          have := getNode_lt G i c hc; omega
        refine ⟨fun ht => ?_, fun hf => ?_⟩
        · obtain ⟨m, imm0, h0, h1, h2', h3⟩ := R1 ht
          refine ⟨m, imm0, h0, ?_, ?_, ?_⟩
          · rw [F1 i (by omega) hid]; exact h1
          · exact Fk m imm0 h2' (targetImmediate_not_copy sG imm0 h0)
          · exact Fk _ _ h3 (fun h => NodeKind.noConfusion h)
        · rw [F1 i (by omega) hid]; exact R2 hf
      · have hi' : i = NI := by omega
        subst hi'
        rw [hG] at hc
        simp only [Option.some.injEq] at hc
        subst hc
        rw [hsrc] at hsrc'
        simp only [Option.some.injEq] at hsrc'
        subst hsrc'
        obtain ⟨h1, h2'⟩ := hsame sG hsG
        have hsG' := h2' hm
        subst hsG'
        refine ⟨fun _ => ⟨d.nodes.length, imm, himm, ?_, ?_, ?_⟩, fun hf => ?_⟩
        · rw [F2, hn']
        · have := F3 0
          rw [Nat.add_zero] at this
          rw [this, hM]; rfl
        · rw [F3 3, hM]; rfl
        · rw [hm] at hf; exact Bool.noConfusion hf
    · intro i c hi hc hck
      rcases Nat.lt_or_ge i NI with hlt' | hge
      · have hid : i < d.nodes.length := by omega
        rw [F1 i (by omega) hid] at hc
        obtain ⟨src0, s0, hs0, hn0, hm0⟩ := I7 i c hlt' hc hck
        cases hj0 : src0.node with
        | none => simp [SelectionDAG.nodeOf, hj0] at hn0
        | some j0 =>
          have hg0 : d.getNode j0 = some s0 := by simpa [SelectionDAG.nodeOf, hj0] using hn0
          by_cases hj0NI : j0 = NI
          · subst hj0NI
            rw [hNI] at hg0
            simp only [Option.some.injEq] at hg0
            subst hg0
            refine ⟨src0, n', hs0, by simp [SelectionDAG.nodeOf, hj0, F2], ?_⟩
            rw [shouldMoveToReg_kind n' n hn'k]; exact hm0
          · refine ⟨src0, s0, hs0, ?_, hm0⟩
            simp only [SelectionDAG.nodeOf, hj0]
            rw [F1 j0 hj0NI (getNode_lt d j0 s0 hg0)]; exact hg0
      · have hi' : i = NI := by omega
        subst hi'
        rw [F2] at hc
        simp only [Option.some.injEq] at hc
        subst hc
        refine ⟨SDValue.of (d.nodes.length + 3) 0,
          ⟨NodeKind.Machine VTMOpcode.VOpMove_ri,
            [SDValue.of d.nodes.length 0, SDValue.of (d.nodes.length + 2) 0,
              SDValue.of (d.nodes.length + 1) 0], s.vts, []⟩, ?_, ?_, rfl⟩
        · rw [hn']
          simp only [List.getElem?_set_self h2]
        · simp only [SelectionDAG.nodeOf, SDValue.of]
          rw [F3 3, hM]; rfl

theorem copiesWellFormed_spec (G : SelectionDAG) (hwf : G.copiesWellFormed = true)
    (i : Nat) (c : SDNode) (hc : G.getNode i = some c)
    (hk : c.kind = NodeKind.Generic ISDOpcode.CopyToReg) :
    ∃ src s, c.ops[2]? = some src ∧ G.nodeOf src = some s ∧
      (shouldMoveToReg s = true → (s.vts[0]?).isSome = true) := by
  unfold SelectionDAG.copiesWellFormed at hwf
  rw [List.all_eq_true] at hwf
  have hmem : c ∈ G.nodes := by
    simp only [SelectionDAG.getNode] at hc
    exact List.mem_iff_getElem?.mpr ⟨i, hc⟩
  have := hwf c hmem
  simp only [hk, if_true] at this
  cases hs : c.ops[2]? with
  | none => simp [hs] at this
  | some src =>
    simp only [hs] at this
    cases hn : G.nodeOf src with
    | none => simp [hn] at this
    | some s =>
      simp only [hn, Bool.or_eq_true, Bool.not_eq_true'] at this
      refine ⟨src, s, rfl, hn, fun hm => ?_⟩
      rcases this with h | h
      · rw [hm] at h; exact Bool.noConfusion h
      · exact h

theorem loop_inv (G : SelectionDAG) :
    ∀ fuel d NI, PostprocessISelDAG.Inv G d NI →
      ∀ d', PostprocessISelDAG.loop fuel d NI = some d' →
        ∃ NI', d'.nodes.length ≤ NI' ∧ PostprocessISelDAG.Inv G d' NI' := by
  intro fuel
  induction fuel with
  | zero => intro d NI _ d' h; exact Option.noConfusion h
  | succ fuel ih =>
    intro d NI hinv d' h
    simp only [PostprocessISelDAG.loop] at h
    cases hN : d.getNode NI with
    | none =>
      simp only [hN, Option.some.injEq] at h
      subst h
      refine ⟨NI, ?_, hinv⟩
      simp only [SelectionDAG.getNode] at hN
      exact List.getElem?_eq_none_iff.mp hN
    | some n =>
      simp only [hN] at h
      by_cases hk : n.kind = NodeKind.Generic ISDOpcode.CopyToReg
      · simp only [hk, if_true] at h
        cases hstep : CopyToReg d NI with
        | none => simp [hstep] at h
        | some d2 =>
          simp only [hstep] at h
          exact ih d2 (NI + 1) (Inv_copy G d d2 NI n hinv hN hk hstep).1 d' h
      · simp only [hk, if_false] at h
        exact ih d (NI + 1) (Inv_skip G d NI n hinv hN hk) d' h

theorem loop_total (G : SelectionDAG) (hwf : G.copiesWellFormed = true) :
    ∀ fuel d NI, PostprocessISelDAG.Inv G d NI →
      (d.nodes.length - NI) + 4 * (G.nodes.length - NI) + 1 ≤ fuel →
      ∃ d', PostprocessISelDAG.loop fuel d NI = some d' := by
  intro fuel
  induction fuel with
  | zero => intro d NI _ h; omega
  | succ fuel ih =>
    intro d NI hinv hfuel
    simp only [PostprocessISelDAG.loop]
    cases hN : d.getNode NI with
    | none => exact ⟨d, rfl⟩
    | some n =>
      have hNlt := getNode_lt d NI n hN
      simp only []
      by_cases hk : n.kind = NodeKind.Generic ISDOpcode.CopyToReg
      · simp only [hk, if_true]
        obtain ⟨hlt, hG⟩ := Inv_copy_lt G d NI n hinv hN hk
        obtain ⟨src, sG, hsrc, hsG, hv⟩ := copiesWellFormed_spec G hwf NI n hG hk
        have hs' : ∃ s, d.nodeOf src = some s ∧ s.kind = sG.kind ∧ s.vts = sG.vts := by
          cases hj : src.node with
          | none => simp [SelectionDAG.nodeOf, hj] at hsG
          | some j =>
            have hGj : G.getNode j = some sG := by simpa [SelectionDAG.nodeOf, hj] using hsG
            obtain ⟨s', h1, h2, h3, -⟩ := hinv.2.2.1 j sG hGj
            exact ⟨s', by simp [SelectionDAG.nodeOf, hj, h1], h2, h3⟩
        obtain ⟨s, hs, hsk, hsv⟩ := hs'
        obtain ⟨d2, hd2⟩ := CopyToReg_isSome d NI n src s hN hsrc hs (by
          intro hm
          rw [hsv]
          exact hv (by rw [← shouldMoveToReg_kind s sG hsk]; exact hm))
        simp only [hd2]
        obtain ⟨hinv2, hlen2⟩ := Inv_copy G d d2 NI n hinv hN hk hd2
        exact ih d2 (NI + 1) hinv2 (by omega)
      · simp only [hk, if_false]
        exact ih d (NI + 1) (Inv_skip G d NI n hinv hN hk) (by omega)

theorem Inv_init (G : SelectionDAG) : PostprocessISelDAG.Inv G G 0 := by
  refine ⟨le_refl _, fun _ _ _ => rfl, fun i c hc => ⟨c, hc, rfl, rfl, fun _ => rfl⟩, ?_, ?_, ?_⟩
  · intro i c hL hc
    have := getNode_lt G i c hc
    omega
  · intro i c src s hi; omega
  · intro i c hi; omega

theorem loop_clean (d : SelectionDAG)
    (hclean : ∀ i c, d.getNode i = some c → c.kind = NodeKind.Generic ISDOpcode.CopyToReg →
      ∃ src s, c.ops[2]? = some src ∧ d.nodeOf src = some s ∧ shouldMoveToReg s = false) :
    ∀ fuel NI, (d.nodes.length - NI) + 1 ≤ fuel →
      PostprocessISelDAG.loop fuel d NI = some d := by
  intro fuel
  induction fuel with
  | zero => intro NI h; omega
  | succ fuel ih =>
    intro NI hfuel
    simp only [PostprocessISelDAG.loop]
    cases hN : d.getNode NI with
    | none => rfl
    | some n =>
      have hNlt := getNode_lt d NI n hN
      simp only []
      by_cases hk : n.kind = NodeKind.Generic ISDOpcode.CopyToReg
      · obtain ⟨src, s, h1, h2, h3⟩ := hclean NI n hN hk
        simp only [hk, if_true, CopyToReg_noop d NI n src s hN h1 h2 h3]
        exact ih (NI + 1) (by omega)
      · simp only [hk, if_false]
        exact ih (NI + 1) (by omega)

theorem Inv_final_clean (G d : SelectionDAG) (NI : Nat) (hNI : d.nodes.length ≤ NI)
    (hinv : PostprocessISelDAG.Inv G d NI) :
    ∀ i c, d.getNode i = some c → c.kind = NodeKind.Generic ISDOpcode.CopyToReg →
      ∃ src s, c.ops[2]? = some src ∧ d.nodeOf src = some s ∧ shouldMoveToReg s = false := by
  intro i c hc hk
  exact hinv.2.2.2.2.2 i c (by have := getNode_lt d i c hc; omega) hc hk

/-- C6: post-processing is idempotent.  When `PostprocessISelDAG` returns `G'` on a
selected graph `G`, running it on `G'` returns `G'` itself: no `CopyToReg` node is
rewritten a second time and no node is created.  On every graph whose `CopyToReg`
nodes are well formed the first run does return such a `G'`. -/
theorem PostprocessISelDAG_idempotent (G : SelectionDAG) :
    (∀ G', PostprocessISelDAG G = some G' → PostprocessISelDAG G' = some G') ∧
    (G.copiesWellFormed = true →
      ∃ G', PostprocessISelDAG G = some G' ∧ PostprocessISelDAG G' = some G') := by
  have key : ∀ G', PostprocessISelDAG G = some G' → PostprocessISelDAG G' = some G' := by
    intro G' h
    obtain ⟨NI', hNI', hinv⟩ := loop_inv G _ G 0 (Inv_init G) G' h
    exact loop_clean G' (Inv_final_clean G G' NI' hNI' hinv) _ 0 (by omega)
  refine ⟨key, fun hwf => ?_⟩
  obtain ⟨G', hG'⟩ := loop_total G hwf (5 * G.nodes.length + 1) G 0 (Inv_init G) (by omega)
  exact ⟨G', hG', key G' hG'⟩

theorem PostprocessISelDAG_idempotent_witness :
    exPostDag.copiesWellFormed = true ∧
    (PostprocessISelDAG exPostDag).map (fun d => d.nodes.length) = some 16 ∧
    (∃ G', PostprocessISelDAG exPostDag = some G' ∧ PostprocessISelDAG G' = some G') ∧
    PostprocessISelDAG ((PostprocessISelDAG exPostDag).getD exPostDag)
      = some ((PostprocessISelDAG exPostDag).getD exPostDag) :=
  ⟨by decide, rfl, (PostprocessISelDAG_idempotent exPostDag).2 (by decide),
    (PostprocessISelDAG_idempotent exPostDag).1 ((PostprocessISelDAG exPostDag).getD exPostDag)
      rfl⟩

/-- C7: postcondition of post-processing.  On a graph whose `CopyToReg` nodes are well
formed `PostprocessISelDAG` returns a graph `G'` in which no `CopyToReg` node has a
constant or an external symbol as the node of operand 2; a copy of `G` whose source `s`
was a constant or an external symbol now reads result 0 of a `VOpMove_ri` node whose
first operand is the target immediate of `s` (same value or symbol, same type), its other
operands kept; every other copy is as it was. -/
theorem PostprocessISelDAG_postcondition (G : SelectionDAG)
    (hwf : G.copiesWellFormed = true) :
    ∃ G', PostprocessISelDAG G = some G' ∧
      (∀ i c, G'.getNode i = some c → c.kind = NodeKind.Generic ISDOpcode.CopyToReg →
        ∃ src s, c.ops[2]? = some src ∧ G'.nodeOf src = some s ∧
          shouldMoveToReg s = false) ∧
      (∀ i c src s, G.getNode i = some c →
        c.kind = NodeKind.Generic ISDOpcode.CopyToReg → c.ops[2]? = some src →
        G.nodeOf src = some s →
        (shouldMoveToReg s = true →
          ∃ m imm, targetImmediate s = some imm ∧
            G'.getNode i = some { c with ops := c.ops.set 2 (SDValue.of (m + 3) 0) } ∧
            G'.getNode m = some imm ∧
            G'.getNode (m + 3) = some ⟨NodeKind.Machine VTMOpcode.VOpMove_ri,
              [SDValue.of m 0, SDValue.of (m + 2) 0, SDValue.of (m + 1) 0], s.vts, []⟩) ∧
        (shouldMoveToReg s = false → G'.getNode i = some c)) := by
  obtain ⟨G', hG'⟩ := loop_total G hwf (5 * G.nodes.length + 1) G 0 (Inv_init G) (by omega)
  obtain ⟨NI', hNI', hinv⟩ := loop_inv G _ G 0 (Inv_init G) G' hG'
  refine ⟨G', hG', Inv_final_clean G G' NI' hNI' hinv, ?_⟩
  intro i c src s hc hk hsrc hs
  have hi : i < NI' := by
    have := getNode_lt G i c hc
    have := hinv.1
    omega
  exact hinv.2.2.2.2.1 i c src s hi hc hk hsrc hs

theorem PostprocessISelDAG_postcondition_witness :
    exPostDag.copiesWellFormed = true ∧
    ∃ G', PostprocessISelDAG exPostDag = some G' ∧
      (∀ i c, G'.getNode i = some c → c.kind = NodeKind.Generic ISDOpcode.CopyToReg →
        ∃ src s, c.ops[2]? = some src ∧ G'.nodeOf src = some s ∧
          shouldMoveToReg s = false) ∧
      (∀ i c src s, exPostDag.getNode i = some c →
        c.kind = NodeKind.Generic ISDOpcode.CopyToReg → c.ops[2]? = some src →
        exPostDag.nodeOf src = some s →
        (shouldMoveToReg s = true →
          ∃ m imm, targetImmediate s = some imm ∧
            G'.getNode i = some { c with ops := c.ops.set 2 (SDValue.of (m + 3) 0) } ∧
            G'.getNode m = some imm ∧
            G'.getNode (m + 3) = some ⟨NodeKind.Machine VTMOpcode.VOpMove_ri,
              [SDValue.of m 0, SDValue.of (m + 2) 0, SDValue.of (m + 1) 0], s.vts, []⟩) ∧
        (shouldMoveToReg s = false → G'.getNode i = some c)) :=
  ⟨by decide, PostprocessISelDAG_postcondition exPostDag (by decide)⟩

/-! ## Closed forms of the remaining rules -/

theorem take_pre (pre rest : List SDValue) (k : Nat) (hk : k = pre.length) :
    (pre ++ rest).take k = pre := by
  subst hk; simp

theorem set_pre (pre post : List SDValue) (a b c : SDValue) (k : Nat) (hk : k = pre.length) :
    (pre ++ [a, b] ++ post).set k c = pre ++ [c, b] ++ post := by
  subst hk
  rw [List.append_assoc, List.set_append_right _ _ (le_refl _)]
  simp

/-- The annotation step shared by the rules: on the DAG extended by the trace number,
with the operand array `pre ++ [dummy, trace] ++ post` and `NumOps` counting all but
`post`. -/
theorem emit_eq (dag : SelectionDAG) (N : Nat) (n : SDNode) (pre post : List SDValue)
    (tys : List EVT) (Ops : List SDValue) (NumOps : Nat)
    (hN : dag.getNode N = some n) (hT : valueTypes dag pre = some tys)
    (hOps : Ops = pre ++ [SDValue.null, SDValue.of dag.nodes.length 0] ++ post)
    (hNum : NumOps = pre.length + 2) (h32 : NumOps < 2 ^ 32) :
    computeOperandsBitWidth
        (SelectionDAG.mk (dag.nodes ++ [⟨NodeKind.Constant true 0, [], [EVT.i64], []⟩])
          dag.root) N Ops NumOps
      = some (⟨dag.nodes ++ [SDNode.mk (NodeKind.Constant true 0) [] [EVT.i64] [],
                SDNode.mk (NodeKind.Constant true (annotationOf n.vts tys).get) [] [EVT.i64]
                  []], dag.root⟩,
          pre ++ [SDValue.of (dag.nodes.length + 1) 0, SDValue.of dag.nodes.length 0] ++ post,
          annotationOf n.vts tys) := by
  have hN2 : (SelectionDAG.mk (dag.nodes ++ [⟨NodeKind.Constant true 0, [], [EVT.i64], []⟩])
      dag.root).getNode N = some n := getNode_append_left _ _ _ _ _ hN
  have htake : List.take (NumOps - 2) Ops = pre := by
    rw [hOps, List.append_assoc]
    exact take_pre pre _ _ (by omega)
  have hT2 : valueTypes (SelectionDAG.mk (dag.nodes ++
      [⟨NodeKind.Constant true 0, [], [EVT.i64], []⟩]) dag.root)
      (List.take (NumOps - 2) Ops) = some tys := by
    rw [htake]
    exact valueTypes_append_left dag.nodes _ dag.root pre tys hT
  rw [computeOperandsBitWidth_eq_annotationOf _ N n Ops NumOps tys hN2 (by omega)
    (by rw [hOps]; simp; omega) h32 hT2]
  have hset : Ops.set (NumOps - 2) (SDValue.of (dag.nodes.length + 1) 0)
      = pre ++ [SDValue.of (dag.nodes.length + 1) 0, SDValue.of dag.nodes.length 0]
          ++ post := by
    rw [hOps]
    exact set_pre pre post _ _ _ _ (by omega)
  simp only [List.length_append, List.length_singleton, List.append_assoc,
    List.singleton_append]
  rw [hset]
  simp only [List.append_assoc]

theorem SelectNodeTo_eq (l : List SDNode) (r : SDValue) (N : Nat) (n : SDNode)
    (Opc : VTMOpcode) (vts : List EVT) (ops : List SDValue)
    (hN : (SelectionDAG.mk l r).getNode N = some n) :
    (SelectionDAG.mk l r).SelectNodeTo N Opc vts ops
      = some (⟨l.set N ⟨NodeKind.Machine Opc, ops, vts, n.memRefs⟩, r⟩, N) := by
  simp only [SelectionDAG.SelectNodeTo, hN]

theorem SelectUnary_eq (dag : SelectionDAG) (N : Nat) (n : SDNode) (OpC : VTMOpcode)
    (op0 : SDValue) (t0 : EVT)
    (hN : dag.getNode N = some n) (h0 : n.ops[0]? = some op0)
    (hT : dag.getValueType op0 = some t0) :
    SelectUnary dag N OpC
      = some (⟨(dag.nodes ++ [SDNode.mk (NodeKind.Constant true 0) [] [EVT.i64] [],
              SDNode.mk (NodeKind.Constant true (annotationOf n.vts [t0]).get) [] [EVT.i64]
                []]).set N
            ⟨NodeKind.Machine OpC,
              [op0, SDValue.of (dag.nodes.length + 1) 0, SDValue.of dag.nodes.length 0],
              n.vts, n.memRefs⟩, dag.root⟩, some N) := by
  unfold SelectUnary
  simp only [hN, h0, SelectionDAG.getTargetConstant, SelectionDAG.addNode]
  have hT' : valueTypes dag [op0] = some [t0] := by simp [valueTypes, hT]
  rw [emit_eq dag N n [op0] [] [t0] [op0, SDValue.null, SDValue.of dag.nodes.length 0] 3 hN hT'
    rfl rfl (by norm_num)]
  simp only []
  rw [SelectNodeTo_eq _ _ N n OpC _ _ (getNode_append_left _ _ _ _ _ hN)]
  rfl

theorem SelectBinary_eq (dag : SelectionDAG) (N : Nat) (n : SDNode) (OpC : VTMOpcode)
    (op0 op1 : SDValue) (t0 t1 : EVT)
    (hN : dag.getNode N = some n) (h0 : n.ops[0]? = some op0) (h1 : n.ops[1]? = some op1)
    (hop0 : dag.isOperand op0 = true) (hop1 : dag.isOperand op1 = true)
    (hv0 : dag.getValueType op0 = some t0) (hv1 : dag.getValueType op1 = some t1) :
    SelectBinary dag N OpC true
      = some (SelectBinary.result dag N n OpC op0 op1 t0 t1, some N) := by
  unfold SelectBinary
  simp only [hN, h0, h1]
  rw [MoveToReg_eq dag op0 hop0]
  simp only []
  rw [MoveToReg_eq (afterMove dag op0) op1 (isOperand_afterMove dag op0 op1 hop1)]
  simp only [SelectionDAG.getTargetConstant, SelectionDAG.addNode]
  obtain ⟨d2, hd2⟩ : ∃ d2, d2 = afterMove (afterMove dag op0) op1 := ⟨_, rfl⟩
  obtain ⟨a, ha⟩ : ∃ a, a = (materialize dag op0).2 := ⟨_, rfl⟩
  obtain ⟨b, hb⟩ : ∃ b, b = (materialize (afterMove dag op0) op1).2 := ⟨_, rfl⟩
  have hN2 : d2.getNode N = some n := by
    rw [hd2]; exact getNode_afterMove _ _ _ _ (getNode_afterMove _ _ _ _ hN)
  have hta : d2.getValueType a = some t0 := by
    rw [hd2, ha]
    exact getValueType_afterMove _ _ _ _ (getValueType_materialize dag op0 t0 hop0 hv0)
  have htb : d2.getValueType b = some t1 := by
    rw [hd2, hb]
    exact getValueType_materialize (afterMove dag op0) op1 t1
      (isOperand_afterMove dag op0 op1 hop1) (getValueType_afterMove dag op0 op1 t1 hv1)
  have hT : valueTypes d2 [a, b] = some [t0, t1] := by simp [valueTypes, hta, htb]
  have hroot : d2.root = dag.root := by rw [hd2]; rfl
  simp only [SelectBinary.result, traceAndAnnotation, ← hd2, ← ha, ← hb]
  rw [emit_eq d2 N n [a, b] [] [t0, t1] [a, b, SDValue.null, SDValue.of d2.nodes.length 0] 4
    hN2 hT rfl rfl (by norm_num)]
  simp only []
  rw [SelectNodeTo_eq _ _ N n OpC _ _ (getNode_append_left _ _ _ _ _ hN2), hroot]
  rfl

theorem annotationOf_binary (r w0 w1 : Nat) :
    annotationOf [EVT.Int r] [EVT.Int w0, EVT.Int w1]
      = (((BitWidthAnnotator.mk 0).setBitWidth r 0).setBitWidth w0 1).setBitWidth w1 2 := by
  have e : usub BitWidthAnnotator.size 1 = 7 := by
    rw [usub_eq _ _ (by norm_num [BitWidthAnnotator.size]) (by norm_num [BitWidthAnnotator.size])]
    rfl
  unfold annotationOf
  have hw : resultWidths [EVT.Int r] = [r] := by simp [resultWidths, EVT.getSizeInBits]
  rw [hw]
  simp only [List.length_singleton, e]
  simp [resultCallList, operandCallList, applyCalls, EVT.getSizeInBits]

theorem decode_three (A0 : BitWidthAnnotator) (w0 w1 w2 : Nat) (hA : A0.Data < 2 ^ 64)
    (h0 : w0 < 256) (h1 : w1 < 256) (h2 : w2 < 256) :
    decodeSlots (((A0.setBitWidth w0 0).setBitWidth w1 1).setBitWidth w2 2).get 3
      = [w0, w1, w2] := by
  obtain ⟨A1, hA1⟩ : ∃ A1, A1 = A0.setBitWidth w0 0 := ⟨_, rfl⟩
  obtain ⟨A2, hA2⟩ : ∃ A2, A2 = A1.setBitWidth w1 1 := ⟨_, rfl⟩
  obtain ⟨A3, hA3⟩ : ∃ A3, A3 = A2.setBitWidth w2 2 := ⟨_, rfl⟩
  have a1 : A1.Data < 2 ^ 64 := by rw [hA1]; exact setBitWidth_Data_lt _ _ _
  have a2 : A2.Data < 2 ^ 64 := by rw [hA2]; exact setBitWidth_Data_lt _ _ _
  have e0 : getBitWidth A3.Data 0 = w0 := by
    rw [hA3, getBitWidth_setBitWidth_ne A2 w2 2 0 (by norm_num) (by norm_num) h2 a2,
      hA2, getBitWidth_setBitWidth_ne A1 w1 1 0 (by norm_num) (by norm_num) h1 a1,
      hA1, getBitWidth_setBitWidth_same A0 w0 0 (by norm_num) h0 hA]
  have e1 : getBitWidth A3.Data 1 = w1 := by
    rw [hA3, getBitWidth_setBitWidth_ne A2 w2 2 1 (by norm_num) (by norm_num) h2 a2,
      hA2, getBitWidth_setBitWidth_same A1 w1 1 (by norm_num) h1 a1]
  have e2 : getBitWidth A3.Data 2 = w2 := by
    rw [hA3, getBitWidth_setBitWidth_same A2 w2 2 (by norm_num) h2 a2]
  rw [← hA1, ← hA2, ← hA3]
  show [getBitWidth A3.Data 0, getBitWidth A3.Data 1, getBitWidth A3.Data 2] = [w0, w1, w2]
  rw [e0, e1, e2]

/-- C15: the binary and unary rules of `Select`.  A `MUL`, `AND`, `OR`, `XOR`, `SHL`,
`SRL` or `SRA` node `N` whose two operands are values of the DAG is morphed in place
into the hardware node of the matching opcode; its two operands are the
force-materialized originals (result 0 of a fresh `VOpMove_ri` for a constant or an
external symbol, the operand itself otherwise), followed by the annotation and the trace
number; the annotation is that of the result types and the two operand types, and for
one result and widths that fit a slot it decodes to the result width and the two
operand widths.  A `Not`, `ROr`, `RAnd` or `RXor` node is morphed into the hardware
node of the matching opcode whose single operand is the original operand; no other
hardware node is created. -/
theorem Select_binary_unary (T : VTarget) (I : VInstr)
    (SelectCode : SelectionDAG → Nat → Option (SelectionDAG × Option Nat))
    (dag : SelectionDAG) (N : Nat) (n : SDNode) (hN : dag.getNode N = some n) :
    (∀ opc OpC op0 op1 t0 t1, (opc, OpC) ∈ binaryRules → n.kind = NodeKind.Generic opc →
      n.ops[0]? = some op0 → n.ops[1]? = some op1 →
      dag.isOperand op0 = true → dag.isOperand op1 = true →
      dag.getValueType op0 = some t0 → dag.getValueType op1 = some t1 →
      Select T I SelectCode dag N
        = some (SelectBinary.result dag N n OpC op0 op1 t0 t1, some N) ∧
      ∀ r w0 w1, n.vts = [EVT.Int r] → t0 = EVT.Int w0 → t1 = EVT.Int w1 →
        r < 2 ^ BitWidthAnnotator.slotBits → w0 < 2 ^ BitWidthAnnotator.slotBits →
        w1 < 2 ^ BitWidthAnnotator.slotBits →
        decodeSlots (annotationOf n.vts [t0, t1]).get 3 = [r, w0, w1]) ∧
    (∀ opc OpC op0 t0, (opc, OpC) ∈ unaryRules → n.kind = NodeKind.Generic opc →
      n.ops[0]? = some op0 → dag.getValueType op0 = some t0 →
      Select T I SelectCode dag N = some (SelectUnary.result dag N n OpC op0 t0, some N)) := by
  constructor
  · intro opc OpC op0 op1 t0 t1 hmem hk h0 h1 hop0 hop1 hv0 hv1
    have hb := SelectBinary_eq dag N n OpC op0 op1 t0 t1 hN h0 h1 hop0 hop1 hv0 hv1
    refine ⟨?_, ?_⟩
    · simp only [binaryRules, List.mem_cons, Prod.mk.injEq, List.mem_singleton,
        List.not_mem_nil, or_false] at hmem
      rcases hmem with ⟨h, h'⟩ | ⟨h, h'⟩ | ⟨h, h'⟩ | ⟨h, h'⟩ | ⟨h, h'⟩ | ⟨h, h'⟩ | ⟨h, h'⟩ <;>
        · subst h; subst h'
          unfold Select
          simp only [hN, hk]
          exact hb
    · intro r w0 w1 hvts ht0 ht1 hr hw0 hw1
      have h256 : (2 : Nat) ^ BitWidthAnnotator.slotBits = 256 := by
        norm_num [BitWidthAnnotator.slotBits]
      rw [h256] at hr hw0 hw1
      rw [hvts, ht0, ht1, annotationOf_binary]
      exact decode_three ⟨0⟩ r w0 w1 (by norm_num) hr hw0 hw1
  · intro opc OpC op0 t0 hmem hk h0 hv0
    have hu := SelectUnary_eq dag N n OpC op0 t0 hN h0 hv0
    simp only [unaryRules, List.mem_cons, Prod.mk.injEq, List.mem_singleton,
      List.not_mem_nil, or_false] at hmem
    rcases hmem with ⟨h, h'⟩ | ⟨h, h'⟩ | ⟨h, h'⟩ | ⟨h, h'⟩ <;>
      · subst h; subst h'
        unfold Select
        simp only [hN, hk]
        exact hu

theorem Select_binary_unary_witness :
    (Select exTarget exInstr exSelectCode exMulDag 2
        = some (SelectBinary.result exMulDag 2
            ⟨NodeKind.Generic ISDOpcode.MUL, [SDValue.of 0 0, SDValue.of 1 0], [EVT.Int 8], []⟩
            VTMOpcode.VOpMult (SDValue.of 0 0) (SDValue.of 1 0) (EVT.Int 8) (EVT.Int 8),
          some 2) ∧
      decodeSlots (annotationOf [EVT.Int 8] [EVT.Int 8, EVT.Int 8]).get 3 = [8, 8, 8]) ∧
    Select exTarget exInstr exSelectCode exMulDag 3
      = some (SelectUnary.result exMulDag 3
          ⟨NodeKind.Generic ISDOpcode.Not, [SDValue.of 1 0], [EVT.Int 8], []⟩
          VTMOpcode.VOpNot (SDValue.of 1 0) (EVT.Int 8), some 3) :=
  ⟨⟨((Select_binary_unary exTarget exInstr exSelectCode exMulDag 2
        ⟨NodeKind.Generic ISDOpcode.MUL, [SDValue.of 0 0, SDValue.of 1 0], [EVT.Int 8], []⟩
        rfl).1 ISDOpcode.MUL VTMOpcode.VOpMult (SDValue.of 0 0) (SDValue.of 1 0) (EVT.Int 8)
        (EVT.Int 8) (by decide) rfl rfl rfl rfl rfl rfl rfl).1,
    ((Select_binary_unary exTarget exInstr exSelectCode exMulDag 2
        ⟨NodeKind.Generic ISDOpcode.MUL, [SDValue.of 0 0, SDValue.of 1 0], [EVT.Int 8], []⟩
        rfl).1 ISDOpcode.MUL VTMOpcode.VOpMult (SDValue.of 0 0) (SDValue.of 1 0) (EVT.Int 8)
        (EVT.Int 8) (by decide) rfl rfl rfl rfl rfl rfl rfl).2 8 8 8 rfl rfl rfl
        (by norm_num [BitWidthAnnotator.slotBits]) (by norm_num [BitWidthAnnotator.slotBits])
        (by norm_num [BitWidthAnnotator.slotBits])⟩,
   (Select_binary_unary exTarget exInstr exSelectCode exMulDag 3
      ⟨NodeKind.Generic ISDOpcode.Not, [SDValue.of 1 0], [EVT.Int 8], []⟩ rfl).2
      ISDOpcode.Not VTMOpcode.VOpNot (SDValue.of 1 0) (EVT.Int 8) (by decide) rfl rfl rfl⟩

theorem SelectBrcnd_BR_eq (dag : SelectionDAG) (N : Nat) (n : SDNode) (chain bb : SDValue)
    (tb : EVT) (hN : dag.getNode N = some n)
    (hk : n.kind = NodeKind.Generic ISDOpcode.BR)
    (h0 : n.ops[0]? = some chain) (h1 : n.ops[1]? = some bb)
    (hvb : dag.getValueType bb = some tb) :
    SelectBrcnd dag N = some (SelectBrcnd.resultBR dag N n chain bb tb, some N) := by
  unfold SelectBrcnd
  simp only [hN, hk, if_true, h0, h1, SelectionDAG.getTargetConstant, SelectionDAG.addNode]
  obtain ⟨d1, hd1⟩ : ∃ d1, d1 = SelectionDAG.mk
      (dag.nodes ++ [⟨NodeKind.Constant true 1, [], [EVT.i1], []⟩]) dag.root := ⟨_, rfl⟩
  have hN1 : d1.getNode N = some n := by rw [hd1]; exact getNode_append_left _ _ _ _ _ hN
  have hlen : d1.nodes.length = dag.nodes.length + 1 := by rw [hd1]; simp
  have hc : d1.getValueType (SDValue.of dag.nodes.length 0) = some EVT.i1 := by
    rw [hd1]
    have := getNode_append_right dag.nodes
      [⟨NodeKind.Constant true 1, [], [EVT.i1], []⟩] dag.root 0
    simp only [Nat.add_zero] at this
    simp [SelectionDAG.getValueType, SelectionDAG.nodeOf, SDValue.of, this]
  have hb : d1.getValueType bb = some tb := by
    rw [hd1]; exact getValueType_append_left _ _ _ _ _ hvb
  have hT : valueTypes d1 [SDValue.of dag.nodes.length 0, bb] = some [EVT.i1, tb] := by
    simp [valueTypes, hc, hb]
  have key := emit_eq d1 N n [SDValue.of dag.nodes.length 0, bb] [chain] [EVT.i1, tb]
    [SDValue.of dag.nodes.length 0, bb, SDValue.null, SDValue.of d1.nodes.length 0, chain] 4
    hN1 hT rfl rfl (by norm_num)
  rw [hd1] at key
  simp only [] at key
  rw [key]
  simp only []
  rw [SelectNodeTo_eq _ _ N n _ _ _
    (getNode_append_left _ _ _ _ _ (getNode_append_left _ _ _ _ _ hN))]
  simp only [SelectBrcnd.resultBR, traceAndAnnotation, List.length_append,
    List.length_singleton, List.append_assoc, List.singleton_append, List.cons_append,
    List.nil_append]

theorem SelectBrcnd_BRCOND_eq (dag : SelectionDAG) (N : Nat) (n : SDNode)
    (chain cnd bb : SDValue) (tc tb : EVT) (hN : dag.getNode N = some n)
    (hk : n.kind = NodeKind.Generic ISDOpcode.BRCOND)
    (h0 : n.ops[0]? = some chain) (h1 : n.ops[1]? = some cnd) (h2 : n.ops[2]? = some bb)
    (hvc : dag.getValueType cnd = some tc) (hvb : dag.getValueType bb = some tb) :
    SelectBrcnd dag N = some (SelectBrcnd.resultBRCOND dag N n chain cnd bb tc tb, some N) := by
  unfold SelectBrcnd
  have hne : ¬ (NodeKind.Generic ISDOpcode.BRCOND = NodeKind.Generic ISDOpcode.BR) := by
    decide
  simp only [hN, hk, hne, if_false, h0, h1, h2, Option.map_some',
    SelectionDAG.getTargetConstant, SelectionDAG.addNode]
  have hT : valueTypes dag [cnd, bb] = some [tc, tb] := by simp [valueTypes, hvc, hvb]
  rw [emit_eq dag N n [cnd, bb] [chain] [tc, tb]
    [cnd, bb, SDValue.null, SDValue.of dag.nodes.length 0, chain] 4 hN hT rfl rfl
    (by norm_num)]
  simp only []
  rw [SelectNodeTo_eq _ _ N n _ _ _ (getNode_append_left _ _ _ _ _ hN)]
  simp only [SelectBrcnd.resultBRCOND, traceAndAnnotation, List.cons_append, List.nil_append]

/-- C16: the branch rule.  For a `BR` node with the chain `chain` (operand 0) and the
target block `bb` (operand 1), `SelectBrcnd` morphs the node into a `VOpToStateb` node
with the operands condition, target, annotation, trace number 0 and chain, where the
condition is a fresh target constant 1 of type `i1` and the target is `bb`.  For a
`BRCOND` node the condition is operand 1 and the target is operand 2, the operand list
having the same five positions. -/
theorem SelectBrcnd_operands (dag : SelectionDAG) (N : Nat) (n : SDNode)
    (hN : dag.getNode N = some n) :
    (∀ chain bb tb, n.kind = NodeKind.Generic ISDOpcode.BR →
      n.ops[0]? = some chain → n.ops[1]? = some bb → dag.getValueType bb = some tb →
      ∃ d, SelectBrcnd dag N = some (d, some N) ∧
        d.getNode N = some ⟨NodeKind.Machine VTMOpcode.VOpToStateb,
          [SDValue.of dag.nodes.length 0, bb, SDValue.of (dag.nodes.length + 2) 0,
            SDValue.of (dag.nodes.length + 1) 0, chain], n.vts, n.memRefs⟩ ∧
        d.getNode dag.nodes.length = some ⟨NodeKind.Constant true 1, [], [EVT.i1], []⟩ ∧
        d.getNode (dag.nodes.length + 1) = some ⟨NodeKind.Constant true 0, [], [EVT.i64], []⟩ ∧
        d.getNode (dag.nodes.length + 2)
          = some ⟨NodeKind.Constant true (annotationOf n.vts [EVT.i1, tb]).get, [],
              [EVT.i64], []⟩) ∧
    (∀ chain cnd bb tc tb, n.kind = NodeKind.Generic ISDOpcode.BRCOND →
      n.ops[0]? = some chain → n.ops[1]? = some cnd → n.ops[2]? = some bb →
      dag.getValueType cnd = some tc → dag.getValueType bb = some tb →
      ∃ d, SelectBrcnd dag N = some (d, some N) ∧
        d.getNode N = some ⟨NodeKind.Machine VTMOpcode.VOpToStateb,
          [cnd, bb, SDValue.of (dag.nodes.length + 1) 0, SDValue.of dag.nodes.length 0,
            chain], n.vts, n.memRefs⟩ ∧
        d.getNode dag.nodes.length = some ⟨NodeKind.Constant true 0, [], [EVT.i64], []⟩ ∧
        d.getNode (dag.nodes.length + 1)
          = some ⟨NodeKind.Constant true (annotationOf n.vts [tc, tb]).get, [],
              [EVT.i64], []⟩) := by
  have hlt := getNode_lt dag N n hN
  constructor
  · intro chain bb tb hk h0 h1 hvb
    refine ⟨_, SelectBrcnd_BR_eq dag N n chain bb tb hN hk h0 h1 hvb, ?_, ?_, ?_, ?_⟩
    · exact getNode_step_self dag _ N _ hlt
    · exact getNode_step_new dag _ N 0 _ hlt
    · exact getNode_step_new dag _ N 1 _ hlt
    · exact getNode_step_new dag _ N 2 _ hlt
  · intro chain cnd bb tc tb hk h0 h1 h2 hvc hvb
    refine ⟨_, SelectBrcnd_BRCOND_eq dag N n chain cnd bb tc tb hN hk h0 h1 h2 hvc hvb,
      ?_, ?_, ?_⟩
    · exact getNode_step_self dag _ N _ hlt
    · exact getNode_step_new dag _ N 0 _ hlt
    · exact getNode_step_new dag _ N 1 _ hlt

theorem SelectBrcnd_operands_witness :
    (∃ d, SelectBrcnd exBranchDag 2 = some (d, some 2) ∧
      d.getNode 2 = some ⟨NodeKind.Machine VTMOpcode.VOpToStateb,
        [SDValue.of 5 0, SDValue.of 1 0, SDValue.of 7 0, SDValue.of 6 0, SDValue.of 0 0],
        [EVT.Other], []⟩ ∧
      d.getNode 5 = some ⟨NodeKind.Constant true 1, [], [EVT.i1], []⟩ ∧
      d.getNode 6 = some ⟨NodeKind.Constant true 0, [], [EVT.i64], []⟩ ∧
      d.getNode 7 = some ⟨NodeKind.Constant true
        (annotationOf [EVT.Other] [EVT.i1, EVT.Other]).get, [], [EVT.i64], []⟩) ∧
    (∃ d, SelectBrcnd exBranchDag 4 = some (d, some 4) ∧
      d.getNode 4 = some ⟨NodeKind.Machine VTMOpcode.VOpToStateb,
        [SDValue.of 3 0, SDValue.of 1 0, SDValue.of 6 0, SDValue.of 5 0, SDValue.of 0 0],
        [EVT.Other], []⟩ ∧
      d.getNode 5 = some ⟨NodeKind.Constant true 0, [], [EVT.i64], []⟩ ∧
      d.getNode 6 = some ⟨NodeKind.Constant true
        (annotationOf [EVT.Other] [EVT.Int 1, EVT.Other]).get, [], [EVT.i64], []⟩) :=
  ⟨(SelectBrcnd_operands exBranchDag 2
      ⟨NodeKind.Generic ISDOpcode.BR, [SDValue.of 0 0, SDValue.of 1 0], [EVT.Other], []⟩
      rfl).1 (SDValue.of 0 0) (SDValue.of 1 0) EVT.Other rfl rfl rfl rfl,
   (SelectBrcnd_operands exBranchDag 4
      ⟨NodeKind.Generic ISDOpcode.BRCOND, [SDValue.of 0 0, SDValue.of 3 0, SDValue.of 1 0],
        [EVT.Other], []⟩ rfl).2 (SDValue.of 0 0) (SDValue.of 3 0) (SDValue.of 1 0)
      (EVT.Int 1) EVT.Other rfl rfl rfl rfl rfl rfl⟩

theorem getConstantOperandVal_append_left (l ext : List SDNode) (r : SDValue) (n : SDNode)
    (Num val : Nat) (h : (SelectionDAG.mk l r).getConstantOperandVal n Num = some val) :
    (SelectionDAG.mk (l ++ ext) r).getConstantOperandVal n Num = some val := by
  unfold SelectionDAG.getConstantOperandVal at h ⊢
  cases ho : n.ops[Num]? with
  | none => simp [ho] at h
  | some o =>
    simp only [ho] at h ⊢
    cases hn : (SelectionDAG.mk l r).nodeOf o with
    | none => simp [hn] at h
    | some c =>
      rw [nodeOf_append_left l ext r o c hn]
      simpa [hn] using h

theorem getValueType_new (l ext : List SDNode) (r : SDValue) (k : Nat) (c : SDNode)
    (vt : EVT) (hc : ext[k]? = some c) (hvt : c.vts[0]? = some vt) :
    (SelectionDAG.mk (l ++ ext) r).getValueType (SDValue.of (l.length + k) 0) = some vt := by
  simp only [SelectionDAG.getValueType, SelectionDAG.nodeOf, SDValue.of]
  rw [getNode_append_right l ext r k, hc]
  exact hvt

theorem valueTypes_append (dag : SelectionDAG) (xs ys : List SDValue) (tx ty : List EVT)
    (hx : valueTypes dag xs = some tx) (hy : valueTypes dag ys = some ty) :
    valueTypes dag (xs ++ ys) = some (tx ++ ty) := by
  induction xs generalizing tx with
  | nil =>
    simp only [valueTypes, Option.some.injEq] at hx
    subst hx
    simpa using hy
  | cons x xs ih =>
    simp only [valueTypes, List.cons_append] at hx ⊢
    cases hv : dag.getValueType x with
    | none => simp [hv] at hx
    | some vt =>
      cases hr : valueTypes dag xs with
      | none => simp [hv, hr] at hx
      | some tr =>
        simp only [hv, hr, Option.some.injEq] at hx
        subst hx
        simp [ih tr hr]

theorem SelectMemAccess_eq (I : VInstr) (dag : SelectionDAG) (N : Nat) (n : SDNode)
    (MemOp : Nat) (rest : List Nat) (op1 op2 op3 op4 chain : SDValue) (tys : List EVT)
    (cmd : Nat) (hN : dag.getNode N = some n) (hm : n.memRefs = MemOp :: rest)
    (h0 : n.ops[0]? = some chain) (h1 : n.ops[1]? = some op1) (h2 : n.ops[2]? = some op2)
    (h3 : n.ops[3]? = some op3) (h4 : n.ops[4]? = some op4)
    (hT : valueTypes dag [op1, op2, op3, op4] = some tys)
    (hcmd : dag.getConstantOperandVal n 3 = some cmd) :
    SelectMemAccess I dag N
      = some (⟨(dag.nodes ++ traceAndAnnotation n.vts tys).set N
            ⟨NodeKind.Machine (if I.isCmdSeq (cmd % 2 ^ 32) then VTMOpcode.VOpCmdSeq
                else VTMOpcode.VOpMemTrans),
              [op1, op2, op3, op4, SDValue.of (dag.nodes.length + 1) 0,
                SDValue.of dag.nodes.length 0, chain], n.vts, [MemOp]⟩, dag.root⟩,
          some N) := by
  have hlt := getNode_lt dag N n hN
  unfold SelectMemAccess
  simp only [hN, hm, List.head?_cons, h0, h1, h2, h3, h4, SelectionDAG.getTargetConstant,
    SelectionDAG.addNode]
  rw [emit_eq dag N n [op1, op2, op3, op4] [chain] tys
    [op1, op2, op3, op4, SDValue.null, SDValue.of dag.nodes.length 0, chain] 6 hN hT rfl rfl
    (by norm_num)]
  simp only []
  have hN2 := getNode_append_left dag.nodes
    [SDNode.mk (NodeKind.Constant true 0) [] [EVT.i64] [],
      SDNode.mk (NodeKind.Constant true (annotationOf n.vts tys).get) [] [EVT.i64] []]
    dag.root N n hN
  rw [hN2]
  simp only []
  rw [getConstantOperandVal_append_left dag.nodes _ dag.root n 3 cmd hcmd]
  simp only []
  rw [SelectNodeTo_eq _ _ N n _ _ _ hN2]
  simp only [SelectionDAG.setMemRefs]
  rw [getNode_set_self _ _ N _ (by rw [List.length_append]; omega)]
  simp only [NodeKind.isMachineOpcode, if_true, List.set_set, traceAndAnnotation,
    List.cons_append, List.nil_append]

theorem SelectBRamAccess_eq (dag : SelectionDAG) (N : Nat) (n : SDNode)
    (MemOp : Nat) (rest : List Nat) (a0 a1 a2 chain : SDValue) (tys : List EVT) (v : Nat)
    (hN : dag.getNode N = some n) (hm : n.memRefs = MemOp :: rest)
    (h0 : n.ops[0]? = some chain) (h2 : n.ops[2]? = some a0) (h3 : n.ops[3]? = some a1)
    (h4 : n.ops[4]? = some a2)
    (hT : valueTypes dag [a0, a1, a2] = some tys)
    (hv : dag.getConstantOperandVal n 7 = some v) :
    SelectBRamAccess dag N
      = some (⟨(dag.nodes ++ SDNode.mk (NodeKind.Constant true 0) [] [EVT.Int 32] [] ::
              SDNode.mk (NodeKind.Constant true (v % 2 ^ 32)) [] [EVT.Int 32] [] ::
              traceAndAnnotation n.vts (tys ++ [EVT.Int 32, EVT.Int 32])).set N
            ⟨NodeKind.Machine VTMOpcode.VOpBRam,
              [a0, a1, a2, SDValue.of dag.nodes.length 0, SDValue.of (dag.nodes.length + 1) 0,
                SDValue.of (dag.nodes.length + 3) 0, SDValue.of (dag.nodes.length + 2) 0,
                chain], n.vts, [MemOp]⟩, dag.root⟩,
          some N) := by
  have hlt := getNode_lt dag N n hN
  unfold SelectBRamAccess
  simp only [hN, hm, List.head?_cons, hv, h0, h2, h3, h4, SelectionDAG.getTargetConstant,
    SelectionDAG.addNode]
  obtain ⟨ext, hext⟩ : ∃ ext, ext = [SDNode.mk (NodeKind.Constant true 0) [] [EVT.Int 32] [],
      SDNode.mk (NodeKind.Constant true (v % 2 ^ 32)) [] [EVT.Int 32] []] := ⟨_, rfl⟩
  obtain ⟨d1, hd1⟩ : ∃ d1, d1 = SelectionDAG.mk (dag.nodes ++ ext) dag.root := ⟨_, rfl⟩
  have hN1 : d1.getNode N = some n := by rw [hd1]; exact getNode_append_left _ _ _ _ _ hN
  have hT1 : valueTypes d1 [a0, a1, a2] = some tys := by
    rw [hd1]; exact valueTypes_append_left dag.nodes _ dag.root _ tys hT
  have hc0 : d1.getValueType (SDValue.of dag.nodes.length 0) = some (EVT.Int 32) := by
    rw [hd1]
    exact getValueType_new dag.nodes ext dag.root 0
      (SDNode.mk (NodeKind.Constant true 0) [] [EVT.Int 32] []) _ (by rw [hext]; rfl) rfl
  have hc1 : d1.getValueType (SDValue.of (dag.nodes.length + 1) 0) = some (EVT.Int 32) := by
    rw [hd1]
    exact getValueType_new dag.nodes ext dag.root 1
      (SDNode.mk (NodeKind.Constant true (v % 2 ^ 32)) [] [EVT.Int 32] []) _
      (by rw [hext]; rfl) rfl
  have hT2 : valueTypes d1 [SDValue.of dag.nodes.length 0, SDValue.of (dag.nodes.length + 1) 0]
      = some [EVT.Int 32, EVT.Int 32] := by
    simp [valueTypes, hc0, hc1]
  have hT3 := valueTypes_append d1 _ _ _ _ hT1 hT2
  have hlen : d1.nodes.length = dag.nodes.length + 2 := by
    rw [hd1, hext]; simp
  have key := emit_eq d1 N n
    ([a0, a1, a2] ++ [SDValue.of dag.nodes.length 0, SDValue.of (dag.nodes.length + 1) 0])
    [chain] (tys ++ [EVT.Int 32, EVT.Int 32])
    [a0, a1, a2, SDValue.of dag.nodes.length 0, SDValue.of (dag.nodes.length + 1) 0,
      SDValue.null, SDValue.of d1.nodes.length 0, chain] 7
    hN1 hT3 rfl rfl (by norm_num)
  rw [hlen] at key
  rw [hd1, hext] at key
  simp only [List.append_assoc, List.cons_append, List.nil_append, List.length_append,
    List.length_cons, List.length_nil, List.length_singleton, Nat.zero_add, Nat.reduceAdd,
    Nat.add_assoc] at key ⊢
  rw [key]
  simp only []
  have hN3 : (SelectionDAG.mk (dag.nodes ++
      [SDNode.mk (NodeKind.Constant true 0) [] [EVT.Int 32] [],
        SDNode.mk (NodeKind.Constant true (v % 2 ^ 32)) [] [EVT.Int 32] [],
        SDNode.mk (NodeKind.Constant true 0) [] [EVT.i64] [],
        SDNode.mk (NodeKind.Constant true
          (annotationOf n.vts (tys ++ [EVT.Int 32, EVT.Int 32])).get) [] [EVT.i64] []])
      dag.root).getNode N = some n := getNode_append_left _ _ _ _ _ hN
  rw [SelectNodeTo_eq _ _ N n _ _ _ hN3]
  simp only [SelectionDAG.setMemRefs]
  rw [getNode_set_self _ _ N _ (by rw [List.length_append]; omega)]
  simp only [NodeKind.isMachineOpcode, if_true, List.set_set, traceAndAnnotation]

/-- C17: memory metadata propagation.  For a memory access node `n` with the memory
operand `MemOp`, `SelectMemAccess` morphs the node into a `VOpMemTrans` (or `VOpCmdSeq`)
node whose list of memory operands is exactly `[MemOp]`.  For a block RAM access node,
`SelectBRamAccess` morphs the node into a `VOpBRam` node whose list of memory operands
is exactly `[MemOp]`, whose byte enable (operand 3) is a fresh constant 0 and whose bank
index (operand 4) is a fresh constant holding the value `v` of the constant operand 7,
read as a 32 bit unsigned number (`v` itself when it fits 32 bits). -/
theorem memory_operand_propagated (I : VInstr) (dag : SelectionDAG) (N : Nat) (n : SDNode)
    (hN : dag.getNode N = some n) :
    (∀ MemOp rest op1 op2 op3 op4 chain tys cmd, n.memRefs = MemOp :: rest →
      n.ops[0]? = some chain → n.ops[1]? = some op1 → n.ops[2]? = some op2 →
      n.ops[3]? = some op3 → n.ops[4]? = some op4 →
      valueTypes dag [op1, op2, op3, op4] = some tys →
      dag.getConstantOperandVal n 3 = some cmd →
      ∃ d, SelectMemAccess I dag N = some (d, some N) ∧
        d.getNode N = some ⟨NodeKind.Machine
            (if I.isCmdSeq (cmd % 2 ^ 32) then VTMOpcode.VOpCmdSeq else VTMOpcode.VOpMemTrans),
          [op1, op2, op3, op4, SDValue.of (dag.nodes.length + 1) 0,
            SDValue.of dag.nodes.length 0, chain], n.vts, [MemOp]⟩) ∧
    (∀ MemOp rest a0 a1 a2 chain tys v, n.memRefs = MemOp :: rest →
      n.ops[0]? = some chain → n.ops[2]? = some a0 → n.ops[3]? = some a1 →
      n.ops[4]? = some a2 → valueTypes dag [a0, a1, a2] = some tys →
      dag.getConstantOperandVal n 7 = some v →
      ∃ d, SelectBRamAccess dag N = some (d, some N) ∧
        d.getNode N = some ⟨NodeKind.Machine VTMOpcode.VOpBRam,
          [a0, a1, a2, SDValue.of dag.nodes.length 0, SDValue.of (dag.nodes.length + 1) 0,
            SDValue.of (dag.nodes.length + 3) 0, SDValue.of (dag.nodes.length + 2) 0, chain],
          n.vts, [MemOp]⟩ ∧
        d.getNode dag.nodes.length = some ⟨NodeKind.Constant true 0, [], [EVT.Int 32], []⟩ ∧
        d.getNode (dag.nodes.length + 1)
          = some ⟨NodeKind.Constant true (v % 2 ^ 32), [], [EVT.Int 32], []⟩ ∧
        (v < 2 ^ 32 → v % 2 ^ 32 = v)) := by
  have hlt := getNode_lt dag N n hN
  constructor
  · intro MemOp rest op1 op2 op3 op4 chain tys cmd hm h0 h1 h2 h3 h4 hT hcmd
    exact ⟨_, SelectMemAccess_eq I dag N n MemOp rest op1 op2 op3 op4 chain tys cmd hN hm h0
      h1 h2 h3 h4 hT hcmd, getNode_step_self dag _ N _ hlt⟩
  · intro MemOp rest a0 a1 a2 chain tys v hm h0 h2 h3 h4 hT hv
    exact ⟨_, SelectBRamAccess_eq dag N n MemOp rest a0 a1 a2 chain tys v hN hm h0 h2 h3 h4
      hT hv, getNode_step_self dag _ N _ hlt, getNode_step_new dag _ N 0 _ hlt,
      getNode_step_new dag _ N 1 _ hlt, fun h => Nat.mod_eq_of_lt h⟩

theorem memory_operand_propagated_witness :
    (∃ d, SelectMemAccess exInstr exMemDag 5 = some (d, some 5) ∧
      d.getNode 5 = some ⟨NodeKind.Machine VTMOpcode.VOpMemTrans,
        [SDValue.of 1 0, SDValue.of 2 0, SDValue.of 3 0, SDValue.of 4 0, SDValue.of 14 0,
          SDValue.of 13 0, SDValue.of 0 0], [EVT.Int 16, EVT.Other], [42]⟩) ∧
    (∃ d, SelectBRamAccess exMemDag 9 = some (d, some 9) ∧
      d.getNode 9 = some ⟨NodeKind.Machine VTMOpcode.VOpBRam,
        [SDValue.of 1 0, SDValue.of 2 0, SDValue.of 3 0, SDValue.of 13 0, SDValue.of 14 0,
          SDValue.of 16 0, SDValue.of 15 0, SDValue.of 0 0], [EVT.Int 16, EVT.Other], [43]⟩ ∧
      d.getNode 13 = some ⟨NodeKind.Constant true 0, [], [EVT.Int 32], []⟩ ∧
      d.getNode 14 = some ⟨NodeKind.Constant true 3, [], [EVT.Int 32], []⟩ ∧
      ((3 : Nat) < 2 ^ 32 → 3 % 2 ^ 32 = 3)) :=
  ⟨(memory_operand_propagated exInstr exMemDag 5
      ⟨NodeKind.Generic ISDOpcode.MemAccess,
        [SDValue.of 0 0, SDValue.of 1 0, SDValue.of 2 0, SDValue.of 3 0, SDValue.of 4 0],
        [EVT.Int 16, EVT.Other], [42]⟩ rfl).1 42 [] (SDValue.of 1 0) (SDValue.of 2 0)
      (SDValue.of 3 0) (SDValue.of 4 0) (SDValue.of 0 0)
      [EVT.Int 32, EVT.Int 16, EVT.Int 4, EVT.Int 8] 1 rfl rfl rfl rfl rfl rfl rfl rfl,
   (memory_operand_propagated exInstr exMemDag 9
      ⟨NodeKind.Generic ISDOpcode.INTRINSIC_W_CHAIN,
        [SDValue.of 0 0, SDValue.of 6 0, SDValue.of 1 0, SDValue.of 2 0, SDValue.of 3 0,
          SDValue.of 8 0, SDValue.of 8 0, SDValue.of 7 0],
        [EVT.Int 16, EVT.Other], [43]⟩ rfl).2 43 [] (SDValue.of 1 0) (SDValue.of 2 0)
      (SDValue.of 3 0) (SDValue.of 0 0) [EVT.Int 32, EVT.Int 16, EVT.Int 4] 3
      rfl rfl rfl rfl rfl rfl rfl⟩

/-- C13: unsupported nodes in the dispatcher.  A generic node whose opcode has no case
in the `switch` of `Select` is handed to `SelectCode`.  An intrinsic-with-chain node
whose intrinsic id is not `vtm_access_bram` is not: `Select` returns the null pointer
and leaves the DAG as it is, whatever `SelectCode` would do with the node. -/
theorem Select_unsupported (T : VTarget) (I : VInstr)
    (SelectCode : SelectionDAG → Nat → Option (SelectionDAG × Option Nat))
    (dag : SelectionDAG) (N : Nat) (n : SDNode) (hN : dag.getNode N = some n) :
    (∀ opc, n.kind = NodeKind.Generic opc → hasRule opc = false →
      Select T I SelectCode dag N = SelectCode dag N) ∧
    (∀ v, n.kind = NodeKind.Generic ISDOpcode.INTRINSIC_W_CHAIN →
      dag.getConstantOperandVal n 1 = some v → v % 2 ^ 32 ≠ I.vtm_access_bram →
      Select T I SelectCode dag N = some (dag, none)) := by
  constructor
  · intro opc hk hr
    unfold Select
    simp only [hN, hk]
    cases opc <;> first | rfl | exact absurd hr (by decide)
  · intro v hk hv hne
    unfold Select
    simp only [hN, hk]
    unfold SelectINTRINSIC_W_CHAIN
    simp only [hN, hv, hne, if_false]

theorem Select_unsupported_witness :
    Select exTarget exInstr exSelectCode exMemDag 12 = exSelectCode exMemDag 12 ∧
    Select exTarget exInstr exSelectCode exMemDag 11 = some (exMemDag, none) ∧
    exSelectCode exMemDag 11 = none :=
  ⟨(Select_unsupported exTarget exInstr exSelectCode exMemDag 12
      ⟨NodeKind.Generic ISDOpcode.TokenFactor, [SDValue.of 0 0], [EVT.Other], []⟩ rfl).1
      ISDOpcode.TokenFactor rfl rfl,
   (Select_unsupported exTarget exInstr exSelectCode exMemDag 11
      ⟨NodeKind.Generic ISDOpcode.INTRINSIC_W_CHAIN, [SDValue.of 0 0, SDValue.of 10 0],
        [EVT.Other], []⟩ rfl).2 99 rfl rfl (by decide),
   rfl⟩

/-! ## Operand layout -/

theorem reduce_lt_two (T : Nat) :
    ∀ c, (∀ k, 2 ≤ k → k ≤ c → T % k ≠ 0) → runOnLoop.reduce T c < 2 := by
  intro c
  induction c with
  | zero => intro _; simp [runOnLoop.reduce]
  | succ c ih =>
    intro h
    simp only [runOnLoop.reduce]
    by_cases hm : T % (c + 1) ≠ 0
    · rw [if_pos hm]
      exact ih (fun k hk hkc => h k hk (by omega))
    · rw [if_neg hm]
      by_contra hc
      exact hm (h (c + 1) (by omega) (le_refl _))

/-- C18: loop too large.  For a loop with a latch block whose trip count is a known
constant of at least 2, without inline candidates, whose size times the unroll count
(the requested count, or the trip count when none is requested) exceeds the threshold
of 50, and for which no count of at least 2 that divides the trip count fits within the
threshold, `runOnLoop` returns `false` and does not call `UnrollLoop`. -/
theorem runOnLoop_too_large (CurrentCount : Nat) (UnrollLoop : Nat → Nat → Nat → Bool)
    (L : Loop) (hlatch : L.hasLatch = true) (hT : 2 ≤ L.SmallConstantTripCount)
    (hT32 : L.SmallConstantTripCount < 2 ^ 32) (hC32 : CurrentCount < 2 ^ 32)
    (hI32 : L.NumInsts < 2 ^ 32)
    (hsize : (ApproximateLoopSize L).1 *
      (if CurrentCount = 0 then L.SmallConstantTripCount else CurrentCount)
        > OptSizeUnrollThreshold)
    (hno : ∀ c, 2 ≤ c → c * (ApproximateLoopSize L).1 ≤ OptSizeUnrollThreshold →
      ¬ c ∣ L.SmallConstantTripCount) :
    runOnLoop CurrentCount UnrollLoop L = (false, none) := by
  obtain ⟨S, hS⟩ : ∃ S, S = (ApproximateLoopSize L).1 := ⟨_, rfl⟩
  obtain ⟨C, hC⟩ : ∃ C, C = (if CurrentCount = 0 then L.SmallConstantTripCount
      else CurrentCount) := ⟨_, rfl⟩
  rw [← hS] at hno
  rw [← hS, ← hC] at hsize
  have hSpos : 0 < S := by
    rw [hS]; unfold ApproximateLoopSize
    by_cases h0 : L.NumInsts = 0
    · simp [h0]
    · simp only [h0, if_false]; omega
  have hS32 : S < 2 ^ 32 := by
    rw [hS]; unfold ApproximateLoopSize
    by_cases h0 : L.NumInsts = 0
    · simp [h0]
    · simp only [h0, if_false]; exact hI32
  have hC32' : C < 2 ^ 32 := by
    rw [hC]
    by_cases h0 : CurrentCount = 0
    · simp only [h0, if_true]; exact hT32
    · simp only [h0, if_false]; exact hC32
  have hmod : (S * C) % 2 ^ 64 = S * C := by
    apply Nat.mod_eq_of_lt
    calc S * C < 2 ^ 32 * 2 ^ 32 := Nat.mul_lt_mul'' hS32 hC32'
      _ = 2 ^ 64 := by norm_num
  have hred : runOnLoop.reduce L.SmallConstantTripCount (OptSizeUnrollThreshold / S) < 2 := by
    apply reduce_lt_two
    intro k hk hkc hmodk
    have hle : k * S ≤ OptSizeUnrollThreshold := (Nat.le_div_iff_mul_le hSpos).mp hkc
    exact hno k hk hle (Nat.dvd_of_mod_eq_zero hmodk)
  unfold runOnLoop
  simp only [hlatch, if_true]
  rw [if_neg (by omega)]
  by_cases hinl : (ApproximateLoopSize L).2 ≠ 0
  · rw [if_pos hinl]
  · rw [if_neg hinl, ← hS, ← hC, hmod]
    rw [if_pos ⟨by omega, hsize⟩]
    rw [if_pos (show L.SmallConstantTripCount ≠ 0 by omega)]
    rw [if_pos hred]

theorem runOnLoop_too_large_witness :
    runOnLoop 0 exUnrollLoop ⟨true, 4, 4, 30, 0⟩ = (false, none) :=
  runOnLoop_too_large 0 exUnrollLoop ⟨true, 4, 4, 30, 0⟩ rfl (by decide) (by decide)
    (by decide) (by decide) (by decide) (by
      intro c hc hle
      simp only [ApproximateLoopSize, OptSizeUnrollThreshold] at hle
      norm_num at hle
      omega)

/-- Counterexamples for C18: a loop of size 100 with the trip count 1, and a loop of
size 100 with an unknown trip count and the requested count 4.  The size times the
count exceeds the threshold and no count of at least 2 fits within it, yet `UnrollLoop`
is called and `runOnLoop` returns its result. -/
theorem runOnLoop_too_large_counterexample :
    (ApproximateLoopSize ⟨true, 1, 1, 100, 0⟩).1 * 1 > OptSizeUnrollThreshold ∧
    (∀ c, 2 ≤ c →
      ¬ c * (ApproximateLoopSize ⟨true, 1, 1, 100, 0⟩).1 ≤ OptSizeUnrollThreshold) ∧
    runOnLoop (HLSLoopUnroll.CurrentCount (-1)) exUnrollLoop ⟨true, 1, 1, 100, 0⟩
      = (true, some (1, 1, 1)) ∧
    runOnLoop (HLSLoopUnroll.CurrentCount 4) exUnrollLoop ⟨true, 0, 1, 100, 0⟩
      = (true, some (4, 0, 1)) := by
  refine ⟨by decide, ?_, by decide, by decide⟩
  intro c hc hle
  simp only [ApproximateLoopSize, OptSizeUnrollThreshold] at hle
  norm_num at hle
  omega

/-! ## Scheduling order -/

theorem firstFree_ge (limit : Nat → Nat) (ops : List SchedOp) (states : List (Option Nat))
    (u : Nat) : ∀ fuel s, s ≤ listScheduler.firstFree limit ops states u fuel s := by
  intro fuel
  induction fuel with
  | zero => intro s; exact le_refl _
  | succ fuel ih =>
    intro s
    simp only [listScheduler.firstFree]
    split
    · exact le_refl _
    · exact le_trans (Nat.le_succ s) (ih (s + 1))

/-- A ready operation: every dependency is scheduled, and the earliest state is not
before any of them. -/
theorem earliest_some (states : List (Option Nat)) (latched : Bool) :
    ∀ (deps : List Nat) (e : Nat), listScheduler.earliest states latched deps = some e →
      ∀ p ∈ deps, ∃ sp, states[p]? = some (some sp) ∧
        sp + (if latched then 0 else 1) ≤ e := by
  intro deps
  induction deps with
  | nil => intro e _ p hp; exact absurd hp (List.not_mem_nil p)
  | cons q rest ih =>
    intro e he p hp
    simp only [listScheduler.earliest] at he
    split at he
    · rename_i sq e' hq hr
      simp only [Option.some.injEq] at he
      rcases List.mem_cons.mp hp with rfl | hp
      · exact ⟨sq, hq, by omega⟩
      · obtain ⟨sp, h1, h2⟩ := ih e' hr p hp
        exact ⟨sp, h1, by omega⟩
    · exact Option.noConfusion he

theorem earliest_isSome (states : List (Option Nat)) (latched : Bool) :
    ∀ (deps : List Nat), (∀ p ∈ deps, ∃ sp, states[p]? = some (some sp)) →
      ∃ e, listScheduler.earliest states latched deps = some e := by
  intro deps
  induction deps with
  | nil => intro _; exact ⟨0, rfl⟩
  | cons q rest ih =>
    intro h
    obtain ⟨sq, hq⟩ := h q (List.mem_cons_self _ _)
    obtain ⟨e, he⟩ := ih (fun p hp => h p (List.mem_cons_of_mem _ hp))
    exact ⟨max (sq + (if latched then 0 else 1)) e,
      by simp only [listScheduler.earliest, hq, he]⟩

theorem place_some (limit : Nat → Nat) (ops : List SchedOp) (states : List (Option Nat))
    (op : SchedOp) (s : Nat) (h : listScheduler.place limit ops states op = some s) :
    ∀ p ∈ op.deps, ∃ sp, states[p]? = some (some sp) ∧
      sp + (if op.latched then 0 else 1) ≤ s := by
  unfold listScheduler.place at h
  split at h
  · exact Option.noConfusion h
  · rename_i e he
    simp only [Option.some.injEq] at h
    intro p hp
    obtain ⟨sp, h1, h2⟩ := earliest_some states op.latched op.deps e he p hp
    have := firstFree_ge limit ops states op.unit (ops.length + 1) e
    exact ⟨sp, h1, by omega⟩

theorem place_isSome (limit : Nat → Nat) (ops : List SchedOp) (states : List (Option Nat))
    (op : SchedOp) (h : ∀ p ∈ op.deps, ∃ sp, states[p]? = some (some sp)) :
    ∃ s, listScheduler.place limit ops states op = some s := by
  obtain ⟨e, he⟩ := earliest_isSome states op.latched op.deps h
  exact ⟨listScheduler.firstFree limit ops states op.unit (ops.length + 1) e,
    by simp only [listScheduler.place, he]⟩

theorem pick_some (limit : Nat → Nat) (ops : List SchedOp) (states : List (Option Nat)) :
    ∀ (l : List Nat) (i s : Nat), listScheduler.pick limit ops states l = some (i, s) →
      ∃ op, ops[i]? = some op ∧ states[i]? = some none ∧
        listScheduler.place limit ops states op = some s := by
  intro l
  induction l with
  | nil => intro i s h; exact Option.noConfusion h
  | cons j rest ih =>
    intro i s h
    simp only [listScheduler.pick] at h
    split at h
    · rename_i op hop hst
      split at h
      · rename_i s' hs'
        simp only [Option.some.injEq, Prod.mk.injEq] at h
        obtain ⟨rfl, rfl⟩ := h
        exact ⟨op, hop, hst, hs'⟩
      · exact ih i s h
    · exact ih i s h

theorem pick_isSome (limit : Nat → Nat) (ops : List SchedOp) (states : List (Option Nat)) :
    ∀ (l : List Nat) (j : Nat) (op : SchedOp), j ∈ l → ops[j]? = some op →
      states[j]? = some none →
      (∀ p ∈ op.deps, ∃ sp, states[p]? = some (some sp)) →
      ∃ r, listScheduler.pick limit ops states l = some r := by
  intro l
  induction l with
  | nil => intro j op hj; exact absurd hj (List.not_mem_nil j)
  | cons k rest ih =>
    intro j op hj hop hst hdeps
    simp only [listScheduler.pick]
    rcases List.mem_cons.mp hj with rfl | hj
    · obtain ⟨s, hs⟩ := place_isSome limit ops states op hdeps
      simp only [hop, hst, hs]
      exact ⟨_, rfl⟩
    · split
      · split
        · exact ⟨_, rfl⟩
        · exact ih j op hj hop hst hdeps
      · exact ih j op hj hop hst hdeps

/-- The order of the states assigned so far: a scheduled operation has all its
dependencies scheduled, none after it, and before it unless it is latched. -/
theorem go_ordered (limit : Nat → Nat) (ops : List SchedOp) :
    ∀ (fuel : Nat) (states : List (Option Nat)),
      (∀ (c : Nat) (opc : SchedOp) (sc : Nat), ops[c]? = some opc →
        states[c]? = some (some sc) →
        ∀ p ∈ opc.deps, ∃ sp, states[p]? = some (some sp) ∧
          sp + (if opc.latched then 0 else 1) ≤ sc) →
      (listScheduler.go limit ops fuel states).length = states.length ∧
      ∀ (c : Nat) (opc : SchedOp) (sc : Nat), ops[c]? = some opc →
        (listScheduler.go limit ops fuel states)[c]? = some (some sc) →
        ∀ p ∈ opc.deps, ∃ sp,
          (listScheduler.go limit ops fuel states)[p]? = some (some sp) ∧
          sp + (if opc.latched then 0 else 1) ≤ sc := by
  intro fuel
  induction fuel with
  | zero => intro states h; exact ⟨rfl, h⟩
  | succ fuel ih =>
    intro states h
    simp only [listScheduler.go]
    split
    · exact ⟨rfl, h⟩
    · rename_i i s hpick
      obtain ⟨op, hop, hst, hplace⟩ := pick_some limit ops states _ i s hpick
      have hdeps := place_some limit ops states op s hplace
      have hkeep : ∀ (p sp : Nat), states[p]? = some (some sp) →
          (states.set i (some s))[p]? = some (some sp) := by
        intro p sp hp
        have hne : i ≠ p := by
          intro he
          rw [← he, hst] at hp
          exact Option.noConfusion (Option.some.inj hp)
        rw [List.getElem?_set_ne hne]
        exact hp
      have hi : i < states.length := by
        by_contra hc
        rw [List.getElem?_eq_none (by omega)] at hst
        exact Option.noConfusion hst
      obtain ⟨l1, l2⟩ := ih (states.set i (some s)) (by
        intro c opc sc hc hsc p hp
        by_cases hci : c = i
        · subst hci
          rw [List.getElem?_set_self hi] at hsc
          simp only [Option.some.injEq] at hsc
          rw [hop] at hc
          simp only [Option.some.injEq] at hc
          subst hc hsc
          obtain ⟨sp, h1, h2⟩ := hdeps p hp
          exact ⟨sp, hkeep p sp h1, h2⟩
        · rw [List.getElem?_set_ne (Ne.symm hci)] at hsc
          obtain ⟨sp, h1, h2⟩ := h c opc sc hc hsc p hp
          exact ⟨sp, hkeep p sp h1, h2⟩)
      refine ⟨?_, l2⟩
      rw [l1, List.length_set]

theorem count_none_set (s : Nat) :
    ∀ (states : List (Option Nat)) (i : Nat), states[i]? = some none →
      (states.set i (some s)).count none + 1 = states.count none := by
  intro states
  induction states with
  | nil => intro i h; simp at h
  | cons a rest ih =>
    intro i h
    cases i with
    | zero =>
      simp only [List.getElem?_cons_zero, Option.some.injEq] at h
      subst h
      simp [List.count_cons]
    | succ i =>
      simp only [List.getElem?_cons_succ] at h
      have := ih i h
      simp only [List.set_cons_succ, List.count_cons]
      omega

/-- Among the operations not yet scheduled of an acyclic block one is ready. -/
theorem exists_ready (ops : List SchedOp) (states : List (Option Nat)) (rank : Nat → Nat)
    (hlen : states.length = ops.length)
    (hrank : ∀ (c : Nat) (opc : SchedOp), ops[c]? = some opc →
      ∀ p ∈ opc.deps, p < ops.length ∧ rank p < rank c) :
    ∀ (r i : Nat), rank i = r → states[i]? = some none →
      ∃ j op, j < ops.length ∧ ops[j]? = some op ∧ states[j]? = some none ∧
        ∀ p ∈ op.deps, ∃ sp, states[p]? = some (some sp) := by
  intro r
  induction r using Nat.strong_induction_on with
  | _ r ih =>
    intro i hr hst
    have hi : i < ops.length := by
      by_contra hc
      rw [List.getElem?_eq_none (by omega)] at hst
      exact Option.noConfusion hst
    have hop : ops[i]? = some ops[i] := List.getElem?_eq_getElem hi
    by_cases hall : ∀ p ∈ (ops[i]).deps, ∃ sp, states[p]? = some (some sp)
    · exact ⟨i, _, hi, hop, hst, hall⟩
    · push_neg at hall
      obtain ⟨p, hp, hnot⟩ := hall
      obtain ⟨hpl, hpr⟩ := hrank i _ hop p hp
      have hpst : states[p]? = some none := by
        have hp2 : p < states.length := by omega
        rw [List.getElem?_eq_getElem hp2]
        cases hv : states[p] with
        | none => rfl
        | some sp =>
          exfalso
          apply hnot sp
          rw [List.getElem?_eq_getElem hp2, hv]
      exact ih (rank p) (by omega) p rfl hpst

/-- With enough fuel the scheduling loop of an acyclic block leaves no operation
unscheduled. -/
theorem go_total (limit : Nat → Nat) (ops : List SchedOp) (rank : Nat → Nat)
    (hrank : ∀ (c : Nat) (opc : SchedOp), ops[c]? = some opc →
      ∀ p ∈ opc.deps, p < ops.length ∧ rank p < rank c) :
    ∀ (fuel : Nat) (states : List (Option Nat)), states.length = ops.length →
      states.count none ≤ fuel →
      (listScheduler.go limit ops fuel states).count none = 0 := by
  intro fuel
  induction fuel with
  | zero =>
    intro states _ hc
    simp only [listScheduler.go]
    omega
  | succ fuel ih =>
    intro states hlen hc
    simp only [listScheduler.go]
    split
    · rename_i hpick
      by_contra hne
      have hpos : 0 < states.count none := Nat.pos_of_ne_zero hne
      have hmem : none ∈ states := List.count_pos_iff.mp hpos
      obtain ⟨i, hi⟩ := List.mem_iff_getElem?.mp hmem
      obtain ⟨j, op, hj, hop, hst, hdeps⟩ :=
        exists_ready ops states rank hlen hrank (rank i) i rfl hi
      obtain ⟨r, hr⟩ := pick_isSome limit ops states (List.range ops.length) j op
        (List.mem_range.mpr hj) hop hst hdeps
      rw [hpick] at hr
      exact Option.noConfusion hr
    · rename_i i s hpick
      obtain ⟨op, hop, hst, -⟩ := pick_some limit ops states _ i s hpick
      have hcnt := count_none_set s states i hst
      exact ih (states.set i (some s)) (by rw [List.length_set]; exact hlen) (by omega)

/-- C19: scheduling dependency order.  The list scheduler gives one entry per operation
of the block; whenever it assigns a state to an operation `c`, it has assigned a state
to every operation `p` whose value `c` consumes, and the state of `p` is at most the
state of `c`, and strictly less when `c` is not a latched consumer; and when the
dependencies of the block are acyclic and stay within the block, every operation is
assigned a state. -/
theorem listScheduler_dependency_order (limit : Nat → Nat) (ops : List SchedOp) :
    (listScheduler limit ops).length = ops.length ∧
    (∀ (c p : Nat) (opc : SchedOp) (sc : Nat), ops[c]? = some opc → p ∈ opc.deps →
      (listScheduler limit ops)[c]? = some (some sc) →
      ∃ sp, (listScheduler limit ops)[p]? = some (some sp) ∧
        sp ≤ sc ∧ (opc.latched = false → sp < sc)) ∧
    ((∃ rank : Nat → Nat, ∀ (c : Nat) (opc : SchedOp), ops[c]? = some opc →
        ∀ p ∈ opc.deps, p < ops.length ∧ rank p < rank c) →
      ∀ i, i < ops.length → ∃ s, (listScheduler limit ops)[i]? = some (some s)) := by
  have hinit : ∀ (c : Nat) (opc : SchedOp) (sc : Nat), ops[c]? = some opc →
      (List.replicate ops.length (none : Option Nat))[c]? = some (some sc) →
      ∀ p ∈ opc.deps, ∃ sp,
        (List.replicate ops.length (none : Option Nat))[p]? = some (some sp) ∧
        sp + (if opc.latched then 0 else 1) ≤ sc := by
    intro c opc sc _ hsc
    exfalso
    have hmem := List.mem_iff_getElem?.mpr ⟨c, hsc⟩
    have := List.eq_of_mem_replicate hmem
    exact Option.noConfusion this
  obtain ⟨h1, h2⟩ := go_ordered limit ops ops.length _ hinit
  have hlen : (listScheduler limit ops).length = ops.length := by
    unfold listScheduler
    rw [h1, List.length_replicate]
  refine ⟨hlen, ?_, ?_⟩
  · intro c p opc sc hc hp hsc
    obtain ⟨sp, g1, g2⟩ := h2 c opc sc hc hsc p hp
    refine ⟨sp, g1, by omega, ?_⟩
    intro hl
    rw [hl] at g2
    simp only [Bool.false_eq_true, if_false] at g2
    omega
  · rintro ⟨rank, hrank⟩ i hi
    have hcount := go_total limit ops rank hrank ops.length
      (List.replicate ops.length none) (List.length_replicate _ _)
      (by rw [List.count_replicate_self])
    have hi2 : i < (listScheduler limit ops).length := by omega
    rw [List.getElem?_eq_getElem hi2]
    cases hv : (listScheduler limit ops)[i] with
    | some s => exact ⟨s, rfl⟩
    | none =>
      exfalso
      have hmem : none ∈ listScheduler limit ops := by
        rw [← hv]; exact List.getElem_mem _
      have := List.count_pos_iff.mpr hmem
      unfold listScheduler at this
      omega

/-- Witness for C19: on one multiplier the two multiplications take the states 0 and
1, the addition the state 2 and the latched write shares it; listed with the consumers
in front, the producers are still scheduled first. -/
theorem listScheduler_dependency_order_witness :
    listScheduler (fun _ => 1) exBlock = [some 0, some 1, some 2, some 2] ∧
    listScheduler (fun _ => 1) exForwardBlock = [some 2, some 2, some 0, some 1] ∧
    (∃ sp, (listScheduler (fun _ => 1) exForwardBlock)[2]? = some (some sp) ∧
      sp ≤ 2 ∧ (false = false → sp < 2)) ∧
    (∃ sp, (listScheduler (fun _ => 1) exForwardBlock)[1]? = some (some sp) ∧
      sp ≤ 2 ∧ (true = false → sp < 2)) ∧
    ∀ i, i < exForwardBlock.length →
      ∃ s, (listScheduler (fun _ => 1) exForwardBlock)[i]? = some (some s) :=
  ⟨by decide, by decide,
   (listScheduler_dependency_order (fun _ => 1) exForwardBlock).2.1 1 2 ⟨[2, 3], 1, false⟩ 2
     rfl (by decide) (by decide),
   (listScheduler_dependency_order (fun _ => 1) exForwardBlock).2.1 0 1 ⟨[1], 2, true⟩ 2
     rfl (by decide) (by decide),
   (listScheduler_dependency_order (fun _ => 1) exForwardBlock).2.2
     ⟨fun i => 4 - i, by
       intro c opc hc p hp
       have hlen : exForwardBlock.length = 4 := rfl
       have hc4 : c < 4 := by
         by_contra hge
         have hle : exForwardBlock.length ≤ c := by omega
         rw [List.getElem?_eq_none hle] at hc
         exact Option.noConfusion hc
       show p < exForwardBlock.length ∧ 4 - p < 4 - c
       rw [hlen]
       interval_cases c <;>
         simp only [exForwardBlock, List.getElem?_cons_zero, List.getElem?_cons_succ,
           Option.some.injEq] at hc <;>
         subst hc <;>
         simp only [List.mem_cons, List.mem_singleton, List.not_mem_nil, or_false] at hp <;>
         omega⟩⟩


/-! ## Biquad sections -/

theorem wrap32_modEq (z : Int) : wrap32 z ≡ z [ZMOD 2 ^ 32] := by
  unfold wrap32
  have h : (z + 2 ^ 31) % 2 ^ 32 ≡ z + 2 ^ 31 [ZMOD 2 ^ 32] := Int.mod_modEq _ _
  have := h.sub_right (2 ^ 31)
  simpa using this

theorem wrap32_congr (a b : Int) (h : a ≡ b [ZMOD 2 ^ 32]) : wrap32 a = wrap32 b := by
  unfold wrap32
  have h2 : a + 2 ^ 31 ≡ b + 2 ^ 31 [ZMOD 2 ^ 32] := h.add_right _
  rw [h2.eq]

theorem wrap32_exact (z : Int) (h1 : -(2 ^ 31) ≤ z) (h2 : z < 2 ^ 31) : wrap32 z = z := by
  unfold wrap32
  rw [Int.emod_eq_of_lt (by omega) (by omega)]
  omega

theorem wrap32_w (y a1 w1 a2 w2 : Int) :
    wrap32 (wrap32 (y - wrap32 (a1 * w1)) - wrap32 (a2 * w2))
      = wrap32 (y - a1 * w1 - a2 * w2) := by
  apply wrap32_congr
  exact ((wrap32_modEq _).trans ((Int.ModEq.refl y).sub (wrap32_modEq _))).sub
    (wrap32_modEq _)

theorem wrap32_y (b0 w b1 w1 b2 w2 : Int) :
    wrap32 (wrap32 (wrap32 (b0 * w) + wrap32 (b1 * w1)) + wrap32 (b2 * w2))
      = wrap32 (b0 * w + b1 * w1 + b2 * w2) := by
  apply wrap32_congr
  exact ((wrap32_modEq _).trans ((wrap32_modEq _).add (wrap32_modEq _))).add
    (wrap32_modEq _)

theorem getElem?_getD (l : List Int) (i : Nat) (h : i < l.length) :
    l[i]? = some (l.getD i 0) := by
  rw [List.getD_eq_getElem?_getD, List.getElem?_eq_getElem h]
  rfl

theorem body_eq (coeff wi : List Int) (y : Int) (i : Nat)
    (hc : 5 * i + 4 < coeff.length) (hw : 2 * i + 1 < wi.length) :
    biquad_N_sections.body coeff ⟨y, 5 * i, 2 * i, 2 * i + 1, wi⟩
      = some ⟨(biquadSection coeff i (y, wi)).1, 5 * (i + 1), 2 * (i + 1), 2 * (i + 1) + 1,
          (biquadSection coeff i (y, wi)).2⟩ := by
  unfold biquad_N_sections.body
  simp only [getElem?_getD coeff (5 * i) (by omega), getElem?_getD coeff (5 * i + 1) (by omega),
    getElem?_getD coeff (5 * i + 2) (by omega), getElem?_getD coeff (5 * i + 3) (by omega),
    getElem?_getD coeff (5 * i + 4) (by omega), getElem?_getD wi (2 * i) (by omega),
    getElem?_getD wi (2 * i + 1) (by omega)]
  rw [if_pos (by rw [List.length_set]; omega)]
  simp only [biquadSection, wrap32_w, wrap32_y]
  have e1 : 5 * i + 5 = 5 * (i + 1) := by ring
  have e2 : 2 * i + 1 + 1 = 2 * (i + 1) := by ring
  rw [e1, e2]

theorem biquadSection_length (coeff : List Int) (i : Nat) (s : Int × List Int) :
    (biquadSection coeff i s).2.length = s.2.length := by
  simp [biquadSection]

/-- C20: the biquad section equations.  Called as in `main`, with `ptr_coeff` at
`coefficients[0]`, `ptr_wi1` at `wi[0]` and `ptr_wi2` at `wi[1]`, on arrays of at least
20 coefficients and 8 states, `biquad_N_sections` returns, and its result and the array
`wi` it leaves are those of the four sections in sequence: section `i` computes
`w = yin - a1 * w1 - a2 * w2` and `yout = b0 * w + b1 * w1 + b2 * w2` from
`coefficients[5 i .. 5 i + 4]`, `w1 = wi[2 i]` and `w2 = wi[2 i + 1]`, stores
`wi[2 i + 1] := w1` and `wi[2 i] := w`, and hands `yout` to the next section; the
values are `int` values, equal to the exact ones when these are in the range of `int`. -/
theorem biquad_N_sections_equations (x : Int) (coeff wi : List Int)
    (hc : 20 ≤ coeff.length) (hw : 8 ≤ wi.length) :
    biquad_N_sections x coeff 0 wi 0 1 = some (biquadSpec x coeff wi) ∧
    (∀ i yin (w0 : List Int),
      biquadSection coeff i (yin, w0)
        = (wrap32 (coeff.getD (5 * i + 2) 0 *
              wrap32 (yin - coeff.getD (5 * i) 0 * w0.getD (2 * i) 0
                - coeff.getD (5 * i + 1) 0 * w0.getD (2 * i + 1) 0)
            + coeff.getD (5 * i + 3) 0 * w0.getD (2 * i) 0
            + coeff.getD (5 * i + 4) 0 * w0.getD (2 * i + 1) 0),
           (w0.set (2 * i + 1) (w0.getD (2 * i) 0)).set (2 * i)
             (wrap32 (yin - coeff.getD (5 * i) 0 * w0.getD (2 * i) 0
                - coeff.getD (5 * i + 1) 0 * w0.getD (2 * i + 1) 0)))) ∧
    (∀ z : Int, -(2 ^ 31) ≤ z → z < 2 ^ 31 → wrap32 z = z) := by
  refine ⟨?_, fun i yin w0 => rfl, wrap32_exact⟩
  unfold biquad_N_sections biquadSpec
  obtain ⟨s0, hs0⟩ : ∃ s0, s0 = biquadSection coeff 0 (x, wi) := ⟨_, rfl⟩
  obtain ⟨s1, hs1⟩ : ∃ s1, s1 = biquadSection coeff 1 s0 := ⟨_, rfl⟩
  obtain ⟨s2, hs2⟩ : ∃ s2, s2 = biquadSection coeff 2 s1 := ⟨_, rfl⟩
  obtain ⟨s3, hs3⟩ : ∃ s3, s3 = biquadSection coeff 3 s2 := ⟨_, rfl⟩
  have l0 : s0.2.length = wi.length := by rw [hs0]; exact biquadSection_length _ _ _
  have l1 : s1.2.length = wi.length := by
    rw [hs1, biquadSection_length]; exact l0
  have l2 : s2.2.length = wi.length := by
    rw [hs2, biquadSection_length]; exact l1
  have b0 := body_eq coeff wi x 0 (by omega) (by omega)
  have b1 := body_eq coeff s0.2 s0.1 1 (by omega) (by omega)
  have b2 := body_eq coeff s1.2 s1.1 2 (by omega) (by omega)
  have b3 := body_eq coeff s2.2 s2.1 3 (by omega) (by omega)
  rw [← hs0] at b0
  rw [← hs1] at b1
  rw [← hs2] at b2
  rw [← hs3] at b3
  simp only [Nat.mul_zero, Nat.zero_add, Nat.mul_one, Nat.reduceMul, Nat.reduceAdd] at b0 b1 b2 b3
  simp only [NumberOfSections, biquad_N_sections.loop, b0, b1, b2, b3, Option.map_some',
    ← hs0, ← hs1, ← hs2, ← hs3]

theorem biquad_N_sections_equations_witness :
    pin_down (List.replicate 20 0) (List.replicate 8 5)
      = (1, List.replicate 20 7, List.replicate 8 0) ∧
    biquad_N_sections 1 (List.replicate 20 7) 0 (List.replicate 8 0) 0 1
      = some (2401, [1, 0, 7, 0, 49, 0, 343, 0]) ∧
    biquadSpec 1 (List.replicate 20 7) (List.replicate 8 0)
      = (2401, [1, 0, 7, 0, 49, 0, 343, 0]) := by
  have h := (biquad_N_sections_equations 1 (List.replicate 20 7) (List.replicate 8 0)
    (by decide) (by decide)).1
  have e : biquadSpec 1 (List.replicate 20 7) (List.replicate 8 0)
      = (2401, [1, 0, 7, 0, 49, 0, 343, 0]) := by decide
  rw [e] at h
  exact ⟨by decide, h, e⟩

/-! ## Placeholder replacement and slot positions -/

/-- C21: for a node `N` of the DAG and an operand array of counted length `NumOps ≥ 3`
whose entries before the placeholder are typed values, `computeOperandsBitWidth` returns;
the array it leaves has the same length, its entry at index `NumOps - 2` (the placeholder
immediately before the trace operand) is result 0 of a new node that is a target
constant of type `i64` whose value is the packed annotation returned, and every other
entry is the entry of the array passed in. -/
theorem computeOperandsBitWidth_frame (dag : SelectionDAG) (N : Nat) (n : SDNode)
    (Ops : List SDValue) (NumOps : Nat) (tys : List EVT)
    (hN : dag.getNode N = some n)
    (h3 : 3 ≤ NumOps) (hle : NumOps ≤ Ops.length) (h32 : NumOps < 2 ^ 32)
    (hT : valueTypes dag (Ops.take (NumOps - 2)) = some tys) :
    ∃ d Ops' A, computeOperandsBitWidth dag N Ops NumOps = some (d, Ops', A) ∧
      Ops'.length = Ops.length ∧
      Ops'[NumOps - 2]? = some (SDValue.of dag.nodes.length 0) ∧
      d.getNode dag.nodes.length
        = some ⟨NodeKind.Constant true A.get, [], [EVT.i64], []⟩ ∧
      (∀ i m, i < dag.nodes.length → dag.getNode i = some m → d.getNode i = some m) ∧
      ∀ j, j ≠ NumOps - 2 → Ops'[j]? = Ops[j]? := by
  refine ⟨_, _, _,
    computeOperandsBitWidth_eq_annotationOf dag N n Ops NumOps tys hN (by omega) hle h32 hT,
    ?_, ?_, ?_, ?_, ?_⟩
  · simp
  · rw [List.getElem?_set_self (by omega)]
  · simp [SelectionDAG.getNode]
  · intro i m hi hm
    simp only [SelectionDAG.getNode] at hm ⊢
    rw [List.getElem?_append_left hi]
    exact hm
  · intro j hj
    rw [List.getElem?_set_ne (Ne.symm hj)]

theorem computeOperandsBitWidth_frame_witness :
    ∃ d Ops' A, computeOperandsBitWidth exRoundTripDag 0 exRoundTripOps 4
        = some (d, Ops', A) ∧
      Ops'.length = exRoundTripOps.length ∧
      Ops'[4 - 2]? = some (SDValue.of exRoundTripDag.nodes.length 0) ∧
      d.getNode exRoundTripDag.nodes.length
        = some ⟨NodeKind.Constant true A.get, [], [EVT.i64], []⟩ ∧
      (∀ i m, i < exRoundTripDag.nodes.length → exRoundTripDag.getNode i = some m →
        d.getNode i = some m) ∧
      ∀ j, j ≠ 4 - 2 → Ops'[j]? = exRoundTripOps[j]? :=
  computeOperandsBitWidth_frame exRoundTripDag 0 _ exRoundTripOps 4
    [EVT.Int 16, EVT.Int 32] rfl (by decide) (by decide) (by decide) rfl


theorem resultCallList_getElem? (vts : List EVT) :
    ∀ (d : Nat), (resultCallList vts d).length = (resultWidths vts).length ∧
      ∀ j w, (resultWidths vts)[j]? = some w → (resultCallList vts d)[j]? = some (w, d + j) := by
  induction vts with
  | nil => intro d; simp [resultCallList, resultWidths]
  | cons vt rest ih =>
    intro d
    by_cases hvt : vt = EVT.Other
    · subst hvt
      simpa [resultCallList, resultWidths] using ih d
    · have hw : resultWidths (vt :: rest) = vt.getSizeInBits :: resultWidths rest := by
        simp [resultWidths, hvt]
      rw [hw]
      simp only [resultCallList, hvt, if_false, List.length_cons]
      refine ⟨by rw [(ih (d + 1)).1], ?_⟩
      intro j w hj
      cases j with
      | zero => simp at hj; simp [hj]
      | succ j =>
        simp only [List.getElem?_cons_succ] at hj ⊢
        rw [(ih (d + 1)).2 j w hj]
        congr 2; omega

theorem operandCallList_mem (tys : List EVT) (k : Nat) :
    ∀ (i0 : Nat) (w s : Nat), (w, s) ∈ operandCallList tys k i0 ↔
      ∃ i t, tys[i]? = some t ∧ t ≠ EVT.Other ∧ w = t.getSizeInBits ∧ s = i0 + i + k := by
  induction tys with
  | nil => intro i0 w s; simp [operandCallList]
  | cons t rest ih =>
    intro i0 w s
    have hstep : (∃ i u, (t :: rest)[i]? = some u ∧ u ≠ EVT.Other ∧ w = u.getSizeInBits ∧
          s = i0 + i + k) ↔
        ((t ≠ EVT.Other ∧ w = t.getSizeInBits ∧ s = i0 + k) ∨
          ∃ i u, rest[i]? = some u ∧ u ≠ EVT.Other ∧ w = u.getSizeInBits ∧
            s = i0 + 1 + i + k) := by
      constructor
      · rintro ⟨i, u, h1, h2, h3, h4⟩
        cases i with
        | zero =>
          simp at h1; subst h1
          exact Or.inl ⟨h2, h3, by omega⟩
        | succ i =>
          simp only [List.getElem?_cons_succ] at h1
          exact Or.inr ⟨i, u, h1, h2, h3, by omega⟩
      · rintro (⟨h2, h3, h4⟩ | ⟨i, u, h1, h2, h3, h4⟩)
        · exact ⟨0, t, by simp, h2, h3, by omega⟩
        · exact ⟨i + 1, u, by simpa using h1, h2, h3, by omega⟩
    rw [hstep]
    by_cases ht : t = EVT.Other
    · subst ht
      simp only [operandCallList, if_true, ih (i0 + 1) w s]
      simp
    · simp only [operandCallList, ht, if_false, List.mem_cons, ih (i0 + 1) w s,
        Prod.mk.injEq]
      constructor
      · rintro (⟨h1, h2⟩ | h)
        · exact Or.inl ⟨fun h => ht h, h1, by omega⟩
        · exact Or.inr h
      · rintro (⟨_, h1, h2⟩ | h)
        · exact Or.inl ⟨h1, by omega⟩
        · exact Or.inr h

/-- C27: for a node with `k` non-chain results and an operand array whose entries
before the placeholder have the types `tys`, the `setBitWidth` calls of
`computeOperandsBitWidth` are those of the results followed by those of the operands:
the `j`-th non-chain result width goes to slot `j`; a width goes to an operand slot
exactly for an index `i` below `min(NumOps - 2, size() - k)` whose entry is not a
chain, and that slot is `k + i`; so no call writes slot `k + i` of a chain-typed entry,
and no entry at an index from `size() - k` on is annotated, chains among the entries
before it included in the count. -/
theorem computeOperandsBitWidth_slot_positions (dag : SelectionDAG) (N : Nat) (n : SDNode)
    (Ops : List SDValue) (NumOps : Nat) (tys : List EVT)
    (hN : dag.getNode N = some n)
    (h2 : 2 ≤ NumOps) (hle : NumOps ≤ Ops.length) (h32 : NumOps < 2 ^ 32)
    (hT : valueTypes dag (Ops.take (NumOps - 2)) = some tys) :
    ∃ rs os : List (Nat × Nat), annotationCalls dag N Ops NumOps = some (rs ++ os) ∧
      rs.length = (resultWidths n.vts).length ∧
      (∀ j w : Nat, (resultWidths n.vts)[j]? = some w → rs[j]? = some (w, j)) ∧
      (∀ w s : Nat, (w, s) ∈ os ↔
        ∃ (i : Nat) (t : EVT), i < min (NumOps - 2)
              (usub BitWidthAnnotator.size (resultWidths n.vts).length) ∧
          tys[i]? = some t ∧ t ≠ EVT.Other ∧ w = t.getSizeInBits ∧
          s = (resultWidths n.vts).length + i) ∧
      (∀ i : Nat, tys[i]? = some EVT.Other →
        ∀ c ∈ rs ++ os, c.2 ≠ (resultWidths n.vts).length + i) ∧
      (∀ i : Nat, usub BitWidthAnnotator.size (resultWidths n.vts).length ≤ i →
        ∀ c ∈ os, c.2 ≠ (resultWidths n.vts).length + i) := by
  obtain ⟨k, hk⟩ : ∃ k, k = (resultWidths n.vts).length := ⟨_, rfl⟩
  obtain ⟨m, hm⟩ : ∃ m, m = min (NumOps - 2) (usub BitWidthAnnotator.size k) := ⟨_, rfl⟩
  have hcalls := (computeOperandsBitWidth_eq dag N n Ops NumOps tys hN h2 hle h32 hT).1
  rw [← hk, ← hm] at hcalls
  rw [← hk, ← hm]
  have hrs := resultCallList_getElem? n.vts 0
  rw [← hk] at hrs
  have hos : ∀ w s, (w, s) ∈ operandCallList (tys.take m) k 0 ↔
      ∃ i t, i < m ∧ tys[i]? = some t ∧ t ≠ EVT.Other ∧ w = t.getSizeInBits ∧
        s = k + i := by
    intro w s
    rw [operandCallList_mem]
    constructor
    · rintro ⟨i, t, h1, h2, h3, h4⟩
      rw [List.getElem?_take] at h1
      by_cases him : i < m
      · rw [if_pos him] at h1
        exact ⟨i, t, him, h1, h2, h3, by omega⟩
      · rw [if_neg him] at h1
        exact Option.noConfusion h1
    · rintro ⟨i, t, him, h1, h2, h3, h4⟩
      refine ⟨i, t, ?_, h2, h3, by omega⟩
      rw [List.getElem?_take, if_pos him]
      exact h1
  have hrslot : ∀ c ∈ resultCallList n.vts 0, c.2 < k := by
    intro c hc
    obtain ⟨j, hj⟩ := List.mem_iff_getElem?.mp hc
    have hjl : j < (resultCallList n.vts 0).length := by
      by_contra hlt
      rw [List.getElem?_eq_none (by omega)] at hj
      exact Option.noConfusion hj
    rw [hrs.1] at hjl
    have hw : (resultWidths n.vts)[j]? = some ((resultWidths n.vts)[j]) :=
      List.getElem?_eq_getElem (by omega)
    have := hrs.2 j _ hw
    rw [this] at hj
    cases hj
    simpa using hjl
  refine ⟨_, _, hcalls, hrs.1, ?_, hos, ?_, ?_⟩
  · intro j w hj
    simpa using hrs.2 j w hj
  · intro i hi c hc
    rcases List.mem_append.mp hc with h | h
    · have := hrslot c h
      omega
    · intro heq
      obtain ⟨i', t, _, h1, h2, _, h4⟩ := (hos c.1 c.2).mp h
      have : i' = i := by omega
      subst this
      rw [hi] at h1
      cases h1
      exact h2 rfl
  · intro i hi c hc heq
    obtain ⟨i', t, h0, _, _, _, h4⟩ := (hos c.1 c.2).mp hc
    have : i' = i := by omega
    subst this
    rw [hm] at h0
    omega

theorem computeOperandsBitWidth_slot_positions_witness :
    ∃ rs os : List (Nat × Nat), annotationCalls exRoundTripDag 0 exChainOps 4
        = some (rs ++ os) ∧
      rs.length = (resultWidths [EVT.Int 8]).length ∧
      (∀ j w : Nat, (resultWidths [EVT.Int 8])[j]? = some w → rs[j]? = some (w, j)) ∧
      (∀ w s : Nat, (w, s) ∈ os ↔
        ∃ (i : Nat) (t : EVT), i < min (4 - 2)
              (usub BitWidthAnnotator.size (resultWidths [EVT.Int 8]).length) ∧
          [EVT.Other, EVT.Int 16][i]? = some t ∧ t ≠ EVT.Other ∧ w = t.getSizeInBits ∧
          s = (resultWidths [EVT.Int 8]).length + i) ∧
      (∀ i : Nat, [EVT.Other, EVT.Int 16][i]? = some EVT.Other →
        ∀ c ∈ rs ++ os, c.2 ≠ (resultWidths [EVT.Int 8]).length + i) ∧
      (∀ i : Nat, usub BitWidthAnnotator.size (resultWidths [EVT.Int 8]).length ≤ i →
        ∀ c ∈ os, c.2 ≠ (resultWidths [EVT.Int 8]).length + i) :=
  computeOperandsBitWidth_slot_positions exRoundTripDag 0
    ⟨NodeKind.Generic ISDOpcode.SELECT, [], [EVT.Int 8], []⟩ exChainOps 4
    [EVT.Other, EVT.Int 16] rfl (by decide) (by decide) (by decide) rfl


/-! ## Comparator classification -/

theorem normalize_class (T : VTarget) (Cnd : CondCode) (a b : SDValue)
    (h : Cnd ∈ [CondCode.SETEQ, CondCode.SETNE, CondCode.SETGT, CondCode.SETGE,
      CondCode.SETUGT, CondCode.SETUGE, CondCode.SETLT, CondCode.SETLE, CondCode.SETULT,
      CondCode.SETULE]) :
    ∃ CC L R p, SelectICmp.normalize Cnd a b = some (CC, L, R) ∧ getICmpPort CC = some p ∧
      ((L = a ∧ R = b) ∨ (L = b ∧ R = a)) ∧
      CC = (if Cnd = CondCode.SETLT then CondCode.SETGT
        else if Cnd = CondCode.SETLE then CondCode.SETGE
        else if Cnd = CondCode.SETULT then CondCode.SETUGT
        else if Cnd = CondCode.SETULE then CondCode.SETUGE else Cnd) ∧
      SelectICmp.cmpType T CC
        = (if CC = CondCode.SETEQ ∨ CC = CondCode.SETNE then T.CmpEQ
          else if CC = CondCode.SETGT ∨ CC = CondCode.SETGE then T.CmpSigned
          else T.CmpUnsigned) ∧
      (CC = CondCode.SETEQ ∨ CC = CondCode.SETNE ∨ CC = CondCode.SETGT ∨
        CC = CondCode.SETGE ∨ CC = CondCode.SETUGT ∨ CC = CondCode.SETUGE) := by
  simp only [List.mem_cons, List.mem_singleton, List.not_mem_nil, or_false] at h
  rcases h with rfl | rfl | rfl | rfl | rfl | rfl | rfl | rfl | rfl | rfl <;>
    first
    | exact ⟨_, _, _, _, rfl, rfl, Or.inl ⟨rfl, rfl⟩, by decide,
        by simp [SelectICmp.cmpType, isSignedIntSetCC], by decide⟩
    | exact ⟨_, _, _, _, rfl, rfl, Or.inr ⟨rfl, rfl⟩, by decide,
        by simp [SelectICmp.cmpType, isSignedIntSetCC, getSetCCSwappedOperands],
        by decide⟩

theorem SelectICmp_comparator_aux (T : VTarget) (dag : SelectionDAG) (N : Nat) (n : SDNode)
    (a b c L R : SDValue) (Cnd CC : CondCode) (co : List SDValue) (cv : List EVT)
    (cm : List Nat) (vta vtL vtR : EVT) (p : Nat)
    (hN : dag.getNode N = some n)
    (h0 : n.ops[0]? = some a) (h1 : n.ops[1]? = some b) (h2 : n.ops[2]? = some c)
    (hc : dag.nodeOf c = some ⟨NodeKind.CondCode Cnd, co, cv, cm⟩)
    (hva : dag.getValueType a = some vta) (hW : 1 < vta.getSizeInBits)
    (hnorm : SelectICmp.normalize Cnd a b = some (CC, L, R))
    (hwL : dag.isOperand L = true) (hwR : dag.isOperand R = true)
    (hvL : dag.getValueType L = some vtL) (hvR : dag.getValueType R = some vtR)
    (hp : getICmpPort CC = some p) :
    ∃ d S len lhs rhs bw tr rest,
      SelectICmp T dag N = some (d, some S) ∧
      d.getNode S = some ⟨NodeKind.Machine VTMOpcode.VOpBitSlice,
        SDValue.of (len + 4) 0 :: rest, [T.getRoundIntegerOrBitType (usub (p + 1) p)], []⟩ ∧
      d.getNode (len + 4) = some ⟨NodeKind.Machine VTMOpcode.VOpICmp,
        [lhs, rhs, SDValue.of len 0, bw, tr], n.vts, []⟩ ∧
      d.getNode len = some ⟨NodeKind.Constant true (SelectICmp.cmpType T CC), [],
        [EVT.Int vta.getSizeInBits], []⟩ := by
  have heq := SelectICmp_eq T dag N n a b c L R Cnd CC co cv cm vta vtL vtR p hN h0 h1 h2 hc
    hva hW hnorm hwL hwR hvL hvR hp
  obtain ⟨len, hlen⟩ : ∃ len, len = (afterMove (afterMove dag L) R).nodes.length := ⟨_, rfl⟩
  rw [← hlen] at heq
  refine ⟨_, _, len, (materialize dag L).2, (materialize (afterMove dag L) R).2,
    SDValue.of (len + 3) 0, SDValue.of (len + 1) 0,
    [SDValue.of (len + 5) 0, SDValue.of (len + 6) 0, SDValue.of (len + 7) 0,
      SDValue.of (len + 8) 0], heq, ?_, ?_, ?_⟩
  · rw [hlen]; exact getNode_append_right _ _ _ 9
  · rw [hlen]; exact getNode_append_right _ _ _ 4
  · rw [hlen]; exact getNode_append_right _ _ _ 0

/-- C22: for every accepted predicate, on a comparison node whose operands are values
of the DAG and whose left operand is wider than one bit, `SelectICmp` returns the bit
slice of a `VOpICmp` node whose third operand is result 0 of a target constant; the
value of the constant is `CmpEQ` when the normalized predicate is EQ or NE, `CmpSigned`
when it is GT or GE (LT and LE are normalized to these) and `CmpUnsigned` when it is UGT
or UGE (ULT and ULE are normalized to these), and its type is the integer type whose
width is the width of the left operand of the generic node. -/
theorem SelectICmp_comparator_class (T : VTarget) (dag : SelectionDAG) (N : Nat)
    (n : SDNode) (a b c : SDValue) (Cnd : CondCode) (co : List SDValue) (cv : List EVT)
    (cm : List Nat) (vta vtb : EVT)
    (hN : dag.getNode N = some n)
    (h0 : n.ops[0]? = some a) (h1 : n.ops[1]? = some b) (h2 : n.ops[2]? = some c)
    (hc : dag.nodeOf c = some ⟨NodeKind.CondCode Cnd, co, cv, cm⟩)
    (hwa : dag.isOperand a = true) (hwb : dag.isOperand b = true)
    (hva : dag.getValueType a = some vta) (hvb : dag.getValueType b = some vtb)
    (hW : 1 < vta.getSizeInBits)
    (hacc : Cnd ∈ [CondCode.SETEQ, CondCode.SETNE, CondCode.SETGT, CondCode.SETGE,
      CondCode.SETUGT, CondCode.SETUGE, CondCode.SETLT, CondCode.SETLE, CondCode.SETULT,
      CondCode.SETULE]) :
    ∃ d S len lhs rhs bw tr rest CC vt,
      CC = (if Cnd = CondCode.SETLT then CondCode.SETGT
        else if Cnd = CondCode.SETLE then CondCode.SETGE
        else if Cnd = CondCode.SETULT then CondCode.SETUGT
        else if Cnd = CondCode.SETULE then CondCode.SETUGE else Cnd) ∧
      (CC = CondCode.SETEQ ∨ CC = CondCode.SETNE ∨ CC = CondCode.SETGT ∨
        CC = CondCode.SETGE ∨ CC = CondCode.SETUGT ∨ CC = CondCode.SETUGE) ∧
      SelectICmp T dag N = some (d, some S) ∧
      d.getNode S = some ⟨NodeKind.Machine VTMOpcode.VOpBitSlice,
        SDValue.of (len + 4) 0 :: rest, [T.getRoundIntegerOrBitType 1], []⟩ ∧
      d.getNode (len + 4) = some ⟨NodeKind.Machine VTMOpcode.VOpICmp,
        [lhs, rhs, SDValue.of len 0, bw, tr], n.vts, []⟩ ∧
      d.getNode len = some ⟨NodeKind.Constant true
        (if CC = CondCode.SETEQ ∨ CC = CondCode.SETNE then T.CmpEQ
          else if CC = CondCode.SETGT ∨ CC = CondCode.SETGE then T.CmpSigned
          else T.CmpUnsigned), [], [vt], []⟩ ∧
      vt.getSizeInBits = vta.getSizeInBits := by
  obtain ⟨CC, L, R, p, hnorm, hp, hLR, hCC, hty, hsix⟩ := normalize_class T Cnd a b hacc
  have hu : usub (p + 1) p = 1 := by
    have hp4 : p < 5 := by
      rcases hsix with rfl | rfl | rfl | rfl | rfl | rfl <;>
        simp [getICmpPort] at hp <;> omega
    rw [usub_eq _ _ (by omega) (by omega)]
    omega
  rcases hLR with ⟨rfl, rfl⟩ | ⟨rfl, rfl⟩
  · obtain ⟨d, S, len, lhs, rhs, bw, tr, rest, g0, g1, g2, g3⟩ :=
      SelectICmp_comparator_aux T dag N n L R c L R Cnd CC co cv cm vta vta vtb p hN h0 h1
        h2 hc hva hW hnorm hwa hwb hva hvb hp
    rw [hu] at g1
    rw [hty] at g3
    exact ⟨d, S, len, lhs, rhs, bw, tr, rest, CC, _, hCC, hsix, g0, g1, g2, g3, rfl⟩
  · obtain ⟨d, S, len, lhs, rhs, bw, tr, rest, g0, g1, g2, g3⟩ :=
      SelectICmp_comparator_aux T dag N n R L c L R Cnd CC co cv cm vta vtb vta p hN h0 h1
        h2 hc hva hW hnorm hwb hwa hvb hva hp
    rw [hu] at g1
    rw [hty] at g3
    exact ⟨d, S, len, lhs, rhs, bw, tr, rest, CC, _, hCC, hsix, g0, g1, g2, g3, rfl⟩

/-- Witness for C22: the signed less-than comparison of `exCmpDag` is normalized to
GT and selects the signed comparator, on 8 bits. -/
theorem SelectICmp_comparator_class_witness :
    ∃ d S len lhs rhs bw tr vt,
      SelectICmp exTarget exCmpDag 3 = some (d, some S) ∧
      d.getNode (len + 4) = some ⟨NodeKind.Machine VTMOpcode.VOpICmp,
        [lhs, rhs, SDValue.of len 0, bw, tr], [EVT.Int 1], []⟩ ∧
      d.getNode len = some ⟨NodeKind.Constant true exTarget.CmpSigned, [], [vt], []⟩ ∧
      vt.getSizeInBits = 8 := by
  obtain ⟨d, S, len, lhs, rhs, bw, tr, rest, CC, vt, hCC, -, g0, -, g2, g3, g4⟩ :=
    SelectICmp_comparator_class exTarget exCmpDag 3
      ⟨NodeKind.Generic ISDOpcode.ICmp, [SDValue.of 0 0, SDValue.of 1 0, SDValue.of 2 0],
        [EVT.Int 1], []⟩
      (SDValue.of 0 0) (SDValue.of 1 0) (SDValue.of 2 0) CondCode.SETLT [] [EVT.Other] []
      (EVT.Int 8) (EVT.Int 8) rfl rfl rfl rfl rfl rfl rfl rfl rfl (by decide) (by decide)
  have hCC' : CC = CondCode.SETGT := by rw [hCC]; decide
  subst hCC'
  exact ⟨d, S, len, lhs, rhs, bw, tr, vt, g0, g2, g3, g4⟩


/-! ## Frame of immediate selection -/

/-- An unforced `SelectImmediate` of a node that is not a target constant appends the
target immediate, the trace number and the annotation, and morphs the node into the
`VOpMove_ri` node. -/
theorem SelectImmediate_morph (dag : SelectionDAG) (N : Nat) (n imm : SDNode)
    (hN : dag.getNode N = some n) (himm : targetImmediate n = some imm)
    (hnt : ∀ v, n.kind ≠ NodeKind.Constant true v) :
    SelectImmediate dag N false
      = some (⟨(dag.nodes ++ [imm, SDNode.mk (NodeKind.Constant true 0) [] [EVT.i64] [],
            SDNode.mk (NodeKind.Constant true (annotationOf n.vts imm.vts).get) []
              [EVT.i64] []]).set N
          ⟨NodeKind.Machine VTMOpcode.VOpMove_ri,
            [SDValue.of dag.nodes.length 0, SDValue.of (dag.nodes.length + 2) 0,
              SDValue.of (dag.nodes.length + 1) 0], n.vts, n.memRefs⟩, dag.root⟩,
          some N) := by
  obtain ⟨vt, hvt, hivt⟩ : ∃ vt, n.vts[0]? = some vt ∧ imm.vts = [vt] := by
    unfold targetImmediate at himm
    cases hv : n.vts[0]? with
    | none => cases hk : n.kind <;> simp [hk, hv] at himm
    | some vt =>
      refine ⟨vt, rfl, ?_⟩
      cases hk : n.kind <;> simp [hk, hv] at himm <;> subst himm <;> rfl
  have key : SelectImmediate.emit (⟨dag.nodes ++ [imm], dag.root⟩,
        SDValue.of dag.nodes.length 0) N n.vts false
      = some (⟨(dag.nodes ++ [imm, SDNode.mk (NodeKind.Constant true 0) [] [EVT.i64] [],
            SDNode.mk (NodeKind.Constant true (annotationOf n.vts imm.vts).get) []
              [EVT.i64] []]).set N
          ⟨NodeKind.Machine VTMOpcode.VOpMove_ri,
            [SDValue.of dag.nodes.length 0, SDValue.of (dag.nodes.length + 2) 0,
              SDValue.of (dag.nodes.length + 1) 0], n.vts, n.memRefs⟩, dag.root⟩,
          some N) := by
    unfold SelectImmediate.emit
    simp only [SelectionDAG.getTargetConstant, SelectionDAG.addNode, List.append_assoc,
      List.singleton_append, List.length_append, List.length_singleton]
    have hN2 : (SelectionDAG.mk (dag.nodes ++
        [imm, ⟨NodeKind.Constant true 0, [], [EVT.i64], []⟩]) dag.root).getNode N = some n :=
      getNode_append_left _ _ _ _ _ hN
    have hT : valueTypes (SelectionDAG.mk (dag.nodes ++
        [imm, ⟨NodeKind.Constant true 0, [], [EVT.i64], []⟩]) dag.root)
        (List.take (3 - 2) [SDValue.of dag.nodes.length 0, SDValue.null,
          SDValue.of (dag.nodes.length + 1) 0]) = some [vt] := by
      have : (SelectionDAG.mk (dag.nodes ++
          [imm, ⟨NodeKind.Constant true 0, [], [EVT.i64], []⟩]) dag.root).getValueType
          (SDValue.of dag.nodes.length 0) = some vt := by
        have := getValueType_append_right dag.nodes
          [imm, ⟨NodeKind.Constant true 0, [], [EVT.i64], []⟩] dag.root 0 imm rfl 0
        rw [Nat.add_zero] at this
        rw [this, hivt]; rfl
      simp [valueTypes, this]
    rw [computeOperandsBitWidth_eq_annotationOf _ N n _ 3 [vt] hN2 (by norm_num) (by simp)
      (by norm_num) hT]
    have hN3 : (SelectionDAG.mk (dag.nodes ++
        [imm, SDNode.mk (NodeKind.Constant true 0) [] [EVT.i64] [],
          SDNode.mk (NodeKind.Constant true (annotationOf n.vts [vt]).get) [] [EVT.i64] []])
        dag.root).getNode N = some n :=
      getNode_append_left _ _ _ _ _ hN
    simp only [List.append_assoc, List.cons_append, List.nil_append, List.length_append,
      List.length_cons, List.length_nil]
    rw [SelectNodeTo_eq _ _ N n _ _ _ hN3]
    simp [hivt, SDValue.of]
  unfold SelectImmediate
  rw [hN]
  unfold targetImmediate at himm
  cases hk : n.kind <;> simp only [hk, hvt] at himm ⊢
  all_goals first
    | exact Option.noConfusion himm
    | (simp only [Option.some.injEq] at himm
       subst himm
       simpa [SelectionDAG.getTargetConstant, SelectionDAG.getTargetExternalSymbol,
         SelectionDAG.getTargetGlobalAddress, SelectionDAG.addNode] using key)
    | (rename_i isT val
       cases isT
       · simp only [Option.some.injEq] at himm
         subst himm
         simpa [SelectionDAG.getTargetConstant, SelectionDAG.addNode] using key
       · exact absurd hk (hnt val))

theorem SelectImmediate_target_constant (dag : SelectionDAG) (N : Nat) (n : SDNode) (v : Nat)
    (hN : dag.getNode N = some n) (hk : n.kind = NodeKind.Constant true v) :
    SelectImmediate dag N false = some (dag, none) := by
  unfold SelectImmediate
  rw [hN]
  simp [hk]

theorem targetImmediate_isSome (n : SDNode) (vt : EVT)
    (hk : (∃ t v, n.kind = NodeKind.Constant t v) ∨
      (∃ t s f, n.kind = NodeKind.ExternalSymbol t s f) ∨
      (∃ t g o f, n.kind = NodeKind.GlobalAddress t g o f))
    (hv : n.vts[0]? = some vt) :
    ∃ imm, targetImmediate n = some imm ∧ imm.vts = [vt] ∧ imm.ops = [] ∧
      ((∃ v, imm.kind = NodeKind.Constant true v) ∨
       (∃ s f, imm.kind = NodeKind.ExternalSymbol true s f) ∨
       (∃ g o f, imm.kind = NodeKind.GlobalAddress true g o f)) := by
  unfold targetImmediate
  rcases hk with ⟨t, v, hk⟩ | ⟨t, s, f, hk⟩ | ⟨t, g, o, f, hk⟩
  · exact ⟨⟨NodeKind.Constant true v, [], [vt], []⟩, by simp only [hk, hv], rfl, rfl,
      Or.inl ⟨_, rfl⟩⟩
  · exact ⟨⟨NodeKind.ExternalSymbol true s vt.getSizeInBits, [], [vt], []⟩,
      by simp only [hk, hv], rfl, rfl, Or.inr (Or.inl ⟨_, _, rfl⟩)⟩
  · exact ⟨⟨NodeKind.GlobalAddress true g o vt.getSizeInBits, [], [vt], []⟩,
      by simp only [hk, hv], rfl, rfl, Or.inr (Or.inr ⟨_, _, _, rfl⟩)⟩

/-- C28: for a node `N` that is a constant, an external symbol or a global address (with
its result type), `SelectImmediate(N, true)` returns a node `M` that was not in the DAG,
a `VOpMove_ri` with the result types of `N` whose first operand is a new target
immediate, and every node of the DAG, `N` and its users included, and the root are as
before; `SelectImmediate(N, false)` on a node that is not a target constant returns `N`
itself, now a `VOpMove_ri` with the same three operands, every other node being as
before; and on a target constant it returns no node and the DAG unchanged. -/
theorem SelectImmediate_frame (dag : SelectionDAG) (N : Nat) (n : SDNode) (vt : EVT)
    (hN : dag.getNode N = some n)
    (hk : (∃ t v, n.kind = NodeKind.Constant t v) ∨
      (∃ t s f, n.kind = NodeKind.ExternalSymbol t s f) ∨
      (∃ t g o f, n.kind = NodeKind.GlobalAddress t g o f))
    (hv : n.vts[0]? = some vt) :
    (∃ d M bw tr, SelectImmediate dag N true = some (d, some M) ∧
      dag.nodes.length ≤ M ∧
      d.getNode M = some ⟨NodeKind.Machine VTMOpcode.VOpMove_ri,
        [SDValue.of dag.nodes.length 0, bw, tr], n.vts, []⟩ ∧
      d.getNode dag.nodes.length = targetImmediate n ∧
      (∀ i m, dag.getNode i = some m → d.getNode i = some m) ∧
      d.root = dag.root) ∧
    ((∀ v, n.kind ≠ NodeKind.Constant true v) →
      ∃ d bw tr, SelectImmediate dag N false = some (d, some N) ∧
        d.getNode N = some ⟨NodeKind.Machine VTMOpcode.VOpMove_ri,
          [SDValue.of dag.nodes.length 0, bw, tr], n.vts, n.memRefs⟩ ∧
        d.getNode dag.nodes.length = targetImmediate n ∧
        (∀ i m, i ≠ N → dag.getNode i = some m → d.getNode i = some m) ∧
        d.root = dag.root) ∧
    ((∃ v, n.kind = NodeKind.Constant true v) →
      SelectImmediate dag N false = some (dag, none)) := by
  obtain ⟨imm, himm, -, -, -⟩ := targetImmediate_isSome n vt hk hv
  have hlt : N < dag.nodes.length := by
    by_contra hc
    simp only [SelectionDAG.getNode] at hN
    rw [List.getElem?_eq_none (by omega)] at hN
    exact Option.noConfusion hN
  refine ⟨?_, ?_, ?_⟩
  · refine ⟨_, _, SDValue.of (dag.nodes.length + 2) 0, SDValue.of (dag.nodes.length + 1) 0,
      SelectImmediate_force dag N n imm hN himm, by omega, ?_, ?_, ?_, rfl⟩
    · exact getNode_append_right _ _ _ 3
    · rw [himm]; exact getNode_append_right _ _ _ 0
    · intro i m hm
      exact getNode_append_left _ _ _ _ _ hm
  · intro hnt
    refine ⟨_, SDValue.of (dag.nodes.length + 2) 0, SDValue.of (dag.nodes.length + 1) 0,
      SelectImmediate_morph dag N n imm hN himm hnt, ?_, ?_, ?_, rfl⟩
    · exact getNode_step_self dag _ N _ hlt
    · rw [himm]
      exact getNode_step_new dag _ N 0 _ hlt
    · intro i m hne hm
      have hi : i < dag.nodes.length := by
        by_contra hc
        simp only [SelectionDAG.getNode] at hm
        rw [List.getElem?_eq_none (by omega)] at hm
        exact Option.noConfusion hm
      rw [getNode_step_ne dag _ N i _ hne hi]
      exact hm
  · rintro ⟨v, hkv⟩
    exact SelectImmediate_target_constant dag N n v hN hkv

/-- Witness for C28: the constant 7 of `exPostDag` (node 0), and its external symbol
(node 6). -/
theorem SelectImmediate_frame_witness :
    (∃ d M, SelectImmediate exPostDag 0 true = some (d, some M) ∧ 8 ≤ M ∧
      (∀ i m, exPostDag.getNode i = some m → d.getNode i = some m)) ∧
    (∃ d, SelectImmediate exPostDag 6 false = some (d, some 6)) := by
  obtain ⟨⟨d, M, bw, tr, h1, h2, -, -, h5, -⟩, -, -⟩ :=
    SelectImmediate_frame exPostDag 0 ⟨NodeKind.Constant false 7, [], [EVT.Int 8], []⟩
      (EVT.Int 8) rfl (Or.inl ⟨_, _, rfl⟩) rfl
  obtain ⟨-, g, -⟩ :=
    SelectImmediate_frame exPostDag 6
      ⟨NodeKind.ExternalSymbol false "memcpy" 0, [], [EVT.i64], []⟩ EVT.i64 rfl
      (Or.inr (Or.inl ⟨_, _, _, rfl⟩)) rfl
  obtain ⟨d2, -, -, g1, -⟩ := g (fun v h => NodeKind.noConfusion h)
  exact ⟨⟨d, M, h1, h2, h5⟩, d2, g1⟩


/-! ## Loop unrolling: the unroll count and the threshold -/

theorem ApproximateLoopSize_pos (L : Loop) : 0 < (ApproximateLoopSize L).1 := by
  unfold ApproximateLoopSize
  by_cases h0 : L.NumInsts = 0
  · simp [h0]
  · simp only [h0, if_false]; omega

theorem ApproximateLoopSize_lt (L : Loop) (hI32 : L.NumInsts < 2 ^ 32) :
    (ApproximateLoopSize L).1 < 2 ^ 32 := by
  unfold ApproximateLoopSize
  by_cases h0 : L.NumInsts = 0
  · simp [h0]
  · simp only [h0, if_false]; exact hI32

theorem size_no_wrap (S C : Nat) (hS : S < 2 ^ 32) (hC : C < 2 ^ 32) :
    (S * C) % 2 ^ 64 = S * C := by
  apply Nat.mod_eq_of_lt
  calc S * C < 2 ^ 32 * 2 ^ 32 := Nat.mul_lt_mul'' hS hC
    _ = 2 ^ 64 := by norm_num

/-- The loop `while (Count != 0 && TripCount % Count != 0) --Count;` stops at the
greatest count not above its start that divides the trip count, or at 0. -/
theorem reduce_spec (T : Nat) :
    ∀ c, runOnLoop.reduce T c ≤ c ∧
      (runOnLoop.reduce T c ≠ 0 → T % runOnLoop.reduce T c = 0) ∧
      (1 ≤ c → 1 ≤ runOnLoop.reduce T c) ∧
      ∀ k, runOnLoop.reduce T c < k → k ≤ c → T % k ≠ 0 := by
  intro c
  induction c with
  | zero =>
    refine ⟨by simp [runOnLoop.reduce], by simp [runOnLoop.reduce], by omega, ?_⟩
    intro k h1 h2
    simp only [runOnLoop.reduce] at h1
    omega
  | succ c ih =>
    simp only [runOnLoop.reduce]
    by_cases hm : T % (c + 1) ≠ 0
    · rw [if_pos hm]
      obtain ⟨i1, i2, i3, i4⟩ := ih
      refine ⟨by omega, i2, ?_, ?_⟩
      · intro _
        by_cases hc : 1 ≤ c
        · exact i3 hc
        · have : c = 0 := by omega
          subst this
          exact absurd (Nat.mod_one T) hm
      · intro k h1 h2
        by_cases hk : k = c + 1
        · subst hk; exact hm
        · exact i4 k h1 (by omega)
    · rw [if_neg hm]
      refine ⟨le_refl _, fun _ => not_not.mp hm, fun _ => by omega, ?_⟩
      intro k h1 h2
      omega

/-- The method `runOnLoop` on a loop with a latch block, a known trip count of at least
2 and no inline candidates, by cases on the size test. -/
theorem runOnLoop_known (CurrentCount : Nat) (UnrollLoop : Nat → Nat → Nat → Bool)
    (L : Loop) (hlatch : L.hasLatch = true) (hT : 2 ≤ L.SmallConstantTripCount)
    (hT32 : L.SmallConstantTripCount < 2 ^ 32) (hC32 : CurrentCount < 2 ^ 32)
    (hI32 : L.NumInsts < 2 ^ 32) (hinl : L.NumInlineCandidates = 0) :
    runOnLoop CurrentCount UnrollLoop L =
      if (ApproximateLoopSize L).1 *
          (if CurrentCount = 0 then L.SmallConstantTripCount else CurrentCount)
          > OptSizeUnrollThreshold then
        if runOnLoop.reduce L.SmallConstantTripCount
            (OptSizeUnrollThreshold / (ApproximateLoopSize L).1) < 2 then (false, none)
        else
          (UnrollLoop (runOnLoop.reduce L.SmallConstantTripCount
              (OptSizeUnrollThreshold / (ApproximateLoopSize L).1))
            L.SmallConstantTripCount L.SmallConstantTripMultiple,
           some (runOnLoop.reduce L.SmallConstantTripCount
              (OptSizeUnrollThreshold / (ApproximateLoopSize L).1),
            L.SmallConstantTripCount, L.SmallConstantTripMultiple))
      else
        (UnrollLoop (if CurrentCount = 0 then L.SmallConstantTripCount else CurrentCount)
            L.SmallConstantTripCount L.SmallConstantTripMultiple,
         some (if CurrentCount = 0 then L.SmallConstantTripCount else CurrentCount,
            L.SmallConstantTripCount, L.SmallConstantTripMultiple)) := by
  obtain ⟨S, hS⟩ : ∃ S, S = (ApproximateLoopSize L).1 := ⟨_, rfl⟩
  obtain ⟨C, hC⟩ : ∃ C, C = (if CurrentCount = 0 then L.SmallConstantTripCount
      else CurrentCount) := ⟨_, rfl⟩
  have hS32 : S < 2 ^ 32 := hS ▸ ApproximateLoopSize_lt L hI32
  have hC32' : C < 2 ^ 32 := by
    rw [hC]
    by_cases h0 : CurrentCount = 0
    · simp only [h0, if_true]; exact hT32
    · simp only [h0, if_false]; exact hC32
  have hmod := size_no_wrap S C hS32 hC32'
  have hi2 : (ApproximateLoopSize L).2 = 0 := hinl
  unfold runOnLoop
  simp only [hlatch, if_true]
  rw [if_neg (by omega)]
  rw [if_neg (by rw [hi2]; exact fun h => h rfl), ← hS, ← hC, hmod]
  by_cases hsize : S * C > OptSizeUnrollThreshold
  · rw [if_pos ⟨by omega, hsize⟩, if_pos hsize]
    rw [if_pos (show L.SmallConstantTripCount ≠ 0 by omega)]
  · rw [if_neg (fun h => hsize h.2), if_neg hsize]

/-- C30: `ApproximateLoopSize` returns the larger of 1 and the number of instructions
counted, so the divisor of `Threshold / LoopSize` is never zero, and for a loop size and
a count that are values of type `unsigned` the product `LoopSize * Count` taken in 64
bits is the exact product. -/
theorem ApproximateLoopSize_safe (L : Loop) (Count : Nat) (hI32 : L.NumInsts < 2 ^ 32)
    (hC32 : Count < 2 ^ 32) :
    (ApproximateLoopSize L).1 = max 1 L.NumInsts ∧
    (ApproximateLoopSize L).1 ≠ 0 ∧
    (ApproximateLoopSize L).2 = L.NumInlineCandidates ∧
    ((ApproximateLoopSize L).1 * Count) % 2 ^ 64 = (ApproximateLoopSize L).1 * Count := by
  refine ⟨?_, Nat.pos_iff_ne_zero.mp (ApproximateLoopSize_pos L), rfl,
    size_no_wrap _ _ (ApproximateLoopSize_lt L hI32) hC32⟩
  unfold ApproximateLoopSize
  by_cases h0 : L.NumInsts = 0
  · simp [h0]
  · simp only [h0, if_false]; omega

theorem ApproximateLoopSize_safe_witness :
    (ApproximateLoopSize ⟨true, 4, 4, 0, 0⟩).1 = max 1 0 ∧
    (ApproximateLoopSize ⟨true, 4, 4, 0, 0⟩).1 ≠ 0 ∧
    (ApproximateLoopSize ⟨true, 4, 4, 0, 0⟩).2 = 0 ∧
    ((ApproximateLoopSize ⟨true, 4, 4, 0, 0⟩).1 * 4294967295) % 2 ^ 64
      = (ApproximateLoopSize ⟨true, 4, 4, 0, 0⟩).1 * 4294967295 :=
  ApproximateLoopSize_safe ⟨true, 4, 4, 0, 0⟩ 4294967295 (by decide) (by decide)

/-- C25: for a loop with a latch block and a known trip count `T` of at least 2, of
size `S`, without inline candidates, for which `S` times the initial count exceeds 50,
the search loop ends with a count `c` that is at most `50 / S`, that no divisor of `T`
up to `50 / S` exceeds, and that divides `T` when `50 / S` is not 0; `runOnLoop` gives up
when `c < 2` and otherwise passes `c` to `UnrollLoop`; so whenever `UnrollLoop` is
called the count is `c`, is at least 2, divides `T`, and `S * c ≤ 50`. -/
theorem runOnLoop_partial_count (CurrentCount : Nat) (UnrollLoop : Nat → Nat → Nat → Bool)
    (L : Loop) (hlatch : L.hasLatch = true) (hT : 2 ≤ L.SmallConstantTripCount)
    (hT32 : L.SmallConstantTripCount < 2 ^ 32) (hC32 : CurrentCount < 2 ^ 32)
    (hI32 : L.NumInsts < 2 ^ 32) (hinl : L.NumInlineCandidates = 0)
    (hsize : (ApproximateLoopSize L).1 *
      (if CurrentCount = 0 then L.SmallConstantTripCount else CurrentCount)
        > OptSizeUnrollThreshold) :
    ∃ c, c = runOnLoop.reduce L.SmallConstantTripCount
          (OptSizeUnrollThreshold / (ApproximateLoopSize L).1) ∧
      c ≤ 50 / (ApproximateLoopSize L).1 ∧
      (∀ k, k ∣ L.SmallConstantTripCount → k ≤ 50 / (ApproximateLoopSize L).1 → k ≤ c) ∧
      (1 ≤ 50 / (ApproximateLoopSize L).1 → 1 ≤ c ∧ c ∣ L.SmallConstantTripCount) ∧
      runOnLoop CurrentCount UnrollLoop L =
        (if c < 2 then (false, none)
         else (UnrollLoop c L.SmallConstantTripCount L.SmallConstantTripMultiple,
           some (c, L.SmallConstantTripCount, L.SmallConstantTripMultiple))) ∧
      ∀ c' t m, (runOnLoop CurrentCount UnrollLoop L).2 = some (c', t, m) →
        c' = c ∧ t = L.SmallConstantTripCount ∧ 2 ≤ c' ∧ c' ∣ L.SmallConstantTripCount ∧
        (ApproximateLoopSize L).1 * c' ≤ 50 := by
  have hrun := runOnLoop_known CurrentCount UnrollLoop L hlatch hT hT32 hC32 hI32 hinl
  rw [if_pos hsize] at hrun
  obtain ⟨S, hS⟩ : ∃ S, S = (ApproximateLoopSize L).1 := ⟨_, rfl⟩
  have hSpos : 0 < S := hS ▸ ApproximateLoopSize_pos L
  rw [← hS] at hrun ⊢
  obtain ⟨r1, r2, r3, r4⟩ := reduce_spec L.SmallConstantTripCount (OptSizeUnrollThreshold / S)
  obtain ⟨c, hc⟩ : ∃ c, c = runOnLoop.reduce L.SmallConstantTripCount
      (OptSizeUnrollThreshold / S) := ⟨_, rfl⟩
  rw [← hc] at hrun r1 r2 r3 r4
  have h50 : OptSizeUnrollThreshold = 50 := rfl
  rw [h50] at r1 r3 r4 hc
  have hdiv : c ≠ 0 → c ∣ L.SmallConstantTripCount := fun h =>
    Nat.dvd_of_mod_eq_zero (r2 h)
  refine ⟨c, by rw [h50]; exact hc, r1, ?_, ?_, hrun, ?_⟩
  · intro k hk hle
    by_contra hlt
    exact r4 k (by omega) hle (Nat.mod_eq_zero_of_dvd hk)
  · intro h1
    exact ⟨r3 h1, hdiv (by have := r3 h1; omega)⟩
  · intro c' t m hcall
    rw [hrun] at hcall
    by_cases hlt : c < 2
    · rw [if_pos hlt] at hcall
      exact Option.noConfusion hcall
    · rw [if_neg hlt] at hcall
      simp only [Option.some.injEq, Prod.mk.injEq] at hcall
      obtain ⟨e1, e2, -⟩ := hcall
      subst e1
      refine ⟨rfl, e2.symm, by omega, hdiv (by omega), ?_⟩
      have := (Nat.le_div_iff_mul_le hSpos).mp r1
      rw [Nat.mul_comm]; exact this

theorem runOnLoop_partial_count_witness :
    ∃ c, c = runOnLoop.reduce 12 (OptSizeUnrollThreshold / 10) ∧
      c ≤ 50 / 10 ∧
      (∀ k, k ∣ 12 → k ≤ 50 / 10 → k ≤ c) ∧
      (1 ≤ 50 / 10 → 1 ≤ c ∧ c ∣ 12) ∧
      runOnLoop 0 exUnrollLoop ⟨true, 12, 12, 10, 0⟩ =
        (if c < 2 then (false, none)
         else (exUnrollLoop c 12 12, some (c, 12, 12))) ∧
      ∀ c' t m, (runOnLoop 0 exUnrollLoop ⟨true, 12, 12, 10, 0⟩).2 = some (c', t, m) →
        c' = c ∧ t = 12 ∧ 2 ≤ c' ∧ c' ∣ 12 ∧ 10 * c' ≤ 50 :=
  runOnLoop_partial_count 0 exUnrollLoop ⟨true, 12, 12, 10, 0⟩ rfl (by decide) (by decide)
    (by decide) (by decide) rfl (by decide)

/-- C26: two pass objects built with the same count argument and different threshold
arguments give the same result and the same call of `UnrollLoop` on every loop; so do
any two pass objects with the same `CurrentCount`; and on a loop with a latch block, a
known trip count of at least 2 and no inline candidates, whatever the threshold
argument, the initial count is passed to `UnrollLoop` exactly when the size times that
count is at most 50. -/
theorem runOnLoop_threshold_unused (T1 T2 C : Int) (UnrollLoop : Nat → Nat → Nat → Bool)
    (L : Loop) :
    HLSLoopUnroll.runOnLoop (HLSLoopUnroll.construct T1 C) UnrollLoop L
      = HLSLoopUnroll.runOnLoop (HLSLoopUnroll.construct T2 C) UnrollLoop L ∧
    (∀ P Q : HLSLoopUnroll.Fields, P.CurrentCount = Q.CurrentCount →
      HLSLoopUnroll.runOnLoop P UnrollLoop L = HLSLoopUnroll.runOnLoop Q UnrollLoop L) ∧
    (L.hasLatch = true → 2 ≤ L.SmallConstantTripCount → L.SmallConstantTripCount < 2 ^ 32 →
      L.NumInsts < 2 ^ 32 → L.NumInlineCandidates = 0 →
      ((HLSLoopUnroll.runOnLoop (HLSLoopUnroll.construct T1 C) UnrollLoop L).2
          = some (if (HLSLoopUnroll.construct T1 C).CurrentCount = 0
              then L.SmallConstantTripCount
              else (HLSLoopUnroll.construct T1 C).CurrentCount,
            L.SmallConstantTripCount, L.SmallConstantTripMultiple) ↔
        (ApproximateLoopSize L).1 *
          (if (HLSLoopUnroll.construct T1 C).CurrentCount = 0
            then L.SmallConstantTripCount
            else (HLSLoopUnroll.construct T1 C).CurrentCount) ≤ 50)) := by
  refine ⟨rfl, ?_, ?_⟩
  · intro P Q h
    unfold HLSLoopUnroll.runOnLoop
    rw [h]
  · intro hlatch hT hT32 hI32 hinl
    have hcc : (HLSLoopUnroll.construct T1 C).CurrentCount < 2 ^ 32 := by
      show HLSLoopUnroll.CurrentCount C < 2 ^ 32
      unfold HLSLoopUnroll.CurrentCount
      by_cases h : C = -1
      · simp [h]
      · rw [if_neg h]
        have h1 : C % 2 ^ 32 < 2 ^ 32 := Int.emod_lt_of_pos _ (by norm_num)
        have h0 : 0 ≤ C % 2 ^ 32 := Int.emod_nonneg _ (by norm_num)
        omega
    obtain ⟨cc, hcceq⟩ : ∃ cc, cc = (HLSLoopUnroll.construct T1 C).CurrentCount :=
      ⟨_, rfl⟩
    rw [← hcceq] at hcc ⊢
    have hrun := runOnLoop_known cc UnrollLoop L hlatch hT hT32 hcc hI32 hinl
    have hrun' : HLSLoopUnroll.runOnLoop (HLSLoopUnroll.construct T1 C) UnrollLoop L
        = runOnLoop cc UnrollLoop L := by
      unfold HLSLoopUnroll.runOnLoop
      rw [hcceq]
    rw [hrun', hrun]
    obtain ⟨S, hS⟩ : ∃ S, S = (ApproximateLoopSize L).1 := ⟨_, rfl⟩
    have hSpos : 0 < S := hS ▸ ApproximateLoopSize_pos L
    rw [← hS]
    obtain ⟨C0, hC0⟩ : ∃ C0, C0 = (if cc = 0 then L.SmallConstantTripCount else cc) :=
      ⟨_, rfl⟩
    rw [← hC0]
    have h50 : OptSizeUnrollThreshold = 50 := rfl
    obtain ⟨r1, -, -, -⟩ := reduce_spec L.SmallConstantTripCount (OptSizeUnrollThreshold / S)
    have hle := (Nat.le_div_iff_mul_le hSpos).mp r1
    by_cases hsize : S * C0 > OptSizeUnrollThreshold
    · rw [if_pos hsize]
      constructor
      · intro hcall
        by_cases hlt : runOnLoop.reduce L.SmallConstantTripCount
            (OptSizeUnrollThreshold / S) < 2
        · rw [if_pos hlt] at hcall
          exact Option.noConfusion hcall
        · rw [if_neg hlt] at hcall
          simp only [Option.some.injEq, Prod.mk.injEq, and_true] at hcall
          rw [hcall, Nat.mul_comm] at hle
          omega
      · intro hle'
        rw [h50] at hsize
        omega
    · rw [if_neg hsize]
      constructor
      · intro _
        rw [h50] at hsize
        omega
      · intro _
        rfl

theorem runOnLoop_threshold_unused_witness :
    HLSLoopUnroll.runOnLoop (HLSLoopUnroll.construct 1000 (-1)) exUnrollLoop
        ⟨true, 4, 4, 30, 0⟩
      = HLSLoopUnroll.runOnLoop (HLSLoopUnroll.construct (-1) (-1)) exUnrollLoop
        ⟨true, 4, 4, 30, 0⟩ ∧
    ¬ (HLSLoopUnroll.runOnLoop (HLSLoopUnroll.construct 1000 (-1)) exUnrollLoop
        ⟨true, 4, 4, 30, 0⟩).2 = some (4, 4, 4) := by
  obtain ⟨h1, -, h3⟩ :=
    runOnLoop_threshold_unused 1000 (-1) (-1) exUnrollLoop ⟨true, 4, 4, 30, 0⟩
  refine ⟨h1, ?_⟩
  intro hcall
  have := (h3 rfl (by decide) (by decide) (by decide) rfl).mp hcall
  revert this
  decide


/-! ## Benchmark: zero state and memory accesses -/

/-- The four iterations of the loop from the pointers of `main`: the states after each
section and the result. -/
theorem biquad_run (x : Int) (coeff wi : List Int)
    (hc : 20 ≤ coeff.length) (hw : 8 ≤ wi.length) :
    biquad_N_sections x coeff 0 wi 0 1 = some (biquadSpec x coeff wi) ∧
    biquad_N_sections.accesses x coeff 0 wi 0 1
      = some [biquad_N_sections.bodyAccesses ⟨x, 0, 0, 1, wi⟩,
          biquad_N_sections.bodyAccesses ⟨x, 5, 2, 3, wi⟩,
          biquad_N_sections.bodyAccesses ⟨x, 10, 4, 5, wi⟩,
          biquad_N_sections.bodyAccesses ⟨x, 15, 6, 7, wi⟩] := by
  unfold biquad_N_sections biquadSpec biquad_N_sections.accesses
  obtain ⟨s0, hs0⟩ : ∃ s0, s0 = biquadSection coeff 0 (x, wi) := ⟨_, rfl⟩
  obtain ⟨s1, hs1⟩ : ∃ s1, s1 = biquadSection coeff 1 s0 := ⟨_, rfl⟩
  obtain ⟨s2, hs2⟩ : ∃ s2, s2 = biquadSection coeff 2 s1 := ⟨_, rfl⟩
  obtain ⟨s3, hs3⟩ : ∃ s3, s3 = biquadSection coeff 3 s2 := ⟨_, rfl⟩
  have l0 : s0.2.length = wi.length := by rw [hs0]; exact biquadSection_length _ _ _
  have l1 : s1.2.length = wi.length := by
    rw [hs1, biquadSection_length]; exact l0
  have l2 : s2.2.length = wi.length := by
    rw [hs2, biquadSection_length]; exact l1
  have b0 := body_eq coeff wi x 0 (by omega) (by omega)
  have b1 := body_eq coeff s0.2 s0.1 1 (by omega) (by omega)
  have b2 := body_eq coeff s1.2 s1.1 2 (by omega) (by omega)
  have b3 := body_eq coeff s2.2 s2.1 3 (by omega) (by omega)
  rw [← hs0] at b0
  rw [← hs1] at b1
  rw [← hs2] at b2
  rw [← hs3] at b3
  simp only [Nat.mul_zero, Nat.zero_add, Nat.mul_one, Nat.reduceMul, Nat.reduceAdd] at b0 b1 b2 b3
  constructor
  · simp only [NumberOfSections, biquad_N_sections.loop, b0, b1, b2, b3, Option.map_some',
      ← hs0, ← hs1, ← hs2, ← hs3]
  · simp only [NumberOfSections, biquad_N_sections.loopAccesses, b0, b1, b2, b3]
    rfl


theorem biquadSection_zero (coeff : List Int) (i : Nat) (yin : Int) (wi : List Int)
    (h1 : wi.getD (2 * i) 0 = 0) (h2 : wi.getD (2 * i + 1) 0 = 0) :
    biquadSection coeff i (yin, wi)
      = (wrap32 (coeff.getD (5 * i + 2) 0 * wrap32 yin),
          (wi.set (2 * i + 1) 0).set (2 * i) (wrap32 yin)) := by
  simp only [biquadSection, h1, h2, mul_zero, sub_zero, add_zero]

theorem wrap32_mul_chain (c y z : Int) (h : y ≡ z [ZMOD 2 ^ 32]) :
    wrap32 (c * wrap32 y) ≡ z * c [ZMOD 2 ^ 32] := by
  have h1 : c * wrap32 y ≡ c * z [ZMOD 2 ^ 32] :=
    Int.ModEq.mul_left c ((wrap32_modEq y).trans h)
  have h2 := (wrap32_modEq (c * wrap32 y)).trans h1
  rwa [Int.mul_comm c z] at h2

/-- The four sections on a zero state. -/
theorem biquadSpec_zero (x : Int) (coeff : List Int) :
    ∃ a b c d, biquadSpec x coeff (List.replicate 8 0)
      = (wrap32 (x * coeff.getD 2 0 * coeff.getD 7 0 * coeff.getD 12 0 * coeff.getD 17 0),
          [a, 0, b, 0, c, 0, d, 0]) := by
  obtain ⟨y0, hy0⟩ : ∃ y0, y0 = wrap32 (coeff.getD 2 0 * wrap32 x) := ⟨_, rfl⟩
  obtain ⟨y1, hy1⟩ : ∃ y1, y1 = wrap32 (coeff.getD 7 0 * wrap32 y0) := ⟨_, rfl⟩
  obtain ⟨y2, hy2⟩ : ∃ y2, y2 = wrap32 (coeff.getD 12 0 * wrap32 y1) := ⟨_, rfl⟩
  obtain ⟨y3, hy3⟩ : ∃ y3, y3 = wrap32 (coeff.getD 17 0 * wrap32 y2) := ⟨_, rfl⟩
  have e0 : biquadSection coeff 0 (x, List.replicate 8 0)
      = (y0, [wrap32 x, 0, 0, 0, 0, 0, 0, 0]) := by
    rw [biquadSection_zero coeff 0 x (List.replicate 8 0) (by rfl) (by rfl), hy0]; rfl
  have e1 : biquadSection coeff 1 (y0, [wrap32 x, 0, 0, 0, 0, 0, 0, 0])
      = (y1, [wrap32 x, 0, wrap32 y0, 0, 0, 0, 0, 0]) := by
    rw [biquadSection_zero coeff 1 y0 [wrap32 x, 0, 0, 0, 0, 0, 0, 0] (by rfl) (by rfl), hy1]
    rfl
  have e2 : biquadSection coeff 2 (y1, [wrap32 x, 0, wrap32 y0, 0, 0, 0, 0, 0])
      = (y2, [wrap32 x, 0, wrap32 y0, 0, wrap32 y1, 0, 0, 0]) := by
    rw [biquadSection_zero coeff 2 y1 [wrap32 x, 0, wrap32 y0, 0, 0, 0, 0, 0] (by rfl) (by rfl),
      hy2]
    rfl
  have e3 : biquadSection coeff 3 (y2, [wrap32 x, 0, wrap32 y0, 0, wrap32 y1, 0, 0, 0])
      = (y3, [wrap32 x, 0, wrap32 y0, 0, wrap32 y1, 0, wrap32 y2, 0]) := by
    rw [biquadSection_zero coeff 3 y2 [wrap32 x, 0, wrap32 y0, 0, wrap32 y1, 0, 0, 0] (by rfl)
      (by rfl), hy3]
    rfl
  refine ⟨wrap32 x, wrap32 y0, wrap32 y1, wrap32 y2, ?_⟩
  unfold biquadSpec
  rw [e0, e1, e2, e3]
  have m0 : y0 ≡ x * coeff.getD 2 0 [ZMOD 2 ^ 32] :=
    hy0 ▸ wrap32_mul_chain _ x x (Int.ModEq.refl x)
  have m1 : y1 ≡ x * coeff.getD 2 0 * coeff.getD 7 0 [ZMOD 2 ^ 32] :=
    hy1 ▸ wrap32_mul_chain _ y0 _ m0
  have m2 : y2 ≡ x * coeff.getD 2 0 * coeff.getD 7 0 * coeff.getD 12 0 [ZMOD 2 ^ 32] :=
    hy2 ▸ wrap32_mul_chain _ y1 _ m1
  have m3 := Int.ModEq.mul_left (coeff.getD 17 0) ((wrap32_modEq y2).trans m2)
  rw [hy3, wrap32_congr _ _ m3, Int.mul_comm (coeff.getD 17 0)]

/-- C23: called as in `main` on at least 20 coefficients and a state array of eight
zero words, `biquad_N_sections` returns the `int` value of
`x * coeff[2] * coeff[7] * coeff[12] * coeff[17]` and leaves an array of eight words
whose odd-indexed words are zero; and `main` prints 2401 and returns 0, whatever the
initial contents of its local array. -/
theorem biquad_N_sections_zero_state (x : Int) (coeff : List Int) (wi0 : List Int)
    (hc : 20 ≤ coeff.length) (hw : wi0.length = 8) :
    (∃ wi, biquad_N_sections x coeff 0 (List.replicate 8 0) 0 1
        = some (wrap32 (x * coeff.getD 2 0 * coeff.getD 7 0 * coeff.getD 12 0
            * coeff.getD 17 0), wi) ∧
      wi.length = 8 ∧ ∀ i, i < 4 → wi[2 * i + 1]? = some 0) ∧
    (pin_down (List.replicate 20 0) wi0).2 = (List.replicate 20 7, List.replicate 8 0) ∧
    main wi0 = some (2401, 0) := by
  have hpin : pin_down (List.replicate 20 0) wi0
      = (1, List.replicate 20 7, List.replicate 8 0) := by
    unfold pin_down
    rw [List.map_const', List.map_const', hw]
    rfl
  refine ⟨?_, by rw [hpin], ?_⟩
  · obtain ⟨a, b, c, d, hz⟩ := biquadSpec_zero x coeff
    refine ⟨[a, 0, b, 0, c, 0, d, 0], ?_, rfl, ?_⟩
    · rw [(biquad_run x coeff (List.replicate 8 0) hc (by simp)).1, hz]
    · intro i hi
      interval_cases i <;> rfl
  · unfold main
    have h5 : List.replicate (5 * NumberOfSections) (0 : Int) = List.replicate 20 0 := rfl
    simp only [h5, hpin]
    have hrun : biquad_N_sections 1 (List.replicate 20 7) 0 (List.replicate 8 0) 0 1
        = some (2401, [1, 0, 7, 0, 49, 0, 343, 0]) := by
      have e : biquadSpec 1 (List.replicate 20 7) (List.replicate 8 0)
          = (2401, [1, 0, 7, 0, 49, 0, 343, 0]) := by decide
      rw [(biquad_run 1 (List.replicate 20 7) (List.replicate 8 0) (by decide)
        (by decide)).1, e]
    simp only [hrun]

theorem biquad_N_sections_zero_state_witness :
    (∃ wi, biquad_N_sections 3 (List.replicate 20 2) 0 (List.replicate 8 0) 0 1
        = some (wrap32 (3 * (List.replicate 20 2).getD 2 0 * (List.replicate 20 2).getD 7 0
            * (List.replicate 20 2).getD 12 0 * (List.replicate 20 2).getD 17 0), wi) ∧
      wi.length = 8 ∧ ∀ i, i < 4 → wi[2 * i + 1]? = some 0) ∧
    (pin_down (List.replicate 20 0) [9, 8, 7, 6, 5, 4, 3, 2]).2
      = (List.replicate 20 7, List.replicate 8 0) ∧
    main [9, 8, 7, 6, 5, 4, 3, 2] = some (2401, 0) :=
  biquad_N_sections_zero_state 3 (List.replicate 20 2) [9, 8, 7, 6, 5, 4, 3, 2]
    (by decide) rfl


/-- C29: called as in `main` (`ptr_coeff` at index 0, `ptr_wi1` at 0, `ptr_wi2` at 1) on
at least 20 coefficients and 8 state words, `biquad_N_sections` returns, no access
being outside an array; its accesses, section by section, read the coefficient indices
0 to 19 in increasing order, each once; the state indices read or written in section
`i` are `2 i` and `2 i + 1` only; and every index accessed is below 20 for the
coefficients and below 8 for the states. -/
theorem biquad_N_sections_accesses (x : Int) (coeff wi : List Int)
    (hc : 20 ≤ coeff.length) (hw : 8 ≤ wi.length) :
    (∃ r, biquad_N_sections x coeff 0 wi 0 1 = some r) ∧
    ∃ tr, biquad_N_sections.accesses x coeff 0 wi 0 1 = some tr ∧
      tr.length = NumberOfSections ∧
      tr.flatten.filterMap Access.coeffIndex = List.range 20 ∧
      (∀ i sec, tr[i]? = some sec →
        (∀ j ∈ sec.filterMap Access.wiIndex, j = 2 * i ∨ j = 2 * i + 1) ∧
        sec.filterMap Access.coeffIndex
          = [5 * i, 5 * i + 1, 5 * i + 2, 5 * i + 3, 5 * i + 4]) ∧
      (∀ k ∈ tr.flatten.filterMap Access.coeffIndex, k < 20) ∧
      (∀ j ∈ tr.flatten.filterMap Access.wiIndex, j < 8) := by
  obtain ⟨h1, h2⟩ := biquad_run x coeff wi hc hw
  refine ⟨⟨_, h1⟩, _, h2, rfl, ?_, ?_, ?_, ?_⟩ <;>
    simp only [biquad_N_sections.bodyAccesses]
  · decide
  · intro i sec hi
    have hlt : i < 4 := by
      by_contra hge
      rw [List.getElem?_eq_none (by simp; omega)] at hi
      exact Option.noConfusion hi
    interval_cases i <;>
      (simp only [List.getElem?_cons_zero, List.getElem?_cons_succ, Option.some.injEq] at hi
       subst hi
       exact ⟨by decide, by decide⟩)
  · decide
  · decide

theorem biquad_N_sections_accesses_witness :
    (∃ r, biquad_N_sections 1 (List.replicate 20 7) 0 (List.replicate 8 0) 0 1 = some r) ∧
    ∃ tr, biquad_N_sections.accesses 1 (List.replicate 20 7) 0 (List.replicate 8 0) 0 1
        = some tr ∧
      tr.length = NumberOfSections ∧
      tr.flatten.filterMap Access.coeffIndex = List.range 20 ∧
      (∀ i sec, tr[i]? = some sec →
        (∀ j ∈ sec.filterMap Access.wiIndex, j = 2 * i ∨ j = 2 * i + 1) ∧
        sec.filterMap Access.coeffIndex
          = [5 * i, 5 * i + 1, 5 * i + 2, 5 * i + 3, 5 * i + 4]) ∧
      (∀ k ∈ tr.flatten.filterMap Access.coeffIndex, k < 20) ∧
      (∀ j ∈ tr.flatten.filterMap Access.wiIndex, j < 8) :=
  biquad_N_sections_accesses 1 (List.replicate 20 7) (List.replicate 8 0) (by decide)
    (by decide)


/-! ## Emission order of the Verilog writer -/

theorem foldl_concatTexts {LS : Type} (f : LS → String) :
    ∀ (lv : List LS) (init : String),
      lv.foldl (fun Out I => Out ++ f I) init = init ++ concatTexts f lv := by
  intro lv
  induction lv with
  | nil => intro init; simp [concatTexts]
  | cons I rest ih =>
    intro init
    simp only [List.foldl_cons, concatTexts]
    rw [ih, String.append_assoc]

theorem string_append_cancel (a b c : String) (h : a ++ b = a ++ c) : b = c := by
  have h2 := congrArg String.data h
  simp only [String.data_append] at h2
  exact String.ext (List.append_cancel_left h2)

/-- The text of `runOnFunction` as one concatenation. -/
theorem runOnFunction_text {Fn BB LS : Type} (renameArgs : Fn → Fn)
    (blocks : Fn → List BB) (newListScheduler : BB → LS) (resourceMap : String → Nat)
    (DesignWriter : RTLWriter Fn LS) (F : Fn) :
    VWriter.runOnFunction renameArgs blocks newListScheduler resourceMap DesignWriter F
      = (VWriter.banner ++ (DesignWriter.getFunctionSignature (renameArgs F) ++
          (DesignWriter.getMemDecl (renameArgs F) ++
          (DesignWriter.getFunctionLocalVariables
            ((blocks (renameArgs F)).map newListScheduler) ++
          (DesignWriter.getStateDefs ((blocks (renameArgs F)).map newListScheduler) ++
          (DesignWriter.getAssignmentString ((blocks (renameArgs F)).map newListScheduler) ++
          (DesignWriter.getClockHeader ++
          ("\n// Datapath \n" ++
          (concatTexts DesignWriter.printBasicBlockDatapath
            ((blocks (renameArgs F)).map newListScheduler) ++
          ("\n\n// Control \n" ++
          (DesignWriter.getCaseHeader ++
          (concatTexts DesignWriter.printBasicBlockControl
            ((blocks (renameArgs F)).map newListScheduler) ++
          (DesignWriter.getCaseFooter ++ (DesignWriter.getClockFooter ++
          (DesignWriter.getModuleFooter ++
          ("\n\n// \x2d\x2d Library components \x2d\x2d  \n" ++
          (DesignWriter.createBinOpModule "mul" "*" (resourceMap "delay_mul") ++
          (DesignWriter.createBinOpModule "div" "/" (resourceMap "delay_div") ++
          (DesignWriter.createBinOpModule "shl" "<<" (resourceMap "delay_shl") ++
          DesignWriter.getBRAMDefinition (resourceMap "mem_wordsize")
            (resourceMap "membus_size"))))))))))))))))))), false) := by
  unfold VWriter.runOnFunction
  simp only [foldl_concatTexts, String.append_assoc]

/-- C24 (amended): the text `runOnFunction` writes is, in this order, the banner, the
function signature, the memory declarations, the local variables, the state
definitions, the assignment block, the clock header, the comment line `// Datapath`,
the datapath text of the blocks in function order, the comment line `// Control`, the
case header, the control text of the blocks in function order, the case, clock and
module footers, the comment line of the library components, and the library modules
`mul`, `div`, `shl` and the BRAM; and `false` is returned. -/
theorem runOnFunction_emission_order {Fn BB LS : Type} (renameArgs : Fn → Fn)
    (blocks : Fn → List BB) (newListScheduler : BB → LS) (resourceMap : String → Nat)
    (DesignWriter : RTLWriter Fn LS) (F : Fn) :
    VWriter.runOnFunction renameArgs blocks newListScheduler resourceMap DesignWriter F
      = (VWriter.banner ++ (DesignWriter.getFunctionSignature (renameArgs F) ++
          (DesignWriter.getMemDecl (renameArgs F) ++
          (DesignWriter.getFunctionLocalVariables
            ((blocks (renameArgs F)).map newListScheduler) ++
          (DesignWriter.getStateDefs ((blocks (renameArgs F)).map newListScheduler) ++
          (DesignWriter.getAssignmentString ((blocks (renameArgs F)).map newListScheduler) ++
          (DesignWriter.getClockHeader ++
          ("\n// Datapath \n" ++
          (concatTexts DesignWriter.printBasicBlockDatapath
            ((blocks (renameArgs F)).map newListScheduler) ++
          ("\n\n// Control \n" ++
          (DesignWriter.getCaseHeader ++
          (concatTexts DesignWriter.printBasicBlockControl
            ((blocks (renameArgs F)).map newListScheduler) ++
          (DesignWriter.getCaseFooter ++ (DesignWriter.getClockFooter ++
          (DesignWriter.getModuleFooter ++
          ("\n\n// \x2d\x2d Library components \x2d\x2d  \n" ++
          (DesignWriter.createBinOpModule "mul" "*" (resourceMap "delay_mul") ++
          (DesignWriter.createBinOpModule "div" "/" (resourceMap "delay_div") ++
          (DesignWriter.createBinOpModule "shl" "<<" (resourceMap "delay_shl") ++
          DesignWriter.getBRAMDefinition (resourceMap "mem_wordsize")
            (resourceMap "membus_size"))))))))))))))))))), false) :=
  runOnFunction_text renameArgs blocks newListScheduler resourceMap DesignWriter F

/-- Witness for C24: two blocks, every text naming its method. -/
theorem runOnFunction_emission_order_witness :
    VWriter.runOnFunction id (fun _ => [0, 1]) id (fun _ => 0) exWriter ()
      = (VWriter.banner ++ ("S" ++ ("M" ++ ("L" ++ ("T" ++ ("A" ++ ("H" ++
          ("\n// Datapath \n" ++ (concatTexts exWriter.printBasicBlockDatapath [0, 1] ++
          ("\n\n// Control \n" ++ ("C" ++
          (concatTexts exWriter.printBasicBlockControl [0, 1] ++ ("X" ++ ("Y" ++ ("Z" ++
          ("\n\n// \x2d\x2d Library components \x2d\x2d  \n" ++
          ("mul" ++ ("div" ++ ("shl" ++ "B")))))))))))))))))), false) ∧
    concatTexts exWriter.printBasicBlockDatapath [0, 1] = "d0d1" ∧
    concatTexts exWriter.printBasicBlockControl [0, 1] = "c0c1" :=
  ⟨runOnFunction_emission_order id (fun _ => [0, 1]) id (fun _ => 0) exWriter (),
    by decide, by decide⟩

/-- Counterexample for C24: with two blocks and one-letter texts the text written is
not the concatenation of the listed parts alone: the comment line `// Datapath` follows
the clock header. -/
theorem runOnFunction_emission_order_counterexample :
    (VWriter.runOnFunction id (fun _ => [0, 1]) id (fun _ => 0) exWriter ()).1
      ≠ VWriter.listedText (fun _ => 0) exWriter () [0, 1] := by
  intro h
  rw [runOnFunction_text] at h
  unfold VWriter.listedText at h
  have h2 := string_append_cancel _ _ _ h
  revert h2
  decide


end Shang
